import Mathlib

/-!
# TWI / I2C bus-master driver: a shallow embedding of `src/i2c.c`

The driver talks to a memory-mapped peripheral through the `volatile twi_t`
register block.  The peripheral is not part of the program, so it is a
parameter here: a `Hardware σ` gives, for a hardware state `σ`, the value a
register access reads and the state the access leaves behind.  Every access
the driver performs is appended to a trace, so that statements about the order
of bus actions can be made about the code itself.

Conventions of the embedding:

* `uint8_t` and `uint32_t` values are `Nat`; a conversion to `uint8_t` is an
  explicit `% 256`, an access to a bit-field is reduced modulo `2 ^ width`.
* An access to a member of `twi_t.regs` is one event, also when the member is a
  bit-field of `cntr` or `ccr`: the load and store of the containing word that
  a compiler emits for a bit-field assignment is below the level of the model.
  What such a store does to the other bits of the word is a property of the
  peripheral: `regfile` stores every field on its own, `cntr_word` stores the
  word of `cntr` with a write-1-to-clear `int_flag`.
* An `i2c_device_t *` that passed `assert(dev)` is a value of `i2c_device`;
  the `NULL` returned by `i2c_new` is `none`.  `malloc` is taken to succeed.
* A caller buffer `uint8_t *bytes` is a `List Nat`, passed in and returned.
* `error(...)` (from the platform's `assert.h`) does not return: it is the
  outcome `fatal`.
* The loop of `do_stop` has no bound in the source; it takes a `fuel` argument
  and the outcome `hang` when the fuel runs out.  The loop of `wait_completion`
  is bounded by its own counter and needs none.
* `assert(e)` (from the platform's `assert.h`) aborts the program when `e` is
  false: a routine that uses it hands back a `Checked` value.

The declaration of `twi_t` is embedded as data (`twi_regs`) for the statements
about the layout of the register block, and the two sensor routines that check
an identity register, `msa311_init` of `src/bike_demo.c` and `vl50l0x_init` of
`src/failed_VL53l0X.c`, are embedded on top of the driver.  So are the
application routines whose arithmetic and loops are stated about:
`msa311_read_raw` and the window of `monitor_accelerometer` (`src/bike_demo.c`,
`src/accelerometer_button_led.c`), the speed computation of `main`
(`src/bike_demo.c`, `src/graphic.c`) and of `get_speed` (`src/hallEffect.c`),
and the polling loops of `vl53l0x_read_range_single` and
`perform_single_ref_calibration` (`src/failed_VL53l0X.c`).
-/

namespace I2C

/-! ## Register model -/

/-- Members of `twi_t.regs`: the plain 32-bit registers and the bit-fields of
`cntr` and `ccr`. -/
inductive Field
  | addr | xaddr | data
  | clk_mode | ack | int_flag | m_stp | m_sta | bus_en | int_en
  | stat
  | clk_N | clk_M | clk_duty
  | srst | efr | lcr
  deriving DecidableEq

/-- Width in bits of each member, as declared in `twi_t`. -/
def Field.width : Field → Nat
  | .clk_mode | .ack | .int_flag | .m_stp | .m_sta | .bus_en | .int_en => 1
  | .clk_N => 3
  | .clk_M => 4
  | .clk_duty => 1
  | .addr | .xaddr | .data | .stat | .srst | .efr | .lcr => 32

/-- The two pins held in `module`. -/
inductive Pin
  | sda | scl
  deriving DecidableEq

/-- One observable action of the driver: a register read with the value read, a
register write with the value written, or a call of a platform routine. -/
inductive Event
  | rd (f : Field) (v : Nat)
  | wr (f : Field) (v : Nat)
  | timer_delay_us (n : Nat)
  | ccu_ungate_bus_clock
  | gpio_set_function (p : Pin)
  deriving DecidableEq

/-- The peripheral as seen from the program: a read yields a value and a
successor state (the registers are volatile), a write yields a successor
state. -/
structure Hardware (σ : Type) where
  read : σ → Field → Nat × σ
  write : σ → Field → Nat → σ

/-- Program-visible state: the peripheral, whether `module.twi` is non-NULL,
and the accesses made so far (oldest first). -/
structure World (σ : Type) where
  hw : σ
  twi : Bool
  trace : List Event

/-- The two `error(...)` calls of the driver. -/
inductive Fatal
  | timeout
  | not_init
  deriving DecidableEq

/-- How a call ends: it returns a value, it calls `error`, its stop loop is
still spinning when the fuel is gone, or it reaches a member access through a
NULL `module.twi`. -/
inductive Outcome (σ α : Type)
  | ok (a : α) (w : World σ)
  | fatal (e : Fatal) (w : World σ)
  | hang (w : World σ)
  | null_deref (w : World σ)

/-- Sequencing: only a call that returned is continued. -/
def Outcome.bind {σ α β : Type} (o : Outcome σ α) (k : α → World σ → Outcome σ β) :
    Outcome σ β :=
  match o with
  | .ok a w => k a w
  | .fatal e w => .fatal e w
  | .hang w => .hang w
  | .null_deref w => .null_deref w

/-- The world a call ends in. -/
def Outcome.world {σ α : Type} : Outcome σ α → World σ
  | .ok _ w => w
  | .fatal _ w => w
  | .hang w => w
  | .null_deref w => w

/-- The value a call returned, if it returned. -/
def Outcome.value {σ α : Type} : Outcome σ α → Option α
  | .ok a _ => some a
  | _ => none

/-- The error a call raised, if it raised one. -/
def Outcome.error {σ α : Type} : Outcome σ α → Option Fatal
  | .fatal e _ => some e
  | _ => none

/-- Whether the call ran out of fuel in the stop loop. -/
def Outcome.hung {σ α : Type} : Outcome σ α → Bool
  | .hang _ => true
  | _ => false

/-- The accesses a call added to the trace of the world it started in. -/
def Outcome.events {σ α : Type} (o : Outcome σ α) (w : World σ) : List Event :=
  o.world.trace.drop w.trace.length

/-- Read of `module.twi->regs.f`. -/
def rd_field {σ : Type} (H : Hardware σ) (f : Field) (w : World σ) : Outcome σ Nat :=
  if w.twi then
    let r := H.read w.hw f
    let v := r.1 % 2 ^ f.width
    .ok v { w with hw := r.2, trace := w.trace ++ [.rd f v] }
  else .null_deref w

/-- Assignment `module.twi->regs.f = v`. -/
def wr_field {σ : Type} (H : Hardware σ) (f : Field) (v : Nat) (w : World σ) :
    Outcome σ Unit :=
  if w.twi then
    let v' := v % 2 ^ f.width
    .ok () { w with hw := H.write w.hw f v', trace := w.trace ++ [.wr f v'] }
  else .null_deref w

/-- A call of a platform routine that does not touch the TWI registers. -/
def platform {σ : Type} (e : Event) (w : World σ) : Outcome σ Unit :=
  .ok () { w with trace := w.trace ++ [e] }

/-! ## Constants of `i2c.c` -/

abbrev SENTINEL : Nat := 0x7e
abbrev WRITE_BIT : Nat := 0
abbrev READ_BIT : Nat := 1

abbrev BUS_ERROR : Nat := 0
abbrev START_TRANSMIT : Nat := 0x08
abbrev REPEATED_START_TRANSMIT : Nat := 0x10
abbrev ADDR_W_ACK : Nat := 0x18
abbrev ADDR_W_NAK : Nat := 0x20
abbrev DATA_TRANSMIT_ACK : Nat := 0x28
abbrev DATA_TRANSMIT_NAK : Nat := 0x30
abbrev LOST_ARBITRATION : Nat := 0x38
abbrev ADDR_R_ACK : Nat := 0x40
abbrev ADDR_R_NAK : Nat := 0x48
abbrev DATA_RECEIVE_ACK : Nat := 0x50
abbrev DATA_RECEIVE_NAK : Nat := 0x58
abbrev IDLE : Nat := 0xf8

/-- The `struct i2c_device`. -/
structure i2c_device where
  addr : Nat
  deriving DecidableEq

/-! ## Transaction primitives -/

/-- The loop `while (int_flag == 0 && --wait_count);` of `wait_completion`,
returning the final `wait_count`.  The loop is entered with `1000*1000` and
continues only while the decremented counter is non-zero, so the counter is
never zero at a poll; the first equation is not reached. -/
def wait_poll {σ : Type} (H : Hardware σ) : Nat → World σ → Outcome σ Nat
  | 0, w => .ok 0 w
  | wait_count + 1, w =>
    (rd_field H .int_flag w).bind fun flag w1 =>
      if flag = 0 then
        if wait_count = 0 then .ok 0 w1 else wait_poll H wait_count w1
      else .ok (wait_count + 1) w1

/-- Embedding of `static i2c_stat_t wait_completion(void)`. -/
def wait_completion {σ : Type} (H : Hardware σ) (w : World σ) : Outcome σ Nat :=
  (wr_field H .int_flag 1 w).bind fun _ w1 =>
  (wait_poll H (1000 * 1000) w1).bind fun wait_count w2 =>
    if wait_count = 0 then .fatal .timeout w2
    else rd_field H .stat w2

/-- Embedding of `static bool do_start(i2c_stat_t expected_status)`. -/
def do_start {σ : Type} (H : Hardware σ) (expected_status : Nat) (w : World σ) :
    Outcome σ Bool :=
  if w.twi = false then .fatal .not_init w
  else
    (wr_field H .m_sta 1 w).bind fun _ w1 =>
    (wait_completion H w1).bind fun status w2 =>
      .ok (status == expected_status) w2

/-- The loop `while (m_stp == 1) ;` of `do_stop`. -/
def stop_poll {σ : Type} (H : Hardware σ) : Nat → World σ → Outcome σ Unit
  | 0, w => .hang w
  | fuel + 1, w =>
    (rd_field H .m_stp w).bind fun v w1 =>
      if v = 1 then stop_poll H fuel w1 else .ok () w1

/-- Embedding of `static void do_stop(void)`. -/
def do_stop {σ : Type} (H : Hardware σ) (fuel : Nat) (w : World σ) : Outcome σ Unit :=
  (wr_field H .m_stp 1 w).bind fun _ w1 =>
  (stop_poll H fuel w1).bind fun _ w2 =>
    platform (.timer_delay_us 30) w2

/-- Embedding of `static bool do_transmit(uint8_t byte, i2c_stat_t expected_status)`; the
argument is converted to `uint8_t` on entry. -/
def do_transmit {σ : Type} (H : Hardware σ) (byte expected_status : Nat) (w : World σ) :
    Outcome σ Bool :=
  (wr_field H .data (byte % 256) w).bind fun _ w1 =>
  (wait_completion H w1).bind fun status w2 =>
    .ok (status == expected_status) w2

/-- Embedding of `static bool do_receive(uint8_t *p, bool is_last)`; the byte stored through
`p` is returned next to the result. -/
def do_receive {σ : Type} (H : Hardware σ) (is_last : Bool) (w : World σ) :
    Outcome σ (Nat × Bool) :=
  let expected_status := if is_last then DATA_RECEIVE_NAK else DATA_RECEIVE_ACK
  let response := if is_last then 0 else 1
  (wr_field H .ack response w).bind fun _ w1 =>
  (wait_completion H w1).bind fun status w2 =>
  (rd_field H .data w2).bind fun d w3 =>
    .ok (d % 256, status == expected_status) w3

/-! ## Block transfers -/

/-- Effect of `memset(bytes, c, n)` on a buffer of at least `n` bytes. -/
def memset (bytes : List Nat) (c n : Nat) : List Nat :=
  List.replicate n c ++ bytes.drop n

/-- The loop of `i2c_block_read`, `rem` iterations before `i` reaches `n`:
`for (; success && i < n; i++) success = do_receive(&bytes[i], i == n - 1);`. -/
def read_loop {σ : Type} (H : Hardware σ) (n : Nat) :
    Nat → Nat → Bool → List Nat → World σ → Outcome σ (Bool × List Nat)
  | 0, _, success, bytes, w => .ok (success, bytes) w
  | rem + 1, i, success, bytes, w =>
    if success then
      (do_receive H (i == n - 1) w).bind fun r w1 =>
        read_loop H n rem (i + 1) r.2 (bytes.set i r.1) w1
    else .ok (success, bytes) w

/-- Embedding of `bool i2c_block_read(i2c_device_t *dev, uint8_t *bytes, int n)`. -/
def i2c_block_read {σ : Type} (H : Hardware σ) (dev : i2c_device) (bytes : List Nat)
    (n fuel : Nat) (w : World σ) : Outcome σ (Bool × List Nat) :=
  let bytes := memset bytes SENTINEL n
  (do_start H START_TRANSMIT w).bind fun success w1 =>
  (if success then do_transmit H ((dev.addr <<< 1) ||| READ_BIT) ADDR_R_ACK w1
   else .ok false w1).bind fun success w2 =>
  (read_loop H n n 0 success bytes w2).bind fun r w3 =>
  (do_stop H fuel w3).bind fun _ w4 =>
    .ok r w4

/-- The loop of `i2c_block_write`, `rem` iterations before `i` reaches `n`:
`for (; success && i < n; i++) success = do_transmit(bytes[i], DATA_TRANSMIT_ACK);`. -/
def write_loop {σ : Type} (H : Hardware σ) (bytes : List Nat) :
    Nat → Nat → Bool → World σ → Outcome σ Bool
  | 0, _, success, w => .ok success w
  | rem + 1, i, success, w =>
    if success then
      (do_transmit H (bytes.getD i 0) DATA_TRANSMIT_ACK w).bind fun s w1 =>
        write_loop H bytes rem (i + 1) s w1
    else .ok success w

/-- Embedding of `bool i2c_block_write(i2c_device_t *dev, uint8_t *bytes, int n)`. -/
def i2c_block_write {σ : Type} (H : Hardware σ) (dev : i2c_device) (bytes : List Nat)
    (n fuel : Nat) (w : World σ) : Outcome σ Bool :=
  (do_start H START_TRANSMIT w).bind fun success w1 =>
  (if success then do_transmit H ((dev.addr <<< 1) ||| WRITE_BIT) ADDR_W_ACK w1
   else .ok false w1).bind fun success w2 =>
  (write_loop H bytes n 0 success w2).bind fun success w3 =>
  (do_stop H fuel w3).bind fun _ w4 =>
    .ok success w4

/-! ## Device handle and register API -/

/-- Embedding of `i2c_device_t * i2c_new(uint8_t addr)`; `none` is the NULL result. -/
def i2c_new {σ : Type} (H : Hardware σ) (addr fuel : Nat) (w : World σ) :
    Outcome σ (Option i2c_device) :=
  let dev : i2c_device := { addr := addr }
  (i2c_block_write H dev [] 0 fuel w).bind fun success w1 =>
    if !success then .ok none w1 else .ok (some dev) w1

/-- Embedding of `bool i2c_write_reg(i2c_device_t *dev, uint8_t reg, uint8_t val)`. -/
def i2c_write_reg {σ : Type} (H : Hardware σ) (dev : i2c_device) (reg val fuel : Nat)
    (w : World σ) : Outcome σ Bool :=
  let buf := [reg, val]
  i2c_block_write H dev buf 2 fuel w

/-- Embedding of `bool i2c_write_reg_n(i2c_device_t *dev, uint8_t reg, uint8_t *bytes, int n)`. -/
def i2c_write_reg_n {σ : Type} (H : Hardware σ) (dev : i2c_device) (reg : Nat)
    (bytes : List Nat) (n fuel : Nat) (w : World σ) : Outcome σ Bool :=
  let buf := reg :: bytes.take n
  i2c_block_write H dev buf (n + 1) fuel w

/-- Embedding of `uint8_t i2c_read_reg(i2c_device_t *dev, uint8_t reg)`.  The local `buf[1]`
starts with an indeterminate byte, which `i2c_block_read` overwrites. -/
def i2c_read_reg {σ : Type} (H : Hardware σ) (dev : i2c_device) (reg fuel : Nat)
    (w : World σ) : Outcome σ Nat :=
  let buf := [0]
  (i2c_block_write H dev [reg] 1 fuel w).bind fun ok1 w1 =>
    if !ok1 then .ok SENTINEL w1
    else
      (i2c_block_read H dev buf 1 fuel w1).bind fun r w2 =>
        if !r.1 then .ok SENTINEL w2 else .ok (r.2.getD 0 0) w2

/-- Embedding of `bool i2c_read_reg_n(i2c_device_t *dev, uint8_t reg, uint8_t *bytes, int n)`. -/
def i2c_read_reg_n {σ : Type} (H : Hardware σ) (dev : i2c_device) (reg : Nat)
    (bytes : List Nat) (n fuel : Nat) (w : World σ) : Outcome σ (Bool × List Nat) :=
  let bytes := memset bytes SENTINEL n
  (i2c_block_write H dev [reg] 1 fuel w).bind fun ok1 w1 =>
    if !ok1 then .ok (false, bytes) w1
    else i2c_block_read H dev bytes n fuel w1

/-- Embedding of `void i2c_init(void)`. -/
def i2c_init {σ : Type} (H : Hardware σ) (w : World σ) : Outcome σ Unit :=
  let w0 := { w with twi := true }
  (platform .ccu_ungate_bus_clock w0).bind fun _ w1 =>
  (platform (.gpio_set_function .sda) w1).bind fun _ w2 =>
  (platform (.gpio_set_function .scl) w2).bind fun _ w3 =>
  (wr_field H .clk_duty 1 w3).bind fun _ w4 =>
  (wr_field H .clk_M 11 w4).bind fun _ w5 =>
  (wr_field H .clk_N 1 w5).bind fun _ w6 =>
  (wr_field H .bus_en 1 w6).bind fun _ w7 =>
    wr_field H .efr 0 w7

/-! ## Simulated hardware

Two peripherals to run the driver against.  `sim` is a TWI controller with one
register-file device on the bus; `script` replays a fixed list of status codes
and data bytes. -/

/-- Where the simulated bus is within a transaction. -/
inductive Phase
  | idle        -- no transaction open
  | started     -- start sent, address byte awaited
  | selecting   -- addressed for writing, register selector awaited
  | writing     -- selector received, data bytes go to the register file
  | reading     -- addressed for reading
  | dead        -- nobody is listening until the next start
  deriving DecidableEq

/-- The bus action latched by the last trigger write. -/
inductive Pending
  | nothing
  | start
  | xmit (b : Nat)
  | recv (ack : Nat)
  deriving DecidableEq

/-- State of the simulated controller and of the one device on its bus: the
device answers to the 7-bit address `dev_addr` and keeps, for every register
index, the last value written to it. -/
structure Sim where
  dev_addr : Nat
  mem : Nat → Nat
  ptr : Nat
  phase : Phase
  pending : Pending
  stat : Nat
  data : Nat
  int_flag : Nat

/-- The controller carries out the latched action; this is what clearing the
interrupt flag lets it do. -/
def Sim.perform (s : Sim) : Sim :=
  match s.pending with
  | .nothing => { s with int_flag := 0 }
  | .start =>
    { s with phase := .started, stat := START_TRANSMIT, pending := .nothing, int_flag := 1 }
  | .xmit b =>
    match s.phase with
    | .started =>
      if b / 2 = s.dev_addr then
        if b % 2 = 0 then
          { s with phase := .selecting, stat := ADDR_W_ACK, pending := .nothing, int_flag := 1 }
        else
          { s with phase := .reading, stat := ADDR_R_ACK, pending := .nothing, int_flag := 1 }
      else
        { s with phase := .dead, stat := if b % 2 = 0 then ADDR_W_NAK else ADDR_R_NAK,
                 pending := .nothing, int_flag := 1 }
    | .selecting =>
      { s with ptr := b, phase := .writing, stat := DATA_TRANSMIT_ACK,
               pending := .nothing, int_flag := 1 }
    | .writing =>
      { s with mem := fun r => if r = s.ptr then b else s.mem r, ptr := (s.ptr + 1) % 256,
               stat := DATA_TRANSMIT_ACK, pending := .nothing, int_flag := 1 }
    | _ =>
      { s with phase := .dead, stat := DATA_TRANSMIT_NAK, pending := .nothing, int_flag := 1 }
  | .recv a =>
    match s.phase with
    | .reading =>
      { s with data := s.mem s.ptr, ptr := (s.ptr + 1) % 256,
               phase := if a = 1 then .reading else .dead,
               stat := if a = 1 then DATA_RECEIVE_ACK else DATA_RECEIVE_NAK,
               pending := .nothing, int_flag := 1 }
    | _ =>
      { s with phase := .dead, stat := BUS_ERROR, pending := .nothing, int_flag := 1 }

/-- The simulated peripheral.  A trigger write latches its action, writing 1 to
`int_flag` clears the flag and lets the controller carry the action out, a
stop request completes at once.  The device acknowledges its own address and
stores the last value written per register. -/
def sim : Hardware Sim where
  read s f :=
    match f with
    | .int_flag => (s.int_flag, s)
    | .stat => (s.stat, s)
    | .data => (s.data, s)
    | _ => (0, s)
  write s f v :=
    match f with
    | .m_sta => if v = 1 then { s with pending := .start } else s
    | .data => { s with data := v, pending := .xmit (v % 256) }
    | .ack => { s with pending := .recv v }
    | .int_flag => if v = 1 then s.perform else s
    | .m_stp => if v = 1 then { s with phase := .idle, pending := .nothing } else s
    | _ => s

/-- An idle simulated bus with a device at `dev_addr` holding `mem`. -/
def Sim.idle (dev_addr : Nat) (mem : Nat → Nat) : Sim :=
  { dev_addr := dev_addr, mem := mem, ptr := 0, phase := .idle, pending := .nothing,
    stat := IDLE, data := 0, int_flag := 0 }

/-- State of the replaying peripheral: the status codes and the data bytes it
has yet to report. -/
structure Script where
  stats : List Nat
  datas : List Nat
  deriving DecidableEq

/-- A peripheral that completes every action at the first poll, reports the
next scripted status at each read of `stat` and the next scripted byte at each
read of `data`, and clears a stop request at once. -/
def script : Hardware Script where
  read s f :=
    match f with
    | .int_flag => (1, s)
    | .stat => (s.stats.headD BUS_ERROR, { s with stats := s.stats.tail })
    | .data => (s.datas.headD 0, { s with datas := s.datas.tail })
    | _ => (0, s)
  write s _ _ := s

/-- A world whose module has been bound by `i2c_init`, with an empty trace. -/
def World.ready {σ : Type} (hw : σ) : World σ :=
  { hw := hw, twi := true, trace := [] }

/-- A peripheral on which nothing ever happens: every register reads 0 and
writes are ignored, so the completion flag is never set. -/
def unresponsive : Hardware Unit where
  read _ _ := (0, ())
  write _ _ _ := ()

/-- Replay of a 6-byte read of the acceleration registers on which every step
reports its expected status. -/
def Script.accel_ok : Script :=
  ⟨[0x08, 0x18, 0x28, 0x08, 0x40, 0x50, 0x50, 0x50, 0x50, 0x50, 0x58],
   [0x11, 0x22, 0x33, 0x44, 0x55, 0x166]⟩

/-- Replay of a 6-byte read of the acceleration registers on which the receive
of the 4th byte reports not-acknowledged (`0x58`) where acknowledged (`0x50`)
is expected, the data register then reading `0xAB`. -/
def Script.accel_nak4 : Script :=
  ⟨[0x08, 0x18, 0x28, 0x08, 0x40, 0x50, 0x50, 0x50, 0x58], [0x01, 0x02, 0x03, 0xAB]⟩

/-- Replay of a one-byte register read on which every step reports its
expected status and the device supplies `0x13`. -/
def Script.read_ok : Script :=
  ⟨[0x08, 0x18, 0x28, 0x08, 0x40, 0x58], [0x13]⟩

/-- Replay of a one-byte register read on which the hardware reports
repeated-start-transmitted (`0x10`) for the second start. -/
def Script.read_repeated_start : Script :=
  ⟨[0x08, 0x18, 0x28, 0x10, 0x40, 0x58], [0x13]⟩

/-- Replay of a register write on which every step reports its expected
status. -/
def Script.write_ok : Script :=
  ⟨[0x08, 0x18, 0x28, 0x28], []⟩

/-- Replay of a register write whose register selector is not acknowledged. -/
def Script.write_nak_reg : Script :=
  ⟨[0x08, 0x18, 0x30], []⟩

/-- A bound module on the simulated bus whose only device, the time-of-flight
sensor, answers to address `0x29`. -/
def Sim.tof_only : World Sim := World.ready (Sim.idle 0x29 fun _ => 0)

/-- A bound module on the simulated bus whose only device, the accelerometer,
answers to address `0x62`. -/
def Sim.accel_only : World Sim := World.ready (Sim.idle 0x62 fun _ => 0)

/-- The register file after the value `v` is stored at index `r`. -/
def Sim.store (mem : Nat → Nat) (r v : Nat) : Nat → Nat :=
  fun i => if i = r then v else mem i

/-! ## Views of a trace -/

/-- A bus action or its observation: a trigger write (start bit, data register,
acknowledge bit, stop bit), a read of the status register, or a read of the
data register.  The polls of `int_flag` and `m_stp`, the clearing of
`int_flag` and the platform calls are not. -/
def Event.is_bus : Event → Bool
  | .wr .m_sta _ => true
  | .wr .m_stp _ => true
  | .wr .data _ => true
  | .wr .ack _ => true
  | .rd .stat _ => true
  | .rd .data _ => true
  | _ => false

/-- A trigger write: start bit, data register, acknowledge bit or stop bit. -/
def Event.is_trigger : Event → Bool
  | .wr .m_sta _ => true
  | .wr .m_stp _ => true
  | .wr .data _ => true
  | .wr .ack _ => true
  | _ => false

/-- The value of a status-register read. -/
def Event.status : Event → Option Nat
  | .rd .stat v => some v
  | _ => none

/-- The value of a data-register read. -/
def Event.data_read : Event → Option Nat
  | .rd .data v => some v
  | _ => none

/-- The value of a data-register write. -/
def Event.data_write : Event → Option Nat
  | .wr .data v => some v
  | _ => none

/-- The bus actions and observations of a trace, in order. -/
def bus_trace (t : List Event) : List Event := t.filter Event.is_bus

/-- The trigger writes of a trace, in order. -/
def triggers (t : List Event) : List Event := t.filter Event.is_trigger

/-- The values read from the status register, in order. -/
def statuses (t : List Event) : List Nat := t.filterMap Event.status

/-- The values read from the data register, in order. -/
def data_reads (t : List Event) : List Nat := t.filterMap Event.data_read

/-- The values written to the data register, in order. -/
def data_writes (t : List Event) : List Nat := t.filterMap Event.data_write

/-- Number of times the start bit is set. -/
def starts (t : List Event) : Nat := t.count (.wr .m_sta 1)

/-- Number of times the stop bit is set. -/
def stops (t : List Event) : Nat := t.count (.wr .m_stp 1)

/-- World `w'` is reached from `w` with the module still bound, by accesses
whose bus actions are `bt`. -/
def Extends {σ : Type} (w w' : World σ) (bt : List Event) : Prop :=
  w'.twi = true ∧ ∃ t, w'.trace = w.trace ++ t ∧ bus_trace t = bt

/-- The stop loop used up its fuel: the last `fuel` accesses of the trace are
reads of the stop bit that all returned 1. -/
def StopStuck (fuel : Nat) (t : List Event) : Prop :=
  ∃ t0, t = t0 ++ List.replicate fuel (.rd .m_stp 1)

/-! ## What a transfer is expected to look like -/

/-- Value written to the acknowledge bit by a receive. -/
def ack_response (is_last : Bool) : Nat := if is_last then 0 else 1

/-- Status a receive is validated against. -/
def recv_expected (is_last : Bool) : Nat :=
  if is_last then DATA_RECEIVE_NAK else DATA_RECEIVE_ACK

/-- Trigger writes interleaved with the statuses read after them: the bus
actions of steps that each set a trigger, wait, and read the status. -/
def bus_of : List Event → List Nat → List Event
  | e :: es, s :: ss => e :: .rd .stat s :: bus_of es ss
  | _, _ => []

/-- The statuses `obs` are what a sequence of steps validated against `exp`
observes when it gives up at the first unexpected status: each status is
followed by a further one exactly when it is the expected one and steps
remain. -/
def stops_at_mismatch : List Nat → List Nat → Bool
  | [], [] => true
  | e :: es, s :: ss => if s = e then stops_at_mismatch es ss else ss.isEmpty
  | _, _ => false

/-- The data-register writes that transmit `bytes`. -/
def xmit_triggers (bytes : List Nat) : List Event :=
  bytes.map fun b => .wr .data (b % 256)

/-- The address byte with the write bit, as the data register receives it. -/
def addr_w (dev : i2c_device) : Nat := ((dev.addr <<< 1) ||| WRITE_BIT) % 256

/-- The address byte with the read bit, as the data register receives it. -/
def addr_r (dev : i2c_device) : Nat := ((dev.addr <<< 1) ||| READ_BIT) % 256

/-- Trigger writes of a complete block write, stop excluded. -/
def write_triggers (dev : i2c_device) (bytes : List Nat) : List Event :=
  .wr .m_sta 1 :: .wr .data (addr_w dev) :: xmit_triggers bytes

/-- Statuses a complete block write of `n` bytes expects. -/
def write_expected (n : Nat) : List Nat :=
  START_TRANSMIT :: ADDR_W_ACK :: List.replicate n DATA_TRANSMIT_ACK

/-- Bus actions of receive steps `i`, `i + 1`, ... of a read of `n` bytes that
observed the statuses and data-register values given: acknowledge bit, status
read, data read. -/
def recv_bus (n : Nat) : Nat → List Nat → List Nat → List Event
  | i, s :: ss, d :: ds =>
    .wr .ack (ack_response (i == n - 1)) :: .rd .stat s :: .rd .data d ::
      recv_bus n (i + 1) ss ds
  | _, _, _ => []

/-- Statuses the receive steps `i`, ..., `i + rem - 1` of a read of `n` bytes
are validated against. -/
def recv_expected_from (n : Nat) : Nat → Nat → List Nat
  | _, 0 => []
  | i, rem + 1 => recv_expected (i == n - 1) :: recv_expected_from n (i + 1) rem

/-- Trigger writes that open a block read: start bit and address byte. -/
def read_triggers (dev : i2c_device) : List Event :=
  [.wr .m_sta 1, .wr .data (addr_r dev)]

/-- Statuses a complete block read of `n` bytes expects. -/
def read_expected (n : Nat) : List Nat :=
  START_TRANSMIT :: ADDR_R_ACK :: recv_expected_from n 0 n

/-- Bus actions of a block read of `n` bytes, stop excluded, that observed the
statuses `ss` and the data-register values `ds`. -/
def read_bus (dev : i2c_device) (n : Nat) (ss ds : List Nat) : List Event :=
  bus_of (read_triggers dev) ss ++ recv_bus n 0 (ss.drop 2) ds

/-- The destination of a block read of `n` bytes into `bytes` after receive
steps that read `ds` from the data register. -/
def read_result (bytes : List Nat) (n : Nat) (ds : List Nat) : List Nat :=
  ds.map (fun d => d % 256) ++ List.replicate (n - ds.length) SENTINEL ++ bytes.drop n

/-- The steps of `i2c_block_write` before the stop. -/
def write_body {σ : Type} (H : Hardware σ) (dev : i2c_device) (bytes : List Nat) (n : Nat)
    (w : World σ) : Outcome σ Bool :=
  ((do_start H START_TRANSMIT w).bind fun success w1 =>
    (if success then do_transmit H ((dev.addr <<< 1) ||| WRITE_BIT) ADDR_W_ACK w1
     else .ok false w1)).bind fun success w2 =>
  write_loop H bytes n 0 success w2

/-- The steps of `i2c_block_read` before the stop. -/
def read_body {σ : Type} (H : Hardware σ) (dev : i2c_device) (bytes : List Nat) (n : Nat)
    (w : World σ) : Outcome σ (Bool × List Nat) :=
  ((do_start H START_TRANSMIT w).bind fun success w1 =>
    (if success then do_transmit H ((dev.addr <<< 1) ||| READ_BIT) ADDR_R_ACK w1
     else .ok false w1)).bind fun success w2 =>
  read_loop H n n 0 success (memset bytes SENTINEL n) w2

/-! ## Sequences of public operations -/

/-- A call of one of the public bus operations, with a buffer of the length
the call announces. -/
inductive Op
  | new (addr : Nat)
  | write_reg (dev : i2c_device) (reg val : Nat)
  | write_reg_n (dev : i2c_device) (reg : Nat) (bytes : List Nat)
  | read_reg (dev : i2c_device) (reg : Nat)
  | read_reg_n (dev : i2c_device) (reg : Nat) (bytes : List Nat)
  | block_read (dev : i2c_device) (bytes : List Nat)
  | block_write (dev : i2c_device) (bytes : List Nat)

/-- Run one public operation, dropping its result. -/
def run_op {σ : Type} (H : Hardware σ) (fuel : Nat) (op : Op) (w : World σ) :
    Outcome σ Unit :=
  match op with
  | .new addr => (i2c_new H addr fuel w).bind fun _ w1 => .ok () w1
  | .write_reg dev reg val => (i2c_write_reg H dev reg val fuel w).bind fun _ w1 => .ok () w1
  | .write_reg_n dev reg bytes =>
    (i2c_write_reg_n H dev reg bytes bytes.length fuel w).bind fun _ w1 => .ok () w1
  | .read_reg dev reg => (i2c_read_reg H dev reg fuel w).bind fun _ w1 => .ok () w1
  | .read_reg_n dev reg bytes =>
    (i2c_read_reg_n H dev reg bytes bytes.length fuel w).bind fun _ w1 => .ok () w1
  | .block_read dev bytes =>
    (i2c_block_read H dev bytes bytes.length fuel w).bind fun _ w1 => .ok () w1
  | .block_write dev bytes =>
    (i2c_block_write H dev bytes bytes.length fuel w).bind fun _ w1 => .ok () w1

/-- Run public operations one after another; a call that does not return ends
the run. -/
def run_ops {σ : Type} (H : Hardware σ) (fuel : Nat) : List Op → World σ → Outcome σ Unit
  | [], w => .ok () w
  | op :: ops, w => (run_op H fuel op w).bind fun _ w1 => run_ops H fuel ops w1

/-- A probe of the accelerometer, a register write, the read of the same
register, and a probe of an absent device. -/
def Op.demo : List Op :=
  [.new 0x62, .write_reg ⟨0x62⟩ 0x0F 0x01, .read_reg ⟨0x62⟩ 0x0F, .new 0x29]

/-! ## Further fixtures and views -/

/-- A world whose module is not bound: `module.twi` is NULL, as it is from its
initialiser until `i2c_init` runs. -/
def World.unbound {σ : Type} (hw : σ) : World σ :=
  { hw := hw, twi := false, trace := [] }

/-- A peripheral that reports completion at the first poll and never clears
the stop-request bit: `int_flag` and `m_stp` always read 1, every other
register reads 0, writes are ignored. -/
def stop_never_clears : Hardware Unit where
  read _ f := (match f with
    | .int_flag => 1
    | .m_stp => 1
    | _ => 0, ())
  write _ _ _ := ()

/-- A plain register file: every field is stored on its own, holds the value
last written to it, and reading changes nothing.  An idealisation of the
peripheral: it ignores that the bit-fields of `cntr` share a word. -/
def regfile : Hardware (Field → Nat) where
  read s f := (s f, s)
  write s f v := fun g => if g = f then v else s g

/-- Replay of the selector write of a register read whose register selector is
not acknowledged. -/
def Script.selector_nak : Script :=
  ⟨[0x08, 0x18, 0x30], []⟩

/-- Replay of a 3-byte block read on which every step reports its expected
status. -/
def Script.block_read_ok : Script :=
  ⟨[0x08, 0x40, 0x50, 0x50, 0x58], [0xA1, 0xB2, 0xC3]⟩

/-- The value of a write to the acknowledge bit. -/
def Event.ack_write : Event → Option Nat
  | .wr .ack v => some v
  | _ => none

/-- The values written to the acknowledge bit, in order. -/
def ack_writes (t : List Event) : List Nat := t.filterMap Event.ack_write

/-- The data-register writes the loop of `i2c_block_write` is to make from
index `i` on, `rem` of them: one per byte, in order. -/
def xmit_plan (bytes : List Nat) (i rem : Nat) : List Event :=
  (List.range' i rem).map fun j => .wr .data (bytes.getD j 0 % 256)

/-- The acknowledge-bit writes the loop of `i2c_block_read` is to make from
index `i` on, `rem` of them: 0 for index `n - 1`, 1 for every other. -/
def ack_plan (n i rem : Nat) : List Event :=
  (List.range' i rem).map fun j => .wr .ack (ack_response (j == n - 1))

/-- The trigger writes of `i2c_block_write(dev, bytes, n)` before the stop, if
no step fails: start bit, address byte with the write bit, the `n` bytes. -/
def write_plan (dev : i2c_device) (bytes : List Nat) (n : Nat) : List Event :=
  .wr .m_sta 1 :: .wr .data (addr_w dev) :: xmit_plan bytes 0 n

/-- The trigger writes of `i2c_block_read(dev, bytes, n)` before the stop, if
no step fails: start bit, address byte with the read bit, the acknowledge bit
of each of the `n` receives. -/
def read_plan (dev : i2c_device) (n : Nat) : List Event :=
  .wr .m_sta 1 :: .wr .data (addr_r dev) :: ack_plan n 0 n

/-! ## Layout of the register block

The declaration of `twi_t` and the address arithmetic of `TWI_BASE[i].regs.m`,
under the layout rules of the target's C ABI: a `uint32_t` takes 4 bytes at a
4-byte boundary, the members of a struct follow each other in declaration
order, and the bit-fields of a struct are allocated from bit 0 of their
`uint32_t` upwards in declaration order, unnamed ones included. -/

/-- The members of `twi_t.regs`. -/
inductive Reg
  | addr | xaddr | data | cntr | stat | ccr | srst | efr | lcr
  deriving DecidableEq

/-- The declaration of `twi_t.regs`: each member with its bit-fields (name, or
`none` for an unnamed one, and width); a plain `uint32_t` has none. -/
def twi_regs : List (Reg × List (Option Field × Nat)) :=
  [(.addr, []), (.xaddr, []), (.data, []),
   (.cntr, [(some .clk_mode, 1), (none, 1), (some .ack, 1), (some .int_flag, 1),
            (some .m_stp, 1), (some .m_sta, 1), (some .bus_en, 1), (some .int_en, 1),
            (none, 24)]),
   (.stat, []),
   (.ccr, [(some .clk_N, 3), (some .clk_M, 4), (some .clk_duty, 1), (none, 24)]),
   (.srst, []), (.efr, []), (.lcr, [])]

/-- Size in bytes of a member: one `uint32_t`, or as many as its bit-fields
fill. -/
def member_size (m : Reg × List (Option Field × Nat)) : Nat :=
  if m.2 = [] then 4 else 4 * (((m.2.map Prod.snd).sum + 31) / 32)

/-- Byte offset of member `r` in a declaration: the sizes of the members
declared before it. -/
def offset_in : List (Reg × List (Option Field × Nat)) → Reg → Option Nat
  | [], _ => none
  | m :: ms, r => if m.1 = r then some 0 else (offset_in ms r).map (member_size m + ·)

/-- Byte offset of a member of `twi_t.regs` from the instance base. -/
def offset_of (r : Reg) : Option Nat := offset_in twi_regs r

/-- Lowest bit and width of bit-field `f` in a list of bit-fields: the lowest
bit is the sum of the widths of the bit-fields declared before it. -/
def bit_in : List (Option Field × Nat) → Field → Option (Nat × Nat)
  | [], _ => none
  | b :: bs, f =>
    if b.1 = some f then some (0, b.2) else (bit_in bs f).map fun p => (b.2 + p.1, p.2)

/-- Position of bit-field `f` in member `r`: lowest bit and width. -/
def bit_range (r : Reg) (f : Field) : Option (Nat × Nat) :=
  match twi_regs.find? (fun m => m.1 = r) with
  | none => none
  | some m => bit_in m.2 f

/-- Value of `sizeof(twi_t)`: the union of `regs` and `uint32_t padding[0x100]`. -/
def sizeof_twi_t : Nat := max (twi_regs.map member_size).sum (4 * 0x100)

/-- The address `TWI_BASE` is cast from. -/
abbrev TWI_BASE : Nat := 0x02502000

/-- Address of `TWI_BASE[i].regs.r`. -/
def reg_address (i : Nat) (r : Reg) : Option Nat :=
  (offset_of r).map fun off => TWI_BASE + i * sizeof_twi_t + off

/-! ## The sensor initialisation routines

The callers of the driver that check a sensor's identity register:
`msa311_init` of `bike_demo.c` and `vl50l0x_init` of `failed_VL53l0X.c`.
The output of `printf` is not modelled, and `malloc` is taken to succeed. -/

abbrev MSA311_ADDRESS : Nat := 0x62
abbrev REG_SOFT_RESET : Nat := 0x00
abbrev REG_PART_ID : Nat := 0x01
abbrev REG_FS_RANGE : Nat := 0x0F
abbrev REG_ODR : Nat := 0x10
abbrev REG_POWER_MODE : Nat := 0x11
abbrev REG_BANDWIDTH : Nat := 0x12
abbrev REG_RESOLUTION : Nat := 0x13
abbrev FS_2G : Nat := 0x00
abbrev FS_4G : Nat := 0x01
abbrev FS_8G : Nat := 0x02
abbrev FS_16G : Nat := 0x03
abbrev ODR_125HZ : Nat := 0x07
abbrev POWER_NORMAL : Nat := 0x00
abbrev BANDWIDTH_125HZ : Nat := 0x07
abbrev RESOLUTION_14 : Nat := 0x01
abbrev EXPECTED_PART_ID : Nat := 0x13

abbrev VL53L0X_ADDR : Nat := 0x29
abbrev REG_IDENTIFICATION_MODEL_ID : Nat := 0xC0
abbrev VL53L0X_EXPECTED_DEVICE_ID : Nat := 0xEE

/-- The accelerometer handle of `bike_demo.c`: the device handle and the range
in milli-g. -/
structure msa311_t where
  i2c_dev : i2c_device
  range : Nat
  deriving DecidableEq

/-- What a routine that checks with `assert` hands back: its return value, or
nothing, because an assertion failed and the program was aborted. -/
inductive Checked (α : Type)
  | returned (a : α)
  | assert_failed
  deriving DecidableEq

/-- Sequencing of routines that check with `assert`: a failed assertion ends
the run. -/
def Outcome.and_then {σ α β : Type} (o : Outcome σ (Checked α))
    (k : α → World σ → Outcome σ (Checked β)) : Outcome σ (Checked β) :=
  o.bind fun c w =>
    match c with
    | .returned a => k a w
    | .assert_failed => .ok .assert_failed w

/-- Embedding of `static bool set_range(msa311_t *msa, uint8_t range)`; the
handle with its new range is returned with the result. -/
def set_range {σ : Type} (H : Hardware σ) (msa : msa311_t) (range fuel : Nat)
    (w : World σ) : Outcome σ (Checked (Bool × msa311_t)) :=
  if range = FS_2G ∨ range = FS_4G ∨ range = FS_8G ∨ range = FS_16G then
    (i2c_write_reg H msa.i2c_dev REG_FS_RANGE range fuel w).bind fun ok w1 =>
      if !ok then .ok .assert_failed w1
      else
        let msa := { msa with range :=
          if range = FS_2G then 2000 else if range = FS_4G then 4000
          else if range = FS_8G then 8000 else 16000 }
        (platform (.timer_delay_us 100) w1).bind fun _ w2 =>
          .ok (.returned (true, msa)) w2
  else .ok .assert_failed w

/-- Embedding of `static bool set_data_rate(msa311_t *msa, uint8_t data_rate)`. -/
def set_data_rate {σ : Type} (H : Hardware σ) (msa : msa311_t) (data_rate fuel : Nat)
    (w : World σ) : Outcome σ (Checked Bool) :=
  if data_rate ≤ 0x0F then
    (i2c_write_reg H msa.i2c_dev REG_ODR data_rate fuel w).bind fun ok w1 =>
      if !ok then .ok .assert_failed w1
      else
        (platform (.timer_delay_us 100) w1).bind fun _ w2 =>
          .ok (.returned true) w2
  else .ok .assert_failed w

/-- Embedding of `static bool set_power_mode(msa311_t *msa, uint8_t power_mode)`. -/
def set_power_mode {σ : Type} (H : Hardware σ) (msa : msa311_t) (power_mode fuel : Nat)
    (w : World σ) : Outcome σ (Checked Bool) :=
  if power_mode = POWER_NORMAL then
    (i2c_write_reg H msa.i2c_dev REG_POWER_MODE power_mode fuel w).bind fun ok w1 =>
      if !ok then .ok .assert_failed w1
      else
        (platform (.timer_delay_us 100) w1).bind fun _ w2 =>
          .ok (.returned true) w2
  else .ok .assert_failed w

/-- Embedding of `static bool set_bandwidth(msa311_t *msa, uint8_t bandwidth)`. -/
def set_bandwidth {σ : Type} (H : Hardware σ) (msa : msa311_t) (bandwidth fuel : Nat)
    (w : World σ) : Outcome σ (Checked Bool) :=
  if bandwidth ≤ 0x0F then
    (i2c_write_reg H msa.i2c_dev REG_BANDWIDTH bandwidth fuel w).bind fun ok w1 =>
      if !ok then .ok .assert_failed w1
      else
        (platform (.timer_delay_us 100) w1).bind fun _ w2 =>
          .ok (.returned true) w2
  else .ok .assert_failed w

/-- Embedding of `static bool set_resolution(msa311_t *msa, uint8_t resolution)`. -/
def set_resolution {σ : Type} (H : Hardware σ) (msa : msa311_t) (resolution fuel : Nat)
    (w : World σ) : Outcome σ (Checked Bool) :=
  if resolution = RESOLUTION_14 then
    (i2c_write_reg H msa.i2c_dev REG_RESOLUTION resolution fuel w).bind fun ok w1 =>
      if !ok then .ok .assert_failed w1
      else
        (platform (.timer_delay_us 100) w1).bind fun _ w2 =>
          .ok (.returned true) w2
  else .ok .assert_failed w

/-- Embedding of `msa311_t *msa311_init(void)`; `none` is the NULL result.  The
range of the fresh handle is indeterminate until `set_range` stores it. -/
def msa311_init {σ : Type} (H : Hardware σ) (fuel : Nat) (w : World σ) :
    Outcome σ (Checked (Option msa311_t)) :=
  (platform (.gpio_set_function .sda) w).bind fun _ w1 =>
  (platform (.gpio_set_function .scl) w1).bind fun _ w2 =>
  (i2c_init H w2).bind fun _ w3 =>
  (i2c_new H MSA311_ADDRESS fuel w3).bind fun i2c_dev w4 =>
    match i2c_dev with
    | none => .ok (.returned none) w4
    | some dev =>
      let msa : msa311_t := { i2c_dev := dev, range := 0 }
      (i2c_read_reg H msa.i2c_dev REG_PART_ID fuel w4).bind fun part_id w5 =>
        if part_id ≠ EXPECTED_PART_ID then .ok (.returned none) w5
        else
          (i2c_write_reg H msa.i2c_dev REG_SOFT_RESET 0x01 fuel w5).bind fun _ w6 =>
          (platform (.timer_delay_us 1000) w6).bind fun _ w7 =>
          (set_range H msa FS_4G fuel w7).and_then fun r w8 =>
          (set_data_rate H r.2 ODR_125HZ fuel w8).and_then fun _ w9 =>
          (set_power_mode H r.2 POWER_NORMAL fuel w9).and_then fun _ w10 =>
          (set_bandwidth H r.2 BANDWIDTH_125HZ fuel w10).and_then fun _ w11 =>
          (set_resolution H r.2 RESOLUTION_14 fuel w11).and_then fun _ w12 =>
            .ok (.returned (some r.2)) w12

/-- Embedding of `static i2c_device_t *vl50l0x_init(void)`: both checks are
assertions. -/
def vl50l0x_init {σ : Type} (H : Hardware σ) (fuel : Nat) (w : World σ) :
    Outcome σ (Checked i2c_device) :=
  (i2c_new H VL53L0X_ADDR fuel w).bind fun dev w1 =>
    match dev with
    | none => .ok .assert_failed w1
    | some dev =>
      (i2c_read_reg H dev REG_IDENTIFICATION_MODEL_ID fuel w1).bind fun model_id w2 =>
        if model_id = VL53L0X_EXPECTED_DEVICE_ID then .ok (.returned dev) w2
        else .ok .assert_failed w2

/-- Replay of `msa311_init` on which the probe is acknowledged and the read of
the part-ID register is not: its selector write reports `0x30`. -/
def Script.id_read_nak : Script :=
  ⟨[0x08, 0x18, 0x08, 0x18, 0x30], []⟩

/-! ## Order of trigger writes and status reads -/

/-- Whether the trigger writes and the status reads of a trace are in step.
The state says whether a start, data-register or acknowledge-bit write has been
made whose status read is still to come.  A status read is in step when such a
write is pending, a trigger write (the stop bit included) when none is; any
other access is passed over.  The result is the state at the end of the trace,
or `none` if an access was out of step. -/
def in_step : Bool → List Event → Option Bool
  | pending, [] => some pending
  | pending, .rd .stat _ :: t => if pending then in_step false t else none
  | pending, .wr .m_sta _ :: t => if pending then none else in_step true t
  | pending, .wr .data _ :: t => if pending then none else in_step true t
  | pending, .wr .ack _ :: t => if pending then none else in_step true t
  | pending, .wr .m_stp _ :: t => if pending then none else in_step false t
  | pending, _ :: t => in_step pending t

/-- The call kept the trigger writes and status reads it added to the trace of
`w` in step, and the module bound; a write is left pending at the end exactly
when the call ended in the timeout error. -/
def Outcome.kept_step {σ α : Type} (o : Outcome σ α) (w : World σ) : Prop :=
  ∃ bt, Extends w o.world bt ∧ in_step false bt = some (decide (o.error = some .timeout))

/-- Replay of a 3-byte block read on which the receive of byte index 1 reports
not-acknowledged (`0x58`) where acknowledged (`0x50`) is expected, the data
register then reading `0xAB`. -/
def Script.block_read_nak1 : Script :=
  ⟨[0x08, 0x40, 0x50, 0x58], [0x01, 0xAB]⟩

/-- Replay of a one-byte register read on which every step reports its
expected status and the device supplies `0x7E`. -/
def Script.read_data_7e : Script :=
  ⟨[0x08, 0x18, 0x28, 0x08, 0x40, 0x58], [0x7E]⟩

/-- Replay of a zero-length block read that is acknowledged. -/
def Script.block_read_empty : Script :=
  ⟨[0x08, 0x40], []⟩

/-- A peripheral whose completion flag reads 0 a given number of times and 1
from then on; the state is the number of 0 reads still to come.  The status
register reads `0x08`, every other register 0. -/
def slow_flag : Hardware Nat where
  read s f :=
    match f with
    | .int_flag => if s = 0 then (1, 0) else (0, s - 1)
    | .stat => (START_TRANSMIT, s)
    | _ => (0, s)
  write s _ _ := s

/-! ## The sliding window of `monitor_accelerometer`

The loop of `monitor_accelerometer` (`bike_demo.c`, and the same text in
`accelerometer_button_led.c`).  What an iteration gets from outside are the
result of `msa311_read_acceleration` and, when that is true, the outcome of
the floating-point comparison `theta > 30`: they are the input of the
iteration, `none` for a failed reading and `some (theta > 30)` for a
successful one.  The printing and the delay are not modelled. -/

/-- The locals `theta_window`, `window_start` and `positive_theta_count`. -/
structure Window where
  theta_window : List Int
  window_start : Nat
  positive_theta_count : Int
  deriving DecidableEq

/-- The locals as initialised: `theta_window[15] = {0}`, `window_start = 0`,
`positive_theta_count = 0`. -/
def Window.init : Window :=
  { theta_window := List.replicate 15 0, window_start := 0, positive_theta_count := 0 }

/-- One pass through the body of the loop: the locals afterwards, and whether
the pass ended in `break`. -/
def monitor_step (s : Window) (reading : Option Bool) : Window × Bool :=
  match reading with
  | some theta_gt_30 =>
    let s1 : Window :=
      if theta_gt_30 then
        { s with
            positive_theta_count :=
              s.positive_theta_count + (1 - s.theta_window.getD s.window_start 0)
            theta_window := s.theta_window.set s.window_start 1 }
      else
        { s with
            positive_theta_count :=
              s.positive_theta_count - s.theta_window.getD s.window_start 0
            theta_window := s.theta_window.set s.window_start 0 }
    let s2 : Window := { s1 with window_start := (s1.window_start + 1) % 15 }
    if s2.positive_theta_count ≥ 10 then (s2, true) else (s2, false)
  | none => (s, false)

/-- The loop from given locals over the inputs of its iterations: the locals
when it is left or the inputs are used up, whether it was left by `break`, and
the number of iterations made. -/
def monitor_loop : Window → List (Option Bool) → Window × Bool × Nat
  | s, [] => (s, false, 0)
  | s, reading :: readings =>
    if (monitor_step s reading).2 then ((monitor_step s reading).1, true, 1)
    else
      let r := monitor_loop (monitor_step s reading).1 readings
      (r.1, r.2.1, r.2.2 + 1)

/-- Embedding of `void monitor_accelerometer(msa311_t *msa)` over the inputs
of its iterations. -/
def monitor_accelerometer (readings : List (Option Bool)) : Window × Bool × Nat :=
  monitor_loop Window.init readings

/-- The locals after passes through the body of the loop on the given inputs,
one pass after the other from the initial locals. -/
def Window.after (readings : List (Option Bool)) : Window :=
  readings.foldl (fun s reading => (monitor_step s reading).1) Window.init

/-- The `theta > 30` outcomes of the successful readings among the inputs, the
most recent first. -/
def recent (readings : List (Option Bool)) : List Bool :=
  (readings.filterMap id).reverse

/-- Number of readings with `theta > 30` among the last 15 successful ones. -/
def recent_positive (readings : List (Option Bool)) : Nat :=
  ((recent readings).take 15).count true

/-- The locals hold the window of the successful readings `hist` (most recent
first): the slot written `j` successful readings ago holds 1 if that reading
had `theta > 30` and 0 if not, a slot not yet written holds 0, and the count is
the number of the last 15 successful readings with `theta > 30`. -/
def Window.tracks (s : Window) (hist : List Bool) : Prop :=
  s.theta_window.length = 15 ∧ s.window_start = hist.length % 15 ∧
  (∀ j, j < 15 → s.theta_window.getD ((s.window_start + 14 - j) % 15) 0 =
    if hist.getD j false then 1 else 0) ∧
  s.positive_theta_count = ((hist.take 15).count true : Nat)

/-! ## The raw axis values of `msa311_read_raw` -/

abbrev REG_ACC_X_LSB : Nat := 0x02

/-- The value of an `int16_t` whose 16 bits are those of `x`. -/
def to_int16 (x : Nat) : Int :=
  if x % 65536 < 32768 then (x % 65536 : Nat) else ((x % 65536 : Nat) : Int) - 65536

/-- One axis of `msa311_read_raw`:
`raw = (msb << 4) | (lsb & 0x0F); if (raw & 0x0800) raw |= 0xF000;`
on the 16 bits stored in the `int16_t`, read back as a signed value. -/
def axis_raw (lsb msb : Nat) : Int :=
  let raw := (((msb % 256) <<< 4) ||| ((lsb % 256) &&& 0x0F)) % 65536
  let raw := if raw &&& 0x0800 ≠ 0 then (raw ||| 0xF000) % 65536 else raw
  to_int16 raw

/-- Embedding of
`bool msa311_read_raw(msa311_t *msa, int16_t *x_raw, int16_t *y_raw, int16_t *z_raw)`:
`none` is the result false, `some (x, y, z)` the result true with the three
values stored.  The local `data[6]` starts indeterminate and is filled by
`i2c_read_reg_n`. -/
def msa311_read_raw {σ : Type} (H : Hardware σ) (msa : msa311_t) (fuel : Nat) (w : World σ) :
    Outcome σ (Option (Int × Int × Int)) :=
  (i2c_read_reg_n H msa.i2c_dev REG_ACC_X_LSB [0, 0, 0, 0, 0, 0] 6 fuel w).bind fun r w1 =>
    if !r.1 then .ok none w1
    else
      let data := r.2
      .ok (some (axis_raw (data.getD 0 0) (data.getD 1 0),
                 axis_raw (data.getD 2 0) (data.getD 3 0),
                 axis_raw (data.getD 4 0) (data.getD 5 0))) w1

/-- The two's-complement reading of the low 12 bits of `u`, as the
specification words it: `u mod 4096` if that is below 2048, and
`u mod 4096 - 4096` if not. -/
def twos_complement_12 (u : Nat) : Int :=
  if u % 4096 < 2048 then ((u % 4096 : Nat) : Int) else ((u % 4096 : Nat) : Int) - 4096

/-! ## The speed computation

The arithmetic of the loop body of `main` in `bike_demo.c` and `graphic.c`, and
of `get_speed` in `hallEffect.c`, from the two timestamps to the branch of the
display.  `unsigned long` is 64 bits wide on the target; a division by zero has
no value. -/

abbrev WHEEL_DIAMETER_IN : Nat := 26
abbrev MS_PER_SEC : Nat := 1000
abbrev SEC_PER_HR : Nat := 3600
abbrev IN_PER_FT : Nat := 12
abbrev FT_PER_KM : Nat := 3281

/-- Reduction of a value to `unsigned long`. -/
def ulong (x : Nat) : Nat := x % 2 ^ 64

/-- Division of `unsigned long` values: no value when the divisor is 0. -/
def udiv (a b : Nat) : Option Nat := if b = 0 then none else some (a / b)

/-- The value of `ms_elapsed = current_msecs - initial_msecs`, from the two
microsecond timestamps. -/
def ms_elapsed (initial_usecs current_usecs : Nat) : Nat :=
  ulong (current_usecs / 1000 + 2 ^ 64 - initial_usecs / 1000 % 2 ^ 64)

/-- The value of `kph_num = WHEEL_DIAMETER_IN * (22) * MS_PER_SEC * SEC_PER_HR`:
a product of `int` constants, converted to `unsigned long`. -/
def kph_num : Nat := ulong (WHEEL_DIAMETER_IN * 22 * MS_PER_SEC * SEC_PER_HR)

/-- The value of `kph_denom = 7 * ms_elapsed * IN_PER_FT * FT_PER_KM`. -/
def kph_denom (ms_elapsed : Nat) : Nat :=
  ulong (ulong (ulong (7 * ms_elapsed) * IN_PER_FT) * FT_PER_KM)

/-- The value of `kph = kph_num / kph_denom`. -/
def kph (ms_elapsed : Nat) : Option Nat := udiv kph_num (kph_denom ms_elapsed)

/-- The value of `mph_denom = 7 * ms_elapsed * in_per_ft * ft_per_mi` in
`get_speed`, with `in_per_ft = 12` and `ft_per_mi = 5280`. -/
def mph_denom (ms_elapsed : Nat) : Nat :=
  ulong (ulong (ulong (7 * ms_elapsed) * 12) * 5280)

/-- The value of `mph_x1000 = 1000 * mph_num / mph_denom` in `get_speed`, with
`mph_num = wheel_diameter_in * (22) * ms_per_sec * sec_per_hr`. -/
def mph_x1000 (ms_elapsed : Nat) : Option Nat :=
  udiv (ulong (1000 * ulong (ulong (ulong (26 * 22) * 1000) * 3600))) (mph_denom ms_elapsed)

/-- The branches of the display. -/
inductive Display
  | green
  | yellow
  | red
  deriving DecidableEq

/-- The branch of
`if (kph >= 0 && kph <= 8) ... else if (kph >= 9 && kph <= 12) ... else if (kph >= 13) ...`
that is taken, `none` if none is. -/
def display (kph : Nat) : Option Display :=
  if kph ≥ 0 ∧ kph ≤ 8 then some .green
  else if kph ≥ 9 ∧ kph ≤ 12 then some .yellow
  else if kph ≥ 13 then some .red
  else none

/-! ## The polling loops of the time-of-flight driver

Two routines of `failed_VL53l0X.c` with their `do ... while` loops.  The loops
have no bound in the source; they take the number of iterations allowed and end
in the outcome `hang` when it is used up. -/

abbrev REG_RESULT_RANGE_STATUS : Nat := 0x14
abbrev REG_SYSRANGE_START : Nat := 0x00
abbrev REG_SYSTEM_INTERRUPT_CLEAR : Nat := 0x0B
abbrev REG_SYSTEM_SEQUENCE_CONFIG : Nat := 0x01
abbrev REG_RESULT_INTERRUPT_STATUS : Nat := 0x13

/-- The enumeration `calibration_type_t`. -/
inductive calibration_type_t
  | CALIBRATION_TYPE_VHV
  | CALIBRATION_TYPE_PHASE
  deriving DecidableEq

/-- The loop
`do { sysrange_start = i2c_read_reg(dev, REG_SYSRANGE_START); } while (sysrange_start & 0x01);`
with at most `polls` iterations. -/
def sysrange_start_loop {σ : Type} (H : Hardware σ) (dev : i2c_device) (fuel : Nat) :
    Nat → World σ → Outcome σ Nat
  | 0, w => .hang w
  | polls + 1, w =>
    (i2c_read_reg H dev REG_SYSRANGE_START fuel w).bind fun sysrange_start w1 =>
      if sysrange_start &&& 0x01 ≠ 0 then sysrange_start_loop H dev fuel polls w1
      else .ok sysrange_start w1

/-- The loop
`do { interrupt_status = i2c_read_reg(dev, REG_RESULT_INTERRUPT_STATUS); } while ((interrupt_status & 0x07) == 0);`
with at most `polls` iterations. -/
def interrupt_status_loop {σ : Type} (H : Hardware σ) (dev : i2c_device) (fuel : Nat) :
    Nat → World σ → Outcome σ Nat
  | 0, w => .hang w
  | polls + 1, w =>
    (i2c_read_reg H dev REG_RESULT_INTERRUPT_STATUS fuel w).bind fun interrupt_status w1 =>
      if interrupt_status &&& 0x07 = 0 then interrupt_status_loop H dev fuel polls w1
      else .ok interrupt_status w1

/-- Embedding of `bool vl53l0x_read_range_single(i2c_device_t *dev, uint16_t *range)`;
`range` is the value `*range` holds. -/
def vl53l0x_read_range_single {σ : Type} (H : Hardware σ) (dev : i2c_device)
    (range fuel polls : Nat) (w : World σ) : Outcome σ Bool :=
  (i2c_write_reg H dev 0x80 0x01 fuel w).bind fun success w1 =>
  (i2c_write_reg H dev 0xFF 0x01 fuel w1).bind fun s2 w2 =>
  (i2c_write_reg H dev 0x00 0x00 fuel w2).bind fun s3 w3 =>
  (i2c_write_reg H dev 0x00 0x01 fuel w3).bind fun s4 w4 =>
  (i2c_write_reg H dev 0xFF 0x00 fuel w4).bind fun s5 w5 =>
  (i2c_write_reg H dev 0x80 0x00 fuel w5).bind fun s6 w6 =>
    let success := success && s2 && s3 && s4 && s5 && s6
    if !success then .ok false w6
    else
      (i2c_write_reg H dev REG_SYSRANGE_START 0x01 fuel w6).bind fun s7 w7 =>
        if !s7 then .ok false w7
        else
          (sysrange_start_loop H dev fuel polls w7).bind fun _ w8 =>
          (interrupt_status_loop H dev fuel polls w8).bind fun _ w9 =>
            if !success then .ok false w9
            else
              (i2c_read_reg H dev (REG_RESULT_RANGE_STATUS + 10) fuel w9).bind
                fun high_byte w10 =>
              (i2c_read_reg H dev (REG_RESULT_RANGE_STATUS + 11) fuel w10).bind
                fun low_byte w11 =>
                let range_comp_val := ((high_byte <<< 8) ||| low_byte) % 65536
                if range ≠ range_comp_val then .ok false w11 else .ok true w11

/-- Embedding of
`static bool perform_single_ref_calibration(i2c_device_t *dev, calibration_type_t calib_type)`. -/
def perform_single_ref_calibration {σ : Type} (H : Hardware σ) (dev : i2c_device)
    (calib_type : calibration_type_t) (fuel polls : Nat) (w : World σ) : Outcome σ Bool :=
  let sequence_config : Nat :=
    match calib_type with
    | .CALIBRATION_TYPE_VHV => 0x01
    | .CALIBRATION_TYPE_PHASE => 0x02
  let sysrange_start : Nat :=
    match calib_type with
    | .CALIBRATION_TYPE_VHV => 0x01 ||| 0x40
    | .CALIBRATION_TYPE_PHASE => 0x01 ||| 0x00
  (i2c_write_reg H dev REG_SYSTEM_SEQUENCE_CONFIG sequence_config fuel w).bind fun s1 w1 =>
    if !s1 then .ok false w1
    else
      (i2c_write_reg H dev REG_SYSRANGE_START sysrange_start fuel w1).bind fun s2 w2 =>
        if !s2 then .ok false w2
        else
          (interrupt_status_loop H dev fuel polls w2).bind fun interrupt_status w3 =>
            if interrupt_status &&& 0x07 = 0 then .ok false w3
            else
              (i2c_write_reg H dev REG_SYSTEM_INTERRUPT_CLEAR 0x01 fuel w3).bind fun s3 w4 =>
                if !s3 then .ok false w4
                else
                  (i2c_write_reg H dev REG_SYSRANGE_START 0x00 fuel w4).bind fun s4 w5 =>
                    if !s4 then .ok false w5 else .ok true w5

/-- Replay on which the seven register writes that open
`vl53l0x_read_range_single` succeed and every later step reports a bus error:
each register read after them fails at its start. -/
def Script.range_reads_fail : Script :=
  ⟨[0x08, 0x18, 0x28, 0x28, 0x08, 0x18, 0x28, 0x28, 0x08, 0x18, 0x28, 0x28,
    0x08, 0x18, 0x28, 0x28, 0x08, 0x18, 0x28, 0x28, 0x08, 0x18, 0x28, 0x28,
    0x08, 0x18, 0x28, 0x28], []⟩

/-- Replay of `perform_single_ref_calibration` on which the four register
writes succeed and the read of the interrupt status between them fails at its
start. -/
def Script.calibration_read_fails : Script :=
  ⟨[0x08, 0x18, 0x28, 0x28, 0x08, 0x18, 0x28, 0x28, 0x00,
    0x08, 0x18, 0x28, 0x28, 0x08, 0x18, 0x28, 0x28], []⟩

/-! ## A control register in one word

The seven bit-fields of `cntr` are declared in one `uint32_t`, and the note in
`wait_completion` says of one of them that it is cleared by writing 1 to it.
The peripheral below has both properties; `regfile` has neither. -/

/-- A peripheral on which the bit-fields of `cntr` are the bits of one word, as
`twi_t` declares them, and `int_flag` is write-1-to-clear, as the note in
`wait_completion` says.  An assignment to a bit-field of `cntr` stores the
whole word, the other bits with the values they read: the flag is cleared if
the bit stored for it is 1 and is left alone if that bit is 0.  Every other
field holds the value last written to it, and reading changes nothing. -/
def cntr_word : Hardware (Field → Nat) where
  read s f := (s f, s)
  write s f v := fun g =>
    if (bit_range .cntr f).isSome then
      if g = .int_flag then
        if (if f = .int_flag then v else s .int_flag) = 1 then 0 else s .int_flag
      else if g = f then v else s g
    else if g = f then v else s g

/-- Registers that all hold 0, except for a pending completion flag. -/
def flag_pending : Field → Nat :=
  fun f => if f = .int_flag then 1 else 0

/-- Replay of a 6-byte read of the acceleration registers on which every step
reports its expected status and the device supplies `F5 80 0C 7F 00 FF`. -/
def Script.accel_tilt : Script :=
  ⟨[0x08, 0x18, 0x28, 0x08, 0x40, 0x50, 0x50, 0x50, 0x50, 0x50, 0x58],
   [0xF5, 0x80, 0x0C, 0x7F, 0x00, 0xFF]⟩

/-! ## Basic facts about outcomes and traces -/

section basics

variable {σ : Type}

@[simp] theorem bind_ok {α β : Type} (a : α) (w : World σ)
    (k : α → World σ → Outcome σ β) : (Outcome.ok a w).bind k = k a w := rfl

@[simp] theorem bind_fatal {α β : Type} (e : Fatal) (w : World σ)
    (k : α → World σ → Outcome σ β) : (Outcome.fatal e w : Outcome σ α).bind k = .fatal e w := rfl

@[simp] theorem bind_hang {α β : Type} (w : World σ)
    (k : α → World σ → Outcome σ β) : (Outcome.hang w : Outcome σ α).bind k = .hang w := rfl

@[simp] theorem bind_null {α β : Type} (w : World σ)
    (k : α → World σ → Outcome σ β) :
    (Outcome.null_deref w : Outcome σ α).bind k = .null_deref w := rfl

theorem value_eq_some {α : Type} {o : Outcome σ α} {a : α} (h : o.value = some a) :
    ∃ w', o = .ok a w' := by
  cases o <;> simp [Outcome.value] at h
  exact ⟨_, by rw [h]⟩

@[simp] theorem bus_trace_nil : bus_trace [] = [] := rfl

@[simp] theorem bus_trace_append (s t : List Event) :
    bus_trace (s ++ t) = bus_trace s ++ bus_trace t := by
  simp [bus_trace]

theorem bus_trace_cons (e : Event) (t : List Event) :
    bus_trace (e :: t) = if e.is_bus then e :: bus_trace t else bus_trace t := by
  simp [bus_trace, List.filter_cons]

theorem statuses_bus (t : List Event) : statuses (bus_trace t) = statuses t := by
  induction t with
  | nil => rfl
  | cons e t ih =>
    rw [bus_trace_cons]
    cases e with
    | rd f v => cases f <;> simp [Event.is_bus, statuses, Event.status] at ih ⊢ <;> exact ih
    | wr f v => cases f <;> simp [Event.is_bus, statuses, Event.status] at ih ⊢ <;> exact ih
    | _ => simpa [Event.is_bus, statuses, Event.status] using ih

theorem data_reads_bus (t : List Event) : data_reads (bus_trace t) = data_reads t := by
  induction t with
  | nil => rfl
  | cons e t ih =>
    rw [bus_trace_cons]
    cases e with
    | rd f v => cases f <;> simp [Event.is_bus, data_reads, Event.data_read] at ih ⊢ <;> exact ih
    | wr f v => cases f <;> simp [Event.is_bus, data_reads, Event.data_read] at ih ⊢ <;> exact ih
    | _ => simpa [Event.is_bus, data_reads, Event.data_read] using ih

theorem data_writes_bus (t : List Event) : data_writes (bus_trace t) = data_writes t := by
  induction t with
  | nil => rfl
  | cons e t ih =>
    rw [bus_trace_cons]
    cases e with
    | rd f v =>
      cases f <;> simp [Event.is_bus, data_writes, Event.data_write] at ih ⊢ <;> exact ih
    | wr f v =>
      cases f <;> simp [Event.is_bus, data_writes, Event.data_write] at ih ⊢ <;> exact ih
    | _ => simpa [Event.is_bus, data_writes, Event.data_write] using ih

theorem triggers_bus (t : List Event) : triggers (bus_trace t) = triggers t := by
  induction t with
  | nil => rfl
  | cons e t ih =>
    rw [bus_trace_cons]
    cases e with
    | rd f v =>
      cases f <;> simp [Event.is_bus, triggers, Event.is_trigger, List.filter_cons] at ih ⊢ <;>
        exact ih
    | wr f v =>
      cases f <;> simp [Event.is_bus, triggers, Event.is_trigger, List.filter_cons] at ih ⊢ <;>
        exact ih
    | _ => simpa [Event.is_bus, triggers, Event.is_trigger, List.filter_cons] using ih

theorem starts_bus (t : List Event) : starts (bus_trace t) = starts t := by
  simp [starts, bus_trace, Event.is_bus]

theorem stops_bus (t : List Event) : stops (bus_trace t) = stops t := by
  simp [stops, bus_trace, Event.is_bus]

theorem Extends.trans {w w1 w2 : World σ} {a b : List Event}
    (h1 : Extends w w1 a) (h2 : Extends w1 w2 b) : Extends w w2 (a ++ b) := by
  obtain ⟨_, t1, e1, b1⟩ := h1
  obtain ⟨tw, t2, e2, b2⟩ := h2
  exact ⟨tw, t1 ++ t2, by rw [e2, e1, List.append_assoc], by rw [bus_trace_append, b1, b2]⟩

theorem Extends.refl (w : World σ) (h : w.twi = true) : Extends w w [] :=
  ⟨h, [], by simp, rfl⟩

/-- The bus actions a call added, when its final world extends the initial one. -/
theorem Extends.events {α : Type} {o : Outcome σ α} {w : World σ} {bt : List Event}
    (h : Extends w o.world bt) : bus_trace (o.events w) = bt := by
  obtain ⟨_, t, e, b⟩ := h
  rw [Outcome.events, e, List.drop_left, b]

end basics

/-! ## The transaction primitives on a bound module -/

section primitives

variable {σ : Type} (H : Hardware σ)

theorem rd_field_spec (f : Field) (w : World σ) (h : w.twi = true) :
    ∃ v w', rd_field H f w = .ok v w' ∧ w'.twi = true ∧ w'.trace = w.trace ++ [.rd f v] := by
  refine ⟨(H.read w.hw f).1 % 2 ^ f.width,
    { w with hw := (H.read w.hw f).2,
             trace := w.trace ++ [.rd f ((H.read w.hw f).1 % 2 ^ f.width)] }, ?_, h, rfl⟩
  simp only [rd_field, h, if_true]

theorem wr_field_spec (f : Field) (v : Nat) (w : World σ) (h : w.twi = true) :
    ∃ w', wr_field H f v w = .ok () w' ∧ w'.twi = true ∧
      w'.trace = w.trace ++ [.wr f (v % 2 ^ f.width)] := by
  refine ⟨{ w with hw := H.write w.hw f (v % 2 ^ f.width),
                    trace := w.trace ++ [.wr f (v % 2 ^ f.width)] }, ?_, h, rfl⟩
  simp only [wr_field, h, if_true]

/-- The polling loop of `wait_completion` returns, and adds only polls of
`int_flag` to the trace. -/
theorem wait_poll_spec (c : Nat) (w : World σ) (h : w.twi = true) :
    ∃ c' w' t, wait_poll H c w = .ok c' w' ∧ w'.twi = true ∧
      w'.trace = w.trace ++ t ∧ bus_trace t = [] := by
  induction c generalizing w with
  | zero => exact ⟨0, w, [], by simp [wait_poll], h, by simp, rfl⟩
  | succ c ih =>
    obtain ⟨v, w1, e1, t1, r1⟩ := rd_field_spec H .int_flag w h
    rw [wait_poll, e1]
    simp only [bind_ok]
    split
    · split
      · exact ⟨0, w1, _, rfl, t1, r1, rfl⟩
      · obtain ⟨c', w', t, h1, h2, h3, h4⟩ := ih w1 t1
        refine ⟨c', w', .rd .int_flag v :: t, h1, h2, ?_, ?_⟩
        · rw [h3, r1]; simp
        · rw [bus_trace_cons]; simpa [Event.is_bus] using h4
    · exact ⟨_, w1, _, rfl, t1, r1, rfl⟩

/-- A completion wait either returns the status it read, or raises the timeout;
besides the status read it adds no bus action to the trace. -/
theorem wait_completion_spec (w : World σ) (h : w.twi = true) :
    (∃ st w' t, wait_completion H w = .ok st w' ∧ w'.twi = true ∧
      w'.trace = w.trace ++ t ∧ bus_trace t = [.rd .stat st]) ∨
    (∃ w' t, wait_completion H w = .fatal .timeout w' ∧ w'.twi = true ∧
      w'.trace = w.trace ++ t ∧ bus_trace t = []) := by
  obtain ⟨w0, e0, t0, r0⟩ := wr_field_spec H .int_flag 1 w h
  obtain ⟨c', w1, t, h1, h2, h3, h4⟩ := wait_poll_spec H (1000 * 1000) w0 t0
  rw [wait_completion, e0]
  simp only [bind_ok]
  rw [h1]
  simp only [bind_ok]
  split
  · right
    refine ⟨w1, .wr .int_flag (1 % 2 ^ Field.int_flag.width) :: t, rfl, h2, ?_, ?_⟩
    · rw [h3, r0]; simp
    · rw [bus_trace_cons]; simpa [Event.is_bus] using h4
  · left
    obtain ⟨st, w2, e2, t2, r2⟩ := rd_field_spec H .stat w1 h2
    rw [e2]
    refine ⟨st, w2, .wr .int_flag (1 % 2 ^ Field.int_flag.width) :: (t ++ [.rd .stat st]),
      rfl, t2, ?_, ?_⟩
    · rw [r2, h3, r0]; simp
    · rw [bus_trace_cons]
      simp [Event.is_bus, h4, bus_trace_cons]

theorem wr_field_ext (f : Field) (v : Nat) (w : World σ) (h : w.twi = true) :
    ∃ w', wr_field H f v w = .ok () w' ∧
      Extends w w' (bus_trace [.wr f (v % 2 ^ f.width)]) := by
  obtain ⟨w', e, t, r⟩ := wr_field_spec H f v w h
  exact ⟨w', e, t, _, r, rfl⟩

theorem wait_completion_ext (w : World σ) (h : w.twi = true) :
    (∃ st w', wait_completion H w = .ok st w' ∧ Extends w w' [.rd .stat st]) ∨
    (∃ w', wait_completion H w = .fatal .timeout w' ∧ Extends w w' []) := by
  rcases wait_completion_spec H w h with ⟨st, w', t, e, tw, r, b⟩ | ⟨w', t, e, tw, r, b⟩
  · exact Or.inl ⟨st, w', e, tw, t, r, b⟩
  · exact Or.inr ⟨w', e, tw, t, r, b⟩

/-- The primitive `do_start` on a bound module: the start bit is set, then either the
status is read and compared, or the wait times out. -/
theorem do_start_spec (e : Nat) (w : World σ) (h : w.twi = true) :
    (∃ st w', do_start H e w = .ok (st == e) w' ∧
      Extends w w' [.wr .m_sta 1, .rd .stat st]) ∨
    (∃ w', do_start H e w = .fatal .timeout w' ∧ Extends w w' [.wr .m_sta 1]) := by
  obtain ⟨w0, e0, x0⟩ := wr_field_ext H .m_sta 1 w h
  have x0' : Extends w w0 [.wr .m_sta 1] := x0
  rw [do_start]
  simp only [h, Bool.true_eq_false, if_false, e0, bind_ok]
  rcases wait_completion_ext H w0 x0.1 with ⟨st, w1, e1, x1⟩ | ⟨w1, e1, x1⟩
  · exact Or.inl ⟨st, w1, by rw [e1]; rfl, x0'.trans x1⟩
  · exact Or.inr ⟨w1, by rw [e1]; rfl, x0'.trans x1⟩

/-- The primitive `do_transmit` on a bound module. -/
theorem do_transmit_spec (b e : Nat) (w : World σ) (h : w.twi = true) :
    (∃ st w', do_transmit H b e w = .ok (st == e) w' ∧
      Extends w w' [.wr .data (b % 256), .rd .stat st]) ∨
    (∃ w', do_transmit H b e w = .fatal .timeout w' ∧
      Extends w w' [.wr .data (b % 256)]) := by
  obtain ⟨w0, e0, x0⟩ := wr_field_ext H .data (b % 256) w h
  have hb : b % 256 % 2 ^ Field.data.width = b % 256 :=
    Nat.mod_eq_of_lt (lt_of_lt_of_le (Nat.mod_lt _ (by norm_num)) (by norm_num [Field.width]))
  rw [hb] at x0
  have x0' : Extends w w0 [.wr .data (b % 256)] := x0
  rw [do_transmit]
  simp only [e0, bind_ok]
  rcases wait_completion_ext H w0 x0.1 with ⟨st, w1, e1, x1⟩ | ⟨w1, e1, x1⟩
  · exact Or.inl ⟨st, w1, by rw [e1]; rfl, x0'.trans x1⟩
  · exact Or.inr ⟨w1, by rw [e1]; rfl, x0'.trans x1⟩

/-- The primitive `do_receive` on a bound module: the byte handed back is the data register
read after the wait, whatever the status. -/
theorem do_receive_spec (is_last : Bool) (w : World σ) (h : w.twi = true) :
    (∃ st d w', do_receive H is_last w = .ok (d % 256, st == recv_expected is_last) w' ∧
      Extends w w' [.wr .ack (ack_response is_last), .rd .stat st, .rd .data d]) ∨
    (∃ w', do_receive H is_last w = .fatal .timeout w' ∧
      Extends w w' [.wr .ack (ack_response is_last)]) := by
  obtain ⟨w0, e0, x0⟩ := wr_field_ext H .ack (ack_response is_last) w h
  have hb : ack_response is_last % 2 ^ Field.ack.width = ack_response is_last := by
    cases is_last <;> simp [ack_response, Field.width]
  rw [hb] at x0
  have x0' : Extends w w0 [.wr .ack (ack_response is_last)] := x0
  rw [do_receive]
  have e0' : wr_field H .ack (if is_last = true then 0 else 1) w = .ok () w0 := e0
  simp only [e0', bind_ok]
  rcases wait_completion_ext H w0 x0.1 with ⟨st, w1, e1, x1⟩ | ⟨w1, e1, x1⟩
  · left
    obtain ⟨d, w2, e2, t2, r2⟩ := rd_field_spec H .data w1 x1.1
    have x2 : Extends w1 w2 [.rd .data d] := ⟨t2, _, r2, rfl⟩
    refine ⟨st, d, w2, ?_, (x0'.trans x1).trans x2⟩
    rw [e1]; simp only [bind_ok, e2]; rfl
  · exact Or.inr ⟨w1, by rw [e1]; rfl, x0'.trans x1⟩

theorem stop_poll_spec (fuel : Nat) (w : World σ) (h : w.twi = true) :
    (∃ w', stop_poll H fuel w = .ok () w' ∧ Extends w w' []) ∨
    (∃ w', stop_poll H fuel w = .hang w' ∧ Extends w w' []) := by
  induction fuel generalizing w with
  | zero => exact Or.inr ⟨w, rfl, Extends.refl w h⟩
  | succ fuel ih =>
    obtain ⟨v, w1, e1, t1, r1⟩ := rd_field_spec H .m_stp w h
    have x1 : Extends w w1 [] := ⟨t1, _, r1, rfl⟩
    rw [stop_poll, e1]
    simp only [bind_ok]
    split
    · rcases ih w1 t1 with ⟨w', e, x⟩ | ⟨w', e, x⟩
      · exact Or.inl ⟨w', e, x1.trans x⟩
      · exact Or.inr ⟨w', e, x1.trans x⟩
    · exact Or.inl ⟨w1, rfl, x1⟩

/-- The primitive `do_stop` on a bound module never raises: it sets the stop bit and then
either returns or is still polling when the fuel is gone; the stop bit is its
only bus action. -/
theorem do_stop_spec (fuel : Nat) (w : World σ) (h : w.twi = true) :
    (∃ w', do_stop H fuel w = .ok () w' ∧ Extends w w' [.wr .m_stp 1]) ∨
    (∃ w', do_stop H fuel w = .hang w' ∧ Extends w w' [.wr .m_stp 1]) := by
  obtain ⟨w0, e0, x0⟩ := wr_field_ext H .m_stp 1 w h
  have x0' : Extends w w0 [.wr .m_stp 1] := x0
  rw [do_stop, e0]
  simp only [bind_ok]
  rcases stop_poll_spec H fuel w0 x0.1 with ⟨w1, e1, x1⟩ | ⟨w1, e1, x1⟩
  · left
    refine ⟨_, by rw [e1]; rfl, ?_⟩
    have x2 : Extends w1 { w1 with trace := w1.trace ++ [.timer_delay_us 30] } [] :=
      ⟨x1.1, _, rfl, rfl⟩
    exact (x0'.trans x1).trans x2
  · exact Or.inr ⟨w1, by rw [e1]; rfl, x0'.trans x1⟩

end primitives

/-! ## Block write -/

section block_write

variable {σ : Type} (H : Hardware σ)

theorem write_loop_false (bytes : List Nat) (rem i : Nat) (w : World σ) :
    write_loop H bytes rem i false w = .ok false w := by
  cases rem <;> simp [write_loop]

/-- The transmit loop of `i2c_block_write`, entered with `success` over the
bytes `post` that follow the already transmitted `pre`.  When a wait times out,
every status read before was the expected one. -/
theorem write_loop_spec (post pre : List Nat) (w : World σ) (h : w.twi = true) :
    (∃ ss w', write_loop H (pre ++ post) post.length pre.length true w =
        .ok (decide (ss = List.replicate post.length DATA_TRANSMIT_ACK)) w' ∧
      Extends w w' (bus_of (xmit_triggers post) ss) ∧
      stops_at_mismatch (List.replicate post.length DATA_TRANSMIT_ACK) ss = true) ∨
    (∃ w' bt k, write_loop H (pre ++ post) post.length pre.length true w =
        .fatal .timeout w' ∧ Extends w w' bt ∧ k < post.length ∧
      statuses bt = List.replicate k DATA_TRANSMIT_ACK ∧ stops bt = 0) := by
  induction post generalizing pre w with
  | nil =>
    left
    exact ⟨[], w, by simp [write_loop], Extends.refl w h, rfl⟩
  | cons b post ih =>
    have hget : (pre ++ b :: post).getD pre.length 0 = b := by
      rw [List.getD_eq_getElem?_getD, List.getElem?_append_right (le_refl _)]
      simp
    rw [List.length_cons, write_loop]
    simp only [if_true, hget]
    rcases do_transmit_spec H b DATA_TRANSMIT_ACK w h with ⟨st, w1, e1, x1⟩ | ⟨w1, e1, x1⟩
    · rw [e1]
      simp only [bind_ok]
      by_cases hst : st = DATA_TRANSMIT_ACK
      · have hpre : pre ++ b :: post = (pre ++ [b]) ++ post := by simp
        have hlen : pre.length + 1 = (pre ++ [b]).length := by simp
        have hb : (st == DATA_TRANSMIT_ACK) = true := by simp [hst]
        rw [hb, hpre, hlen]
        rcases ih (pre ++ [b]) w1 x1.1 with ⟨ss, w', e, x, r⟩ | ⟨w', bt, k, e, x, hk, hs, hp⟩
        · left
          refine ⟨st :: ss, w', ?_, ?_, ?_⟩
          · rw [e]; simp [hst, List.replicate_succ]
          · simpa [xmit_triggers, bus_of] using x1.trans x
          · simpa [stops_at_mismatch, hst, List.replicate_succ] using r
        · right
          refine ⟨w', _, k + 1, e, x1.trans x, by omega, ?_, ?_⟩
          · simp [statuses, Event.status, List.replicate_succ, hst] at hs ⊢
            exact hs
          · simp [stops, List.count_cons] at hp ⊢
            exact hp
      · left
        have hb : (st == DATA_TRANSMIT_ACK) = false := by simp [hst]
        rw [hb, write_loop_false]
        refine ⟨[st], w1, ?_, ?_, ?_⟩
        · simp [hst, List.replicate_succ]
        · simpa [xmit_triggers, bus_of] using x1
        · simp [stops_at_mismatch, hst, List.replicate_succ]
    · right
      exact ⟨w1, _, 0, by rw [e1]; rfl, x1, by omega, rfl, rfl⟩

theorem i2c_block_write_eq (dev : i2c_device) (bytes : List Nat) (n fuel : Nat)
    (w : World σ) :
    i2c_block_write H dev bytes n fuel w =
      (write_body H dev bytes n w).bind fun success w3 =>
        (do_stop H fuel w3).bind fun _ w4 => .ok success w4 := by
  unfold i2c_block_write write_body
  cases do_start H START_TRANSMIT w <;> simp only [bind_ok, bind_fatal, bind_hang, bind_null]
  rename_i a w1
  cases (if a = true then do_transmit H (dev.addr <<< 1 ||| WRITE_BIT) ADDR_W_ACK w1
    else Outcome.ok false w1) <;> simp only [bind_ok, bind_fatal, bind_hang, bind_null]

theorem write_body_spec (dev : i2c_device) (bytes : List Nat) (w : World σ)
    (h : w.twi = true) :
    (∃ ss w', write_body H dev bytes bytes.length w =
        .ok (decide (ss = write_expected bytes.length)) w' ∧
      Extends w w' (bus_of (write_triggers dev bytes) ss) ∧
      stops_at_mismatch (write_expected bytes.length) ss = true) ∨
    (∃ w' bt k, write_body H dev bytes bytes.length w = .fatal .timeout w' ∧
      Extends w w' bt ∧ k < (write_expected bytes.length).length ∧
      statuses bt = (write_expected bytes.length).take k ∧ stops bt = 0) := by
  unfold write_body
  rcases do_start_spec H START_TRANSMIT w h with ⟨s0, w1, e1, x1⟩ | ⟨w1, e1, x1⟩
  · rw [e1]
    simp only [bind_ok]
    by_cases h0 : s0 = START_TRANSMIT
    · have hb : (s0 == START_TRANSMIT) = true := by simp [h0]
      rw [hb]
      simp only [if_true]
      rcases do_transmit_spec H ((dev.addr <<< 1) ||| WRITE_BIT) ADDR_W_ACK w1 x1.1 with
        ⟨s1, w2, e2, x2⟩ | ⟨w2, e2, x2⟩
      · rw [e2]
        simp only [bind_ok]
        by_cases h1 : s1 = ADDR_W_ACK
        · have hb1 : (s1 == ADDR_W_ACK) = true := by simp [h1]
          rw [hb1]
          rcases write_loop_spec H bytes [] w2 x2.1 with
            ⟨ss, w', e, x, r⟩ | ⟨w', bt, k, e, x, hk, hs, hp⟩
          · left
            simp only [List.nil_append, List.length_nil] at e
            refine ⟨s0 :: s1 :: ss, w', ?_, ?_, ?_⟩
            · rw [e]; simp [write_expected, h0, h1]
            · simpa [write_triggers, bus_of, addr_w] using (x1.trans x2).trans x
            · simpa [stops_at_mismatch, write_expected, h0, h1] using r
          · right
            simp only [List.nil_append, List.length_nil] at e
            refine ⟨w', _, k + 2, e, (x1.trans x2).trans x, by simp [write_expected]; omega,
              ?_, ?_⟩
            · simp [statuses, Event.status, write_expected, h0, h1, List.take_replicate,
                Nat.min_eq_left (Nat.le_of_lt hk)] at hs ⊢
              exact hs
            · simp [stops, List.count_cons] at hp ⊢
              exact hp
        · left
          have hb1 : (s1 == ADDR_W_ACK) = false := by simp [h1]
          rw [hb1, write_loop_false]
          refine ⟨[s0, s1], w2, ?_, ?_, ?_⟩
          · simp [write_expected, h0, h1]
          · simpa [write_triggers, bus_of, addr_w] using x1.trans x2
          · simp [stops_at_mismatch, write_expected, h0, h1]
      · right
        rw [e2]
        refine ⟨w2, _, 1, rfl, x1.trans x2, by simp [write_expected], ?_, ?_⟩
        · simp [statuses, Event.status, write_expected, h0]
        · simp [stops, List.count_cons]
    · left
      have hb : (s0 == START_TRANSMIT) = false := by simp [h0]
      rw [hb]
      simp only [Bool.false_eq_true, if_false, bind_ok, write_loop_false]
      refine ⟨[s0], w1, ?_, ?_, ?_⟩
      · simp [write_expected, h0]
      · simpa [write_triggers, bus_of] using x1
      · simp [stops_at_mismatch, write_expected, h0]
  · right
    rw [e1]
    refine ⟨w1, _, 0, rfl, x1, by simp [write_expected], ?_, ?_⟩
    · simp [statuses, Event.status]
    · simp [stops, List.count_cons]

/-- Every run of `i2c_block_write` on a bound module: it observes statuses
`ss`, stopping at the first unexpected one; its bus actions are the triggers
paired with those statuses, then the stop bit; it returns whether all statuses
were the expected ones, unless the stop loop outlasts the fuel.  The only
other outcome is the timeout error of a completion wait, before which every
status read was the expected one and no stop was issued. -/
theorem i2c_block_write_spec (dev : i2c_device) (bytes : List Nat) (fuel : Nat)
    (w : World σ) (h : w.twi = true) :
    (∃ ss w', (i2c_block_write H dev bytes bytes.length fuel w =
          .ok (decide (ss = write_expected bytes.length)) w' ∨
        i2c_block_write H dev bytes bytes.length fuel w = .hang w') ∧
      Extends w w' (bus_of (write_triggers dev bytes) ss ++ [.wr .m_stp 1]) ∧
      stops_at_mismatch (write_expected bytes.length) ss = true) ∨
    (∃ w' bt k, i2c_block_write H dev bytes bytes.length fuel w = .fatal .timeout w' ∧
      Extends w w' bt ∧ k < (write_expected bytes.length).length ∧
      statuses bt = (write_expected bytes.length).take k ∧ stops bt = 0) := by
  rw [i2c_block_write_eq]
  rcases write_body_spec H dev bytes w h with ⟨ss, w3, e, x, r⟩ | ⟨w3, bt, k, e, x, hk⟩
  · left
    rw [e]
    simp only [bind_ok]
    rcases do_stop_spec H fuel w3 x.1 with ⟨w4, e4, x4⟩ | ⟨w4, e4, x4⟩
    · exact ⟨ss, w4, Or.inl (by rw [e4]; rfl), x.trans x4, r⟩
    · exact ⟨ss, w4, Or.inr (by rw [e4]; rfl), x.trans x4, r⟩
  · right
    rw [e]
    exact ⟨w3, bt, k, rfl, x, hk⟩

end block_write

/-! ## Block read -/

section block_read

variable {σ : Type} (H : Hardware σ)

theorem read_loop_false (n rem i : Nat) (bytes : List Nat) (w : World σ) :
    read_loop H n rem i false bytes w = .ok (false, bytes) w := by
  cases rem <;> simp [read_loop]

theorem set_take_succ (l : List Nat) (i x : Nat) (h : i < l.length) :
    (l.set i x).take (i + 1) = l.take i ++ [x] := by
  rw [List.set_eq_take_append_cons_drop, if_pos h]
  have hl : (l.take i).length = i := by simp [Nat.le_of_lt h]
  rw [List.take_append_eq_append_take, hl]
  simp [List.take_of_length_le, hl]

theorem set_eq_take_drop (l : List Nat) (i x : Nat) (h : i < l.length) :
    l.set i x = l.take i ++ [x] ++ l.drop (i + 1) := by
  rw [List.set_eq_take_append_cons_drop, if_pos h]
  simp

/-- The receive loop of `i2c_block_read`, entered with `success` at index `i`
with `rem` slots to go: the slots from `i` on are overwritten, one per receive
step made, with the data register read by that step. -/
theorem read_loop_spec (n rem i : Nat) (bytes : List Nat) (w : World σ)
    (h : w.twi = true) (hlen : i + rem ≤ bytes.length) :
    (∃ ss ds w', ss.length = ds.length ∧ ds.length ≤ rem ∧
      read_loop H n rem i true bytes w =
        .ok (decide (ss = recv_expected_from n i rem),
             bytes.take i ++ ds.map (fun d => d % 256) ++ bytes.drop (i + ds.length)) w' ∧
      Extends w w' (recv_bus n i ss ds) ∧
      stops_at_mismatch (recv_expected_from n i rem) ss = true) ∨
    (∃ w' bt k, read_loop H n rem i true bytes w = .fatal .timeout w' ∧ Extends w w' bt ∧
      k < rem ∧ statuses bt = (recv_expected_from n i rem).take k ∧ stops bt = 0) := by
  induction rem generalizing i bytes w with
  | zero =>
    left
    exact ⟨[], [], w, rfl, le_refl _, by simp [read_loop, recv_expected_from],
      Extends.refl w h, rfl⟩
  | succ rem ih =>
    have hi : i < bytes.length := by omega
    rw [read_loop]
    simp only [if_true]
    rcases do_receive_spec H (i == n - 1) w h with ⟨st, d, w1, e1, x1⟩ | ⟨w1, e1, x1⟩
    · rw [e1]
      simp only [bind_ok]
      by_cases hst : st = recv_expected (i == n - 1)
      · have hb : (st == recv_expected (i == n - 1)) = true := by simp [hst]
        rw [hb]
        have hlen' : i + 1 + rem ≤ (bytes.set i (d % 256)).length := by
          rw [List.length_set]; omega
        rcases ih (i + 1) (bytes.set i (d % 256)) w1 x1.1 hlen' with
          ⟨ss, ds, w', hl, hr, e, x, r⟩ | ⟨w', bt, k, e, x, hk, hs, hp⟩
        · left
          refine ⟨st :: ss, d :: ds, w', by simp [hl], by simp [hr], ?_, ?_, ?_⟩
          · rw [e, set_take_succ _ _ _ hi,
              List.drop_set_of_lt _ _ (by omega : i < i + 1 + ds.length)]
            have hd : i + 1 + ds.length = i + (d :: ds).length := by
              simp only [List.length_cons]; omega
            rw [hd]
            simp [recv_expected_from, hst]
          · simpa [recv_bus] using x1.trans x
          · simpa [stops_at_mismatch, recv_expected_from, hst] using r
        · right
          refine ⟨w', _, k + 1, e, x1.trans x, by omega, ?_, ?_⟩
          · simp [statuses, Event.status, recv_expected_from, hst] at hs ⊢
            exact hs
          · simp [stops, List.count_cons] at hp ⊢
            exact hp
      · left
        have hb : (st == recv_expected (i == n - 1)) = false := by simp [hst]
        rw [hb, read_loop_false]
        refine ⟨[st], [d], w1, rfl, by simp, ?_, ?_, ?_⟩
        · rw [set_eq_take_drop _ _ _ hi]
          simp [recv_expected_from, hst]
        · simpa [recv_bus] using x1
        · simp [stops_at_mismatch, recv_expected_from, hst]
    · right
      exact ⟨w1, _, 0, by rw [e1]; rfl, x1, by omega, rfl, rfl⟩

theorem i2c_block_read_eq (dev : i2c_device) (bytes : List Nat) (n fuel : Nat)
    (w : World σ) :
    i2c_block_read H dev bytes n fuel w =
      (read_body H dev bytes n w).bind fun r w3 =>
        (do_stop H fuel w3).bind fun _ w4 => .ok r w4 := by
  unfold i2c_block_read read_body
  cases do_start H START_TRANSMIT w <;> simp only [bind_ok, bind_fatal, bind_hang, bind_null]
  rename_i a w1
  cases (if a = true then do_transmit H (dev.addr <<< 1 ||| READ_BIT) ADDR_R_ACK w1
    else Outcome.ok false w1) <;> simp only [bind_ok, bind_fatal, bind_hang, bind_null]

theorem read_body_spec (dev : i2c_device) (bytes : List Nat) (n : Nat) (w : World σ)
    (h : w.twi = true) :
    (∃ ss ds w', ds.length = (ss.drop 2).length ∧ ds.length ≤ n ∧
      read_body H dev bytes n w =
        .ok (decide (ss = read_expected n), read_result bytes n ds) w' ∧
      Extends w w' (read_bus dev n ss ds) ∧
      stops_at_mismatch (read_expected n) ss = true) ∨
    (∃ w' bt k, read_body H dev bytes n w = .fatal .timeout w' ∧ Extends w w' bt ∧
      k < (read_expected n).length ∧ statuses bt = (read_expected n).take k ∧
      stops bt = 0) := by
  unfold read_body
  have hnone : read_result bytes n [] = memset bytes SENTINEL n := by
    simp [read_result, memset]
  have hlenE : (recv_expected_from n 0 n).length = n := by
    have : ∀ rem i, (recv_expected_from n i rem).length = rem := by
      intro rem
      induction rem with
      | zero => intro i; rfl
      | succ rem ih => intro i; simp [recv_expected_from, ih]
    exact this n 0
  rcases do_start_spec H START_TRANSMIT w h with ⟨s0, w1, e1, x1⟩ | ⟨w1, e1, x1⟩
  · rw [e1]
    simp only [bind_ok]
    by_cases h0 : s0 = START_TRANSMIT
    · have hb : (s0 == START_TRANSMIT) = true := by simp [h0]
      rw [hb]
      simp only [if_true]
      rcases do_transmit_spec H ((dev.addr <<< 1) ||| READ_BIT) ADDR_R_ACK w1 x1.1 with
        ⟨s1, w2, e2, x2⟩ | ⟨w2, e2, x2⟩
      · rw [e2]
        simp only [bind_ok]
        by_cases h1 : s1 = ADDR_R_ACK
        · have hb1 : (s1 == ADDR_R_ACK) = true := by simp [h1]
          rw [hb1]
          have hlen : 0 + n ≤ (memset bytes SENTINEL n).length := by simp [memset]
          rcases read_loop_spec H n n 0 (memset bytes SENTINEL n) w2 x2.1 hlen with
            ⟨ss, ds, w', hl, hr, e, x, r⟩ | ⟨w', bt, k, e, x, hk, hs, hp⟩
          · left
            refine ⟨s0 :: s1 :: ss, ds, w', by simp [hl], hr, ?_, ?_, ?_⟩
            · rw [e]
              have hm : (memset bytes SENTINEL n).drop (0 + ds.length) =
                  List.replicate (n - ds.length) SENTINEL ++ bytes.drop n := by
                simp only [memset, Nat.zero_add]
                rw [List.drop_append_of_le_length (by simpa using hr)]
                simp
              rw [hm]
              simp [read_expected, read_result, h0, h1]
            · simpa [read_bus, read_triggers, bus_of, addr_r] using (x1.trans x2).trans x
            · simpa [stops_at_mismatch, read_expected, h0, h1] using r
          · right
            refine ⟨w', _, k + 2, e, (x1.trans x2).trans x,
              by simp [read_expected, hlenE]; omega, ?_, ?_⟩
            · simp [statuses, Event.status, read_expected, h0, h1] at hs ⊢
              exact hs
            · simp [stops, List.count_cons] at hp ⊢
              exact hp
        · left
          have hb1 : (s1 == ADDR_R_ACK) = false := by simp [h1]
          rw [hb1, read_loop_false]
          refine ⟨[s0, s1], [], w2, rfl, Nat.zero_le _, ?_, ?_, ?_⟩
          · simp [read_expected, h0, h1, hnone]
          · simpa [read_bus, read_triggers, bus_of, recv_bus, addr_r] using x1.trans x2
          · simp [stops_at_mismatch, read_expected, h0, h1]
      · right
        rw [e2]
        refine ⟨w2, _, 1, rfl, x1.trans x2, by simp [read_expected], ?_, ?_⟩
        · simp [statuses, Event.status, read_expected, h0]
        · simp [stops, List.count_cons]
    · left
      have hb : (s0 == START_TRANSMIT) = false := by simp [h0]
      rw [hb]
      simp only [Bool.false_eq_true, if_false, bind_ok, read_loop_false]
      refine ⟨[s0], [], w1, rfl, Nat.zero_le _, ?_, ?_, ?_⟩
      · simp [read_expected, h0, hnone]
      · simpa [read_bus, read_triggers, bus_of, recv_bus] using x1
      · simp [stops_at_mismatch, read_expected, h0]
  · right
    rw [e1]
    refine ⟨w1, _, 0, rfl, x1, by simp [read_expected], ?_, ?_⟩
    · simp [statuses, Event.status]
    · simp [stops, List.count_cons]

/-- Every run of `i2c_block_read` on a bound module: it observes statuses `ss`,
stopping at the first unexpected one, and makes one receive step per status
after the second, reading `ds` from the data register; its bus actions are
those of `read_bus`, then the stop bit; it returns whether all statuses were
the expected ones, and the destination holds the bytes read followed by the
sentinel, unless the stop loop outlasts the fuel.  The only other outcome is
the timeout error of a completion wait, before which every status read was the
expected one and no stop was issued. -/
theorem i2c_block_read_spec (dev : i2c_device) (bytes : List Nat) (n fuel : Nat)
    (w : World σ) (h : w.twi = true) :
    (∃ ss ds w', ds.length = (ss.drop 2).length ∧ ds.length ≤ n ∧
      (i2c_block_read H dev bytes n fuel w =
          .ok (decide (ss = read_expected n), read_result bytes n ds) w' ∨
        i2c_block_read H dev bytes n fuel w = .hang w') ∧
      Extends w w' (read_bus dev n ss ds ++ [.wr .m_stp 1]) ∧
      stops_at_mismatch (read_expected n) ss = true) ∨
    (∃ w' bt k, i2c_block_read H dev bytes n fuel w = .fatal .timeout w' ∧
      Extends w w' bt ∧ k < (read_expected n).length ∧
      statuses bt = (read_expected n).take k ∧ stops bt = 0) := by
  rw [i2c_block_read_eq]
  rcases read_body_spec H dev bytes n w h with
    ⟨ss, ds, w3, hl, hr, e, x, r⟩ | ⟨w3, bt, k, e, x, hk⟩
  · left
    rw [e]
    simp only [bind_ok]
    rcases do_stop_spec H fuel w3 x.1 with ⟨w4, e4, x4⟩ | ⟨w4, e4, x4⟩
    · exact ⟨ss, ds, w4, hl, hr, Or.inl (by rw [e4]; rfl), x.trans x4, r⟩
    · exact ⟨ss, ds, w4, hl, hr, Or.inr (by rw [e4]; rfl), x.trans x4, r⟩
  · right
    rw [e]
    exact ⟨w3, bt, k, rfl, x, hk⟩

end block_read

/-! ## Views of the expected bus actions -/

section views

theorem statuses_append (s t : List Event) : statuses (s ++ t) = statuses s ++ statuses t := by
  simp [statuses]

theorem data_reads_append (s t : List Event) :
    data_reads (s ++ t) = data_reads s ++ data_reads t := by
  simp [data_reads]

theorem data_writes_append (s t : List Event) :
    data_writes (s ++ t) = data_writes s ++ data_writes t := by
  simp [data_writes]

theorem triggers_append (s t : List Event) : triggers (s ++ t) = triggers s ++ triggers t := by
  simp [triggers]

theorem starts_append (s t : List Event) : starts (s ++ t) = starts s + starts t := by
  simp [starts]

theorem stops_append (s t : List Event) : stops (s ++ t) = stops s + stops t := by
  simp [stops]

/-- The statuses of interleaved trigger writes and status reads are the status
reads, as many as there are triggers. -/
theorem statuses_bus_of (T : List Event) (ss : List Nat)
    (hT : ∀ e ∈ T, e.is_trigger = true) : statuses (bus_of T ss) = ss.take T.length := by
  induction T generalizing ss with
  | nil => cases ss <;> simp [bus_of, statuses]
  | cons e T ih =>
    cases ss with
    | nil => simp [bus_of, statuses]
    | cons s ss =>
      have he : e.status = none := by
        have := hT e (List.mem_cons_self _ _)
        cases e with
        | rd f v => cases f <;> simp [Event.is_trigger] at this
        | wr f v => rfl
        | _ => rfl
      have ih' := ih ss (fun x hx => hT x (List.mem_cons_of_mem _ hx))
      simp only [statuses] at ih'
      simp only [bus_of, statuses]
      rw [List.filterMap_cons_none he,
        List.filterMap_cons_some (rfl : Event.status (.rd .stat s) = some s), ih']
      simp

theorem triggers_bus_of (T : List Event) (ss : List Nat)
    (hT : ∀ e ∈ T, e.is_trigger = true) : triggers (bus_of T ss) = T.take ss.length := by
  induction T generalizing ss with
  | nil => cases ss <;> simp [bus_of, triggers]
  | cons e T ih =>
    cases ss with
    | nil => simp [bus_of, triggers]
    | cons s ss =>
      have he := hT e (List.mem_cons_self _ _)
      have ih' := ih ss (fun x hx => hT x (List.mem_cons_of_mem _ hx))
      simp only [triggers] at ih'
      simp only [bus_of, triggers]
      rw [List.filter_cons_of_pos he, List.filter_cons_of_neg (by simp [Event.is_trigger]), ih']
      simp

theorem data_reads_bus_of (T : List Event) (ss : List Nat)
    (hT : ∀ e ∈ T, e.is_trigger = true) : data_reads (bus_of T ss) = [] := by
  induction T generalizing ss with
  | nil => cases ss <;> simp [bus_of, data_reads]
  | cons e T ih =>
    cases ss with
    | nil => simp [bus_of, data_reads]
    | cons s ss =>
      have he : e.data_read = none := by
        have := hT e (List.mem_cons_self _ _)
        cases e with
        | rd f v => cases f <;> simp [Event.is_trigger] at this
        | wr f v => rfl
        | _ => rfl
      have ih' := ih ss (fun x hx => hT x (List.mem_cons_of_mem _ hx))
      simp only [data_reads] at ih'
      simp only [bus_of, data_reads]
      rw [List.filterMap_cons_none he,
        List.filterMap_cons_none (rfl : Event.data_read (.rd .stat s) = none), ih']

theorem starts_bus_of (T : List Event) (ss : List Nat) :
    starts (bus_of T ss) = starts (T.take ss.length) := by
  induction T generalizing ss with
  | nil => cases ss <;> simp [bus_of, starts]
  | cons e T ih =>
    cases ss with
    | nil => simp [bus_of, starts]
    | cons s ss =>
      have ih' := ih ss
      simp only [starts] at ih'
      simp [bus_of, starts, List.count_cons, ih']

theorem stops_bus_of (T : List Event) (ss : List Nat) :
    stops (bus_of T ss) = stops (T.take ss.length) := by
  induction T generalizing ss with
  | nil => cases ss <;> simp [bus_of, stops]
  | cons e T ih =>
    cases ss with
    | nil => simp [bus_of, stops]
    | cons s ss =>
      have ih' := ih ss
      simp only [stops] at ih'
      simp [bus_of, stops, List.count_cons, ih']

theorem xmit_triggers_are_triggers (bytes : List Nat) :
    ∀ e ∈ xmit_triggers bytes, e.is_trigger = true := by
  intro e he
  simp only [xmit_triggers, List.mem_map] at he
  obtain ⟨b, _, rfl⟩ := he
  rfl

theorem write_triggers_are_triggers (dev : i2c_device) (bytes : List Nat) :
    ∀ e ∈ write_triggers dev bytes, e.is_trigger = true := by
  intro e he
  simp only [write_triggers, List.mem_cons] at he
  rcases he with rfl | rfl | he
  · rfl
  · rfl
  · exact xmit_triggers_are_triggers bytes e he

theorem read_triggers_are_triggers (dev : i2c_device) :
    ∀ e ∈ read_triggers dev, e.is_trigger = true := by
  intro e he
  simp only [read_triggers, List.mem_cons, List.mem_singleton, List.not_mem_nil, or_false] at he
  rcases he with rfl | rfl <;> rfl

theorem count_take_xmit (bytes : List Nat) (k : Nat) (f : Field) (v : Nat) (hf : f ≠ .data) :
    ((xmit_triggers bytes).take k).count (.wr f v) = 0 := by
  rw [List.count_eq_zero]
  intro hmem
  have := List.mem_of_mem_take hmem
  simp only [xmit_triggers, List.mem_map] at this
  obtain ⟨b, _, hb⟩ := this
  injection hb with h1 h2
  exact hf h1.symm

/-- A block write that takes at least its first step sets the start bit once. -/
theorem starts_write_triggers (dev : i2c_device) (bytes : List Nat) (k : Nat) :
    starts ((write_triggers dev bytes).take (k + 1)) = 1 := by
  cases k with
  | zero => simp [write_triggers, starts]
  | succ k =>
    simp only [write_triggers, List.take_succ_cons, starts, List.count_cons]
    simp [count_take_xmit bytes k .m_sta 1 (by decide)]

theorem stops_write_triggers (dev : i2c_device) (bytes : List Nat) (k : Nat) :
    stops ((write_triggers dev bytes).take k) = 0 := by
  cases k with
  | zero => simp [stops]
  | succ k =>
    cases k with
    | zero => simp [write_triggers, stops, List.count_cons]
    | succ k =>
      simp only [write_triggers, List.take_succ_cons, stops, List.count_cons]
      simp [count_take_xmit bytes k .m_stp 1 (by decide)]

theorem statuses_recv_bus (n i : Nat) (ss ds : List Nat) (h : ss.length = ds.length) :
    statuses (recv_bus n i ss ds) = ss := by
  induction ss generalizing i ds with
  | nil => simp [recv_bus, statuses]
  | cons s ss ih =>
    cases ds with
    | nil => simp at h
    | cons d ds =>
      have ih' := ih (i + 1) ds (by simpa using h)
      simp only [statuses] at ih'
      simp [recv_bus, statuses, Event.status, ih']

theorem data_reads_recv_bus (n i : Nat) (ss ds : List Nat) (h : ss.length = ds.length) :
    data_reads (recv_bus n i ss ds) = ds := by
  induction ss generalizing i ds with
  | nil =>
    cases ds with
    | nil => simp [recv_bus, data_reads]
    | cons d ds => simp at h
  | cons s ss ih =>
    cases ds with
    | nil => simp at h
    | cons d ds =>
      have ih' := ih (i + 1) ds (by simpa using h)
      simp only [data_reads] at ih'
      simp [recv_bus, data_reads, Event.data_read, ih']

theorem starts_recv_bus (n i : Nat) (ss ds : List Nat) : starts (recv_bus n i ss ds) = 0 := by
  induction ss generalizing i ds with
  | nil => simp [recv_bus, starts]
  | cons s ss ih =>
    cases ds with
    | nil => simp [recv_bus, starts]
    | cons d ds =>
      have ih' := ih (i + 1) ds
      simp only [starts] at ih'
      simp [recv_bus, starts, List.count_cons, ih']

theorem stops_recv_bus (n i : Nat) (ss ds : List Nat) : stops (recv_bus n i ss ds) = 0 := by
  induction ss generalizing i ds with
  | nil => simp [recv_bus, stops]
  | cons s ss ih =>
    cases ds with
    | nil => simp [recv_bus, stops]
    | cons d ds =>
      have ih' := ih (i + 1) ds
      simp only [stops] at ih'
      simp [recv_bus, stops, List.count_cons, ih']

end views

/-! ## Runs that stop at the first unexpected status -/

section runs

theorem sam_cases (E ss : List Nat) (h : stops_at_mismatch E ss = true) :
    ss = E ∨ ∃ k s, k < E.length ∧ ss = E.take k ++ [s] ∧ E[k]? ≠ some s := by
  induction E generalizing ss with
  | nil =>
    cases ss with
    | nil => exact Or.inl rfl
    | cons s ss => simp [stops_at_mismatch] at h
  | cons e E ih =>
    cases ss with
    | nil => simp [stops_at_mismatch] at h
    | cons s ss =>
      simp only [stops_at_mismatch] at h
      by_cases hs : s = e
      · rw [if_pos hs] at h
        rcases ih ss h with rfl | ⟨k, s0, hk, hss, hne⟩
        · exact Or.inl (by rw [hs])
        · right
          refine ⟨k + 1, s0, by simpa using hk, ?_, ?_⟩
          · rw [hss, hs]; simp
          · simpa using hne
      · rw [if_neg hs] at h
        right
        refine ⟨0, s, by simp, ?_, ?_⟩
        · have : ss = [] := by simpa using h
          rw [this]; simp
        · simpa using fun h' => hs h'.symm

theorem sam_pos (e : Nat) (E ss : List Nat) (h : stops_at_mismatch (e :: E) ss = true) :
    ∃ k, ss.length = k + 1 := by
  cases ss with
  | nil => simp [stops_at_mismatch] at h
  | cons s ss => exact ⟨ss.length, rfl⟩

theorem sam_length (E ss : List Nat) (h : stops_at_mismatch E ss = true) :
    ss.length ≤ E.length := by
  rcases sam_cases E ss h with rfl | ⟨k, s, hk, hss, _⟩
  · exact le_refl _
  · rw [hss]
    simp only [List.length_append, List.length_take, List.length_singleton]
    omega

theorem take_ne_self_append (E : List Nat) (k s : Nat) (hk : k < E.length)
    (hne : E[k]? ≠ some s) : E.take k ++ [s] ≠ E := by
  intro h
  apply hne
  have h1 : (E.take k ++ [s])[k]? = some s := by
    rw [List.getElem?_append_right (by simp [Nat.le_of_lt hk])]
    simp [Nat.min_eq_left (Nat.le_of_lt hk)]
  rw [h] at h1
  exact h1

variable {σ : Type}

theorem world_of_ok_or_hang {α : Type} {o : Outcome σ α} {a : α} {w' : World σ}
    (h : o = .ok a w' ∨ o = .hang w') :
    o.world = w' ∧ o.error = none ∧ (o.value = some a ∨ o.hung = true) := by
  rcases h with h | h <;> rw [h] <;> simp [Outcome.world, Outcome.error, Outcome.value, Outcome.hung]

/-- Discarding or relabelling the value of a call leaves its final world, its
error and whether it hung untouched. -/
theorem bind_relabel {α β : Type} (o : Outcome σ α) (f : α → β) :
    (o.bind fun a w1 => .ok (f a) w1).world = o.world ∧
    (o.bind fun a w1 => .ok (f a) w1).error = o.error ∧
    (o.bind fun a w1 => .ok (f a) w1).hung = o.hung ∧
    (o.bind fun a w1 => .ok (f a) w1).value = o.value.map f := by
  cases o <;> simp [Outcome.bind, Outcome.world, Outcome.error, Outcome.hung, Outcome.value]

end runs

/-! ## Runs of the block operations, in terms of what the trace shows -/

section block_runs

variable {σ : Type} (H : Hardware σ)

theorem write_expected_length (n : Nat) : (write_expected n).length = n + 2 := by
  simp [write_expected]

theorem write_triggers_length (dev : i2c_device) (bytes : List Nat) :
    (write_triggers dev bytes).length = bytes.length + 2 := by
  simp [write_triggers, xmit_triggers]

theorem recv_expected_from_length (n rem i : Nat) : (recv_expected_from n i rem).length = rem := by
  induction rem generalizing i with
  | zero => rfl
  | succ rem ih => simp [recv_expected_from, ih]

theorem read_expected_length (n : Nat) : (read_expected n).length = n + 2 := by
  simp [read_expected, recv_expected_from_length]

/-- A run of `i2c_block_write` on a bound module, read off its trace: unless a
completion wait times out, the statuses read stop at the first unexpected one,
the bus actions are the triggers paired with the statuses and then the stop
bit, and the result, if the stop loop ends, tells whether every status was the
expected one. -/
theorem i2c_block_write_run (dev : i2c_device) (bytes : List Nat) (fuel : Nat)
    (w : World σ) (h : w.twi = true) (o : Outcome σ Bool)
    (ho : o = i2c_block_write H dev bytes bytes.length fuel w) :
    (o.error = none ∧ o.world.twi = true ∧
      bus_trace (o.events w) =
        bus_of (write_triggers dev bytes) (statuses (o.events w)) ++ [.wr .m_stp 1] ∧
      stops_at_mismatch (write_expected bytes.length) (statuses (o.events w)) = true ∧
      (o.value = some (decide (statuses (o.events w) = write_expected bytes.length)) ∨
        o.hung = true)) ∨
    (o.error = some .timeout ∧ stops (o.events w) = 0 ∧
      ∃ k, k < bytes.length + 2 ∧
        statuses (o.events w) = (write_expected bytes.length).take k) := by
  rcases i2c_block_write_spec H dev bytes fuel w h with
    ⟨ss, w', e, x, r⟩ | ⟨w', bt, k, e, x, hk, hs, hp⟩
  · left
    rw [← ho] at e
    obtain ⟨hw, herr, hv⟩ := world_of_ok_or_hang e
    rw [← hw] at x
    have hbus := x.events
    have hlen : ss.length ≤ (write_triggers dev bytes).length := by
      have := sam_length _ _ r
      rw [write_expected_length] at this
      rw [write_triggers_length]
      exact this
    have hst : statuses (o.events w) = ss := by
      rw [← statuses_bus, hbus, statuses_append,
        statuses_bus_of _ _ (write_triggers_are_triggers dev bytes),
        List.take_of_length_le hlen]
      simp [statuses, Event.status]
    rw [hst]
    exact ⟨herr, x.1, hbus, r, hv⟩
  · right
    rw [← ho] at e
    have hw : o.world = w' := by rw [e]; rfl
    rw [← hw] at x
    have hbus := x.events
    refine ⟨by rw [e]; rfl, ?_, k, by simpa [write_expected_length] using hk, ?_⟩
    · rw [← stops_bus, hbus, hp]
    · rw [← statuses_bus, hbus, hs]

/-- A run of `i2c_block_read` on a bound module, read off its trace: unless a
completion wait times out, the statuses read stop at the first unexpected one,
one receive step is made per status after the second, the bus actions are
those of `read_bus` and then the stop bit, and the result, if the stop loop
ends, is whether every status was the expected one together with the
destination: the bytes read from the data register, then the sentinel. -/
theorem i2c_block_read_run (dev : i2c_device) (bytes : List Nat) (n fuel : Nat)
    (w : World σ) (h : w.twi = true) (o : Outcome σ (Bool × List Nat))
    (ho : o = i2c_block_read H dev bytes n fuel w) :
    (o.error = none ∧ o.world.twi = true ∧
      bus_trace (o.events w) =
        read_bus dev n (statuses (o.events w)) (data_reads (o.events w)) ++ [.wr .m_stp 1] ∧
      stops_at_mismatch (read_expected n) (statuses (o.events w)) = true ∧
      (data_reads (o.events w)).length = (statuses (o.events w)).length - 2 ∧
      (o.value = some (decide (statuses (o.events w) = read_expected n),
          read_result bytes n (data_reads (o.events w))) ∨ o.hung = true)) ∨
    (o.error = some .timeout ∧ stops (o.events w) = 0 ∧
      ∃ k, k < n + 2 ∧ statuses (o.events w) = (read_expected n).take k) := by
  rcases i2c_block_read_spec H dev bytes n fuel w h with
    ⟨ss, ds, w', hl, hr, e, x, r⟩ | ⟨w', bt, k, e, x, hk, hs, hp⟩
  · left
    rw [← ho] at e
    obtain ⟨hw, herr, hv⟩ := world_of_ok_or_hang e
    rw [← hw] at x
    have hbus := x.events
    have hst : statuses (o.events w) = ss := by
      rw [← statuses_bus, hbus, statuses_append, read_bus, statuses_append,
        statuses_bus_of _ _ (read_triggers_are_triggers dev),
        statuses_recv_bus _ _ _ _ hl.symm]
      simp [statuses, Event.status, read_triggers]
    have hdr : data_reads (o.events w) = ds := by
      rw [← data_reads_bus, hbus, data_reads_append, read_bus, data_reads_append,
        data_reads_bus_of _ _ (read_triggers_are_triggers dev),
        data_reads_recv_bus _ _ _ _ hl.symm]
      simp [data_reads, Event.data_read]
    rw [hst, hdr]
    exact ⟨herr, x.1, hbus, r, by simpa using hl, hv⟩
  · right
    rw [← ho] at e
    have hw : o.world = w' := by rw [e]; rfl
    rw [← hw] at x
    have hbus := x.events
    refine ⟨by rw [e]; rfl, ?_, k, by simpa [read_expected_length] using hk, ?_⟩
    · rw [← stops_bus, hbus, hp]
    · rw [← statuses_bus, hbus, hs]

end block_runs

/-! ## Hardware that answers at the first poll, and the simulated bus -/

section prompt

theorem rd_field_eq {σ : Type} (H : Hardware σ) (f : Field) (s : σ) (t : List Event) :
    rd_field H f ⟨s, true, t⟩ =
      .ok ((H.read s f).1 % 2 ^ f.width)
        ⟨(H.read s f).2, true, t ++ [.rd f ((H.read s f).1 % 2 ^ f.width)]⟩ := rfl

theorem wr_field_eq {σ : Type} (H : Hardware σ) (f : Field) (v : Nat) (s : σ)
    (t : List Event) :
    wr_field H f v ⟨s, true, t⟩ =
      .ok () ⟨H.write s f (v % 2 ^ f.width), true, t ++ [.wr f (v % 2 ^ f.width)]⟩ := rfl

theorem wait_poll_flag {σ : Type} (H : Hardware σ) (c : Nat) (s : σ) (t : List Event)
    (hf : (H.read s .int_flag).1 % 2 = 1) :
    wait_poll H (c + 1) ⟨s, true, t⟩ =
      .ok (c + 1) ⟨(H.read s .int_flag).2, true, t ++ [.rd .int_flag 1]⟩ := by
  simp [wait_poll, rd_field_eq, Field.width, hf]

/-- On hardware that reports completion at the first poll, a completion wait
clears the flag, polls once and returns the status register. -/
theorem wait_completion_prompt {σ : Type} (H : Hardware σ) (s : σ) (t : List Event)
    (hf : (H.read (H.write s .int_flag 1) .int_flag).1 % 2 = 1) :
    wait_completion H ⟨s, true, t⟩ =
      .ok ((H.read (H.read (H.write s .int_flag 1) .int_flag).2 .stat).1 % 2 ^ 32)
        ⟨(H.read (H.read (H.write s .int_flag 1) .int_flag).2 .stat).2, true,
         t ++ [.wr .int_flag 1, .rd .int_flag 1,
           .rd .stat ((H.read (H.read (H.write s .int_flag 1) .int_flag).2 .stat).1 % 2 ^ 32)]⟩ := by
  have hc : 1000 * 1000 = 999999 + 1 := by norm_num
  rw [wait_completion, hc, wr_field_eq]
  simp only [bind_ok, Field.width]
  rw [show (1 % 2 ^ 1) = 1 from rfl, wait_poll_flag H _ _ _ hf]
  simp [rd_field_eq, Field.width]

theorem stop_poll_prompt {σ : Type} (H : Hardware σ) (fuel : Nat) (s : σ) (t : List Event)
    (hf : (H.read s .m_stp).1 % 2 = 0) :
    stop_poll H (fuel + 1) ⟨s, true, t⟩ =
      .ok () ⟨(H.read s .m_stp).2, true, t ++ [.rd .m_stp 0]⟩ := by
  simp [stop_poll, rd_field_eq, Field.width, hf]

theorem sim_read_int_flag (s : Sim) : sim.read s .int_flag = (s.int_flag, s) := rfl
theorem sim_read_stat (s : Sim) : sim.read s .stat = (s.stat, s) := rfl
theorem sim_read_data (s : Sim) : sim.read s .data = (s.data, s) := rfl
theorem sim_read_m_stp (s : Sim) : sim.read s .m_stp = (0, s) := rfl
theorem sim_write_m_sta (s : Sim) : sim.write s .m_sta 1 = { s with pending := .start } := rfl
theorem sim_write_data (s : Sim) (v : Nat) :
    sim.write s .data v = { s with data := v, pending := .xmit (v % 256) } := rfl
theorem sim_write_ack (s : Sim) (v : Nat) :
    sim.write s .ack v = { s with pending := .recv v } := rfl
theorem sim_write_int_flag (s : Sim) : sim.write s .int_flag 1 = s.perform := rfl
theorem sim_write_m_stp (s : Sim) :
    sim.write s .m_stp 1 = { s with phase := .idle, pending := .nothing } := rfl

theorem sim_start (s : Sim) (t : List Event) :
    ∃ t', do_start sim START_TRANSMIT ⟨s, true, t⟩ =
      .ok true ⟨{ s with phase := .started, stat := START_TRANSMIT, pending := .nothing,
                         int_flag := 1 }, true, t'⟩ := by
  rw [do_start]
  simp only [Bool.true_eq_false, if_false, wr_field_eq, bind_ok, Field.width]
  rw [wait_completion_prompt]
  · simp [sim_read_int_flag, sim_read_stat, sim_write_m_sta, sim_write_int_flag, Sim.perform,
      START_TRANSMIT]
  · simp [sim_read_int_flag, sim_write_m_sta, sim_write_int_flag, Sim.perform]

/-- A transmit on the simulated bus: the controller carries the byte out at
once and the status it reports is compared. -/
theorem sim_xmit (s : Sim) (t : List Event) (b e : Nat) :
    ∃ t', do_transmit sim b e ⟨s, true, t⟩ =
      .ok ((Sim.perform { s with data := b % 256, pending := .xmit (b % 256) }).stat % 2 ^ 32 == e)
        ⟨Sim.perform { s with data := b % 256, pending := .xmit (b % 256) }, true, t'⟩ := by
  have hb : b % 256 % 2 ^ 32 = b % 256 :=
    Nat.mod_eq_of_lt (lt_of_lt_of_le (Nat.mod_lt _ (by norm_num)) (by norm_num))
  have hf : (Sim.perform { s with data := b % 256, pending := .xmit (b % 256) }).int_flag = 1 := by
    simp only [Sim.perform]
    split <;> (try split) <;> (try split) <;> rfl
  rw [do_transmit]
  simp only [wr_field_eq, bind_ok, Field.width, hb]
  rw [wait_completion_prompt]
  · simp [sim_read_int_flag, sim_read_stat, sim_write_data, sim_write_int_flag]
  · simp [sim_read_int_flag, sim_write_data, sim_write_int_flag, hf]

theorem sim_recv (s : Sim) (t : List Event) (is_last : Bool) :
    ∃ t', do_receive sim is_last ⟨s, true, t⟩ =
      .ok ((Sim.perform { s with pending := .recv (ack_response is_last) }).data % 2 ^ 32 % 256,
           (Sim.perform { s with pending := .recv (ack_response is_last) }).stat % 2 ^ 32 ==
             recv_expected is_last)
        ⟨Sim.perform { s with pending := .recv (ack_response is_last) }, true, t'⟩ := by
  have hb : ack_response is_last % 2 ^ 1 = ack_response is_last := by
    cases is_last <;> rfl
  have hf : (Sim.perform { s with pending := .recv (ack_response is_last) }).int_flag = 1 := by
    simp only [Sim.perform]
    split <;> rfl
  rw [do_receive]
  simp only [wr_field_eq, bind_ok, Field.width]
  rw [show (if is_last = true then 0 else 1) = ack_response is_last from rfl, hb,
    wait_completion_prompt]
  · simp [sim_read_int_flag, sim_read_stat, sim_read_data, sim_write_ack, sim_write_int_flag,
      rd_field_eq, Field.width, recv_expected]
  · simp [sim_read_int_flag, sim_write_ack, sim_write_int_flag, hf]

theorem sim_stop (s : Sim) (t : List Event) (fuel : Nat) :
    ∃ t', do_stop sim (fuel + 1) ⟨s, true, t⟩ =
      .ok () ⟨{ s with phase := .idle, pending := .nothing }, true, t'⟩ := by
  rw [do_stop]
  simp only [wr_field_eq, bind_ok, Field.width]
  rw [stop_poll_prompt]
  · simp [sim_read_m_stp, sim_write_m_stp, platform]
  · simp [sim_read_m_stp]

theorem addr_byte_w : ∀ a, a < 128 → ((a <<< 1) ||| WRITE_BIT) % 256 = 2 * a := by decide

theorem addr_byte_r : ∀ a, a < 128 → ((a <<< 1) ||| READ_BIT) % 256 = 2 * a + 1 := by decide

/-- Writing `R`, `V` to the simulated device at its own address succeeds and
stores `V` at `R`. -/
theorem sim_write_reg (A R V fuel : Nat) (s : Sim) (t : List Event)
    (hA : A < 128) (hR : R < 256) (hV : V < 256) (hs : s.dev_addr = A) :
    ∃ s' t', i2c_write_reg sim ⟨A⟩ R V (fuel + 1) ⟨s, true, t⟩ = .ok true ⟨s', true, t'⟩ ∧
      s'.dev_addr = A ∧ s'.mem = Sim.store s.mem R V := by
  have hR' : R % 256 = R := Nat.mod_eq_of_lt hR
  have hV' : V % 256 = V := Nat.mod_eq_of_lt hV
  have h1 : 2 * A / 2 = A := by omega
  have h2 : 2 * A % 2 = 0 := by omega
  rw [i2c_write_reg, i2c_block_write]
  obtain ⟨t1, e1⟩ := sim_start s t
  rw [e1]
  clear e1
  simp only [bind_ok, if_true]
  obtain ⟨t2, e2⟩ := sim_xmit _ t1 ((A <<< 1) ||| WRITE_BIT) ADDR_W_ACK
  rw [e2]
  clear e2
  simp only [addr_byte_w A hA, Sim.perform, hs, h1, h2, if_true, bind_ok]
  rw [show ((ADDR_W_ACK % 2 ^ 32 == ADDR_W_ACK) = true) from rfl]
  simp only [write_loop, if_true, List.getD_cons_zero, List.getD_cons_succ]
  obtain ⟨t3, e3⟩ := sim_xmit _ t2 R DATA_TRANSMIT_ACK
  rw [e3]
  clear e3
  simp only [Sim.perform, hR', bind_ok]
  rw [show ((DATA_TRANSMIT_ACK % 2 ^ 32 == DATA_TRANSMIT_ACK) = true) from rfl]
  simp only [if_true]
  obtain ⟨t4, e4⟩ := sim_xmit _ t3 V DATA_TRANSMIT_ACK
  rw [e4]
  clear e4
  simp only [Sim.perform, hV', bind_ok]
  rw [show ((DATA_TRANSMIT_ACK % 2 ^ 32 == DATA_TRANSMIT_ACK) = true) from rfl]
  obtain ⟨t5, e5⟩ := sim_stop _ t4 fuel
  rw [e5]
  clear e5
  exact ⟨_, t5, rfl, rfl, rfl⟩

/-- Reading register `R` of the simulated device at its own address returns
the value its register file holds at `R`. -/
theorem sim_read_reg (A R fuel : Nat) (s : Sim) (t : List Event)
    (hA : A < 128) (hR : R < 256) (hm : s.mem R < 256) (hs : s.dev_addr = A) :
    ∃ s' t', i2c_read_reg sim ⟨A⟩ R (fuel + 1) ⟨s, true, t⟩ = .ok (s.mem R) ⟨s', true, t'⟩ := by
  have hR' : R % 256 = R := Nat.mod_eq_of_lt hR
  have hm' : s.mem R % 2 ^ 32 % 256 = s.mem R := by
    rw [Nat.mod_eq_of_lt (lt_trans hm (by norm_num)), Nat.mod_eq_of_lt hm]
  have h1 : 2 * A / 2 = A := by omega
  have h2 : 2 * A % 2 = 0 := by omega
  have h3 : (2 * A + 1) / 2 = A := by omega
  have h4 : (2 * A + 1) % 2 = 1 := by omega
  rw [i2c_read_reg, i2c_block_write]
  obtain ⟨t1, e1⟩ := sim_start s t
  rw [e1]
  clear e1
  simp only [bind_ok, if_true]
  obtain ⟨t2, e2⟩ := sim_xmit _ t1 ((A <<< 1) ||| WRITE_BIT) ADDR_W_ACK
  rw [e2]
  clear e2
  simp only [addr_byte_w A hA, Sim.perform, hs, h1, h2, if_true, bind_ok]
  rw [show ((ADDR_W_ACK % 2 ^ 32 == ADDR_W_ACK) = true) from rfl]
  simp only [write_loop, if_true, List.getD_cons_zero]
  obtain ⟨t3, e3⟩ := sim_xmit _ t2 R DATA_TRANSMIT_ACK
  rw [e3]
  clear e3
  simp only [Sim.perform, hR', bind_ok]
  rw [show ((DATA_TRANSMIT_ACK % 2 ^ 32 == DATA_TRANSMIT_ACK) = true) from rfl]
  obtain ⟨t4, e4⟩ := sim_stop _ t3 fuel
  rw [e4]
  clear e4
  simp only [bind_ok, Bool.not_true, Bool.false_eq_true, if_false]
  rw [i2c_block_read]
  obtain ⟨t5, e5⟩ := sim_start _ t4
  rw [e5]
  clear e5
  simp only [bind_ok, if_true]
  obtain ⟨t6, e6⟩ := sim_xmit _ t5 ((A <<< 1) ||| READ_BIT) ADDR_R_ACK
  rw [e6]
  clear e6
  simp only [addr_byte_r A hA, Sim.perform, h3, h4, if_true, bind_ok,
    (by decide : ¬ ((1 : Nat) = 0)), if_false]
  rw [show ((ADDR_R_ACK % 2 ^ 32 == ADDR_R_ACK) = true) from rfl]
  simp only [read_loop, if_true]
  obtain ⟨t7, e7⟩ := sim_recv _ t6 (0 == 1 - 1)
  rw [e7]
  clear e7
  simp only [Sim.perform, bind_ok]
  obtain ⟨t8, e8⟩ := sim_stop _ t7 fuel
  rw [e8]
  clear e8
  simp only [bind_ok, hm']
  exact ⟨_, t8, rfl⟩

end prompt

/-! ## The register API -/

section register_api

variable {σ : Type} (H : Hardware σ)

theorem statuses_write_bt (dev : i2c_device) (bytes : List Nat) (ss : List Nat)
    (h : stops_at_mismatch (write_expected bytes.length) ss = true) :
    statuses (bus_of (write_triggers dev bytes) ss ++ [.wr .m_stp 1]) = ss := by
  have hlen : ss.length ≤ (write_triggers dev bytes).length := by
    have := sam_length _ _ h
    rw [write_expected_length] at this
    rw [write_triggers_length]
    exact this
  rw [statuses_append, statuses_bus_of _ _ (write_triggers_are_triggers dev bytes),
    List.take_of_length_le hlen]
  simp [statuses, Event.status]

theorem data_reads_write_bt (dev : i2c_device) (bytes : List Nat) (ss : List Nat) :
    data_reads (bus_of (write_triggers dev bytes) ss ++ [.wr .m_stp 1]) = [] := by
  rw [data_reads_append, data_reads_bus_of _ _ (write_triggers_are_triggers dev bytes)]
  simp [data_reads, Event.data_read]

theorem statuses_read_bt (dev : i2c_device) (n : Nat) (ss ds : List Nat)
    (hl : ds.length = (ss.drop 2).length) :
    statuses (read_bus dev n ss ds ++ [.wr .m_stp 1]) = ss := by
  rw [statuses_append, read_bus, statuses_append,
    statuses_bus_of _ _ (read_triggers_are_triggers dev),
    statuses_recv_bus _ _ _ _ hl.symm]
  simp [statuses, Event.status, read_triggers]

theorem data_reads_read_bt (dev : i2c_device) (n : Nat) (ss ds : List Nat)
    (hl : ds.length = (ss.drop 2).length) :
    data_reads (read_bus dev n ss ds ++ [.wr .m_stp 1]) = ds := by
  rw [data_reads_append, read_bus, data_reads_append,
    data_reads_bus_of _ _ (read_triggers_are_triggers dev),
    data_reads_recv_bus _ _ _ _ hl.symm]
  simp [data_reads, Event.data_read]

/-- Every run of `i2c_read_reg_n` on a bound module.  Either the selector write
is all there is (one of its statuses was unexpected and the call returns false
with the destination filled with the sentinel, or its stop loop outlasts the
fuel); or the selector write saw its three expected statuses and the block
read follows; or a completion wait times out, every status read before being
the expected one. -/
theorem i2c_read_reg_n_spec (dev : i2c_device) (reg : Nat) (bytes : List Nat) (n fuel : Nat)
    (w : World σ) (h : w.twi = true) (o : Outcome σ (Bool × List Nat))
    (ho : o = i2c_read_reg_n H dev reg bytes n fuel w) :
    (∃ ss1, Extends w o.world (bus_of (write_triggers dev [reg]) ss1 ++ [.wr .m_stp 1]) ∧
      stops_at_mismatch (write_expected 1) ss1 = true ∧ o.error = none ∧
      ((ss1 ≠ write_expected 1 ∧ o.value = some (false, memset bytes SENTINEL n)) ∨
        o.hung = true)) ∨
    (∃ ss2 ds, Extends w o.world
        ((bus_of (write_triggers dev [reg]) (write_expected 1) ++ [.wr .m_stp 1]) ++
          (read_bus dev n ss2 ds ++ [.wr .m_stp 1])) ∧
      stops_at_mismatch (read_expected n) ss2 = true ∧
      ds.length = (ss2.drop 2).length ∧ ds.length ≤ n ∧ o.error = none ∧
      (o.value = some (decide (ss2 = read_expected n), read_result bytes n ds) ∨
        o.hung = true)) ∨
    (o.error = some .timeout ∧ ∃ bt k, Extends w o.world bt ∧
      k < (write_expected 1 ++ read_expected n).length ∧
      statuses bt = (write_expected 1 ++ read_expected n).take k) := by
  have hmm : read_result (memset bytes SENTINEL n) n = read_result bytes n := by
    funext ds
    simp [read_result, memset]
  rw [i2c_read_reg_n] at ho
  rcases i2c_block_write_spec H dev [reg] fuel w h with
    ⟨ss1, w1, e1, x1, r1⟩ | ⟨w1, bt, k, e1, x1, hk, hs, hp⟩
  · simp only [List.length_singleton] at e1 r1
    rcases e1 with e1 | e1
    · rw [e1] at ho
      simp only [bind_ok] at ho
      by_cases hss : ss1 = write_expected 1
      · -- the selector write succeeded: the block read runs
        have hd : decide (ss1 = write_expected 1) = true := by simp [hss]
        rw [hd] at ho
        simp only [Bool.not_true, Bool.false_eq_true, if_false] at ho
        rw [hss] at x1
        rcases i2c_block_read_spec H dev (memset bytes SENTINEL n) n fuel w1 x1.1 with
          ⟨ss2, ds, w2, hl, hr, e2, x2, r2⟩ | ⟨w2, bt2, k2, e2, x2, hk2, hs2, hp2⟩
        · right; left
          rw [hmm] at e2
          rw [← ho] at e2
          obtain ⟨hw, herr, hv⟩ := world_of_ok_or_hang e2
          rw [← hw] at x2
          exact ⟨ss2, ds, x1.trans x2, r2, hl, hr, herr, hv⟩
        · right; right
          rw [e2] at ho
          refine ⟨by rw [ho]; rfl, _, (write_expected 1).length + k2,
            by rw [ho]; exact x1.trans x2, ?_, ?_⟩
          · simp only [List.length_append]; omega
          · rw [statuses_append, statuses_write_bt dev [reg] (write_expected 1) rfl, hs2,
              List.take_append]
      · left
        have hd : decide (ss1 = write_expected 1) = false := by simp [hss]
        rw [hd] at ho
        simp only [Bool.not_false, if_true] at ho
        refine ⟨ss1, by rw [ho]; exact x1, r1, by rw [ho]; rfl, Or.inl ⟨hss, by rw [ho]; rfl⟩⟩
    · rw [e1] at ho
      simp only [bind_hang] at ho
      left
      exact ⟨ss1, by rw [ho]; exact x1, r1, by rw [ho]; rfl, Or.inr (by rw [ho]; rfl)⟩
  · right; right
    simp only [List.length_singleton] at e1 hk hs
    rw [e1] at ho
    simp only [bind_fatal] at ho
    refine ⟨by rw [ho]; rfl, bt, k, by rw [ho]; exact x1, ?_, ?_⟩
    · simp only [List.length_append]; omega
    · rw [hs, List.take_append_of_le_length (Nat.le_of_lt hk)]

/-- Every run of `i2c_read_reg` on a bound module, in the same three cases as
`i2c_read_reg_n`: the value returned is the sentinel unless the selector write
and the one-byte read saw all their expected statuses, and then it is the byte
the receive step took from the data register. -/
theorem i2c_read_reg_spec (dev : i2c_device) (reg fuel : Nat)
    (w : World σ) (h : w.twi = true) (o : Outcome σ Nat)
    (ho : o = i2c_read_reg H dev reg fuel w) :
    (∃ ss1, Extends w o.world (bus_of (write_triggers dev [reg]) ss1 ++ [.wr .m_stp 1]) ∧
      stops_at_mismatch (write_expected 1) ss1 = true ∧ o.error = none ∧
      ((ss1 ≠ write_expected 1 ∧ o.value = some SENTINEL) ∨ o.hung = true)) ∨
    (∃ ss2 ds, Extends w o.world
        ((bus_of (write_triggers dev [reg]) (write_expected 1) ++ [.wr .m_stp 1]) ++
          (read_bus dev 1 ss2 ds ++ [.wr .m_stp 1])) ∧
      stops_at_mismatch (read_expected 1) ss2 = true ∧
      ds.length = (ss2.drop 2).length ∧ ds.length ≤ 1 ∧ o.error = none ∧
      (o.value = some (if ss2 = read_expected 1 then (read_result [0] 1 ds).getD 0 0
          else SENTINEL) ∨ o.hung = true)) ∨
    (o.error = some .timeout ∧ ∃ bt k, Extends w o.world bt ∧
      k < (write_expected 1 ++ read_expected 1).length ∧
      statuses bt = (write_expected 1 ++ read_expected 1).take k) := by
  rw [i2c_read_reg] at ho
  rcases i2c_block_write_spec H dev [reg] fuel w h with
    ⟨ss1, w1, e1, x1, r1⟩ | ⟨w1, bt, k, e1, x1, hk, hs, hp⟩
  · simp only [List.length_singleton] at e1 r1
    rcases e1 with e1 | e1
    · rw [e1] at ho
      simp only [bind_ok] at ho
      by_cases hss : ss1 = write_expected 1
      · have hd : decide (ss1 = write_expected 1) = true := by simp [hss]
        rw [hd] at ho
        simp only [Bool.not_true, Bool.false_eq_true, if_false] at ho
        rw [hss] at x1
        rcases i2c_block_read_spec H dev [0] 1 fuel w1 x1.1 with
          ⟨ss2, ds, w2, hl, hr, e2, x2, r2⟩ | ⟨w2, bt2, k2, e2, x2, hk2, hs2, hp2⟩
        · right; left
          refine ⟨ss2, ds, ?_, r2, hl, hr, ?_, ?_⟩
          · rcases e2 with e2 | e2
            · rw [e2] at ho
              simp only [bind_ok] at ho
              have hw : o.world = w2 := by
                rw [ho]; split <;> rfl
              rw [hw]; exact x1.trans x2
            · rw [e2] at ho
              rw [ho]; exact x1.trans x2
          · rcases e2 with e2 | e2
            · rw [e2] at ho
              simp only [bind_ok] at ho
              rw [ho]; split <;> rfl
            · rw [e2] at ho
              rw [ho]; rfl
          · rcases e2 with e2 | e2
            · left
              rw [e2] at ho
              simp only [bind_ok] at ho
              rw [ho]
              by_cases h2 : ss2 = read_expected 1
              · simp [h2, Outcome.value]
              · simp [h2, Outcome.value]
            · right
              rw [e2] at ho
              rw [ho]; rfl
        · right; right
          rw [e2] at ho
          refine ⟨by rw [ho]; rfl, _, (write_expected 1).length + k2,
            by rw [ho]; exact x1.trans x2, ?_, ?_⟩
          · simp only [List.length_append]; omega
          · rw [statuses_append, statuses_write_bt dev [reg] (write_expected 1) rfl, hs2,
              List.take_append]
      · left
        have hd : decide (ss1 = write_expected 1) = false := by simp [hss]
        rw [hd] at ho
        simp only [Bool.not_false, if_true] at ho
        refine ⟨ss1, by rw [ho]; exact x1, r1, by rw [ho]; rfl, Or.inl ⟨hss, by rw [ho]; rfl⟩⟩
    · rw [e1] at ho
      simp only [bind_hang] at ho
      left
      exact ⟨ss1, by rw [ho]; exact x1, r1, by rw [ho]; rfl, Or.inr (by rw [ho]; rfl)⟩
  · right; right
    simp only [List.length_singleton] at e1 hk hs
    rw [e1] at ho
    simp only [bind_fatal] at ho
    refine ⟨by rw [ho]; rfl, bt, k, by rw [ho]; exact x1, ?_, ?_⟩
    · simp only [List.length_append]; omega
    · rw [hs, List.take_append_of_le_length (Nat.le_of_lt hk)]

end register_api

/-! ## When a call does not return -/

section hangs

variable {σ : Type} (H : Hardware σ)

theorem bind_eq_hang {α β : Type} {o : Outcome σ α} {k : α → World σ → Outcome σ β}
    {w' : World σ} (h : o.bind k = .hang w') :
    o = .hang w' ∨ ∃ a w1, o = .ok a w1 ∧ k a w1 = .hang w' := by
  cases o with
  | ok a w1 => exact Or.inr ⟨a, w1, rfl, h⟩
  | fatal e w1 => simp [Outcome.bind] at h
  | hang w1 =>
    simp only [bind_hang] at h
    injection h with h
    exact Or.inl (by rw [h])
  | null_deref w1 => simp [Outcome.bind] at h

theorem hung_eq_hang {α : Type} {o : Outcome σ α} (h : o.hung = true) : o = .hang o.world := by
  cases o <;> simp [Outcome.hung] at h
  rfl

theorem stop_poll_hang (fuel : Nat) (w w' : World σ) (h : stop_poll H fuel w = .hang w') :
    w'.trace = w.trace ++ List.replicate fuel (.rd .m_stp 1) := by
  induction fuel generalizing w with
  | zero =>
    simp only [stop_poll] at h
    injection h with h
    rw [← h]; simp
  | succ fuel ih =>
    rw [stop_poll, rd_field] at h
    by_cases ht : w.twi = true
    · simp only [ht, if_true, bind_ok] at h
      split at h
      · rename_i hv
        have := ih _ h
        rw [this, hv, List.replicate_succ]
        simp
      · exact absurd h (by simp)
    · simp only [ht, Bool.false_eq_true, if_false, bind_null] at h
      exact absurd h (by simp)

/-- The primitive `do_stop` hangs only with the stop bit read as 1 at each of its `fuel`
polls. -/
theorem do_stop_hang (fuel : Nat) (w w' : World σ) (h : do_stop H fuel w = .hang w') :
    StopStuck fuel w'.trace := by
  rw [do_stop, wr_field] at h
  by_cases ht : w.twi = true
  · simp only [ht, if_true, bind_ok] at h
    rcases bind_eq_hang h with h1 | ⟨_, w1, _, h1⟩
    · exact ⟨_, stop_poll_hang H fuel _ w' h1⟩
    · simp [platform] at h1
  · simp only [ht, Bool.false_eq_true, if_false, bind_null] at h
    exact absurd h (by simp)

theorem i2c_block_write_hang (dev : i2c_device) (bytes : List Nat) (fuel : Nat)
    (w w' : World σ) (htwi : w.twi = true)
    (h : i2c_block_write H dev bytes bytes.length fuel w = .hang w') :
    StopStuck fuel w'.trace := by
  rw [i2c_block_write_eq] at h
  rcases bind_eq_hang h with h1 | ⟨_, w3, _, h1⟩
  · rcases write_body_spec H dev bytes w htwi with ⟨_, _, e, _⟩ | ⟨_, _, _, e, _⟩ <;>
      rw [e] at h1 <;> exact absurd h1 (by simp)
  · rcases bind_eq_hang h1 with h2 | ⟨_, _, _, h2⟩
    · exact do_stop_hang H fuel w3 w' h2
    · exact absurd h2 (by simp)

theorem i2c_block_read_hang (dev : i2c_device) (bytes : List Nat) (n fuel : Nat)
    (w w' : World σ) (htwi : w.twi = true)
    (h : i2c_block_read H dev bytes n fuel w = .hang w') :
    StopStuck fuel w'.trace := by
  rw [i2c_block_read_eq] at h
  rcases bind_eq_hang h with h1 | ⟨_, w3, _, h1⟩
  · rcases read_body_spec H dev bytes n w htwi with ⟨_, _, _, _, _, e, _⟩ | ⟨_, _, _, e, _⟩ <;>
      rw [e] at h1 <;> exact absurd h1 (by simp)
  · rcases bind_eq_hang h1 with h2 | ⟨_, _, _, h2⟩
    · exact do_stop_hang H fuel w3 w' h2
    · exact absurd h2 (by simp)

/-- A block write on a bound module fails to return only by a timeout error or
with the stop bit stuck at 1 through all the polls the fuel allows. -/
theorem i2c_block_write_hung (dev : i2c_device) (bytes : List Nat) (fuel : Nat)
    (w : World σ) (htwi : w.twi = true)
    (h : (i2c_block_write H dev bytes bytes.length fuel w).hung = true) :
    StopStuck fuel (i2c_block_write H dev bytes bytes.length fuel w).world.trace :=
  i2c_block_write_hang H dev bytes fuel w _ htwi (hung_eq_hang h)

theorem i2c_block_read_hung (dev : i2c_device) (bytes : List Nat) (n fuel : Nat)
    (w : World σ) (htwi : w.twi = true)
    (h : (i2c_block_read H dev bytes n fuel w).hung = true) :
    StopStuck fuel (i2c_block_read H dev bytes n fuel w).world.trace :=
  i2c_block_read_hang H dev bytes n fuel w _ htwi (hung_eq_hang h)

theorem block_write_ok_twi (dev : i2c_device) (bytes : List Nat) (fuel : Nat)
    (w w1 : World σ) (b : Bool) (htwi : w.twi = true)
    (h : i2c_block_write H dev bytes bytes.length fuel w = .ok b w1) : w1.twi = true := by
  rcases i2c_block_write_spec H dev bytes fuel w htwi with
    ⟨_, w', e, x, _⟩ | ⟨_, _, _, e, _⟩
  · rcases e with e | e
    · rw [h] at e
      injection e with _ hw
      rw [hw]; exact x.1
    · rw [h] at e; exact absurd e (by simp)
  · rw [h] at e; exact absurd e (by simp)

theorem i2c_read_reg_n_hung (dev : i2c_device) (reg : Nat) (bytes : List Nat) (n fuel : Nat)
    (w : World σ) (htwi : w.twi = true)
    (h : (i2c_read_reg_n H dev reg bytes n fuel w).hung = true) :
    StopStuck fuel (i2c_read_reg_n H dev reg bytes n fuel w).world.trace := by
  have h0 := hung_eq_hang h
  generalize (i2c_read_reg_n H dev reg bytes n fuel w).world = w' at h0 ⊢
  rw [i2c_read_reg_n] at h0
  rcases bind_eq_hang h0 with h1 | ⟨ok1, w1, e1, h1⟩
  · exact i2c_block_write_hang H dev [reg] fuel w w' htwi h1
  · cases ok1 with
    | false => simp at h1
    | true =>
      simp only [Bool.not_true, Bool.false_eq_true, if_false] at h1
      exact i2c_block_read_hang H dev _ n fuel w1 w'
        (block_write_ok_twi H dev [reg] fuel w w1 true htwi e1) h1

theorem i2c_read_reg_hung (dev : i2c_device) (reg fuel : Nat)
    (w : World σ) (htwi : w.twi = true)
    (h : (i2c_read_reg H dev reg fuel w).hung = true) :
    StopStuck fuel (i2c_read_reg H dev reg fuel w).world.trace := by
  have h0 := hung_eq_hang h
  generalize (i2c_read_reg H dev reg fuel w).world = w' at h0 ⊢
  rw [i2c_read_reg] at h0
  rcases bind_eq_hang h0 with h1 | ⟨ok1, w1, e1, h1⟩
  · exact i2c_block_write_hang H dev [reg] fuel w w' htwi h1
  · cases ok1 with
    | false => simp at h1
    | true =>
      simp only [Bool.not_true, Bool.false_eq_true, if_false] at h1
      rcases bind_eq_hang h1 with h2 | ⟨r, w2, _, h2⟩
      · exact i2c_block_read_hang H dev _ 1 fuel w1 w'
          (block_write_ok_twi H dev [reg] fuel w w1 true htwi e1) h2
      · split at h2 <;> exact absurd h2 (by simp)

end hangs

theorem wait_poll_never {σ : Type} (H : Hardware σ)
    (hflag : ∀ s, (H.read s .int_flag).1 % 2 = 0) (c : Nat) (w : World σ)
    (h : w.twi = true) :
    ∃ w', wait_poll H (c + 1) w = .ok 0 w' ∧ w'.twi = true ∧
      w'.trace = w.trace ++ List.replicate (c + 1) (.rd .int_flag 0) := by
  induction c generalizing w with
  | zero =>
    refine ⟨⟨(H.read w.hw .int_flag).2, true, w.trace ++ [.rd .int_flag 0]⟩, ?_, rfl, rfl⟩
    simp [wait_poll, rd_field, h, Field.width, hflag]
  | succ c ih =>
    obtain ⟨w', e, t, r⟩ := ih ⟨(H.read w.hw .int_flag).2, true, w.trace ++ [.rd .int_flag 0]⟩ rfl
    refine ⟨w', ?_, t, ?_⟩
    · rw [wait_poll]
      simp only [rd_field, h, if_true, Field.width, pow_one, hflag, bind_ok,
        Nat.add_one_ne_zero, if_false]
      exact e
    · rw [r]
      simp [List.replicate_succ]

/-- Claim C1. On the simulated bus, whose device acknowledges its own address
and keeps the last value written to each register: for every 7-bit address
`A`, register index `R` and byte `V`, `i2c_write_reg` to the device at `A`
returns true, and the `i2c_read_reg` of `R` that follows returns `V`.  This
holds from any state of a bound module and with any fuel of at least one
stop poll. -/
theorem C1_write_then_read_round_trip (A R V fuel1 fuel2 : Nat) (w : World Sim)
    (hA : A < 128) (hR : R < 256) (hV : V < 256) (htwi : w.twi = true)
    (hdev : w.hw.dev_addr = A) :
    (i2c_write_reg sim ⟨A⟩ R V (fuel1 + 1) w).value = some true ∧
    (i2c_read_reg sim ⟨A⟩ R (fuel2 + 1)
      (i2c_write_reg sim ⟨A⟩ R V (fuel1 + 1) w).world).value = some V := by
  obtain ⟨s, twi, t⟩ := w
  simp only at htwi hdev
  subst htwi
  obtain ⟨s1, t1, e1, a1, m1⟩ := sim_write_reg A R V fuel1 s t hA hR hV hdev
  have hm : s1.mem R = V := by rw [m1]; simp [Sim.store]
  obtain ⟨s2, t2, e2⟩ := sim_read_reg A R fuel2 s1 t1 hA hR (by rw [hm]; exact hV) a1
  rw [e1]
  refine ⟨rfl, ?_⟩
  simp only [Outcome.world]
  rw [e2, hm]
  rfl

/-- Witness for C1: the accelerometer at `0x62`, register `0x0F` (range
select), value `0x01`. -/
theorem C1_witness :
    (0x62 < 128 ∧ 0x0F < 256 ∧ 0x01 < 256) ∧
    (i2c_write_reg sim ⟨0x62⟩ 0x0F 0x01 1 (World.ready (Sim.idle 0x62 fun _ => 0))).value =
      some true ∧
    (i2c_read_reg sim ⟨0x62⟩ 0x0F 1
      (i2c_write_reg sim ⟨0x62⟩ 0x0F 0x01 1
        (World.ready (Sim.idle 0x62 fun _ => 0))).world).value = some 0x01 :=
  ⟨by decide,
   C1_write_then_read_round_trip 0x62 0x0F 0x01 0 0 (World.ready (Sim.idle 0x62 fun _ => 0))
     (by decide) (by decide) (by decide) rfl rfl⟩

/-- Claim C5. If the hardware never sets the interrupt-pending flag (every read
of `int_flag` yields 0), `wait_completion` on a bound module ends by raising the
timeout error, after clearing the flag and polling it exactly 1,000,000 times;
it makes no other register access. -/
theorem C5_wait_completion_times_out {σ : Type} (H : Hardware σ) (w : World σ)
    (htwi : w.twi = true) (hflag : ∀ s, (H.read s .int_flag).1 % 2 = 0) :
    (wait_completion H w).error = some .timeout ∧
    (wait_completion H w).events w =
      .wr .int_flag 1 :: List.replicate 1000000 (.rd .int_flag 0) := by
  have hc : 1000 * 1000 = 999999 + 1 := by norm_num
  obtain ⟨w', e, t, r⟩ := wait_poll_never H hflag 999999
    ⟨H.write w.hw .int_flag 1, true, w.trace ++ [.wr .int_flag 1]⟩ rfl
  have hwc : wait_completion H w = .fatal .timeout w' := by
    rw [wait_completion, hc]
    simp only [wr_field, htwi, if_true, Field.width, bind_ok]
    rw [show (1 % 2 ^ 1) = 1 from rfl, e]
    rfl
  rw [hwc]
  refine ⟨rfl, ?_⟩
  simp only [Outcome.events, Outcome.world, r]
  rw [List.append_assoc, List.drop_left]
  rfl

/-- Witness for C5: the peripheral on which every register reads 0. -/
theorem C5_witness :
    (World.ready ()).twi = true ∧ (∀ s, (unresponsive.read s .int_flag).1 % 2 = 0) ∧
    (wait_completion unresponsive (World.ready ())).error = some .timeout ∧
    (wait_completion unresponsive (World.ready ())).events (World.ready ()) =
      .wr .int_flag 1 :: List.replicate 1000000 (.rd .int_flag 0) :=
  ⟨rfl, fun _ => rfl,
   C5_wait_completion_times_out unresponsive (World.ready ()) rfl (fun _ => rfl)⟩

section read_claims

variable {σ : Type}

theorem Extends.statuses_eq {α : Type} {o : Outcome σ α} {w : World σ} {bt : List Event}
    (h : Extends w o.world bt) : statuses (o.events w) = statuses bt := by
  rw [← statuses_bus, h.events]

theorem Extends.data_reads_eq {α : Type} {o : Outcome σ α} {w : World σ} {bt : List Event}
    (h : Extends w o.world bt) : data_reads (o.events w) = data_reads bt := by
  rw [← data_reads_bus, h.events]

theorem Extends.triggers_eq {α : Type} {o : Outcome σ α} {w : World σ} {bt : List Event}
    (h : Extends w o.world bt) : triggers (o.events w) = triggers bt := by
  rw [← triggers_bus, h.events]

theorem Extends.starts_eq {α : Type} {o : Outcome σ α} {w : World σ} {bt : List Event}
    (h : Extends w o.world bt) : starts (o.events w) = starts bt := by
  rw [← starts_bus, h.events]

theorem Extends.stops_eq {α : Type} {o : Outcome σ α} {w : World σ} {bt : List Event}
    (h : Extends w o.world bt) : stops (o.events w) = stops bt := by
  rw [← stops_bus, h.events]

theorem value_some_facts {α : Type} {o : Outcome σ α} {a : α} (h : o.value = some a) :
    o.hung = false ∧ o.error = none := by
  cases o <;> simp [Outcome.value] at h
  simp [Outcome.hung, Outcome.error]

theorem recv_expected_from_get (n rem i j : Nat) (h : j < rem) :
    (recv_expected_from n i rem)[j]? = some (recv_expected (i + j == n - 1)) := by
  induction rem generalizing i j with
  | zero => omega
  | succ rem ih =>
    cases j with
    | zero => simp [recv_expected_from]
    | succ j =>
      simp only [recv_expected_from, List.getElem?_cons_succ]
      rw [ih (i + 1) j (by omega)]
      congr 3
      omega

/-- What the destination of `i2c_read_reg_n` holds when the call returns: the
bytes read by the receive steps made, then the sentinel up to `n`, then the
bytes beyond `n` untouched. -/
theorem i2c_read_reg_n_returns (H : Hardware σ) (dev : i2c_device) (reg : Nat)
    (bytes : List Nat) (n fuel : Nat) (w : World σ) (b : Bool) (out : List Nat)
    (hlen : n ≤ bytes.length) (htwi : w.twi = true)
    (hret : (i2c_read_reg_n H dev reg bytes n fuel w).value = some (b, out)) :
    out = (data_reads ((i2c_read_reg_n H dev reg bytes n fuel w).events w)).map (fun d => d % 256)
        ++ List.replicate
            (n - (data_reads ((i2c_read_reg_n H dev reg bytes n fuel w).events w)).length)
            SENTINEL
        ++ bytes.drop n ∧
    out.length = bytes.length ∧
    (data_reads ((i2c_read_reg_n H dev reg bytes n fuel w).events w)).length ≤ n ∧
    (b = true →
      (data_reads ((i2c_read_reg_n H dev reg bytes n fuel w).events w)).length = n) := by
  obtain ⟨hnh, hne⟩ := value_some_facts hret
  rcases i2c_read_reg_n_spec H dev reg bytes n fuel w htwi _ rfl with
    ⟨ss1, x, r, _, hv⟩ | ⟨ss2, ds, x, r, hl, hr, _, hv⟩ | ⟨herr, _⟩
  · rcases hv with ⟨_, hv⟩ | hv
    · rw [hret] at hv
      injection hv with hv
      injection hv with hb hout
      rw [x.data_reads_eq, data_reads_write_bt, hout, hb]
      simp [memset, hlen]
    · rw [hnh] at hv; exact absurd hv (by simp)
  · rcases hv with hv | hv
    · rw [hret] at hv
      injection hv with hv
      injection hv with hb hout
      have hdr : data_reads ((i2c_read_reg_n H dev reg bytes n fuel w).events w) = ds := by
        rw [x.data_reads_eq, data_reads_append, data_reads_write_bt,
          data_reads_read_bt _ _ _ _ hl]
        rfl
      rw [hdr, hout]
      refine ⟨rfl, ?_, hr, ?_⟩
      · simp only [read_result, List.length_append, List.length_map, List.length_replicate,
          List.length_drop]
        omega
      · intro hbt
        rw [hbt] at hb
        have hss : ss2 = read_expected n := by simpa using hb.symm
        rw [hl, hss]
        simp [read_expected, recv_expected_from_length]
    · rw [hnh] at hv; exact absurd hv (by simp)
  · rw [hne] at herr; exact absurd herr (by simp)

/-- Claim C2. When `i2c_read_reg_n` returns, on a bound module and with a
destination of at least `n` bytes, the destination is: one byte per receive
step made, namely the data register read by that step (as `uint8_t`), in
order; then the sentinel `0x7E` in every remaining slot up to `n`; and the
bytes beyond `n` as they were.  At most `n` receive steps are made, and
exactly `n` when the result is true.  No pre-call content of the first `n`
slots appears in it. -/
theorem C2_read_reg_n_destination (H : Hardware σ) (dev : i2c_device) (reg : Nat)
    (bytes : List Nat) (n fuel : Nat) (w : World σ) (b : Bool) (out : List Nat)
    (hlen : n ≤ bytes.length) (htwi : w.twi = true)
    (hret : (i2c_read_reg_n H dev reg bytes n fuel w).value = some (b, out)) :
    out = (data_reads ((i2c_read_reg_n H dev reg bytes n fuel w).events w)).map (fun d => d % 256)
        ++ List.replicate
            (n - (data_reads ((i2c_read_reg_n H dev reg bytes n fuel w).events w)).length)
            SENTINEL
        ++ bytes.drop n ∧
    out.length = bytes.length ∧
    (data_reads ((i2c_read_reg_n H dev reg bytes n fuel w).events w)).length ≤ n ∧
    (b = true →
      (data_reads ((i2c_read_reg_n H dev reg bytes n fuel w).events w)).length = n) :=
  i2c_read_reg_n_returns H dev reg bytes n fuel w b out hlen htwi hret

/-- Witness for C2: a 6-byte read of the acceleration registers on which every
step reports its expected status; the last data-register value `0x166` is
stored as the byte `0x66`. -/
theorem C2_witness :
    (6 ≤ [0, 0, 0, 0, 0, 0].length ∧ (World.ready Script.accel_ok).twi = true ∧
      (i2c_read_reg_n script ⟨0x62⟩ 0x02 [0, 0, 0, 0, 0, 0] 6 1
        (World.ready Script.accel_ok)).value =
        some (true, [0x11, 0x22, 0x33, 0x44, 0x55, 0x66])) ∧
    (data_reads ((i2c_read_reg_n script ⟨0x62⟩ 0x02 [0, 0, 0, 0, 0, 0] 6 1
        (World.ready Script.accel_ok)).events (World.ready Script.accel_ok))).length = 6 :=
  ⟨⟨by decide, rfl, by decide⟩,
   (C2_read_reg_n_destination script ⟨0x62⟩ 0x02 [0, 0, 0, 0, 0, 0] 6 1
     (World.ready Script.accel_ok) true [0x11, 0x22, 0x33, 0x44, 0x55, 0x66]
     (by decide) rfl (by decide)).2.2.2 rfl⟩

/-- Counterexample to C3 as stated: in a 6-byte read whose first unexpected
status is the one of the receive of byte index 3, the call returns false, but
slot 3 holds `0xAB`, the data register read by the failed receive, not the
sentinel. -/
theorem C3_counterexample :
    statuses ((i2c_read_reg_n script ⟨0x62⟩ 0x02 [0, 0, 0, 0, 0, 0] 6 1
        (World.ready Script.accel_nak4)).events (World.ready Script.accel_nak4)) =
      [START_TRANSMIT, ADDR_W_ACK, DATA_TRANSMIT_ACK, START_TRANSMIT, ADDR_R_ACK] ++
        List.replicate 3 DATA_RECEIVE_ACK ++ [DATA_RECEIVE_NAK] ∧
    (i2c_read_reg_n script ⟨0x62⟩ 0x02 [0, 0, 0, 0, 0, 0] 6 1
        (World.ready Script.accel_nak4)).value =
      some (false, [0x01, 0x02, 0x03, 0xAB, 0x7E, 0x7E]) ∧
    [0x01, 0x02, 0x03, 0xAB, 0x7E, 0x7E].getD 3 0 ≠ SENTINEL := by
  decide

/-- Claim C3, amended. If during `i2c_read_reg_n` of `n` bytes the first
unexpected status is the one of the receive of byte index `k < n`, then on
return the result is false, `k + 1` receive steps were made, `bytes[0..k]`
(slot `k` included) hold the data register read by each of them, and every one
of `bytes[k+1..n)` equals `0x7E`. -/
theorem C3_failed_receive_stores_its_byte (H : Hardware σ) (dev : i2c_device) (reg : Nat)
    (bytes : List Nat) (n k s fuel : Nat) (w : World σ) (b : Bool) (out : List Nat)
    (hk : k < n) (hlen : n ≤ bytes.length) (htwi : w.twi = true)
    (hst : statuses ((i2c_read_reg_n H dev reg bytes n fuel w).events w) =
      [START_TRANSMIT, ADDR_W_ACK, DATA_TRANSMIT_ACK, START_TRANSMIT, ADDR_R_ACK] ++
        List.replicate k DATA_RECEIVE_ACK ++ [s])
    (hs : s ≠ if k = n - 1 then DATA_RECEIVE_NAK else DATA_RECEIVE_ACK)
    (hret : (i2c_read_reg_n H dev reg bytes n fuel w).value = some (b, out)) :
    b = false ∧
    (data_reads ((i2c_read_reg_n H dev reg bytes n fuel w).events w)).length = k + 1 ∧
    out = (data_reads ((i2c_read_reg_n H dev reg bytes n fuel w).events w)).map (fun d => d % 256)
        ++ List.replicate (n - (k + 1)) SENTINEL ++ bytes.drop n ∧
    out.length = bytes.length := by
  obtain ⟨h1, h2, h3, _⟩ := i2c_read_reg_n_returns H dev reg bytes n fuel w b out hlen htwi hret
  obtain ⟨hnh, hne⟩ := value_some_facts hret
  rcases i2c_read_reg_n_spec H dev reg bytes n fuel w htwi _ rfl with
    ⟨ss1, x, r, _, hv⟩ | ⟨ss2, ds, x, r, hl, hr, _, hv⟩ | ⟨herr, _⟩
  · exfalso
    have hle := sam_length _ _ r
    rw [x.statuses_eq, statuses_write_bt dev [reg] ss1 r] at hst
    rw [hst, write_expected_length] at hle
    simp at hle
  · have hss : ss2 = [START_TRANSMIT, ADDR_R_ACK] ++ List.replicate k DATA_RECEIVE_ACK ++ [s] := by
      rw [x.statuses_eq, statuses_append, statuses_write_bt dev [reg] (write_expected 1) rfl,
        statuses_read_bt _ _ _ _ hl] at hst
      have : write_expected 1 ++ ss2 = write_expected 1 ++
          ([START_TRANSMIT, ADDR_R_ACK] ++ List.replicate k DATA_RECEIVE_ACK ++ [s]) := by
        rw [hst]; simp [write_expected]
      exact List.append_cancel_left this
    have hdr : data_reads ((i2c_read_reg_n H dev reg bytes n fuel w).events w) = ds := by
      rw [x.data_reads_eq, data_reads_append, data_reads_write_bt,
        data_reads_read_bt _ _ _ _ hl]
      rfl
    have hdl : ds.length = k + 1 := by
      rw [hl, hss]; simp
    have hne2 : ss2 ≠ read_expected n := by
      intro heq
      apply hs
      have hget := recv_expected_from_get n n 0 k hk
      have h2 : (read_expected n)[k + 2]? = some s := by
        rw [← heq, hss]
        simp [List.getElem?_append_right]
      rw [read_expected, List.getElem?_cons_succ, List.getElem?_cons_succ, hget] at h2
      injection h2 with h2
      rw [← h2]
      by_cases hkn : k = n - 1 <;> simp [recv_expected, hkn]
    rcases hv with hv | hv
    · rw [hret] at hv
      injection hv with hv
      injection hv with hb hout
      refine ⟨by rw [hb]; simpa using hne2, by rw [hdr, hdl], ?_, h2⟩
      rw [h1, hdr, hdl]
    · rw [hnh] at hv; exact absurd hv (by simp)
  · rw [hne] at herr; exact absurd herr (by simp)

/-- Witness for C3 (amended): the 6-byte read whose 4th receive is not
acknowledged. -/
theorem C3_witness :
    (3 < 6 ∧ 6 ≤ [0, 0, 0, 0, 0, 0].length ∧ (World.ready Script.accel_nak4).twi = true) ∧
    (false = false ∧
     (data_reads ((i2c_read_reg_n script ⟨0x62⟩ 0x02 [0, 0, 0, 0, 0, 0] 6 1
        (World.ready Script.accel_nak4)).events (World.ready Script.accel_nak4))).length
        = 3 + 1 ∧
     [0x01, 0x02, 0x03, 0xAB, 0x7E, 0x7E] =
      (data_reads ((i2c_read_reg_n script ⟨0x62⟩ 0x02 [0, 0, 0, 0, 0, 0] 6 1
        (World.ready Script.accel_nak4)).events (World.ready Script.accel_nak4))).map
          (fun d => d % 256)
        ++ List.replicate (6 - (3 + 1)) SENTINEL ++ [0, 0, 0, 0, 0, 0].drop 6 ∧
     [0x01, 0x02, 0x03, 0xAB, 0x7E, 0x7E].length = [0, 0, 0, 0, 0, 0].length) :=
  ⟨⟨by decide, by decide, rfl⟩,
   C3_failed_receive_stores_its_byte script ⟨0x62⟩ 0x02 [0, 0, 0, 0, 0, 0] 6 3
     DATA_RECEIVE_NAK 1 (World.ready Script.accel_nak4) false
     [0x01, 0x02, 0x03, 0xAB, 0x7E, 0x7E] (by decide) (by decide) rfl (by decide) (by decide)
     (by decide)⟩

/-- The value `i2c_read_reg` returns, when it returns: the byte of the single
receive step if the six statuses read are the expected ones, the sentinel
otherwise. -/
theorem i2c_read_reg_returns (H : Hardware σ) (dev : i2c_device) (reg fuel : Nat) (w : World σ)
    (v : Nat) (htwi : w.twi = true)
    (hret : (i2c_read_reg H dev reg fuel w).value = some v) :
    (statuses ((i2c_read_reg H dev reg fuel w).events w) =
        [START_TRANSMIT, ADDR_W_ACK, DATA_TRANSMIT_ACK, START_TRANSMIT, ADDR_R_ACK,
          DATA_RECEIVE_NAK] →
      ∃ d, data_reads ((i2c_read_reg H dev reg fuel w).events w) = [d] ∧ v = d % 256) ∧
    (statuses ((i2c_read_reg H dev reg fuel w).events w) ≠
        [START_TRANSMIT, ADDR_W_ACK, DATA_TRANSMIT_ACK, START_TRANSMIT, ADDR_R_ACK,
          DATA_RECEIVE_NAK] →
      v = SENTINEL) := by
  obtain ⟨hnh, hne⟩ := value_some_facts hret
  rcases i2c_read_reg_spec H dev reg fuel w htwi _ rfl with
    ⟨ss1, x, r, _, hv⟩ | ⟨ss2, ds, x, r, hl, hr, _, hv⟩ | ⟨herr, _⟩
  · have hle := sam_length _ _ r
    rw [write_expected_length] at hle
    have hst := x.statuses_eq
    rw [statuses_write_bt dev [reg] ss1 r] at hst
    rcases hv with ⟨_, hv⟩ | hv
    · rw [hret] at hv
      injection hv with hv
      refine ⟨fun h => ?_, fun _ => hv⟩
      rw [hst] at h
      rw [h] at hle
      simp at hle
    · rw [hnh] at hv; exact absurd hv (by simp)
  · have hst := x.statuses_eq
    rw [statuses_append, statuses_write_bt dev [reg] (write_expected 1) rfl, statuses_read_bt _ _ _ _ hl] at hst
    have hdr := x.data_reads_eq
    rw [data_reads_append, data_reads_write_bt, data_reads_read_bt _ _ _ _ hl] at hdr
    have hiff : statuses ((i2c_read_reg H dev reg fuel w).events w) =
        [START_TRANSMIT, ADDR_W_ACK, DATA_TRANSMIT_ACK, START_TRANSMIT, ADDR_R_ACK,
          DATA_RECEIVE_NAK] ↔ ss2 = read_expected 1 := by
      rw [hst]
      constructor
      · intro h
        have h' : write_expected 1 ++ ss2 = write_expected 1 ++ read_expected 1 := by
          rw [h]; rfl
        exact List.append_cancel_left h'
      · intro h
        rw [h]; rfl
    rcases hv with hv | hv
    · rw [hret] at hv
      injection hv with hv
      refine ⟨fun h => ?_, fun h => ?_⟩
      · have hss := hiff.mp h
        rw [if_pos hss] at hv
        rw [hss] at hl
        have hd1 : ds.length = 1 := by rw [hl]; rfl
        match ds, hd1 with
        | [d], _ =>
          refine ⟨d, by rw [hdr]; rfl, ?_⟩
          rw [hv]; rfl
      · have hss : ¬ ss2 = read_expected 1 := fun h' => h (hiff.mpr h')
        rw [if_neg hss] at hv
        exact hv
    · rw [hnh] at hv; exact absurd hv (by simp)
  · rw [hne] at herr; exact absurd herr (by simp)

/-- Claim C7. On a bound module, whenever `i2c_read_reg` returns: if the statuses
it read are exactly the six expected ones (start, address-write acknowledged,
selector acknowledged, start, address-read acknowledged, data received
not-acknowledged), one receive step was made and the value is the byte it took
from the data register; otherwise, some step having reported another status,
the value is the sentinel `0x7E`.  And the call does return, unless a
completion wait raises the timeout or the stop bit stays at 1 through all the
polls the fuel allows. -/
theorem C7_read_reg_value (H : Hardware σ) (dev : i2c_device) (reg fuel : Nat) (w : World σ)
    (htwi : w.twi = true) :
    (∀ v, (i2c_read_reg H dev reg fuel w).value = some v →
      (statuses ((i2c_read_reg H dev reg fuel w).events w) =
          [START_TRANSMIT, ADDR_W_ACK, DATA_TRANSMIT_ACK, START_TRANSMIT, ADDR_R_ACK,
            DATA_RECEIVE_NAK] →
        ∃ d, data_reads ((i2c_read_reg H dev reg fuel w).events w) = [d] ∧ v = d % 256) ∧
      (statuses ((i2c_read_reg H dev reg fuel w).events w) ≠
          [START_TRANSMIT, ADDR_W_ACK, DATA_TRANSMIT_ACK, START_TRANSMIT, ADDR_R_ACK,
            DATA_RECEIVE_NAK] →
        v = SENTINEL)) ∧
    ((i2c_read_reg H dev reg fuel w).value = none →
      (i2c_read_reg H dev reg fuel w).error = some .timeout ∨
      StopStuck fuel (i2c_read_reg H dev reg fuel w).world.trace) := by
  refine ⟨fun v hret => i2c_read_reg_returns H dev reg fuel w v htwi hret, fun hnone => ?_⟩
  rcases i2c_read_reg_spec H dev reg fuel w htwi _ rfl with
    ⟨_, _, _, _, hv⟩ | ⟨_, _, _, _, _, _, _, hv⟩ | ⟨he, _⟩
  · rcases hv with ⟨_, hv⟩ | hv
    · rw [hnone] at hv; exact absurd hv (by simp)
    · exact Or.inr (i2c_read_reg_hung H dev reg fuel w htwi hv)
  · rcases hv with hv | hv
    · rw [hnone] at hv; exact absurd hv (by simp)
    · exact Or.inr (i2c_read_reg_hung H dev reg fuel w htwi hv)
  · exact Or.inl he

/-- Witness for C7: a read of the part-ID register on which every step
reports its expected status and the device supplies `0x13`. -/
theorem C7_witness :
    ((World.ready Script.read_ok).twi = true ∧
      (i2c_read_reg script ⟨0x62⟩ 0x01 1 (World.ready Script.read_ok)).value = some 0x13) ∧
    ∃ d, data_reads ((i2c_read_reg script ⟨0x62⟩ 0x01 1 (World.ready Script.read_ok)).events
        (World.ready Script.read_ok)) = [d] ∧ 0x13 = d % 256 :=
  ⟨⟨rfl, by decide⟩,
   ((C7_read_reg_value script ⟨0x62⟩ 0x01 1 (World.ready Script.read_ok) rfl).1 0x13
     (by decide)).1 (by decide)⟩

end read_claims

section write_claims

variable {σ : Type}

theorem hung_value_none {α : Type} {o : Outcome σ α} (h : o.hung = true) : o.value = none := by
  cases o <;> simp [Outcome.hung] at h
  rfl

theorem error_value_none {α : Type} {o : Outcome σ α} {e : Fatal} (h : o.error = some e) :
    o.value = none := by
  cases o <;> simp [Outcome.error] at h
  rfl

/-- The three ways a block write on a bound module can go, read off its trace:
every status is the expected one, all triggers are written and the stop
follows; or the first unexpected status is the one of step `k`, the triggers
up to that step are written and the stop follows; or a completion wait times
out, every status before being the expected one and no stop being issued. -/
theorem i2c_block_write_cases (H : Hardware σ) (dev : i2c_device) (bytes : List Nat)
    (fuel : Nat) (w : World σ) (h : w.twi = true) (o : Outcome σ Bool)
    (ho : o = i2c_block_write H dev bytes bytes.length fuel w) :
    ((statuses (o.events w) = write_expected bytes.length ∧
        triggers (o.events w) = write_triggers dev bytes ++ [.wr .m_stp 1] ∧
        o.error = none ∧ (o.value = some true ∨ o.hung = true)) ∨
      (∃ k s, k < bytes.length + 2 ∧
        statuses (o.events w) = (write_expected bytes.length).take k ++ [s] ∧
        (write_expected bytes.length)[k]? ≠ some s ∧
        triggers (o.events w) = (write_triggers dev bytes).take (k + 1) ++ [.wr .m_stp 1] ∧
        o.error = none ∧ (o.value = some false ∨ o.hung = true)) ∨
      (o.error = some .timeout ∧ stops (o.events w) = 0 ∧
        ∃ k, k < bytes.length + 2 ∧
          statuses (o.events w) = (write_expected bytes.length).take k)) ∧
    (∀ b, o.value = some b → (b = true ↔ statuses (o.events w) = write_expected bytes.length)) := by
  rcases i2c_block_write_run H dev bytes fuel w h o ho with
    ⟨herr, _, hbus, r, hv⟩ | ⟨herr, hstop, k, hk, hs⟩
  · have htr : triggers (o.events w) =
        (write_triggers dev bytes).take (statuses (o.events w)).length ++ [.wr .m_stp 1] := by
      rw [← triggers_bus, hbus, triggers_append,
        triggers_bus_of _ _ (write_triggers_are_triggers dev bytes)]
      simp [triggers, Event.is_trigger]
    constructor
    · rcases sam_cases _ _ r with hE | ⟨k, s, hk, hss, hne⟩
      · left
        refine ⟨hE, ?_, herr, ?_⟩
        · rw [htr, hE, write_expected_length, ← write_triggers_length dev bytes, List.take_length]
        · simpa [hE] using hv
      · right; left
        rw [write_expected_length] at hk
        refine ⟨k, s, hk, hss, hne, ?_, herr, ?_⟩
        · rw [htr, hss]
          simp [write_expected_length, Nat.min_eq_left (Nat.le_of_lt hk)]
        · have hneq := take_ne_self_append _ k s (by rw [write_expected_length]; exact hk) hne
          rw [← hss] at hneq
          simpa [hneq] using hv
    · intro b hb
      rcases hv with hv | hv
      · rw [hb] at hv
        injection hv with hv
        rw [hv]
        simp
      · rw [hung_value_none hv] at hb
        exact absurd hb (by simp)
  · constructor
    · right; right
      exact ⟨herr, hstop, k, hk, hs⟩
    · intro b hb
      rw [error_value_none herr] at hb
      exact absurd hb (by simp)

/-- Claim C8. Every run of `i2c_write_reg` on a bound module is of one of three
kinds.  (1) The statuses read are start-transmitted `0x08`,
address-write-acknowledged `0x18`, data-acknowledged `0x28` twice; the trigger
writes are the start bit, then the data register written with the address byte
with the write bit, `reg` and `val` in this order, then the stop bit; no error
is raised and the result is true.  (2) The first unexpected status is the one
of step `k`: the trigger writes are those of the steps up to `k`, then the stop
bit; no error is raised and the result is false.  (3) A completion wait times
out.  The result is returned unless the stop loop outlasts the fuel, which
happens only with the stop bit read as 1 at every poll.  Hence the result is
true if and only if the four statuses are the expected ones. -/
theorem C8_write_reg_transaction (H : Hardware σ) (dev : i2c_device) (reg val fuel : Nat)
    (w : World σ) (htwi : w.twi = true) :
    ((statuses ((i2c_write_reg H dev reg val fuel w).events w) =
          [START_TRANSMIT, ADDR_W_ACK, DATA_TRANSMIT_ACK, DATA_TRANSMIT_ACK] ∧
        triggers ((i2c_write_reg H dev reg val fuel w).events w) =
          [.wr .m_sta 1, .wr .data (((dev.addr <<< 1) ||| WRITE_BIT) % 256),
            .wr .data (reg % 256), .wr .data (val % 256), .wr .m_stp 1] ∧
        (i2c_write_reg H dev reg val fuel w).error = none ∧
        ((i2c_write_reg H dev reg val fuel w).value = some true ∨
          (i2c_write_reg H dev reg val fuel w).hung = true)) ∨
      (∃ k s, k < 4 ∧
        statuses ((i2c_write_reg H dev reg val fuel w).events w) =
          [START_TRANSMIT, ADDR_W_ACK, DATA_TRANSMIT_ACK, DATA_TRANSMIT_ACK].take k ++ [s] ∧
        [START_TRANSMIT, ADDR_W_ACK, DATA_TRANSMIT_ACK, DATA_TRANSMIT_ACK][k]? ≠ some s ∧
        triggers ((i2c_write_reg H dev reg val fuel w).events w) =
          [Event.wr .m_sta 1, .wr .data (((dev.addr <<< 1) ||| WRITE_BIT) % 256),
            .wr .data (reg % 256), .wr .data (val % 256)].take (k + 1) ++ [.wr .m_stp 1] ∧
        (i2c_write_reg H dev reg val fuel w).error = none ∧
        ((i2c_write_reg H dev reg val fuel w).value = some false ∨
          (i2c_write_reg H dev reg val fuel w).hung = true)) ∨
      ((i2c_write_reg H dev reg val fuel w).error = some .timeout ∧
        stops ((i2c_write_reg H dev reg val fuel w).events w) = 0 ∧
        ∃ k, k < 4 ∧ statuses ((i2c_write_reg H dev reg val fuel w).events w) =
          [START_TRANSMIT, ADDR_W_ACK, DATA_TRANSMIT_ACK, DATA_TRANSMIT_ACK].take k)) ∧
    (∀ b, (i2c_write_reg H dev reg val fuel w).value = some b →
      (b = true ↔ statuses ((i2c_write_reg H dev reg val fuel w).events w) =
        [START_TRANSMIT, ADDR_W_ACK, DATA_TRANSMIT_ACK, DATA_TRANSMIT_ACK])) ∧
    ((i2c_write_reg H dev reg val fuel w).hung = true →
      StopStuck fuel (i2c_write_reg H dev reg val fuel w).world.trace) :=
  ⟨(i2c_block_write_cases H dev [reg, val] fuel w htwi _ rfl).1,
   (i2c_block_write_cases H dev [reg, val] fuel w htwi _ rfl).2,
   i2c_block_write_hung H dev [reg, val] fuel w htwi⟩

/-- Witness for C8: a write of `0x01` to register `0x0F` of the accelerometer on
which every step reports its expected status. -/
theorem C8_witness :
    ((World.ready Script.write_ok).twi = true ∧
      (i2c_write_reg script ⟨0x62⟩ 0x0F 0x01 1 (World.ready Script.write_ok)).value =
        some true) ∧
    statuses ((i2c_write_reg script ⟨0x62⟩ 0x0F 0x01 1 (World.ready Script.write_ok)).events
        (World.ready Script.write_ok)) =
      [START_TRANSMIT, ADDR_W_ACK, DATA_TRANSMIT_ACK, DATA_TRANSMIT_ACK] :=
  ⟨⟨rfl, by decide⟩,
   ((C8_write_reg_transaction script ⟨0x62⟩ 0x0F 0x01 1 (World.ready Script.write_ok) rfl).2.1
     true (by decide)).mp rfl⟩

/-- Claim C9. `i2c_write_reg_n` of `n ≤ bytes.length` bytes is `i2c_block_write` on
the packet `reg :: bytes[0..n)` of `n + 1` bytes, and every run of it on a bound
module is of one of three kinds.  (1) Every status is the expected one (start,
address-write acknowledged, then `n + 1` times data acknowledged): the trigger
writes are the start bit, the address byte, the packet bytes in order, then
the stop bit, and the result is true.  (2) The first unexpected status is the
one of step `k`: the trigger writes are those of the steps up to `k` and then
the stop bit, so no later byte reaches the data register; no error is raised
and the result is false.  (3) A completion wait times out.  The result is
returned unless the stop loop outlasts the fuel, which happens only with the
stop bit read as 1 at every poll. -/
theorem C9_write_reg_n_packet (H : Hardware σ) (dev : i2c_device) (reg : Nat)
    (bytes : List Nat) (n fuel : Nat) (w : World σ) (hn : n ≤ bytes.length)
    (htwi : w.twi = true) :
    i2c_write_reg_n H dev reg bytes n fuel w =
      i2c_block_write H dev (reg :: bytes.take n) (n + 1) fuel w ∧
    ((statuses ((i2c_write_reg_n H dev reg bytes n fuel w).events w) =
          START_TRANSMIT :: ADDR_W_ACK :: List.replicate (n + 1) DATA_TRANSMIT_ACK ∧
        triggers ((i2c_write_reg_n H dev reg bytes n fuel w).events w) =
          .wr .m_sta 1 :: .wr .data (((dev.addr <<< 1) ||| WRITE_BIT) % 256) ::
            (reg :: bytes.take n).map (fun b => Event.wr .data (b % 256)) ++ [.wr .m_stp 1] ∧
        (i2c_write_reg_n H dev reg bytes n fuel w).error = none ∧
        ((i2c_write_reg_n H dev reg bytes n fuel w).value = some true ∨
          (i2c_write_reg_n H dev reg bytes n fuel w).hung = true)) ∨
      (∃ k s, k < n + 3 ∧
        statuses ((i2c_write_reg_n H dev reg bytes n fuel w).events w) =
          (START_TRANSMIT :: ADDR_W_ACK :: List.replicate (n + 1) DATA_TRANSMIT_ACK).take k
            ++ [s] ∧
        (START_TRANSMIT :: ADDR_W_ACK :: List.replicate (n + 1) DATA_TRANSMIT_ACK)[k]? ≠ some s ∧
        triggers ((i2c_write_reg_n H dev reg bytes n fuel w).events w) =
          (Event.wr .m_sta 1 :: .wr .data (((dev.addr <<< 1) ||| WRITE_BIT) % 256) ::
            (reg :: bytes.take n).map (fun b => Event.wr .data (b % 256))).take (k + 1)
            ++ [.wr .m_stp 1] ∧
        (i2c_write_reg_n H dev reg bytes n fuel w).error = none ∧
        ((i2c_write_reg_n H dev reg bytes n fuel w).value = some false ∨
          (i2c_write_reg_n H dev reg bytes n fuel w).hung = true)) ∨
      ((i2c_write_reg_n H dev reg bytes n fuel w).error = some .timeout ∧
        stops ((i2c_write_reg_n H dev reg bytes n fuel w).events w) = 0 ∧
        ∃ k, k < n + 3 ∧ statuses ((i2c_write_reg_n H dev reg bytes n fuel w).events w) =
          (START_TRANSMIT :: ADDR_W_ACK :: List.replicate (n + 1) DATA_TRANSMIT_ACK).take k)) ∧
    ((i2c_write_reg_n H dev reg bytes n fuel w).hung = true →
      StopStuck fuel (i2c_write_reg_n H dev reg bytes n fuel w).world.trace) := by
  have hl : (reg :: bytes.take n).length = n + 1 := by
    simp [Nat.min_eq_left hn]
  refine ⟨rfl, ?_, ?_⟩
  · have h := (i2c_block_write_cases H dev (reg :: bytes.take n) fuel w htwi
      (i2c_write_reg_n H dev reg bytes n fuel w) (by rw [hl]; rfl)).1
    rw [hl] at h
    exact h
  · have h := i2c_block_write_hung H dev (reg :: bytes.take n) fuel w htwi
    rw [hl] at h
    exact h

/-- Witness for C9: a two-byte block write to the accelerometer whose register
selector is not acknowledged: the data bytes are never written. -/
theorem C9_witness :
    (2 ≤ [0xAA, 0xBB].length ∧ (World.ready Script.write_nak_reg).twi = true) ∧
    i2c_write_reg_n script ⟨0x62⟩ 0x0F [0xAA, 0xBB] 2 1 (World.ready Script.write_nak_reg) =
      i2c_block_write script ⟨0x62⟩ (0x0F :: [0xAA, 0xBB].take 2) (2 + 1) 1
        (World.ready Script.write_nak_reg) ∧
    triggers ((i2c_write_reg_n script ⟨0x62⟩ 0x0F [0xAA, 0xBB] 2 1
        (World.ready Script.write_nak_reg)).events (World.ready Script.write_nak_reg)) =
      [.wr .m_sta 1, .wr .data 0xC4, .wr .data 0x0F, .wr .m_stp 1] ∧
    (i2c_write_reg_n script ⟨0x62⟩ 0x0F [0xAA, 0xBB] 2 1
        (World.ready Script.write_nak_reg)).value = some false :=
  ⟨⟨by decide, rfl⟩,
   (C9_write_reg_n_packet script ⟨0x62⟩ 0x0F [0xAA, 0xBB] 2 1
     (World.ready Script.write_nak_reg) (by decide) rfl).1,
   by decide, by decide⟩

end write_claims

section probe_claim

variable {σ : Type}

theorem i2c_new_eq (H : Hardware σ) (addr fuel : Nat) (w : World σ) :
    i2c_new H addr fuel w =
      (i2c_block_write H ⟨addr⟩ [] 0 fuel w).bind fun s w1 =>
        .ok (if s then some ⟨addr⟩ else none) w1 := by
  rw [i2c_new]
  cases i2c_block_write H ⟨addr⟩ [] 0 fuel w with
  | ok a w1 => cases a <;> rfl
  | _ => rfl

/-- Claim C4. Every run of `i2c_new(addr)` on a bound module is a zero-length
write, of one of four kinds.  (1) Start transmitted (`0x08`) and the address
byte acknowledged (`0x18`): the trigger writes are the start bit, the data
register written once with the address byte with the write bit, and the stop
bit; the result is a handle bound to `addr`.  (2) Start transmitted but another
status than acknowledge for the address byte: the same three trigger writes,
and the result is NULL.  (3) Another status than start-transmitted: start bit
and stop bit only, and the result is NULL.  (4) A completion wait times out.
No data byte is ever written after the address byte.  The result is returned
unless the stop loop outlasts the fuel, which happens only with the stop bit
read as 1 at every poll. -/
theorem C4_i2c_new_probe (H : Hardware σ) (addr fuel : Nat) (w : World σ)
    (htwi : w.twi = true) :
    ((statuses ((i2c_new H addr fuel w).events w) = [START_TRANSMIT, ADDR_W_ACK] ∧
      triggers ((i2c_new H addr fuel w).events w) =
        [.wr .m_sta 1, .wr .data (((addr <<< 1) ||| WRITE_BIT) % 256), .wr .m_stp 1] ∧
      ((i2c_new H addr fuel w).value = some (some ⟨addr⟩) ∨
        (i2c_new H addr fuel w).hung = true)) ∨
    (∃ s, s ≠ ADDR_W_ACK ∧
      statuses ((i2c_new H addr fuel w).events w) = [START_TRANSMIT, s] ∧
      triggers ((i2c_new H addr fuel w).events w) =
        [.wr .m_sta 1, .wr .data (((addr <<< 1) ||| WRITE_BIT) % 256), .wr .m_stp 1] ∧
      ((i2c_new H addr fuel w).value = some none ∨ (i2c_new H addr fuel w).hung = true)) ∨
    (∃ s, s ≠ START_TRANSMIT ∧
      statuses ((i2c_new H addr fuel w).events w) = [s] ∧
      triggers ((i2c_new H addr fuel w).events w) = [.wr .m_sta 1, .wr .m_stp 1] ∧
      ((i2c_new H addr fuel w).value = some none ∨ (i2c_new H addr fuel w).hung = true)) ∨
    ((i2c_new H addr fuel w).error = some .timeout ∧
      stops ((i2c_new H addr fuel w).events w) = 0)) ∧
    ((i2c_new H addr fuel w).hung = true →
      StopStuck fuel (i2c_new H addr fuel w).world.trace) := by
  obtain ⟨hw, herr, hh, hv⟩ := bind_relabel (i2c_block_write H ⟨addr⟩ [] 0 fuel w)
    (fun s => if s then some (⟨addr⟩ : i2c_device) else none)
  have hev : (i2c_new H addr fuel w).events w = (i2c_block_write H ⟨addr⟩ [] 0 fuel w).events w := by
    rw [i2c_new_eq, Outcome.events, Outcome.events, hw]
  rw [hev]
  rw [i2c_new_eq, herr, hh, hv, hw]
  refine ⟨?_, i2c_block_write_hung H ⟨addr⟩ [] fuel w htwi⟩
  rcases (i2c_block_write_cases H ⟨addr⟩ [] fuel w htwi _ rfl).1 with
    ⟨hs, ht, _, hval⟩ | ⟨k, s, hk, hs, hne, ht, _, hval⟩ | ⟨he, hst, _⟩
  · left
    rw [List.length_nil] at hval
    refine ⟨hs, ht, ?_⟩
    rcases hval with hval | hval
    · left; rw [hval]; rfl
    · right; exact hval
  · have hval' : Option.map (fun s => if s then some (⟨addr⟩ : i2c_device) else none)
          (i2c_block_write H ⟨addr⟩ [] 0 fuel w).value = some none ∨
        (i2c_block_write H ⟨addr⟩ [] 0 fuel w).hung = true := by
      rw [List.length_nil] at hval
      rcases hval with hval | hval
      · left; rw [hval]; rfl
      · right; exact hval
    simp only [List.length_nil, Nat.zero_add] at hk
    match k, hk with
    | 0, _ =>
      right; right; left
      refine ⟨s, ?_, hs, ht, hval'⟩
      intro h
      apply hne
      rw [h]; rfl
    | 1, _ =>
      right; left
      refine ⟨s, ?_, hs, ht, hval'⟩
      intro h
      apply hne
      rw [h]; rfl
  · right; right; right
    exact ⟨he, hst⟩

/-- Witness for C4: on the simulated bus whose only device answers to `0x29`,
probing `0x62` returns NULL and probing `0x29` returns a handle. -/
theorem C4_witness :
    (Sim.tof_only.twi = true ∧
      (i2c_new sim 0x62 1 Sim.tof_only).value = some none ∧
      (i2c_new sim 0x29 1 Sim.tof_only).value = some (some ⟨0x29⟩) ∧
      statuses ((i2c_new sim 0x62 1 Sim.tof_only).events Sim.tof_only) =
        [START_TRANSMIT, ADDR_W_NAK]) ∧
    ((statuses ((i2c_new sim 0x62 1 Sim.tof_only).events Sim.tof_only) =
          [START_TRANSMIT, ADDR_W_ACK] ∧
        triggers ((i2c_new sim 0x62 1 Sim.tof_only).events Sim.tof_only) =
          [.wr .m_sta 1, .wr .data (((0x62 <<< 1) ||| WRITE_BIT) % 256), .wr .m_stp 1] ∧
        ((i2c_new sim 0x62 1 Sim.tof_only).value = some (some ⟨0x62⟩) ∨
          (i2c_new sim 0x62 1 Sim.tof_only).hung = true)) ∨
      (∃ s, s ≠ ADDR_W_ACK ∧
        statuses ((i2c_new sim 0x62 1 Sim.tof_only).events Sim.tof_only) =
          [START_TRANSMIT, s] ∧
        triggers ((i2c_new sim 0x62 1 Sim.tof_only).events Sim.tof_only) =
          [.wr .m_sta 1, .wr .data (((0x62 <<< 1) ||| WRITE_BIT) % 256), .wr .m_stp 1] ∧
        ((i2c_new sim 0x62 1 Sim.tof_only).value = some none ∨
          (i2c_new sim 0x62 1 Sim.tof_only).hung = true)) ∨
      (∃ s, s ≠ START_TRANSMIT ∧
        statuses ((i2c_new sim 0x62 1 Sim.tof_only).events Sim.tof_only) = [s] ∧
        triggers ((i2c_new sim 0x62 1 Sim.tof_only).events Sim.tof_only) =
          [.wr .m_sta 1, .wr .m_stp 1] ∧
        ((i2c_new sim 0x62 1 Sim.tof_only).value = some none ∨
          (i2c_new sim 0x62 1 Sim.tof_only).hung = true)) ∨
      ((i2c_new sim 0x62 1 Sim.tof_only).error = some .timeout ∧
        stops ((i2c_new sim 0x62 1 Sim.tof_only).events Sim.tof_only) = 0)) :=
  ⟨⟨rfl, by decide, by decide, by decide⟩,
   (C4_i2c_new_probe sim 0x62 1 Sim.tof_only rfl).1⟩

end probe_claim

section symmetry

variable {σ : Type} (H : Hardware σ)

theorem starts_read_triggers (dev : i2c_device) (k : Nat) :
    starts ((read_triggers dev).take (k + 1)) = 1 := by
  cases k with
  | zero => simp [read_triggers, starts]
  | succ k => simp [read_triggers, starts, List.count_cons]

theorem stops_read_triggers (dev : i2c_device) (k : Nat) :
    stops ((read_triggers dev).take k) = 0 := by
  cases k with
  | zero => simp [stops]
  | succ k =>
    cases k with
    | zero => simp [read_triggers, stops, List.count_cons]
    | succ k => simp [read_triggers, stops, List.count_cons]

/-- The bus actions of a block write that did not time out: one start, one
stop, the stop last. -/
theorem write_bt_balanced (dev : i2c_device) (bytes ss : List Nat)
    (r : stops_at_mismatch (write_expected bytes.length) ss = true) :
    starts (bus_of (write_triggers dev bytes) ss ++ [.wr .m_stp 1]) = 1 ∧
    stops (bus_of (write_triggers dev bytes) ss ++ [.wr .m_stp 1]) = 1 ∧
    (bus_of (write_triggers dev bytes) ss ++ [Event.wr .m_stp 1]).getLast? =
      some (.wr .m_stp 1) := by
  obtain ⟨k, hk⟩ := sam_pos _ _ _ r
  refine ⟨?_, ?_, by simp⟩
  · rw [starts_append, starts_bus_of, hk, starts_write_triggers]
    simp [starts]
  · rw [stops_append, stops_bus_of, stops_write_triggers]
    simp [stops]

/-- The bus actions of a block read that did not time out: one start, one
stop, the stop last. -/
theorem read_bt_balanced (dev : i2c_device) (n : Nat) (ss ds : List Nat)
    (r : stops_at_mismatch (read_expected n) ss = true) :
    starts (read_bus dev n ss ds ++ [.wr .m_stp 1]) = 1 ∧
    stops (read_bus dev n ss ds ++ [.wr .m_stp 1]) = 1 ∧
    (read_bus dev n ss ds ++ [Event.wr .m_stp 1]).getLast? = some (.wr .m_stp 1) := by
  obtain ⟨k, hk⟩ := sam_pos _ _ _ r
  refine ⟨?_, ?_, by simp⟩
  · rw [starts_append, read_bus, starts_append, starts_bus_of, hk, starts_read_triggers,
      starts_recv_bus]
    simp [starts]
  · rw [stops_append, read_bus, stops_append, stops_bus_of, stops_read_triggers,
      stops_recv_bus]
    simp [stops]

/-- A block write on a bound module that does not time out is one transaction:
one start, one stop, the stop being its last bus action. -/
theorem i2c_block_write_balanced (dev : i2c_device) (bytes : List Nat) (fuel : Nat)
    (w : World σ) (h : w.twi = true)
    (herr : (i2c_block_write H dev bytes bytes.length fuel w).error ≠ some .timeout) :
    ∃ bt, Extends w (i2c_block_write H dev bytes bytes.length fuel w).world bt ∧
      starts bt = 1 ∧ stops bt = 1 ∧ bt.getLast? = some (.wr .m_stp 1) := by
  rcases i2c_block_write_spec H dev bytes fuel w h with
    ⟨ss, w', e, x, r⟩ | ⟨w', bt, k, e, _⟩
  · obtain ⟨hw, _, _⟩ := world_of_ok_or_hang e
    rw [← hw] at x
    exact ⟨_, x, write_bt_balanced dev bytes ss r⟩
  · rw [e] at herr
    exact absurd rfl herr

/-- A block read on a bound module that does not time out is one transaction. -/
theorem i2c_block_read_balanced (dev : i2c_device) (bytes : List Nat) (n fuel : Nat)
    (w : World σ) (h : w.twi = true)
    (herr : (i2c_block_read H dev bytes n fuel w).error ≠ some .timeout) :
    ∃ bt, Extends w (i2c_block_read H dev bytes n fuel w).world bt ∧
      starts bt = 1 ∧ stops bt = 1 ∧ bt.getLast? = some (.wr .m_stp 1) := by
  rcases i2c_block_read_spec H dev bytes n fuel w h with
    ⟨ss, ds, w', _, _, e, x, r⟩ | ⟨w', bt, k, e, _⟩
  · obtain ⟨hw, _, _⟩ := world_of_ok_or_hang e
    rw [← hw] at x
    exact ⟨_, x, read_bt_balanced dev n ss ds r⟩
  · rw [e] at herr
    exact absurd rfl herr

/-- A register read of `n` bytes that does not time out is one or two
transactions, each with its start and its stop. -/
theorem i2c_read_reg_n_balanced (dev : i2c_device) (reg : Nat) (bytes : List Nat)
    (n fuel : Nat) (w : World σ) (h : w.twi = true)
    (herr : (i2c_read_reg_n H dev reg bytes n fuel w).error ≠ some .timeout) :
    ∃ bt, Extends w (i2c_read_reg_n H dev reg bytes n fuel w).world bt ∧
      starts bt = stops bt := by
  rcases i2c_read_reg_n_spec H dev reg bytes n fuel w h _ rfl with
    ⟨ss1, x, r, _, _⟩ | ⟨ss2, ds, x, r, _, _, _, _⟩ | ⟨he, _⟩
  · obtain ⟨h1, h2, _⟩ := write_bt_balanced dev [reg] ss1 r
    exact ⟨_, x, by rw [h1, h2]⟩
  · obtain ⟨h1, h2, _⟩ := write_bt_balanced dev [reg] (write_expected 1) rfl
    obtain ⟨h3, h4, _⟩ := read_bt_balanced dev n ss2 ds r
    exact ⟨_, x, by rw [starts_append, stops_append, h1, h2, h3, h4]⟩
  · exact absurd he herr

/-- A one-byte register read that does not time out is one or two
transactions, each with its start and its stop. -/
theorem i2c_read_reg_balanced (dev : i2c_device) (reg fuel : Nat) (w : World σ)
    (h : w.twi = true) (herr : (i2c_read_reg H dev reg fuel w).error ≠ some .timeout) :
    ∃ bt, Extends w (i2c_read_reg H dev reg fuel w).world bt ∧ starts bt = stops bt := by
  rcases i2c_read_reg_spec H dev reg fuel w h _ rfl with
    ⟨ss1, x, r, _, _⟩ | ⟨ss2, ds, x, r, _, _, _, _⟩ | ⟨he, _⟩
  · obtain ⟨h1, h2, _⟩ := write_bt_balanced dev [reg] ss1 r
    exact ⟨_, x, by rw [h1, h2]⟩
  · obtain ⟨h1, h2, _⟩ := write_bt_balanced dev [reg] (write_expected 1) rfl
    obtain ⟨h3, h4, _⟩ := read_bt_balanced dev 1 ss2 ds r
    exact ⟨_, x, by rw [starts_append, stops_append, h1, h2, h3, h4]⟩
  · exact absurd he herr

theorem write_reg_n_full (dev : i2c_device) (reg : Nat) (bytes : List Nat) (fuel : Nat)
    (w : World σ) :
    i2c_write_reg_n H dev reg bytes bytes.length fuel w =
      i2c_block_write H dev (reg :: bytes) (reg :: bytes).length fuel w := by
  simp [i2c_write_reg_n]

/-- Every public operation on a bound module that does not time out sets the
stop bit as often as the start bit, and leaves the module bound. -/
theorem run_op_balanced (fuel : Nat) (op : Op) (w : World σ) (h : w.twi = true)
    (herr : (run_op H fuel op w).error ≠ some .timeout) :
    ∃ bt, Extends w (run_op H fuel op w).world bt ∧ starts bt = stops bt := by
  cases op with
  | new addr =>
    obtain ⟨hw, he, _, _⟩ := bind_relabel (i2c_new H addr fuel w) (fun _ => ())
    obtain ⟨hw', he', _, _⟩ := bind_relabel (i2c_block_write H ⟨addr⟩ [] 0 fuel w)
      (fun s => if s then some (⟨addr⟩ : i2c_device) else none)
    simp only [run_op] at herr ⊢
    rw [he, i2c_new_eq, he'] at herr
    rw [hw, i2c_new_eq, hw']
    obtain ⟨bt, x, h1, h2, _⟩ := i2c_block_write_balanced H ⟨addr⟩ [] fuel w h herr
    exact ⟨bt, x, by rw [h1, h2]⟩
  | write_reg dev reg val =>
    obtain ⟨hw, he, _, _⟩ := bind_relabel (i2c_write_reg H dev reg val fuel w) (fun _ => ())
    simp only [run_op] at herr ⊢
    rw [he] at herr
    rw [hw]
    obtain ⟨bt, x, h1, h2, _⟩ := i2c_block_write_balanced H dev [reg, val] fuel w h herr
    exact ⟨bt, x, by rw [h1, h2]⟩
  | write_reg_n dev reg bytes =>
    obtain ⟨hw, he, _, _⟩ :=
      bind_relabel (i2c_write_reg_n H dev reg bytes bytes.length fuel w) (fun _ => ())
    simp only [run_op] at herr ⊢
    rw [he, write_reg_n_full] at herr
    rw [hw, write_reg_n_full]
    obtain ⟨bt, x, h1, h2, _⟩ := i2c_block_write_balanced H dev (reg :: bytes) fuel w h herr
    exact ⟨bt, x, by rw [h1, h2]⟩
  | read_reg dev reg =>
    obtain ⟨hw, he, _, _⟩ := bind_relabel (i2c_read_reg H dev reg fuel w) (fun _ => ())
    simp only [run_op] at herr ⊢
    rw [he] at herr
    rw [hw]
    exact i2c_read_reg_balanced H dev reg fuel w h herr
  | read_reg_n dev reg bytes =>
    obtain ⟨hw, he, _, _⟩ :=
      bind_relabel (i2c_read_reg_n H dev reg bytes bytes.length fuel w) (fun _ => ())
    simp only [run_op] at herr ⊢
    rw [he] at herr
    rw [hw]
    exact i2c_read_reg_n_balanced H dev reg bytes bytes.length fuel w h herr
  | block_read dev bytes =>
    obtain ⟨hw, he, _, _⟩ :=
      bind_relabel (i2c_block_read H dev bytes bytes.length fuel w) (fun _ => ())
    simp only [run_op] at herr ⊢
    rw [he] at herr
    rw [hw]
    obtain ⟨bt, x, h1, h2, _⟩ := i2c_block_read_balanced H dev bytes bytes.length fuel w h herr
    exact ⟨bt, x, by rw [h1, h2]⟩
  | block_write dev bytes =>
    obtain ⟨hw, he, _, _⟩ :=
      bind_relabel (i2c_block_write H dev bytes bytes.length fuel w) (fun _ => ())
    simp only [run_op] at herr ⊢
    rw [he] at herr
    rw [hw]
    obtain ⟨bt, x, h1, h2, _⟩ := i2c_block_write_balanced H dev bytes fuel w h herr
    exact ⟨bt, x, by rw [h1, h2]⟩

/-- A sequence of public operations on a bound module, none of which times out,
sets the stop bit as often as the start bit. -/
theorem run_ops_balanced (fuel : Nat) (ops : List Op) (w : World σ) (h : w.twi = true)
    (herr : (run_ops H fuel ops w).error ≠ some .timeout) :
    ∃ bt, Extends w (run_ops H fuel ops w).world bt ∧ starts bt = stops bt := by
  induction ops generalizing w with
  | nil => exact ⟨[], Extends.refl w h, rfl⟩
  | cons op ops ih =>
    rw [run_ops] at herr ⊢
    cases hop : run_op H fuel op w with
    | ok a w1 =>
      rw [hop] at herr
      simp only [bind_ok] at herr ⊢
      obtain ⟨bt1, x1, b1⟩ := run_op_balanced H fuel op w h (by rw [hop]; simp [Outcome.error])
      rw [hop] at x1
      obtain ⟨bt2, x2, b2⟩ := ih w1 x1.1 herr
      exact ⟨bt1 ++ bt2, x1.trans x2, by rw [starts_append, stops_append, b1, b2]⟩
    | fatal e w1 =>
      rw [hop] at herr
      obtain ⟨bt1, x1, b1⟩ := run_op_balanced H fuel op w h (by rw [hop]; exact herr)
      rw [hop] at x1
      exact ⟨bt1, x1, b1⟩
    | hang w1 =>
      obtain ⟨bt1, x1, b1⟩ := run_op_balanced H fuel op w h (by rw [hop]; simp [Outcome.error])
      rw [hop] at x1
      exact ⟨bt1, x1, b1⟩
    | null_deref w1 =>
      obtain ⟨bt1, x1, b1⟩ := run_op_balanced H fuel op w h (by rw [hop]; simp [Outcome.error])
      rw [hop] at x1
      exact ⟨bt1, x1, b1⟩

end symmetry

section transactions

variable {σ : Type}

/-- Claim C6. On a bound module, every call of `i2c_block_write`,
`i2c_block_read`, `i2c_new`, `i2c_write_reg` and `i2c_write_reg_n` in which no
completion wait times out sets the start bit exactly once and the stop bit
exactly once, and the stop bit is the last bus action of the call, whatever
statuses the hardware reports and whether or not the stop loop ends within the
fuel; and over any sequence of public operations without timeout the stop bit
is set as often as the start bit. -/
theorem C6_start_stop_symmetry (H : Hardware σ) (fuel : Nat) (w : World σ)
    (htwi : w.twi = true) :
    (∀ dev bytes, (i2c_block_write H dev bytes bytes.length fuel w).error ≠ some .timeout →
      starts ((i2c_block_write H dev bytes bytes.length fuel w).events w) = 1 ∧
      stops ((i2c_block_write H dev bytes bytes.length fuel w).events w) = 1 ∧
      (bus_trace ((i2c_block_write H dev bytes bytes.length fuel w).events w)).getLast? =
        some (.wr .m_stp 1)) ∧
    (∀ dev bytes n, (i2c_block_read H dev bytes n fuel w).error ≠ some .timeout →
      starts ((i2c_block_read H dev bytes n fuel w).events w) = 1 ∧
      stops ((i2c_block_read H dev bytes n fuel w).events w) = 1 ∧
      (bus_trace ((i2c_block_read H dev bytes n fuel w).events w)).getLast? =
        some (.wr .m_stp 1)) ∧
    (∀ addr, (i2c_new H addr fuel w).error ≠ some .timeout →
      starts ((i2c_new H addr fuel w).events w) = 1 ∧
      stops ((i2c_new H addr fuel w).events w) = 1 ∧
      (bus_trace ((i2c_new H addr fuel w).events w)).getLast? = some (.wr .m_stp 1)) ∧
    (∀ dev reg val, (i2c_write_reg H dev reg val fuel w).error ≠ some .timeout →
      starts ((i2c_write_reg H dev reg val fuel w).events w) = 1 ∧
      stops ((i2c_write_reg H dev reg val fuel w).events w) = 1 ∧
      (bus_trace ((i2c_write_reg H dev reg val fuel w).events w)).getLast? =
        some (.wr .m_stp 1)) ∧
    (∀ dev reg bytes, (i2c_write_reg_n H dev reg bytes bytes.length fuel w).error ≠ some .timeout →
      starts ((i2c_write_reg_n H dev reg bytes bytes.length fuel w).events w) = 1 ∧
      stops ((i2c_write_reg_n H dev reg bytes bytes.length fuel w).events w) = 1 ∧
      (bus_trace ((i2c_write_reg_n H dev reg bytes bytes.length fuel w).events w)).getLast? =
        some (.wr .m_stp 1)) ∧
    (∀ ops, (run_ops H fuel ops w).error ≠ some .timeout →
      stops ((run_ops H fuel ops w).events w) = starts ((run_ops H fuel ops w).events w)) := by
  refine ⟨?_, ?_, ?_, ?_, ?_, ?_⟩
  · intro dev bytes herr
    obtain ⟨bt, x, h1, h2, h3⟩ := i2c_block_write_balanced H dev bytes fuel w htwi herr
    exact ⟨by rw [x.starts_eq, h1], by rw [x.stops_eq, h2], by rw [x.events, h3]⟩
  · intro dev bytes n herr
    obtain ⟨bt, x, h1, h2, h3⟩ := i2c_block_read_balanced H dev bytes n fuel w htwi herr
    exact ⟨by rw [x.starts_eq, h1], by rw [x.stops_eq, h2], by rw [x.events, h3]⟩
  · intro addr herr
    obtain ⟨hw, he, _, _⟩ := bind_relabel (i2c_block_write H ⟨addr⟩ [] 0 fuel w)
      (fun s => if s then some (⟨addr⟩ : i2c_device) else none)
    rw [i2c_new_eq, he] at herr
    obtain ⟨bt, x, h1, h2, h3⟩ := i2c_block_write_balanced H ⟨addr⟩ [] fuel w htwi herr
    have x' : Extends w (i2c_new H addr fuel w).world bt := by
      rw [i2c_new_eq, hw]; exact x
    exact ⟨by rw [x'.starts_eq, h1], by rw [x'.stops_eq, h2], by rw [x'.events, h3]⟩
  · intro dev reg val herr
    obtain ⟨bt, x, h1, h2, h3⟩ := i2c_block_write_balanced H dev [reg, val] fuel w htwi herr
    have x' : Extends w (i2c_write_reg H dev reg val fuel w).world bt := x
    exact ⟨by rw [x'.starts_eq, h1], by rw [x'.stops_eq, h2], by rw [x'.events, h3]⟩
  · intro dev reg bytes herr
    rw [write_reg_n_full] at herr ⊢
    obtain ⟨bt, x, h1, h2, h3⟩ := i2c_block_write_balanced H dev (reg :: bytes) fuel w htwi herr
    exact ⟨by rw [x.starts_eq, h1], by rw [x.stops_eq, h2], by rw [x.events, h3]⟩
  · intro ops herr
    obtain ⟨bt, x, hb⟩ := run_ops_balanced H fuel ops w htwi herr
    rw [x.starts_eq, x.stops_eq, hb]

/-- Witness for C6: on the simulated bus with the accelerometer, a successful
probe, a register write, a register read (two transactions) and a failed probe
set the start bit and the stop bit five times each. -/
theorem C6_witness :
    (Sim.accel_only.twi = true ∧ (run_ops sim 1 Op.demo Sim.accel_only).error ≠ some .timeout ∧
      starts ((run_ops sim 1 Op.demo Sim.accel_only).events Sim.accel_only) = 5) ∧
    stops ((run_ops sim 1 Op.demo Sim.accel_only).events Sim.accel_only) =
      starts ((run_ops sim 1 Op.demo Sim.accel_only).events Sim.accel_only) :=
  ⟨⟨rfl, by decide, by decide⟩,
   (C6_start_stop_symmetry sim 1 Sim.accel_only rfl).2.2.2.2.2 Op.demo (by decide)⟩

end transactions

section read_reg_shape

variable {σ : Type}

theorem triggers_write_bt (dev : i2c_device) (bytes ss : List Nat) :
    triggers (bus_of (write_triggers dev bytes) ss ++ [.wr .m_stp 1]) =
      (write_triggers dev bytes).take ss.length ++ [.wr .m_stp 1] := by
  rw [triggers_append, triggers_bus_of _ _ (write_triggers_are_triggers dev bytes)]
  simp [triggers, Event.is_trigger]

theorem triggers_read_one (dev : i2c_device) (ss ds : List Nat)
    (hl : ds.length = (ss.drop 2).length) (hlen : ss.length ≤ 3) :
    triggers (read_bus dev 1 ss ds ++ [.wr .m_stp 1]) =
      [Event.wr .m_sta 1, .wr .data (addr_r dev), .wr .ack 0].take ss.length ++
        [.wr .m_stp 1] := by
  match ss, ds, hl, hlen with
  | [], [], _, _ => simp [read_bus, read_triggers, bus_of, recv_bus, triggers, Event.is_trigger]
  | [_], [], _, _ => simp [read_bus, read_triggers, bus_of, recv_bus, triggers, Event.is_trigger]
  | [_, _], [], _, _ =>
    simp [read_bus, read_triggers, bus_of, recv_bus, triggers, Event.is_trigger]
  | [_, _, _], [_], _, _ =>
    simp [read_bus, read_triggers, bus_of, recv_bus, triggers, Event.is_trigger, ack_response]

/-- Counterexample to C10 as stated.  On a read of the part-ID register on
which every step reports its expected status, the stop bit is set right after
the register selector and again at the end, twice in all.  And when the
hardware reports repeated-start-transmitted (`0x10`) for the second start, the
read phase is abandoned: no byte is received and the sentinel is returned. -/
theorem C10_counterexample :
    triggers ((i2c_read_reg script ⟨0x62⟩ 0x01 1 (World.ready Script.read_ok)).events
        (World.ready Script.read_ok)) =
      [.wr .m_sta 1, .wr .data 0xC4, .wr .data 0x01, .wr .m_stp 1,
       .wr .m_sta 1, .wr .data 0xC5, .wr .ack 0, .wr .m_stp 1] ∧
    stops ((i2c_read_reg script ⟨0x62⟩ 0x01 1 (World.ready Script.read_ok)).events
        (World.ready Script.read_ok)) = 2 ∧
    (i2c_read_reg script ⟨0x62⟩ 0x01 1 (World.ready Script.read_repeated_start)).value =
      some SENTINEL ∧
    data_reads ((i2c_read_reg script ⟨0x62⟩ 0x01 1
        (World.ready Script.read_repeated_start)).events
        (World.ready Script.read_repeated_start)) = [] := by
  decide

/-- Claim C10, amended. `i2c_read_reg` writes the register selector as a
transaction of its own (start, address byte with the write bit, `reg`, stop),
and only if its three statuses were the expected ones makes a second
transaction: a start validated against start-transmitted `0x08`, the address
byte with the read bit, one receive marked as last (acknowledge bit 0), and a
second stop.  Every run on a bound module is of one of five kinds:
(a) the selector write met its first unexpected status at step `k`: one stop,
the sentinel is returned;
(b) the selector write saw its expected statuses but its stop loop outlasts
the fuel;
(c) the read met its first unexpected status at step `k`: two stops, the
sentinel is returned;
(d) all six statuses were the expected ones: two stops, the byte read from the
data register is returned;
(e) a completion wait times out.
A value is returned unless the stop loop outlasts the fuel, which happens only
with the stop bit read as 1 at every poll. -/
theorem C10_read_reg_two_transactions (H : Hardware σ) (dev : i2c_device) (reg fuel : Nat)
    (w : World σ) (htwi : w.twi = true) :
    ((∃ k s, k < 3 ∧
      statuses ((i2c_read_reg H dev reg fuel w).events w) =
        [START_TRANSMIT, ADDR_W_ACK, DATA_TRANSMIT_ACK].take k ++ [s] ∧
      [START_TRANSMIT, ADDR_W_ACK, DATA_TRANSMIT_ACK][k]? ≠ some s ∧
      triggers ((i2c_read_reg H dev reg fuel w).events w) =
        [Event.wr .m_sta 1, .wr .data (((dev.addr <<< 1) ||| WRITE_BIT) % 256),
          .wr .data (reg % 256)].take (k + 1) ++ [.wr .m_stp 1] ∧
      stops ((i2c_read_reg H dev reg fuel w).events w) = 1 ∧
      ((i2c_read_reg H dev reg fuel w).value = some SENTINEL ∨
        (i2c_read_reg H dev reg fuel w).hung = true)) ∨
    (statuses ((i2c_read_reg H dev reg fuel w).events w) =
        [START_TRANSMIT, ADDR_W_ACK, DATA_TRANSMIT_ACK] ∧
      triggers ((i2c_read_reg H dev reg fuel w).events w) =
        [.wr .m_sta 1, .wr .data (((dev.addr <<< 1) ||| WRITE_BIT) % 256),
          .wr .data (reg % 256), .wr .m_stp 1] ∧
      stops ((i2c_read_reg H dev reg fuel w).events w) = 1 ∧
      (i2c_read_reg H dev reg fuel w).hung = true) ∨
    (∃ k s, k < 3 ∧
      statuses ((i2c_read_reg H dev reg fuel w).events w) =
        [START_TRANSMIT, ADDR_W_ACK, DATA_TRANSMIT_ACK] ++
          ([START_TRANSMIT, ADDR_R_ACK, DATA_RECEIVE_NAK].take k ++ [s]) ∧
      [START_TRANSMIT, ADDR_R_ACK, DATA_RECEIVE_NAK][k]? ≠ some s ∧
      triggers ((i2c_read_reg H dev reg fuel w).events w) =
        [.wr .m_sta 1, .wr .data (((dev.addr <<< 1) ||| WRITE_BIT) % 256),
          .wr .data (reg % 256), .wr .m_stp 1] ++
        ([Event.wr .m_sta 1, .wr .data (((dev.addr <<< 1) ||| READ_BIT) % 256),
          .wr .ack 0].take (k + 1) ++ [.wr .m_stp 1]) ∧
      stops ((i2c_read_reg H dev reg fuel w).events w) = 2 ∧
      ((i2c_read_reg H dev reg fuel w).value = some SENTINEL ∨
        (i2c_read_reg H dev reg fuel w).hung = true)) ∨
    (statuses ((i2c_read_reg H dev reg fuel w).events w) =
        [START_TRANSMIT, ADDR_W_ACK, DATA_TRANSMIT_ACK, START_TRANSMIT, ADDR_R_ACK,
          DATA_RECEIVE_NAK] ∧
      triggers ((i2c_read_reg H dev reg fuel w).events w) =
        [.wr .m_sta 1, .wr .data (((dev.addr <<< 1) ||| WRITE_BIT) % 256),
          .wr .data (reg % 256), .wr .m_stp 1,
         .wr .m_sta 1, .wr .data (((dev.addr <<< 1) ||| READ_BIT) % 256),
          .wr .ack 0, .wr .m_stp 1] ∧
      stops ((i2c_read_reg H dev reg fuel w).events w) = 2 ∧
      ((∃ d, data_reads ((i2c_read_reg H dev reg fuel w).events w) = [d] ∧
          (i2c_read_reg H dev reg fuel w).value = some (d % 256)) ∨
        (i2c_read_reg H dev reg fuel w).hung = true)) ∨
    (i2c_read_reg H dev reg fuel w).error = some .timeout) ∧
    ((i2c_read_reg H dev reg fuel w).hung = true →
      StopStuck fuel (i2c_read_reg H dev reg fuel w).world.trace) := by
  refine ⟨?_, i2c_read_reg_hung H dev reg fuel w htwi⟩
  rcases i2c_read_reg_spec H dev reg fuel w htwi _ rfl with
    ⟨ss1, x, r, _, hv⟩ | ⟨ss2, ds, x, r, hl, hr, _, hv⟩ | ⟨he, _⟩
  · have hst := x.statuses_eq
    rw [statuses_write_bt dev [reg] ss1 r] at hst
    have htr := x.triggers_eq
    rw [triggers_write_bt] at htr
    have hsp := x.stops_eq
    rw [(write_bt_balanced dev [reg] ss1 r).2.1] at hsp
    rcases sam_cases _ _ r with hE | ⟨k, s, hk, hss, hne⟩
    · right; left
      rcases hv with ⟨hne, _⟩ | hv
      · exact absurd hE hne
      · refine ⟨by rw [hst, hE]; rfl, ?_, hsp, hv⟩
        rw [htr, hE]; rfl
    · left
      rw [write_expected_length] at hk
      refine ⟨k, s, hk, by rw [hst, hss]; rfl, hne, ?_, hsp, ?_⟩
      · rw [htr, hss]
        simp only [List.length_append, List.length_take, List.length_singleton,
          write_expected_length, Nat.min_eq_left (Nat.le_of_lt hk)]
        rfl
      · rcases hv with ⟨_, hv⟩ | hv
        · exact Or.inl hv
        · exact Or.inr hv
  · have hst := x.statuses_eq
    rw [statuses_append, statuses_write_bt dev [reg] (write_expected 1) rfl,
      statuses_read_bt _ _ _ _ hl] at hst
    have hlen3 : ss2.length ≤ 3 := by
      have := sam_length _ _ r
      rw [read_expected_length] at this
      exact this
    have htr := x.triggers_eq
    rw [triggers_append, triggers_write_bt, triggers_read_one dev ss2 ds hl hlen3] at htr
    have hsp := x.stops_eq
    rw [stops_append, (write_bt_balanced dev [reg] (write_expected 1) rfl).2.1,
      (read_bt_balanced dev 1 ss2 ds r).2.1] at hsp
    have hdr := x.data_reads_eq
    rw [data_reads_append, data_reads_write_bt, data_reads_read_bt _ _ _ _ hl] at hdr
    rcases sam_cases _ _ r with hE | ⟨k, s, hk, hss, hne⟩
    · right; right; right; left
      refine ⟨by rw [hst, hE]; rfl, by rw [htr, hE]; rfl, hsp, ?_⟩
      rcases hv with hv | hv
      · left
        rw [if_pos hE] at hv
        rw [hE] at hl
        have hd1 : ds.length = 1 := by rw [hl]; rfl
        match ds, hd1 with
        | [d], _ => exact ⟨d, by rw [hdr]; rfl, by rw [hv]; rfl⟩
      · exact Or.inr hv
    · right; right; left
      rw [read_expected_length] at hk
      refine ⟨k, s, hk, by rw [hst, hss]; rfl, hne, ?_, hsp, ?_⟩
      · rw [htr, hss]
        simp only [List.length_append, List.length_take, List.length_singleton,
          read_expected_length, Nat.min_eq_left (Nat.le_of_lt hk)]
        rfl
      · rcases hv with hv | hv
        · left
          have hneq := take_ne_self_append _ k s
            (by rw [read_expected_length]; exact hk) hne
          rw [← hss] at hneq
          rw [if_neg hneq] at hv
          exact hv
        · exact Or.inr hv
  · right; right; right; right
    exact he

/-- Witness for C10 (amended): on a read of the part-ID register on which every
step reports its expected status, the theorem leaves only the kinds with two
stops. -/
theorem C10_witness :
    (World.ready Script.read_ok).twi = true ∧
    stops ((i2c_read_reg script ⟨0x62⟩ 0x01 1 (World.ready Script.read_ok)).events
      (World.ready Script.read_ok)) = 2 := by
  have hs : statuses ((i2c_read_reg script ⟨0x62⟩ 0x01 1 (World.ready Script.read_ok)).events
      (World.ready Script.read_ok)) =
      [START_TRANSMIT, ADDR_W_ACK, DATA_TRANSMIT_ACK, START_TRANSMIT, ADDR_R_ACK,
        DATA_RECEIVE_NAK] := by decide
  have he : (i2c_read_reg script ⟨0x62⟩ 0x01 1 (World.ready Script.read_ok)).error = none := by
    decide
  refine ⟨rfl, ?_⟩
  rcases (C10_read_reg_two_transactions script ⟨0x62⟩ 0x01 1 (World.ready Script.read_ok)
      rfl).1 with
    ⟨k, s, _, h, _⟩ | ⟨h, _⟩ | ⟨_, _, _, _, _, _, h, _⟩ | ⟨_, _, h, _⟩ | h
  · rw [hs] at h
    have := congrArg List.length h
    simp at this
    omega
  · rw [hs] at h
    exact absurd h (by decide)
  · exact h
  · exact h
  · rw [he] at h
    exact absurd h (by decide)

end read_reg_shape

/-! ## The trigger writes of every run -/

section plans

variable {σ : Type} (H : Hardware σ)

theorem starts_triggers (t : List Event) : starts (triggers t) = starts t := by
  simp [starts, triggers, Event.is_trigger]

theorem stops_triggers (t : List Event) : stops (triggers t) = stops t := by
  simp [stops, triggers, Event.is_trigger]

theorem data_writes_triggers (t : List Event) : data_writes (triggers t) = data_writes t := by
  induction t with
  | nil => rfl
  | cons e t ih =>
    cases e with
    | rd f v =>
      cases f <;>
        simp [triggers, Event.is_trigger, data_writes, Event.data_write, List.filter_cons]
          at ih ⊢ <;> exact ih
    | wr f v =>
      cases f <;>
        simp [triggers, Event.is_trigger, data_writes, Event.data_write, List.filter_cons]
          at ih ⊢ <;> exact ih
    | _ =>
      simpa [triggers, Event.is_trigger, data_writes, Event.data_write, List.filter_cons]
        using ih

theorem Extends.data_writes_eq {α : Type} {o : Outcome σ α} {w : World σ} {bt : List Event}
    (h : Extends w o.world bt) : data_writes (o.events w) = data_writes bt := by
  rw [← data_writes_bus, h.events]

/-- The opening of a block transfer: the start and, if the start reported the
expected status, the address byte. -/
theorem open_spec (b e : Nat) (w : World σ) (h : w.twi = true) :
    (∃ st w2, ((do_start H START_TRANSMIT w).bind fun success w1 =>
          if success then do_transmit H b e w1 else .ok false w1) = .ok (st == e) w2 ∧
        Extends w w2
          [.wr .m_sta 1, .rd .stat START_TRANSMIT, .wr .data (b % 256), .rd .stat st]) ∨
    (∃ st w2, st ≠ START_TRANSMIT ∧ ((do_start H START_TRANSMIT w).bind fun success w1 =>
          if success then do_transmit H b e w1 else .ok false w1) = .ok false w2 ∧
        Extends w w2 [.wr .m_sta 1, .rd .stat st]) ∨
    (∃ w2, ((do_start H START_TRANSMIT w).bind fun success w1 =>
          if success then do_transmit H b e w1 else .ok false w1) = .fatal .timeout w2 ∧
        Extends w w2 [.wr .m_sta 1]) ∨
    (∃ w2, ((do_start H START_TRANSMIT w).bind fun success w1 =>
          if success then do_transmit H b e w1 else .ok false w1) = .fatal .timeout w2 ∧
        Extends w w2 [.wr .m_sta 1, .rd .stat START_TRANSMIT, .wr .data (b % 256)]) := by
  rcases do_start_spec H START_TRANSMIT w h with ⟨st, w1, e1, x1⟩ | ⟨w1, e1, x1⟩
  · rw [e1]
    simp only [bind_ok]
    by_cases hst : st = START_TRANSMIT
    · have hb : (st == START_TRANSMIT) = true := by simp [hst]
      rw [hb]
      simp only [if_true]
      rw [hst] at x1
      rcases do_transmit_spec H b e w1 x1.1 with ⟨st2, w2, e2, x2⟩ | ⟨w2, e2, x2⟩
      · left
        exact ⟨st2, w2, e2, x1.trans x2⟩
      · right; right; right
        exact ⟨w2, e2, x1.trans x2⟩
    · have hb : (st == START_TRANSMIT) = false := by simp [hst]
      rw [hb]
      right; left
      exact ⟨st, w1, hst, by simp, x1⟩
  · right; right; left
    exact ⟨w1, by rw [e1]; rfl, x1⟩

theorem write_loop_plan (bytes : List Nat) (rem i : Nat) (success : Bool) (w : World σ)
    (h : w.twi = true) :
    ∃ bt k w', ((∃ r, write_loop H bytes rem i success w = .ok r w') ∨
        write_loop H bytes rem i success w = .fatal .timeout w') ∧
      Extends w w' bt ∧ k ≤ rem ∧ triggers bt = (xmit_plan bytes i rem).take k := by
  induction rem generalizing i success w with
  | zero =>
    exact ⟨[], 0, w, Or.inl ⟨success, by simp [write_loop]⟩, Extends.refl w h, le_refl _,
      by simp [triggers]⟩
  | succ rem ih =>
    cases success with
    | false =>
      exact ⟨[], 0, w, Or.inl ⟨false, write_loop_false H bytes _ i w⟩, Extends.refl w h,
        by omega, by simp [triggers]⟩
    | true =>
      rw [write_loop]
      simp only [if_true]
      rcases do_transmit_spec H (bytes.getD i 0) DATA_TRANSMIT_ACK w h with
        ⟨st, w1, e1, x1⟩ | ⟨w1, e1, x1⟩
      · rw [e1]
        simp only [bind_ok]
        obtain ⟨bt, k, w', ho, x, hk, ht⟩ := ih (i + 1) (st == DATA_TRANSMIT_ACK) w1 x1.1
        refine ⟨_, k + 1, w', ho, x1.trans x, by omega, ?_⟩
        rw [triggers_append, ht]
        simp [xmit_plan, List.range'_succ, triggers, Event.is_trigger]
      · rw [e1]
        exact ⟨_, 1, w1, Or.inr rfl, x1, by omega,
          by simp [xmit_plan, List.range'_succ, triggers, Event.is_trigger]⟩

theorem read_loop_plan (n rem i : Nat) (success : Bool) (bytes : List Nat) (w : World σ)
    (h : w.twi = true) :
    ∃ bt k w', ((∃ r, read_loop H n rem i success bytes w = .ok r w') ∨
        read_loop H n rem i success bytes w = .fatal .timeout w') ∧
      Extends w w' bt ∧ k ≤ rem ∧ triggers bt = (ack_plan n i rem).take k := by
  induction rem generalizing i success bytes w with
  | zero =>
    exact ⟨[], 0, w, Or.inl ⟨(success, bytes), by simp [read_loop]⟩, Extends.refl w h,
      le_refl _, by simp [triggers]⟩
  | succ rem ih =>
    cases success with
    | false =>
      exact ⟨[], 0, w, Or.inl ⟨(false, bytes), read_loop_false H n _ i bytes w⟩,
        Extends.refl w h, by omega, by simp [triggers]⟩
    | true =>
      rw [read_loop]
      simp only [if_true]
      rcases do_receive_spec H (i == n - 1) w h with ⟨st, d, w1, e1, x1⟩ | ⟨w1, e1, x1⟩
      · rw [e1]
        simp only [bind_ok]
        obtain ⟨bt, k, w', ho, x, hk, ht⟩ :=
          ih (i + 1) (st == recv_expected (i == n - 1)) (bytes.set i (d % 256)) w1 x1.1
        refine ⟨_, k + 1, w', ho, x1.trans x, by omega, ?_⟩
        rw [triggers_append, ht]
        simp [ack_plan, List.range'_succ, triggers, Event.is_trigger]
      · rw [e1]
        exact ⟨_, 1, w1, Or.inr rfl, x1, by omega,
          by simp [ack_plan, List.range'_succ, triggers, Event.is_trigger]⟩

theorem write_body_plan (dev : i2c_device) (bytes : List Nat) (n : Nat) (w : World σ)
    (h : w.twi = true) :
    ∃ bt k w', ((∃ r, write_body H dev bytes n w = .ok r w') ∨
        write_body H dev bytes n w = .fatal .timeout w') ∧
      Extends w w' bt ∧ k ≤ n + 1 ∧ triggers bt = (write_plan dev bytes n).take (k + 1) ∧
      ((statuses bt).head? = some START_TRANSMIT → 1 ≤ k) := by
  rw [write_body]
  rcases open_spec H ((dev.addr <<< 1) ||| WRITE_BIT) ADDR_W_ACK w h with
    ⟨st, w2, e, x⟩ | ⟨st, w2, hst, e, x⟩ | ⟨w2, e, x⟩ | ⟨w2, e, x⟩
  · rw [e]
    simp only [bind_ok]
    obtain ⟨bt, k, w', ho, x3, hk, ht⟩ := write_loop_plan H bytes n 0 (st == ADDR_W_ACK) w2 x.1
    refine ⟨_, k + 1, w', ho, x.trans x3, by omega, ?_, fun _ => by omega⟩
    rw [triggers_append, ht]
    simp [write_plan, addr_w, triggers, Event.is_trigger]
  · rw [e]
    simp only [bind_ok, write_loop_false]
    refine ⟨_, 0, w2, Or.inl ⟨false, rfl⟩, x, by omega, ?_, ?_⟩
    · simp [write_plan, triggers, Event.is_trigger]
    · intro h8
      simp [statuses, Event.status] at h8
      exact absurd h8 hst
  · rw [e]
    refine ⟨_, 0, w2, Or.inr rfl, x, by omega, ?_, ?_⟩
    · simp [write_plan, triggers, Event.is_trigger]
    · intro h8
      simp [statuses, Event.status] at h8
  · rw [e]
    refine ⟨_, 1, w2, Or.inr rfl, x, by omega, ?_, fun _ => le_refl _⟩
    simp [write_plan, addr_w, triggers, Event.is_trigger]

theorem read_body_plan (dev : i2c_device) (bytes : List Nat) (n : Nat) (w : World σ)
    (h : w.twi = true) :
    ∃ bt k w', ((∃ r, read_body H dev bytes n w = .ok r w') ∨
        read_body H dev bytes n w = .fatal .timeout w') ∧
      Extends w w' bt ∧ k ≤ n + 1 ∧ triggers bt = (read_plan dev n).take (k + 1) ∧
      ((statuses bt).head? = some START_TRANSMIT → 1 ≤ k) := by
  rw [read_body]
  rcases open_spec H ((dev.addr <<< 1) ||| READ_BIT) ADDR_R_ACK w h with
    ⟨st, w2, e, x⟩ | ⟨st, w2, hst, e, x⟩ | ⟨w2, e, x⟩ | ⟨w2, e, x⟩
  · rw [e]
    simp only [bind_ok]
    obtain ⟨bt, k, w', ho, x3, hk, ht⟩ :=
      read_loop_plan H n n 0 (st == ADDR_R_ACK) (memset bytes SENTINEL n) w2 x.1
    refine ⟨_, k + 1, w', ho, x.trans x3, by omega, ?_, fun _ => by omega⟩
    rw [triggers_append, ht]
    simp [read_plan, addr_r, triggers, Event.is_trigger]
  · rw [e]
    simp only [bind_ok, read_loop_false]
    refine ⟨_, 0, w2, Or.inl ⟨_, rfl⟩, x, by omega, ?_, ?_⟩
    · simp [read_plan, triggers, Event.is_trigger]
    · intro h8
      simp [statuses, Event.status] at h8
      exact absurd h8 hst
  · rw [e]
    refine ⟨_, 0, w2, Or.inr rfl, x, by omega, ?_, ?_⟩
    · simp [read_plan, triggers, Event.is_trigger]
    · intro h8
      simp [statuses, Event.status] at h8
  · rw [e]
    refine ⟨_, 1, w2, Or.inr rfl, x, by omega, ?_, fun _ => le_refl _⟩
    simp [read_plan, addr_r, triggers, Event.is_trigger]

theorem i2c_block_write_plan (dev : i2c_device) (bytes : List Nat) (n fuel : Nat)
    (w : World σ) (h : w.twi = true) :
    ∃ bt k w', Extends w w' bt ∧ k ≤ n + 1 ∧
      ((statuses bt).head? = some START_TRANSMIT → 1 ≤ k) ∧
      ((((∃ r, i2c_block_write H dev bytes n fuel w = .ok r w') ∨
            i2c_block_write H dev bytes n fuel w = .hang w') ∧
          triggers bt = (write_plan dev bytes n).take (k + 1) ++ [.wr .m_stp 1]) ∨
        (i2c_block_write H dev bytes n fuel w = .fatal .timeout w' ∧
          triggers bt = (write_plan dev bytes n).take (k + 1))) := by
  rw [i2c_block_write_eq]
  obtain ⟨bt, k, w3, ho, x, hk, ht, h8⟩ := write_body_plan H dev bytes n w h
  rcases ho with ⟨r, e⟩ | e
  · rw [e]
    simp only [bind_ok]
    have h8' : (statuses (bt ++ [Event.wr .m_stp 1])).head? = some START_TRANSMIT → 1 ≤ k := by
      intro hh
      apply h8
      simpa [statuses_append, statuses, Event.status] using hh
    have ht' : triggers (bt ++ [Event.wr .m_stp 1]) =
        (write_plan dev bytes n).take (k + 1) ++ [.wr .m_stp 1] := by
      rw [triggers_append, ht]
      simp [triggers, Event.is_trigger]
    rcases do_stop_spec H fuel w3 x.1 with ⟨w4, e4, x4⟩ | ⟨w4, e4, x4⟩
    · exact ⟨_, k, w4, x.trans x4, hk, h8', Or.inl ⟨Or.inl ⟨r, by rw [e4]; rfl⟩, ht'⟩⟩
    · exact ⟨_, k, w4, x.trans x4, hk, h8', Or.inl ⟨Or.inr (by rw [e4]; rfl), ht'⟩⟩
  · rw [e]
    exact ⟨bt, k, w3, x, hk, h8, Or.inr ⟨rfl, ht⟩⟩

theorem i2c_block_read_plan (dev : i2c_device) (bytes : List Nat) (n fuel : Nat)
    (w : World σ) (h : w.twi = true) :
    ∃ bt k w', Extends w w' bt ∧ k ≤ n + 1 ∧
      ((statuses bt).head? = some START_TRANSMIT → 1 ≤ k) ∧
      ((((∃ r, i2c_block_read H dev bytes n fuel w = .ok r w') ∨
            i2c_block_read H dev bytes n fuel w = .hang w') ∧
          triggers bt = (read_plan dev n).take (k + 1) ++ [.wr .m_stp 1]) ∨
        (i2c_block_read H dev bytes n fuel w = .fatal .timeout w' ∧
          triggers bt = (read_plan dev n).take (k + 1))) := by
  rw [i2c_block_read_eq]
  obtain ⟨bt, k, w3, ho, x, hk, ht, h8⟩ := read_body_plan H dev bytes n w h
  rcases ho with ⟨r, e⟩ | e
  · rw [e]
    simp only [bind_ok]
    have h8' : (statuses (bt ++ [Event.wr .m_stp 1])).head? = some START_TRANSMIT → 1 ≤ k := by
      intro hh
      apply h8
      simpa [statuses_append, statuses, Event.status] using hh
    have ht' : triggers (bt ++ [Event.wr .m_stp 1]) =
        (read_plan dev n).take (k + 1) ++ [.wr .m_stp 1] := by
      rw [triggers_append, ht]
      simp [triggers, Event.is_trigger]
    rcases do_stop_spec H fuel w3 x.1 with ⟨w4, e4, x4⟩ | ⟨w4, e4, x4⟩
    · exact ⟨_, k, w4, x.trans x4, hk, h8', Or.inl ⟨Or.inl ⟨r, by rw [e4]; rfl⟩, ht'⟩⟩
    · exact ⟨_, k, w4, x.trans x4, hk, h8', Or.inl ⟨Or.inr (by rw [e4]; rfl), ht'⟩⟩
  · rw [e]
    exact ⟨bt, k, w3, x, hk, h8, Or.inr ⟨rfl, ht⟩⟩

theorem count_take_of_forall (l : List Event) (k : Nat) (x : Event) (h : ∀ e ∈ l, e ≠ x) :
    (l.take k).count x = 0 :=
  List.count_eq_zero.2 fun hm => h x (List.mem_of_mem_take hm) rfl

theorem write_plan_tail (dev : i2c_device) (bytes : List Nat) (n : Nat) (f : Field) (v : Nat)
    (hf : f ≠ .data) :
    ∀ e ∈ Event.wr .data (addr_w dev) :: xmit_plan bytes 0 n, e ≠ .wr f v := by
  intro e he
  simp only [xmit_plan, List.mem_cons, List.mem_map] at he
  rcases he with rfl | ⟨j, _, rfl⟩
  · intro hc
    injection hc with h1
    exact hf h1.symm
  · intro hc
    injection hc with h1
    exact hf h1.symm

theorem read_plan_tail (dev : i2c_device) (n : Nat) (f : Field) (v : Nat)
    (hf : f ≠ .data) (hf' : f ≠ .ack) :
    ∀ e ∈ Event.wr .data (addr_r dev) :: ack_plan n 0 n, e ≠ .wr f v := by
  intro e he
  simp only [ack_plan, List.mem_cons, List.mem_map] at he
  rcases he with rfl | ⟨j, _, rfl⟩
  · intro hc
    injection hc with h1
    exact hf h1.symm
  · intro hc
    injection hc with h1
    exact hf' h1.symm

theorem starts_write_plan (dev : i2c_device) (bytes : List Nat) (n k : Nat) :
    starts ((write_plan dev bytes n).take (k + 1)) = 1 ∧
    stops ((write_plan dev bytes n).take (k + 1)) = 0 := by
  rw [write_plan, List.take_succ_cons, starts, stops, List.count_cons_self,
    count_take_of_forall _ k _ (write_plan_tail dev bytes n .m_sta 1 (by decide)),
    List.count_cons_of_ne (by decide),
    count_take_of_forall _ k _ (write_plan_tail dev bytes n .m_stp 1 (by decide))]
  exact ⟨rfl, rfl⟩

theorem starts_read_plan (dev : i2c_device) (n k : Nat) :
    starts ((read_plan dev n).take (k + 1)) = 1 ∧
    stops ((read_plan dev n).take (k + 1)) = 0 := by
  rw [read_plan, List.take_succ_cons, starts, stops, List.count_cons_self,
    count_take_of_forall _ k _ (read_plan_tail dev n .m_sta 1 (by decide) (by decide)),
    List.count_cons_of_ne (by decide),
    count_take_of_forall _ k _ (read_plan_tail dev n .m_stp 1 (by decide) (by decide))]
  exact ⟨rfl, rfl⟩

/-- Every run of `i2c_block_write` on a bound module, whatever its outcome,
sets the start bit exactly once, and its data-register writes are the first
ones of the address byte followed by the bytes of the packet. -/
theorem i2c_block_write_ext (dev : i2c_device) (bytes : List Nat) (n fuel : Nat)
    (w : World σ) (h : w.twi = true) :
    ∃ bt k, Extends w (i2c_block_write H dev bytes n fuel w).world bt ∧ starts bt = 1 ∧
      k ≤ n + 1 ∧ ((statuses bt).head? = some START_TRANSMIT → 1 ≤ k) ∧
      data_writes bt = data_writes ((write_plan dev bytes n).take (k + 1)) := by
  obtain ⟨bt, k, w', x, hk, h8, hc⟩ := i2c_block_write_plan H dev bytes n fuel w h
  have hw : (i2c_block_write H dev bytes n fuel w).world = w' := by
    rcases hc with ⟨⟨r, e⟩ | e, _⟩ | ⟨e, _⟩ <;> rw [e] <;> rfl
  rw [hw]
  refine ⟨bt, k, x, ?_, hk, h8, ?_⟩
  · rw [← starts_triggers]
    rcases hc with ⟨_, ht⟩ | ⟨_, ht⟩
    · rw [ht, starts_append, (starts_write_plan dev bytes n k).1]
      rfl
    · rw [ht, (starts_write_plan dev bytes n k).1]
  · rw [← data_writes_triggers bt]
    rcases hc with ⟨_, ht⟩ | ⟨_, ht⟩
    · rw [ht, data_writes_append]
      simp [data_writes, Event.data_write]
    · rw [ht]

/-- Every run of `i2c_block_read` on a bound module, whatever its outcome, sets
the start bit exactly once, and its only data-register write, if any, is the
address byte. -/
theorem i2c_block_read_ext (dev : i2c_device) (bytes : List Nat) (n fuel : Nat)
    (w : World σ) (h : w.twi = true) :
    ∃ bt k, Extends w (i2c_block_read H dev bytes n fuel w).world bt ∧ starts bt = 1 ∧
      k ≤ n + 1 ∧ ((statuses bt).head? = some START_TRANSMIT → 1 ≤ k) ∧
      data_writes bt = data_writes ((read_plan dev n).take (k + 1)) := by
  obtain ⟨bt, k, w', x, hk, h8, hc⟩ := i2c_block_read_plan H dev bytes n fuel w h
  have hw : (i2c_block_read H dev bytes n fuel w).world = w' := by
    rcases hc with ⟨⟨r, e⟩ | e, _⟩ | ⟨e, _⟩ <;> rw [e] <;> rfl
  rw [hw]
  refine ⟨bt, k, x, ?_, hk, h8, ?_⟩
  · rw [← starts_triggers]
    rcases hc with ⟨_, ht⟩ | ⟨_, ht⟩
    · rw [ht, starts_append, (starts_read_plan dev n k).1]
      rfl
    · rw [ht, (starts_read_plan dev n k).1]
  · rw [← data_writes_triggers bt]
    rcases hc with ⟨_, ht⟩ | ⟨_, ht⟩
    · rw [ht, data_writes_append]
      simp [data_writes, Event.data_write]
    · rw [ht]

end plans

section address_byte

variable {σ : Type} (H : Hardware σ)

theorem addr_w_eq (dev : i2c_device) : addr_w dev = (2 * dev.addr + 0) % 256 := by
  simp [addr_w, Nat.shiftLeft_eq, Nat.mul_comm]

theorem addr_r_eq (dev : i2c_device) : addr_r dev = (2 * dev.addr + 1) % 256 := by
  have h := Nat.mul_add_lt_is_or (by decide : READ_BIT < 2 ^ 1) dev.addr
  rw [addr_r, Nat.shiftLeft_eq, Nat.mul_comm, ← h]

theorem seven_bit_address : ∀ a, a < 128 → ∀ rw, rw < 2 →
    ((2 * a + rw) % 256) % 2 = rw ∧ ((2 * a + rw) % 256) / 2 = a := by
  intro a ha rw hrw
  omega

theorem first_data_write (bt : List Event) (P : List Event) (a k : Nat) (rest : List Event)
    (hP : P = .wr .m_sta 1 :: .wr .data a :: rest)
    (hd : data_writes bt = data_writes (P.take (k + 1)))
    (h8 : (statuses bt).head? = some START_TRANSMIT → 1 ≤ k) :
    (∀ x, (data_writes bt).head? = some x → x = a) ∧
    ((statuses bt).head? = some START_TRANSMIT → (data_writes bt).head? = some a) := by
  subst hP
  cases k with
  | zero =>
    have : data_writes bt = [] := by
      rw [hd]
      rfl
    rw [this]
    exact ⟨fun x hx => by simp at hx, fun hh => absurd (h8 hh) (by omega)⟩
  | succ k =>
    have : (data_writes bt).head? = some a := by
      rw [hd]
      simp [data_writes, Event.data_write]
    rw [this]
    exact ⟨fun x hx => by injection hx with hx; exact hx.symm, fun _ => rfl⟩

end address_byte

/-- Claim C11. In every run of `i2c_block_write` on a bound module the first
value written to the data register, if any, is `(2 * addr + 0) mod 256`, and it
is written whenever the start reported `0x08`; in every run of `i2c_block_read`
it is `(2 * addr + 1) mod 256`.  For a 7-bit address the low bit of that byte
is the read/write bit and its upper seven bits are the address. -/
theorem C11_address_byte {σ : Type} (H : Hardware σ) (dev : i2c_device) (bytes : List Nat)
    (n fuel : Nat) (w : World σ) (htwi : w.twi = true) :
    ((∀ x, (data_writes ((i2c_block_write H dev bytes n fuel w).events w)).head? = some x →
        x = (2 * dev.addr + WRITE_BIT) % 256) ∧
      ((statuses ((i2c_block_write H dev bytes n fuel w).events w)).head? =
          some START_TRANSMIT →
        (data_writes ((i2c_block_write H dev bytes n fuel w).events w)).head? =
          some ((2 * dev.addr + WRITE_BIT) % 256))) ∧
    ((∀ x, (data_writes ((i2c_block_read H dev bytes n fuel w).events w)).head? = some x →
        x = (2 * dev.addr + READ_BIT) % 256) ∧
      ((statuses ((i2c_block_read H dev bytes n fuel w).events w)).head? =
          some START_TRANSMIT →
        (data_writes ((i2c_block_read H dev bytes n fuel w).events w)).head? =
          some ((2 * dev.addr + READ_BIT) % 256))) ∧
    (dev.addr < 128 →
      ((2 * dev.addr + WRITE_BIT) % 256) % 2 = WRITE_BIT ∧
      ((2 * dev.addr + WRITE_BIT) % 256) / 2 = dev.addr ∧
      ((2 * dev.addr + READ_BIT) % 256) % 2 = READ_BIT ∧
      ((2 * dev.addr + READ_BIT) % 256) / 2 = dev.addr) := by
  refine ⟨?_, ?_, ?_⟩
  · obtain ⟨bt, k, x, _, _, h8, hd⟩ := i2c_block_write_ext H dev bytes n fuel w htwi
    rw [x.data_writes_eq, x.statuses_eq, ← addr_w_eq]
    exact first_data_write bt _ _ k _ rfl hd h8
  · obtain ⟨bt, k, x, _, _, h8, hd⟩ := i2c_block_read_ext H dev bytes n fuel w htwi
    rw [x.data_writes_eq, x.statuses_eq, ← addr_r_eq]
    exact first_data_write bt _ _ k _ rfl hd h8
  · intro ha
    have h0 := seven_bit_address dev.addr ha 0 (by decide)
    have h1 := seven_bit_address dev.addr ha 1 (by decide)
    exact ⟨h0.1, h0.2, h1.1, h1.2⟩

/-- Witness for C11: a register write to the accelerometer at `0x62`; the
address byte is `0xC4`. -/
theorem C11_witness :
    (World.ready Script.write_ok).twi = true ∧
    (data_writes ((i2c_block_write script ⟨0x62⟩ [0x0F, 0x01] 2 1
        (World.ready Script.write_ok)).events (World.ready Script.write_ok))).head? =
      some 0xC4 ∧
    (0xC4 % 2 = 0 ∧ 0xC4 / 2 = 0x62 ∧ 0xC5 % 2 = 1 ∧ 0xC5 / 2 = 0x62) :=
  ⟨rfl,
   (C11_address_byte script ⟨0x62⟩ [0x0F, 0x01] 2 1 (World.ready Script.write_ok) rfl).1.2
     (by decide),
   (C11_address_byte script ⟨0x62⟩ [0x0F, 0x01] 2 1 (World.ready Script.write_ok) rfl).2.2
     (by decide)⟩

section acknowledge

variable {σ : Type} (H : Hardware σ)

theorem ack_writes_append (s t : List Event) :
    ack_writes (s ++ t) = ack_writes s ++ ack_writes t := by
  simp [ack_writes]

theorem ack_writes_bus (t : List Event) : ack_writes (bus_trace t) = ack_writes t := by
  induction t with
  | nil => rfl
  | cons e t ih =>
    rw [bus_trace_cons]
    cases e with
    | rd f v => cases f <;> simp [Event.is_bus, ack_writes, Event.ack_write] at ih ⊢ <;> exact ih
    | wr f v => cases f <;> simp [Event.is_bus, ack_writes, Event.ack_write] at ih ⊢ <;> exact ih
    | _ => simpa [Event.is_bus, ack_writes, Event.ack_write] using ih

/-- The expected statuses of the receives of a read of `n ≥ 1` bytes: `0x50`
for each but the last, `0x58` for the last. -/
theorem recv_expected_closed (n : Nat) (hn : 1 ≤ n) :
    recv_expected_from n 0 n =
      List.replicate (n - 1) DATA_RECEIVE_ACK ++ [DATA_RECEIVE_NAK] := by
  apply List.ext_getElem?
  intro j
  by_cases hj : j < n
  · rw [recv_expected_from_get n n 0 j hj, Nat.zero_add]
    by_cases hj1 : j = n - 1
    · subst hj1
      rw [List.getElem?_append_right (by simp)]
      simp [recv_expected]
    · have hlt : j < n - 1 := by omega
      rw [List.getElem?_append_left (by simpa using hlt)]
      simp [recv_expected, hj1, hlt]
  · rw [List.getElem?_eq_none (by rw [recv_expected_from_length]; omega),
      List.getElem?_eq_none (by simp; omega)]

/-- The acknowledge values of the receives of a read of `n ≥ 1` bytes: 1 for
each but the last, 0 for the last. -/
theorem ack_plan_closed (n : Nat) (hn : 1 ≤ n) :
    (List.range n).map (fun j => ack_response (j == n - 1)) =
      List.replicate (n - 1) 1 ++ [0] := by
  apply List.ext_getElem?
  intro j
  by_cases hj : j < n
  · rw [List.getElem?_map, List.getElem?_range hj]
    by_cases hj1 : j = n - 1
    · subst hj1
      rw [List.getElem?_append_right (by simp)]
      simp [ack_response]
    · have hlt : j < n - 1 := by omega
      rw [List.getElem?_append_left (by simpa using hlt)]
      simp [ack_response, hj1, hlt]
  · rw [List.getElem?_eq_none (by simp; omega), List.getElem?_eq_none (by simp; omega)]

/-- The bus actions of the receives when every one reported its expected
status: for each index in turn the acknowledge bit, the status read, the data
read. -/
theorem recv_bus_full (n rem i : Nat) (ds : List Nat) (h : ds.length = rem) :
    recv_bus n i (recv_expected_from n i rem) ds =
      (List.range rem).flatMap fun j =>
        [.wr .ack (ack_response (i + j == n - 1)), .rd .stat (recv_expected (i + j == n - 1)),
          .rd .data (ds.getD j 0)] := by
  induction rem generalizing i ds with
  | zero => cases ds <;> simp [recv_bus, recv_expected_from]
  | succ rem ih =>
    cases ds with
    | nil => simp at h
    | cons d ds =>
      rw [recv_expected_from, recv_bus, ih (i + 1) ds (by simpa using h),
        List.range_succ_eq_map, List.flatMap_cons, List.flatMap_map]
      simp [Nat.add_assoc, Nat.add_comm 1]

theorem ack_writes_recv (n rem : Nat) (ds : List Nat) :
    ack_writes ((List.range rem).flatMap fun j =>
        [Event.wr .ack (ack_response (j == n - 1)), .rd .stat (recv_expected (j == n - 1)),
          .rd .data (ds.getD j 0)]) =
      (List.range rem).map fun j => ack_response (j == n - 1) := by
  induction rem with
  | zero => rfl
  | succ rem ih =>
    rw [List.range_succ, List.flatMap_append, ack_writes_append, ih, List.map_append]
    simp [ack_writes, Event.ack_write]

/-- A block read of `n ≥ 1` bytes that returned true: the statuses it read, the
values it wrote to the acknowledge bit, and the order of its bus actions. -/
theorem i2c_block_read_success (dev : i2c_device) (bytes out : List Nat) (n fuel : Nat)
    (w : World σ) (hn : 1 ≤ n) (htwi : w.twi = true)
    (hret : (i2c_block_read H dev bytes n fuel w).value = some (true, out)) :
    statuses ((i2c_block_read H dev bytes n fuel w).events w) =
      START_TRANSMIT :: ADDR_R_ACK ::
        (List.replicate (n - 1) DATA_RECEIVE_ACK ++ [DATA_RECEIVE_NAK]) ∧
    ack_writes ((i2c_block_read H dev bytes n fuel w).events w) =
      List.replicate (n - 1) 1 ++ [0] ∧
    bus_trace ((i2c_block_read H dev bytes n fuel w).events w) =
      [.wr .m_sta 1, .rd .stat START_TRANSMIT,
        .wr .data (((dev.addr <<< 1) ||| READ_BIT) % 256), .rd .stat ADDR_R_ACK] ++
      ((List.range n).flatMap fun i =>
        [.wr .ack (ack_response (i == n - 1)), .rd .stat (recv_expected (i == n - 1)),
          .rd .data ((data_reads ((i2c_block_read H dev bytes n fuel w).events w)).getD i 0)])
      ++ [.wr .m_stp 1] := by
  rcases i2c_block_read_run H dev bytes n fuel w htwi _ rfl with
    ⟨_, _, hbus, _, hlen, hval⟩ | ⟨herr, _⟩
  · rcases hval with hval | hh
    · rw [hret] at hval
      injection hval with hval
      have hd : decide (statuses ((i2c_block_read H dev bytes n fuel w).events w) =
          read_expected n) = true := (congrArg Prod.fst hval).symm
      have hss := of_decide_eq_true hd
      have hE : read_expected n = START_TRANSMIT :: ADDR_R_ACK ::
          (List.replicate (n - 1) DATA_RECEIVE_ACK ++ [DATA_RECEIVE_NAK]) := by
        rw [read_expected, recv_expected_closed n hn]
      have hdl : (data_reads ((i2c_block_read H dev bytes n fuel w).events w)).length = n := by
        rw [hlen, hss, read_expected_length]
        omega
      have hb : bus_trace ((i2c_block_read H dev bytes n fuel w).events w) =
          [.wr .m_sta 1, .rd .stat START_TRANSMIT,
            .wr .data (((dev.addr <<< 1) ||| READ_BIT) % 256), .rd .stat ADDR_R_ACK] ++
          ((List.range n).flatMap fun i =>
            [.wr .ack (ack_response (i == n - 1)), .rd .stat (recv_expected (i == n - 1)),
              .rd .data
                ((data_reads ((i2c_block_read H dev bytes n fuel w).events w)).getD i 0)])
          ++ [.wr .m_stp 1] := by
        rw [hbus]
        congr 1
        rw [hss, read_bus, read_expected, List.drop_succ_cons, List.drop_succ_cons,
          List.drop_zero, recv_bus_full n n 0 _ hdl]
        simp [bus_of, read_triggers, addr_r]
      refine ⟨by rw [hss, hE], ?_, hb⟩
      rw [← ack_writes_bus, hb, ack_writes_append, ack_writes_append, ack_writes_recv,
        ack_plan_closed n hn]
      simp [ack_writes, Event.ack_write]
    · rw [hung_value_none hh] at hret
      exact absurd hret (by simp)
  · rw [error_value_none herr] at hret
    exact absurd hret (by simp)

end acknowledge

/-- Claim C12. For every `n ≥ 1`, in a run of `i2c_block_read` of `n` bytes on a
bound module that returns true, the acknowledge bit is written `n` times: 1 for
each of the first `n - 1` receives and 0 for the last one only; each write
comes before the status read and the data read of its receive; and the statuses
read by the receives are `0x50` for each of the first `n - 1` and `0x58` for the
last.  A run that returns at all returns true exactly when its statuses are
these, so each receive is validated against `0x50` if it is not the last and
against `0x58` if it is. -/
theorem C12_ack_then_nak_on_last {σ : Type} (H : Hardware σ) (dev : i2c_device)
    (bytes : List Nat) (n fuel : Nat) (w : World σ) (hn : 1 ≤ n) (htwi : w.twi = true) :
    (∀ out, (i2c_block_read H dev bytes n fuel w).value = some (true, out) →
      ack_writes ((i2c_block_read H dev bytes n fuel w).events w) =
        List.replicate (n - 1) 1 ++ [0] ∧
      bus_trace ((i2c_block_read H dev bytes n fuel w).events w) =
        [.wr .m_sta 1, .rd .stat START_TRANSMIT,
          .wr .data (((dev.addr <<< 1) ||| READ_BIT) % 256), .rd .stat ADDR_R_ACK] ++
        ((List.range n).flatMap fun i =>
          [.wr .ack (if i = n - 1 then 0 else 1),
            .rd .stat (if i = n - 1 then DATA_RECEIVE_NAK else DATA_RECEIVE_ACK),
            .rd .data
              ((data_reads ((i2c_block_read H dev bytes n fuel w).events w)).getD i 0)])
        ++ [.wr .m_stp 1]) ∧
    (∀ b out, (i2c_block_read H dev bytes n fuel w).value = some (b, out) →
      (b = true ↔ statuses ((i2c_block_read H dev bytes n fuel w).events w) =
        START_TRANSMIT :: ADDR_R_ACK ::
          (List.replicate (n - 1) DATA_RECEIVE_ACK ++ [DATA_RECEIVE_NAK]))) := by
  refine ⟨?_, ?_⟩
  · intro out hret
    obtain ⟨_, hack, hbus⟩ := i2c_block_read_success H dev bytes out n fuel w hn htwi hret
    refine ⟨hack, ?_⟩
    rw [hbus]
    simp [ack_response, recv_expected]
  · intro b out hret
    constructor
    · intro hb
      subst hb
      exact (i2c_block_read_success H dev bytes out n fuel w hn htwi hret).1
    · intro hss
      rcases i2c_block_read_run H dev bytes n fuel w htwi _ rfl with
        ⟨_, _, _, _, _, hval⟩ | ⟨herr, _⟩
      · rcases hval with hval | hh
        · rw [hret] at hval
          injection hval with hval
          have hb := congrArg Prod.fst hval
          simp only at hb
          rw [hb, decide_eq_true_eq, hss, read_expected, recv_expected_closed n hn]
        · rw [hung_value_none hh] at hret
          exact absurd hret (by simp)
      · rw [error_value_none herr] at hret
        exact absurd hret (by simp)

/-- Witness for C12: a 3-byte block read on which every step reports its
expected status. -/
theorem C12_witness :
    (1 ≤ 3 ∧ (World.ready Script.block_read_ok).twi = true ∧
      (i2c_block_read script ⟨0x62⟩ [0, 0, 0] 3 1 (World.ready Script.block_read_ok)).value =
        some (true, [0xA1, 0xB2, 0xC3])) ∧
    ack_writes ((i2c_block_read script ⟨0x62⟩ [0, 0, 0] 3 1
      (World.ready Script.block_read_ok)).events (World.ready Script.block_read_ok)) =
        List.replicate (3 - 1) 1 ++ [0] :=
  ⟨⟨by decide, rfl, by decide⟩,
   ((C12_ack_then_nak_on_last script ⟨0x62⟩ [0, 0, 0] 3 1 (World.ready Script.block_read_ok)
      (by decide) rfl).1 [0xA1, 0xB2, 0xC3] (by decide)).1⟩

/-! ## An unbound module -/

section unbound

variable {σ : Type} (H : Hardware σ)

theorem do_start_unbound (e : Nat) (w : World σ) (h : w.twi = false) :
    do_start H e w = .fatal .not_init w := by
  simp [do_start, h]

theorem i2c_block_write_unbound (dev : i2c_device) (bytes : List Nat) (n fuel : Nat)
    (w : World σ) (h : w.twi = false) :
    i2c_block_write H dev bytes n fuel w = .fatal .not_init w := by
  simp [i2c_block_write, do_start_unbound H _ w h]

theorem i2c_block_read_unbound (dev : i2c_device) (bytes : List Nat) (n fuel : Nat)
    (w : World σ) (h : w.twi = false) :
    i2c_block_read H dev bytes n fuel w = .fatal .not_init w := by
  simp [i2c_block_read, do_start_unbound H _ w h]

theorem rd_field_unbound (f : Field) (w : World σ) (h : w.twi = false) :
    rd_field H f w = .null_deref w := by
  simp [rd_field, h]

theorem wr_field_unbound (f : Field) (v : Nat) (w : World σ) (h : w.twi = false) :
    wr_field H f v w = .null_deref w := by
  simp [wr_field, h]

end unbound

/-- Claim C13. While `i2c_init` has not been called (`module.twi` is NULL),
each of the seven public bus operations ends in the fatal error
"i2c_init() has not been called" in the very world it was called in: nothing
has been appended to the trace, so no peripheral register was read or written
before the error. -/
theorem C13_uninitialised_module_is_fatal {σ : Type} (H : Hardware σ) (w : World σ)
    (dev : i2c_device) (addr reg val n fuel : Nat) (bytes : List Nat)
    (h : w.twi = false) :
    i2c_new H addr fuel w = .fatal .not_init w ∧
    i2c_write_reg H dev reg val fuel w = .fatal .not_init w ∧
    i2c_write_reg_n H dev reg bytes n fuel w = .fatal .not_init w ∧
    i2c_read_reg H dev reg fuel w = .fatal .not_init w ∧
    i2c_read_reg_n H dev reg bytes n fuel w = .fatal .not_init w ∧
    i2c_block_read H dev bytes n fuel w = .fatal .not_init w ∧
    i2c_block_write H dev bytes n fuel w = .fatal .not_init w ∧
    (i2c_block_write H dev bytes n fuel w).events w = [] := by
  refine ⟨?_, ?_, ?_, ?_, ?_, i2c_block_read_unbound H dev bytes n fuel w h,
    i2c_block_write_unbound H dev bytes n fuel w h, ?_⟩
  · simp [i2c_new, i2c_block_write_unbound H _ _ _ _ w h]
  · simp [i2c_write_reg, i2c_block_write_unbound H _ _ _ _ w h]
  · simp [i2c_write_reg_n, i2c_block_write_unbound H _ _ _ _ w h]
  · simp [i2c_read_reg, i2c_block_write_unbound H _ _ _ _ w h]
  · simp [i2c_read_reg_n, i2c_block_write_unbound H _ _ _ _ w h]
  · simp [i2c_block_write_unbound H _ _ _ _ w h, Outcome.events, Outcome.world]

/-- Witness for C13: a probe and a register read on a module that was never
initialised. -/
theorem C13_witness :
    (World.unbound ()).twi = false ∧
    i2c_new unresponsive 0x62 1 (World.unbound ()) = .fatal .not_init (World.unbound ()) ∧
    i2c_read_reg unresponsive ⟨0x62⟩ 0x01 1 (World.unbound ()) =
      .fatal .not_init (World.unbound ()) :=
  ⟨rfl,
   (C13_uninitialised_module_is_fatal unresponsive (World.unbound ()) ⟨0x62⟩ 0x62 0x01 0 0 1
      [] rfl).1,
   (C13_uninitialised_module_is_fatal unresponsive (World.unbound ()) ⟨0x62⟩ 0x62 0x01 0 0 1
      [] rfl).2.2.2.1⟩

/-! ## A stop-request bit that is never cleared -/

section stuck_stop

theorem stop_poll_stuck {σ : Type} (H : Hardware σ)
    (hstp : ∀ s, (H.read s .m_stp).1 % 2 = 1) (fuel : Nat) (s : σ) (t : List Event) :
    ∃ s', stop_poll H fuel ⟨s, true, t⟩ =
      .hang ⟨s', true, t ++ List.replicate fuel (.rd .m_stp 1)⟩ := by
  induction fuel generalizing s t with
  | zero => exact ⟨s, by simp [stop_poll]⟩
  | succ fuel ih =>
    obtain ⟨s', hs'⟩ := ih (H.read s .m_stp).2 (t ++ [.rd .m_stp 1])
    refine ⟨s', ?_⟩
    have hw : Field.m_stp.width = 1 := rfl
    rw [stop_poll, rd_field_eq, hw, pow_one, hstp s]
    simp only [bind_ok, if_true]
    rw [hs', List.replicate_succ]
    simp

theorem do_stop_stuck {σ : Type} (H : Hardware σ)
    (hstp : ∀ s, (H.read s .m_stp).1 % 2 = 1) (fuel : Nat) (s : σ) (t : List Event) :
    ∃ s', do_stop H fuel ⟨s, true, t⟩ =
      .hang ⟨s', true, t ++ .wr .m_stp 1 :: List.replicate fuel (.rd .m_stp 1)⟩ := by
  obtain ⟨s', hs'⟩ := stop_poll_stuck H hstp fuel (H.write s .m_stp (1 % 2 ^ 1))
    (t ++ [.wr .m_stp (1 % 2 ^ 1)])
  refine ⟨s', ?_⟩
  have hw : Field.m_stp.width = 1 := rfl
  rw [do_stop, wr_field_eq, hw, bind_ok, hs']
  simp

theorem stop_never_clears_start (e : Nat) (t : List Event) :
    do_start stop_never_clears e ⟨(), true, t⟩ =
      .ok (0 == e) ⟨(), true,
        t ++ [.wr .m_sta 1, .wr .int_flag 1, .rd .int_flag 1, .rd .stat 0]⟩ := by
  have hw : Field.m_sta.width = 1 := rfl
  rw [do_start]
  simp only [Bool.true_eq_false, if_false]
  rw [wr_field_eq, bind_ok, wait_completion_prompt stop_never_clears _ _ rfl]
  simp [stop_never_clears, hw]

theorem stop_never_clears_stop (fuel : Nat) (t : List Event) :
    do_stop stop_never_clears fuel ⟨(), true, t⟩ =
      .hang ⟨(), true, t ++ .wr .m_stp 1 :: List.replicate fuel (.rd .m_stp 1)⟩ := by
  obtain ⟨s', hs'⟩ := do_stop_stuck stop_never_clears (fun _ => rfl) fuel () t
  exact hs'

theorem stop_never_clears_write (dev : i2c_device) (bytes : List Nat) (n fuel : Nat)
    (t : List Event) :
    i2c_block_write stop_never_clears dev bytes n fuel ⟨(), true, t⟩ =
      .hang ⟨(), true,
        t ++ ([.wr .m_sta 1, .wr .int_flag 1, .rd .int_flag 1, .rd .stat 0, .wr .m_stp 1] ++
          List.replicate fuel (.rd .m_stp 1))⟩ := by
  rw [i2c_block_write, stop_never_clears_start]
  have h8 : (0 == START_TRANSMIT) = false := rfl
  simp only [h8, bind_ok, Bool.false_eq_true, if_false, write_loop_false,
    stop_never_clears_stop, bind_hang]
  simp

theorem stop_never_clears_read (dev : i2c_device) (bytes : List Nat) (n fuel : Nat)
    (t : List Event) :
    i2c_block_read stop_never_clears dev bytes n fuel ⟨(), true, t⟩ =
      .hang ⟨(), true,
        t ++ ([.wr .m_sta 1, .wr .int_flag 1, .rd .int_flag 1, .rd .stat 0, .wr .m_stp 1] ++
          List.replicate fuel (.rd .m_stp 1))⟩ := by
  rw [i2c_block_read, stop_never_clears_start]
  have h8 : (0 == START_TRANSMIT) = false := rfl
  simp only [h8, bind_ok, Bool.false_eq_true, if_false, read_loop_false,
    stop_never_clears_stop, bind_hang]
  simp

end stuck_stop

/-- Claim C14, at the failing input. On a peripheral that reports completion
but never clears the stop-request bit, every public bus operation on a bound
module is, for every `fuel`, still in the loop of `do_stop` after `fuel` polls
of the stop bit: it has neither returned nor raised the timeout error, and the
polls it has made are as many as the fuel allows.  The loop of `do_stop` has no
poll ceiling. -/
theorem C14_stop_loop_has_no_ceiling (fuel : Nat) (dev : i2c_device) (addr reg val n : Nat)
    (bytes : List Nat) :
    (i2c_new stop_never_clears addr fuel (World.ready ())).hung = true ∧
    (i2c_write_reg stop_never_clears dev reg val fuel (World.ready ())).hung = true ∧
    (i2c_write_reg_n stop_never_clears dev reg bytes n fuel (World.ready ())).hung = true ∧
    (i2c_read_reg stop_never_clears dev reg fuel (World.ready ())).hung = true ∧
    (i2c_read_reg_n stop_never_clears dev reg bytes n fuel (World.ready ())).hung = true ∧
    (i2c_block_read stop_never_clears dev bytes n fuel (World.ready ())).hung = true ∧
    (i2c_block_write stop_never_clears dev bytes n fuel (World.ready ())).hung = true ∧
    (i2c_block_write stop_never_clears dev bytes n fuel (World.ready ())).events
        (World.ready ()) =
      [.wr .m_sta 1, .wr .int_flag 1, .rd .int_flag 1, .rd .stat 0, .wr .m_stp 1] ++
        List.replicate fuel (.rd .m_stp 1) ∧
    ((i2c_block_write stop_never_clears dev bytes n fuel (World.ready ())).events
        (World.ready ())).count (.rd .m_stp 1) = fuel := by
  have hw : ∀ d b m, i2c_block_write stop_never_clears d b m fuel (World.ready ()) = _ :=
    fun d b m => stop_never_clears_write d b m fuel []
  have hr : ∀ d b m, i2c_block_read stop_never_clears d b m fuel (World.ready ()) = _ :=
    fun d b m => stop_never_clears_read d b m fuel []
  refine ⟨?_, ?_, ?_, ?_, ?_, ?_, ?_, ?_, ?_⟩
  · simp [i2c_new, hw, Outcome.hung]
  · simp [i2c_write_reg, hw, Outcome.hung]
  · simp [i2c_write_reg_n, hw, Outcome.hung]
  · simp [i2c_read_reg, hw, Outcome.hung]
  · simp [i2c_read_reg_n, hw, Outcome.hung]
  · simp [hr, Outcome.hung]
  · simp [hw, Outcome.hung]
  · rw [hw]
    simp [Outcome.events, Outcome.world, World.ready]
  · rw [hw]
    simp [Outcome.events, Outcome.world, World.ready, List.count_replicate]

section selector_failure

variable {σ : Type} (H : Hardware σ)

/-- A register block read that returned although the first three statuses of
the call were not those of a successful selector write: the result is false and
the destination holds the sentinel in its first `n` bytes. -/
theorem i2c_read_reg_n_selector_failed (dev : i2c_device) (reg : Nat) (bytes : List Nat)
    (n fuel : Nat) (w : World σ) (b : Bool) (out : List Nat) (htwi : w.twi = true)
    (hret : (i2c_read_reg_n H dev reg bytes n fuel w).value = some (b, out))
    (hst : (statuses ((i2c_read_reg_n H dev reg bytes n fuel w).events w)).take 3 ≠
      [START_TRANSMIT, ADDR_W_ACK, DATA_TRANSMIT_ACK]) :
    b = false ∧ out = List.replicate n SENTINEL ++ bytes.drop n := by
  rcases i2c_read_reg_n_spec H dev reg bytes n fuel w htwi _ rfl with
    ⟨ss1, x, r, he, hv⟩ | ⟨ss2, ds, x, r, hl, hle, he, hv⟩ | ⟨he, _⟩
  · rcases hv with ⟨_, hv⟩ | hh
    · rw [hret] at hv
      injection hv with hv
      injection hv with h1 h2
      exact ⟨h1, h2⟩
    · rw [hung_value_none hh] at hret
      exact absurd hret (by simp)
  · exfalso
    apply hst
    rw [x.statuses_eq, statuses_append, statuses_write_bt dev [reg] (write_expected 1) rfl,
      statuses_read_bt dev n ss2 ds hl]
    rfl
  · rw [error_value_none he] at hret
    exact absurd hret (by simp)

end selector_failure

/-- Claim C15. For every `n`, if the selector write inside `i2c_read_reg_n`
(the call `i2c_block_write(dev, &reg, 1)`) returns false, then `i2c_read_reg_n`
returns false in the world the selector write ended in, with no read phase, and
its destination is `n` bytes `0x7E` followed by the untouched bytes beyond `n`:
every one of the first `n` bytes is the sentinel.  In terms of what the bus
shows: on a bound module, a call that returns although its first three statuses
are not `0x08`, `0x18`, `0x28` returns false with that destination. -/
theorem C15_selector_failure_leaves_sentinels {σ : Type} (H : Hardware σ) (dev : i2c_device)
    (reg : Nat) (bytes : List Nat) (n fuel : Nat) (w : World σ) :
    (∀ w1, i2c_block_write H dev [reg] 1 fuel w = .ok false w1 →
      i2c_read_reg_n H dev reg bytes n fuel w =
        .ok (false, List.replicate n SENTINEL ++ bytes.drop n) w1) ∧
    (∀ i, i < n → (List.replicate n SENTINEL ++ bytes.drop n)[i]? = some 0x7E) ∧
    (w.twi = true → ∀ b out,
      (i2c_read_reg_n H dev reg bytes n fuel w).value = some (b, out) →
      (statuses ((i2c_read_reg_n H dev reg bytes n fuel w).events w)).take 3 ≠
        [START_TRANSMIT, ADDR_W_ACK, DATA_TRANSMIT_ACK] →
      b = false ∧ out = List.replicate n SENTINEL ++ bytes.drop n) := by
  refine ⟨?_, ?_, ?_⟩
  · intro w1 hsel
    simp [i2c_read_reg_n, hsel, memset]
  · intro i hi
    rw [List.getElem?_append_left (by simpa using hi)]
    simp [hi]
  · intro htwi b out hret hst
    exact i2c_read_reg_n_selector_failed H dev reg bytes n fuel w b out htwi hret hst

/-- Witness for C15: a 6-byte register read whose register selector is not
acknowledged, into a buffer of 7 bytes. -/
theorem C15_witness :
    i2c_read_reg_n script ⟨0x62⟩ 0x02 [1, 2, 3, 4, 5, 6, 7] 6 1
        (World.ready Script.selector_nak) =
      .ok (false, List.replicate 6 SENTINEL ++ [1, 2, 3, 4, 5, 6, 7].drop 6)
        (i2c_block_write script ⟨0x62⟩ [0x02] 1 1 (World.ready Script.selector_nak)).world ∧
    (false = false ∧
      [0x7E, 0x7E, 0x7E, 0x7E, 0x7E, 0x7E, 7] =
        List.replicate 6 SENTINEL ++ [1, 2, 3, 4, 5, 6, 7].drop 6) :=
  ⟨(C15_selector_failure_leaves_sentinels script ⟨0x62⟩ 0x02 [1, 2, 3, 4, 5, 6, 7] 6 1
      (World.ready Script.selector_nak)).1
      (i2c_block_write script ⟨0x62⟩ [0x02] 1 1 (World.ready Script.selector_nak)).world rfl,
   (C15_selector_failure_leaves_sentinels script ⟨0x62⟩ 0x02 [1, 2, 3, 4, 5, 6, 7] 6 1
      (World.ready Script.selector_nak)).2.2 rfl false
      [0x7E, 0x7E, 0x7E, 0x7E, 0x7E, 0x7E, 7] (by decide) (by decide)⟩

section retries

variable {σ : Type} (H : Hardware σ)

theorem events_congr {α β : Type} {o1 : Outcome σ α} {o2 : Outcome σ β} (w : World σ)
    (h : o1.world = o2.world) : o1.events w = o2.events w := by
  rw [Outcome.events, Outcome.events, h]

theorem i2c_new_world (addr fuel : Nat) (w : World σ) :
    (i2c_new H addr fuel w).world = (i2c_block_write H ⟨addr⟩ [] 0 fuel w).world := by
  rw [i2c_new_eq]
  exact (bind_relabel _ _).1

theorem i2c_read_reg_sel_fail (dev : i2c_device) (reg fuel : Nat) (w : World σ)
    (hs : (i2c_block_write H dev [reg] 1 fuel w).value ≠ some true) :
    (i2c_read_reg H dev reg fuel w).world = (i2c_block_write H dev [reg] 1 fuel w).world := by
  unfold i2c_read_reg
  generalize i2c_block_write H dev [reg] 1 fuel w = o at hs ⊢
  cases o with
  | ok b w1 =>
    cases b with
    | false => rfl
    | true => exact absurd rfl hs
  | fatal e w1 => rfl
  | hang w1 => rfl
  | null_deref w1 => rfl

theorem i2c_read_reg_n_sel_fail (dev : i2c_device) (reg : Nat) (bytes : List Nat)
    (n fuel : Nat) (w : World σ)
    (hs : (i2c_block_write H dev [reg] 1 fuel w).value ≠ some true) :
    (i2c_read_reg_n H dev reg bytes n fuel w).world =
      (i2c_block_write H dev [reg] 1 fuel w).world := by
  unfold i2c_read_reg_n
  generalize i2c_block_write H dev [reg] 1 fuel w = o at hs ⊢
  cases o with
  | ok b w1 =>
    cases b with
    | false => rfl
    | true => exact absurd rfl hs
  | fatal e w1 => rfl
  | hang w1 => rfl
  | null_deref w1 => rfl

theorem i2c_read_reg_sel_ok (dev : i2c_device) (reg fuel : Nat) (w w1 : World σ)
    (hs : i2c_block_write H dev [reg] 1 fuel w = .ok true w1) :
    (i2c_read_reg H dev reg fuel w).world = (i2c_block_read H dev [0] 1 fuel w1).world := by
  unfold i2c_read_reg
  rw [hs]
  simp only [bind_ok, Bool.not_true, Bool.false_eq_true, if_false]
  generalize i2c_block_read H dev [0] 1 fuel w1 = o
  cases o with
  | ok r w2 =>
    simp only [bind_ok]
    split <;> rfl
  | fatal e w2 => rfl
  | hang w2 => rfl
  | null_deref w2 => rfl

theorem i2c_read_reg_n_sel_ok (dev : i2c_device) (reg : Nat) (bytes : List Nat)
    (n fuel : Nat) (w w1 : World σ)
    (hs : i2c_block_write H dev [reg] 1 fuel w = .ok true w1) :
    i2c_read_reg_n H dev reg bytes n fuel w =
      i2c_block_read H dev (memset bytes SENTINEL n) n fuel w1 := by
  unfold i2c_read_reg_n
  rw [hs]
  simp

theorem selector_data_writes (dev : i2c_device) (reg k : Nat) :
    data_writes ((write_plan dev [reg] 1).take (k + 1)) = [addr_w dev, reg % 256].take k := by
  have hp : write_plan dev [reg] 1 =
      [.wr .m_sta 1, .wr .data (addr_w dev), .wr .data (reg % 256)] := rfl
  rw [hp]
  rcases k with _ | _ | k <;> simp [data_writes, Event.data_write]

/-- A register read whose selector write does not return true ends where the
selector write ends: one start, and no data-register write beyond the address
byte with the write bit and the register selector. -/
theorem read_after_failed_selector {α : Type} (dev : i2c_device) (reg fuel : Nat)
    (w : World σ) (htwi : w.twi = true) (o : Outcome σ α)
    (hw : o.world = (i2c_block_write H dev [reg] 1 fuel w).world) :
    starts (o.events w) = 1 ∧
    ∃ k, data_writes (o.events w) = [addr_w dev, reg % 256].take k := by
  obtain ⟨bt, k, x, hs, _, _, hd⟩ := i2c_block_write_ext H dev [reg] 1 fuel w htwi
  rw [← hw] at x
  rw [x.starts_eq, x.data_writes_eq, hd, selector_data_writes]
  exact ⟨hs, k, rfl⟩

/-- A register read whose selector write returned true goes on to a block
read: two starts. -/
theorem read_after_selector {α : Type} (dev : i2c_device) (reg : Nat) (bytes : List Nat)
    (n fuel : Nat) (w w1 : World σ) (htwi : w.twi = true) (o : Outcome σ α)
    (hs : i2c_block_write H dev [reg] 1 fuel w = .ok true w1)
    (hw : o.world = (i2c_block_read H dev bytes n fuel w1).world) :
    starts (o.events w) = 2 := by
  obtain ⟨bt1, k1, x1, hs1, _⟩ := i2c_block_write_ext H dev [reg] 1 fuel w htwi
  rw [hs] at x1
  obtain ⟨bt2, k2, x2, hs2, _⟩ := i2c_block_read_ext H dev bytes n fuel w1 x1.1
  rw [← hw] at x2
  have x : Extends w o.world (bt1 ++ bt2) := Extends.trans x1 x2
  rw [x.starts_eq, starts_append, hs1, hs2]

theorem i2c_block_write_starts (dev : i2c_device) (bytes : List Nat) (n fuel : Nat)
    (w : World σ) (htwi : w.twi = true) {α : Type} (o : Outcome σ α)
    (hw : o.world = (i2c_block_write H dev bytes n fuel w).world) :
    starts (o.events w) = 1 := by
  obtain ⟨bt, k, x, hs, _⟩ := i2c_block_write_ext H dev bytes n fuel w htwi
  rw [← hw] at x
  rw [x.starts_eq, hs]

end retries

/-- Claim C16. On a bound module, whatever the outcome of the call (a timeout
and a stop loop that outlasts the fuel included): `i2c_new`, `i2c_write_reg`,
`i2c_write_reg_n` and `i2c_block_write` set the start bit exactly once.
`i2c_read_reg` and `i2c_read_reg_n` set it exactly once when their selector
write (`i2c_block_write(dev, &reg, 1)`) does not return true, and then the only
data-register writes are the first ones of: address byte with the write bit,
register selector (no address byte with the read bit follows); they set it
exactly twice when the selector write returns true. -/
theorem C16_no_step_retried {σ : Type} (H : Hardware σ) (dev : i2c_device)
    (addr reg val n fuel : Nat) (bytes : List Nat) (w : World σ) (htwi : w.twi = true) :
    starts ((i2c_new H addr fuel w).events w) = 1 ∧
    starts ((i2c_write_reg H dev reg val fuel w).events w) = 1 ∧
    starts ((i2c_write_reg_n H dev reg bytes n fuel w).events w) = 1 ∧
    starts ((i2c_block_write H dev bytes n fuel w).events w) = 1 ∧
    ((i2c_block_write H dev [reg] 1 fuel w).value ≠ some true →
      (starts ((i2c_read_reg H dev reg fuel w).events w) = 1 ∧
        ∃ k, data_writes ((i2c_read_reg H dev reg fuel w).events w) =
          [((dev.addr <<< 1) ||| WRITE_BIT) % 256, reg % 256].take k) ∧
      (starts ((i2c_read_reg_n H dev reg bytes n fuel w).events w) = 1 ∧
        ∃ k, data_writes ((i2c_read_reg_n H dev reg bytes n fuel w).events w) =
          [((dev.addr <<< 1) ||| WRITE_BIT) % 256, reg % 256].take k)) ∧
    ((i2c_block_write H dev [reg] 1 fuel w).value = some true →
      starts ((i2c_read_reg H dev reg fuel w).events w) = 2 ∧
      starts ((i2c_read_reg_n H dev reg bytes n fuel w).events w) = 2) := by
  refine ⟨?_, ?_, ?_, ?_, ?_, ?_⟩
  · exact i2c_block_write_starts H ⟨addr⟩ [] 0 fuel w htwi _ (i2c_new_world H addr fuel w)
  · exact i2c_block_write_starts H dev [reg, val] 2 fuel w htwi _ rfl
  · exact i2c_block_write_starts H dev (reg :: bytes.take n) (n + 1) fuel w htwi _ rfl
  · exact i2c_block_write_starts H dev bytes n fuel w htwi _ rfl
  · intro hs
    exact ⟨read_after_failed_selector H dev reg fuel w htwi _
        (i2c_read_reg_sel_fail H dev reg fuel w hs),
      read_after_failed_selector H dev reg fuel w htwi _
        (i2c_read_reg_n_sel_fail H dev reg bytes n fuel w hs)⟩
  · intro hs
    obtain ⟨w1, hw1⟩ := value_eq_some hs
    exact ⟨read_after_selector H dev reg [0] 1 fuel w w1 htwi _ hw1
        (i2c_read_reg_sel_ok H dev reg fuel w w1 hw1),
      read_after_selector H dev reg (memset bytes SENTINEL n) n fuel w w1 htwi _ hw1
        (by rw [i2c_read_reg_n_sel_ok H dev reg bytes n fuel w w1 hw1])⟩

/-- Witness for C16: a register read whose selector is not acknowledged (one
start) and one on which every step succeeds (two starts). -/
theorem C16_witness :
    ((World.ready Script.selector_nak).twi = true ∧
      (i2c_block_write script ⟨0x62⟩ [0x01] 1 1 (World.ready Script.selector_nak)).value ≠
        some true ∧
      (i2c_block_write script ⟨0x62⟩ [0x01] 1 1 (World.ready Script.read_ok)).value =
        some true) ∧
    starts ((i2c_read_reg script ⟨0x62⟩ 0x01 1 (World.ready Script.selector_nak)).events
      (World.ready Script.selector_nak)) = 1 ∧
    starts ((i2c_read_reg script ⟨0x62⟩ 0x01 1 (World.ready Script.read_ok)).events
      (World.ready Script.read_ok)) = 2 :=
  ⟨⟨rfl, by decide, by decide⟩,
   ((C16_no_step_retried script ⟨0x62⟩ 0x62 0x01 0 1 1 [0] (World.ready Script.selector_nak)
      rfl).2.2.2.2.1 (by decide)).1.1,
   ((C16_no_step_retried script ⟨0x62⟩ 0x62 0x01 0 1 1 [0] (World.ready Script.read_ok)
      rfl).2.2.2.2.2 (by decide)).1⟩

section init

theorem i2c_init_eq {σ : Type} (H : Hardware σ) (s : σ) (b : Bool) (t : List Event) :
    i2c_init H ⟨s, b, t⟩ =
      .ok () ⟨H.write (H.write (H.write (H.write (H.write s .clk_duty 1) .clk_M 11) .clk_N 1)
          .bus_en 1) .efr 0, true,
        t ++ [.ccu_ungate_bus_clock, .gpio_set_function .sda, .gpio_set_function .scl,
          .wr .clk_duty 1, .wr .clk_M 11, .wr .clk_N 1, .wr .bus_en 1, .wr .efr 0]⟩ := by
  simp [i2c_init, platform, wr_field, Field.width]

end init

/-- The registers after `i2c_init` on the peripheral whose `cntr` is one word
with a write-1-to-clear completion flag. -/
theorem i2c_init_cntr_word (s : Field → Nat) (b : Bool) (t : List Event) (f : Field) :
    (i2c_init cntr_word ⟨s, b, t⟩).world.hw f =
      match f with
      | .clk_duty => 1
      | .clk_M => 11
      | .clk_N => 1
      | .bus_en => 1
      | .efr => 0
      | .int_flag => if s .int_flag = 1 then 0 else s .int_flag
      | g => s g := by
  rw [i2c_init_eq]
  cases f <;> rfl

/-- Counterexample to C17 as stated: on a peripheral whose `cntr` bit-fields
share one word with a write-1-to-clear `int_flag`, `i2c_init` makes its five
assignments and a completion flag that was pending before the call is clear
after it: `int_flag` has not kept its prior value. -/
theorem C17_counterexample :
    flag_pending .int_flag = 1 ∧
    (i2c_init cntr_word (World.unbound flag_pending)).world.hw .int_flag = 0 ∧
    (i2c_init cntr_word (World.unbound flag_pending)).events (World.unbound flag_pending) =
      [.ccu_ungate_bus_clock, .gpio_set_function .sda, .gpio_set_function .scl,
        .wr .clk_duty 1, .wr .clk_M 11, .wr .clk_N 1, .wr .bus_en 1, .wr .efr 0] := by
  decide

/-- Claim C17, amended.  From any world and on any peripheral, `i2c_init`
returns with the module bound (the one instance of the model is TWI0,
`module.twi_base[0]`), and the accesses it makes are, in order: ungate the bus
clock, route the two pins, and five assignments, `clk_duty = 1`, `clk_M = 11`,
`clk_N = 1`, `bus_en = 1`, `efr = 0`; no other member is assigned and none is
read.  What the registers hold afterwards depends on the peripheral.  On a
register file, where every field is stored on its own, the five fields hold
these values and every other field holds its prior value.  On the peripheral
whose `cntr` is one word with a write-1-to-clear `int_flag`, the five fields
hold these values and `clk_mode`, `ack`, `m_stp`, `m_sta`, `int_en`, `addr`,
`xaddr`, `data`, `srst`, `lcr` and `stat` hold their prior values, but
`int_flag` does not: the assignment to `bus_en` stores the whole word, and a
flag that was pending is clear after the call. -/
theorem C17_init_frame {σ : Type} (H : Hardware σ) (w : World σ) (s : Field → Nat)
    (b : Bool) (t : List Event) :
    ((i2c_init H w).value = some () ∧
      (i2c_init H w).world.twi = true ∧
      (i2c_init H w).events w =
        [.ccu_ungate_bus_clock, .gpio_set_function .sda, .gpio_set_function .scl,
          .wr .clk_duty 1, .wr .clk_M 11, .wr .clk_N 1, .wr .bus_en 1, .wr .efr 0]) ∧
    ((i2c_init regfile ⟨s, b, t⟩).world.hw .clk_duty = 1 ∧
      (i2c_init regfile ⟨s, b, t⟩).world.hw .clk_M = 11 ∧
      (i2c_init regfile ⟨s, b, t⟩).world.hw .clk_N = 1 ∧
      (i2c_init regfile ⟨s, b, t⟩).world.hw .bus_en = 1 ∧
      (i2c_init regfile ⟨s, b, t⟩).world.hw .efr = 0 ∧
      (∀ f, f ∉ [Field.clk_duty, .clk_M, .clk_N, .bus_en, .efr] →
        (i2c_init regfile ⟨s, b, t⟩).world.hw f = s f)) ∧
    ((i2c_init cntr_word ⟨s, b, t⟩).world.hw .clk_duty = 1 ∧
      (i2c_init cntr_word ⟨s, b, t⟩).world.hw .clk_M = 11 ∧
      (i2c_init cntr_word ⟨s, b, t⟩).world.hw .clk_N = 1 ∧
      (i2c_init cntr_word ⟨s, b, t⟩).world.hw .bus_en = 1 ∧
      (i2c_init cntr_word ⟨s, b, t⟩).world.hw .efr = 0 ∧
      (∀ f, f ∉ [Field.clk_duty, .clk_M, .clk_N, .bus_en, .efr, .int_flag] →
        (i2c_init cntr_word ⟨s, b, t⟩).world.hw f = s f) ∧
      (i2c_init cntr_word ⟨s, b, t⟩).world.hw .int_flag =
        (if s .int_flag = 1 then 0 else s .int_flag) ∧
      (s .int_flag = 1 → (i2c_init cntr_word ⟨s, b, t⟩).world.hw .int_flag ≠ s .int_flag)) := by
  refine ⟨?_, ?_, ?_⟩
  · obtain ⟨hw, tw, tr⟩ := w
    rw [i2c_init_eq]
    refine ⟨rfl, rfl, ?_⟩
    simp [Outcome.events, Outcome.world]
  · rw [i2c_init_eq]
    refine ⟨rfl, rfl, rfl, rfl, rfl, ?_⟩
    intro f hf
    cases f <;> simp at hf <;> rfl
  · refine ⟨i2c_init_cntr_word s b t .clk_duty, i2c_init_cntr_word s b t .clk_M,
      i2c_init_cntr_word s b t .clk_N, i2c_init_cntr_word s b t .bus_en,
      i2c_init_cntr_word s b t .efr, ?_, i2c_init_cntr_word s b t .int_flag, ?_⟩
    · intro f hf
      rw [i2c_init_cntr_word]
      cases f <;> simp at hf <;> rfl
    · intro h1
      rw [i2c_init_cntr_word s b t .int_flag]
      simp [h1]

/-- Claim C18. The nine members of `twi_t.regs` lie at consecutive 4-byte
offsets `0x00` to `0x20` from the instance base; an instance takes `0x400`
bytes, so consecutive instances are `0x400` apart from `0x02502000`; the `lcr`
of TWI0 is at `0x02502020` and the `efr` of TWI1 at `0x0250241c`, as the two
static assertions of the source require.  In `cntr` the fields `clk_mode`,
`ack`, `int_flag`, `m_stp`, `m_sta`, `bus_en`, `int_en` are the bits 0, 2, 3, 4,
5, 6, 7; in `ccr` the fields `clk_N`, `clk_M`, `clk_duty` are the bits 0-2, 3-6
and 7.  The width of every bit-field is the one the register model of the
embedding reduces its accesses by. -/
theorem C18_register_layout :
    twi_regs.map (fun m => (m.1, offset_of m.1)) =
      [(.addr, some 0x00), (.xaddr, some 0x04), (.data, some 0x08), (.cntr, some 0x0c),
        (.stat, some 0x10), (.ccr, some 0x14), (.srst, some 0x18), (.efr, some 0x1c),
        (.lcr, some 0x20)] ∧
    sizeof_twi_t = 0x400 ∧
    (∀ i r, reg_address (i + 1) r = (reg_address i r).map (· + 0x400)) ∧
    reg_address 0 .addr = some 0x02502000 ∧
    reg_address 0 .lcr = some 0x02502020 ∧
    reg_address 1 .efr = some 0x0250241c ∧
    (bit_range .cntr .clk_mode = some (0, 1) ∧ bit_range .cntr .ack = some (2, 1) ∧
      bit_range .cntr .int_flag = some (3, 1) ∧ bit_range .cntr .m_stp = some (4, 1) ∧
      bit_range .cntr .m_sta = some (5, 1) ∧ bit_range .cntr .bus_en = some (6, 1) ∧
      bit_range .cntr .int_en = some (7, 1)) ∧
    (bit_range .ccr .clk_N = some (0, 3) ∧ bit_range .ccr .clk_M = some (3, 4) ∧
      bit_range .ccr .clk_duty = some (7, 1)) ∧
    (∀ r f lo k, bit_range r f = some (lo, k) → f.width = k) := by
  refine ⟨by decide, by decide, ?_, by decide, by decide, by decide, by decide, by decide, ?_⟩
  · intro i r
    have hs : sizeof_twi_t = 0x400 := by decide
    cases r <;> simp [reg_address, offset_of, offset_in, twi_regs, member_size, hs] <;> omega
  · intro r f lo k h
    cases r <;> cases f <;> simp [bit_range, twi_regs, bit_in] at h <;>
      (rw [← h.2]; rfl)

/-! ## The identity checks of the sensor drivers -/

section identity

variable {σ : Type} (H : Hardware σ)

theorem ext_bind {α β : Type} {o : Outcome σ α} {k : α → World σ → Outcome σ β}
    {w : World σ} (h1 : ∃ bt, Extends w o.world bt)
    (h2 : ∀ a w1, w1.twi = true → ∃ bt, Extends w1 (k a w1).world bt) :
    ∃ bt, Extends w (o.bind k).world bt := by
  obtain ⟨bt, x⟩ := h1
  cases o with
  | ok a w1 =>
    obtain ⟨bt2, x2⟩ := h2 a w1 x.1
    exact ⟨_, x.trans x2⟩
  | fatal e w1 => exact ⟨bt, x⟩
  | hang w1 => exact ⟨bt, x⟩
  | null_deref w1 => exact ⟨bt, x⟩

theorem ext_and_then {α β : Type} {o : Outcome σ (Checked α)}
    {k : α → World σ → Outcome σ (Checked β)} {w : World σ}
    (h1 : ∃ bt, Extends w o.world bt)
    (h2 : ∀ a w1, w1.twi = true → ∃ bt, Extends w1 (k a w1).world bt) :
    ∃ bt, Extends w (o.and_then k).world bt := by
  apply ext_bind h1
  intro c w1 hw1
  cases c with
  | returned a => exact h2 a w1 hw1
  | assert_failed => exact ⟨[], Extends.refl w1 hw1⟩

theorem ext_ok {α : Type} (a : α) (w : World σ) (h : w.twi = true) :
    ∃ bt, Extends w (Outcome.ok a w).world bt :=
  ⟨[], Extends.refl w h⟩

theorem ext_platform (e : Event) (w : World σ) (h : w.twi = true) :
    ∃ bt, Extends w (platform e w).world bt :=
  ⟨bus_trace [e], h, [e], rfl, rfl⟩

theorem ext_write_reg (dev : i2c_device) (reg val fuel : Nat) (w : World σ)
    (h : w.twi = true) : ∃ bt, Extends w (i2c_write_reg H dev reg val fuel w).world bt := by
  obtain ⟨bt, _, x, _⟩ := i2c_block_write_ext H dev [reg, val] 2 fuel w h
  exact ⟨bt, x⟩

theorem ext_set_range (msa : msa311_t) (range fuel : Nat) (w : World σ) (h : w.twi = true) :
    ∃ bt, Extends w (set_range H msa range fuel w).world bt := by
  unfold set_range
  split
  · apply ext_bind (ext_write_reg H _ _ _ _ w h)
    intro ok w1 h1
    split
    · exact ext_ok _ w1 h1
    · exact ext_bind (ext_platform _ w1 h1) fun _ w2 h2 => ext_ok _ w2 h2
  · exact ext_ok _ w h

theorem ext_set_data_rate (msa : msa311_t) (v fuel : Nat) (w : World σ) (h : w.twi = true) :
    ∃ bt, Extends w (set_data_rate H msa v fuel w).world bt := by
  unfold set_data_rate
  split
  · apply ext_bind (ext_write_reg H _ _ _ _ w h)
    intro ok w1 h1
    split
    · exact ext_ok _ w1 h1
    · exact ext_bind (ext_platform _ w1 h1) fun _ w2 h2 => ext_ok _ w2 h2
  · exact ext_ok _ w h

theorem ext_set_power_mode (msa : msa311_t) (v fuel : Nat) (w : World σ) (h : w.twi = true) :
    ∃ bt, Extends w (set_power_mode H msa v fuel w).world bt := by
  unfold set_power_mode
  split
  · apply ext_bind (ext_write_reg H _ _ _ _ w h)
    intro ok w1 h1
    split
    · exact ext_ok _ w1 h1
    · exact ext_bind (ext_platform _ w1 h1) fun _ w2 h2 => ext_ok _ w2 h2
  · exact ext_ok _ w h

theorem ext_set_bandwidth (msa : msa311_t) (v fuel : Nat) (w : World σ) (h : w.twi = true) :
    ∃ bt, Extends w (set_bandwidth H msa v fuel w).world bt := by
  unfold set_bandwidth
  split
  · apply ext_bind (ext_write_reg H _ _ _ _ w h)
    intro ok w1 h1
    split
    · exact ext_ok _ w1 h1
    · exact ext_bind (ext_platform _ w1 h1) fun _ w2 h2 => ext_ok _ w2 h2
  · exact ext_ok _ w h

theorem ext_set_resolution (msa : msa311_t) (v fuel : Nat) (w : World σ) (h : w.twi = true) :
    ∃ bt, Extends w (set_resolution H msa v fuel w).world bt := by
  unfold set_resolution
  split
  · apply ext_bind (ext_write_reg H _ _ _ _ w h)
    intro ok w1 h1
    split
    · exact ext_ok _ w1 h1
    · exact ext_bind (ext_platform _ w1 h1) fun _ w2 h2 => ext_ok _ w2 h2
  · exact ext_ok _ w h

/-- A probe that returned a handle: the handle is bound to the address probed
and the two statuses read were the expected ones. -/
theorem i2c_new_some (addr fuel : Nat) (w w4 : World σ) (dev : i2c_device)
    (htwi : w.twi = true) (h : i2c_new H addr fuel w = .ok (some dev) w4) :
    dev = ⟨addr⟩ ∧ ∃ bt, Extends w w4 bt ∧ statuses bt = [START_TRANSMIT, ADDR_W_ACK] := by
  rw [i2c_new_eq] at h
  obtain ⟨bt, _, x, _⟩ := i2c_block_write_ext H ⟨addr⟩ [] 0 fuel w htwi
  have hiff := (i2c_block_write_cases H ⟨addr⟩ [] fuel w htwi _ rfl).2
  have hst := x.statuses_eq
  simp only [List.length_nil] at hiff
  cases hb : i2c_block_write H ⟨addr⟩ [] 0 fuel w with
  | ok s w1 =>
    rw [hb] at h x
    simp only [bind_ok] at h
    injection h with h1 h2
    subst h2
    cases s with
    | false => simp at h1
    | true =>
      simp only [if_true] at h1
      injection h1 with h1
      refine ⟨h1.symm, bt, x, ?_⟩
      rw [← hst]
      exact (hiff true (by rw [hb]; rfl)).1 rfl
  | fatal e w1 => rw [hb] at h; simp at h
  | hang w1 => rw [hb] at h; simp at h
  | null_deref w1 => rw [hb] at h; simp at h

/-- A register read that returned: unless the six statuses read were the
expected ones, the value is the sentinel. -/
theorem i2c_read_reg_ok (dev : i2c_device) (reg fuel v : Nat) (w w5 : World σ)
    (htwi : w.twi = true) (h : i2c_read_reg H dev reg fuel w = .ok v w5) :
    ∃ bt, Extends w w5 bt ∧
      (statuses bt ≠ [START_TRANSMIT, ADDR_W_ACK, DATA_TRANSMIT_ACK, START_TRANSMIT,
          ADDR_R_ACK, DATA_RECEIVE_NAK] → v = SENTINEL) := by
  have hret := i2c_read_reg_returns H dev reg fuel w v htwi (by rw [h]; rfl)
  have hx : ∃ bt, Extends w (i2c_read_reg H dev reg fuel w).world bt := by
    rcases i2c_read_reg_spec H dev reg fuel w htwi _ rfl with
      ⟨_, x, _⟩ | ⟨_, _, x, _⟩ | ⟨_, _, _, x, _⟩
    · exact ⟨_, x⟩
    · exact ⟨_, x⟩
    · exact ⟨_, x⟩
  obtain ⟨bt, x⟩ := hx
  have hst := x.statuses_eq
  rw [hst] at hret
  rw [h] at x
  exact ⟨bt, x, hret.2⟩

end identity

section identity_checks

variable {σ : Type} (H : Hardware σ)

theorem drop_take_statuses (a b : Nat) (six rest : List Nat) (h6 : six.length = 6) :
    (([a, b] ++ six ++ rest).drop 2).take 6 = six := by
  simp [← h6]

theorem ext_pre {w w1 w2 : World σ} {a : List Event} (h1 : Extends w w1 a)
    (h2 : ∃ bt, Extends w1 w2 bt) : ∃ bt, Extends w w2 bt := by
  obtain ⟨bt, x⟩ := h2
  exact ⟨_, h1.trans x⟩

/-- The routine `msa311_init` hands back NULL, if it returns at all, unless the
statuses of the part-ID read (those after the two of the probe) are the six
expected ones. -/
theorem msa311_init_rejects (fuel : Nat) (w : World σ)
    (hret : (msa311_init H fuel w).value ≠ none)
    (hst : ((statuses ((msa311_init H fuel w).events w)).drop 2).take 6 ≠
      [START_TRANSMIT, ADDR_W_ACK, DATA_TRANSMIT_ACK, START_TRANSMIT, ADDR_R_ACK,
        DATA_RECEIVE_NAK]) :
    (msa311_init H fuel w).value = some (.returned none) := by
  obtain ⟨s, b, t⟩ := w
  have x3 : Extends ⟨s, b, t⟩
      (⟨H.write (H.write (H.write (H.write (H.write s .clk_duty 1) .clk_M 11) .clk_N 1)
          .bus_en 1) .efr 0, true,
        t ++ [.gpio_set_function .sda] ++ [.gpio_set_function .scl] ++
          [.ccu_ungate_bus_clock, .gpio_set_function .sda, .gpio_set_function .scl,
          .wr .clk_duty 1, .wr .clk_M 11, .wr .clk_N 1, .wr .bus_en 1, .wr .efr 0]⟩ : World σ)
      [] :=
    ⟨rfl, [.gpio_set_function .sda, .gpio_set_function .scl,
        .ccu_ungate_bus_clock, .gpio_set_function .sda, .gpio_set_function .scl,
        .wr .clk_duty 1, .wr .clk_M 11, .wr .clk_N 1, .wr .bus_en 1, .wr .efr 0],
      by simp, rfl⟩
  cases h4 : i2c_new H MSA311_ADDRESS fuel
      ⟨H.write (H.write (H.write (H.write (H.write s .clk_duty 1) .clk_M 11) .clk_N 1)
          .bus_en 1) .efr 0, true,
        t ++ [.gpio_set_function .sda] ++ [.gpio_set_function .scl] ++
          [.ccu_ungate_bus_clock, .gpio_set_function .sda, .gpio_set_function .scl,
          .wr .clk_duty 1, .wr .clk_M 11, .wr .clk_N 1, .wr .bus_en 1, .wr .efr 0]⟩ with
  | ok d w4 =>
    cases d with
    | none =>
      have ho : msa311_init H fuel ⟨s, b, t⟩ = .ok (.returned none) w4 := by
        unfold msa311_init
        simp only [platform, bind_ok, i2c_init_eq, h4]
      rw [ho]
      rfl
    | some dev =>
      obtain ⟨hdev, bt4, x4, hs4⟩ := i2c_new_some H _ fuel _ w4 dev rfl h4
      cases h5 : i2c_read_reg H dev REG_PART_ID fuel w4 with
      | ok v w5 =>
        obtain ⟨bt5, x5, hs5⟩ := i2c_read_reg_ok H dev REG_PART_ID fuel v w4 w5 x4.1 h5
        by_cases hv : v = EXPECTED_PART_ID
        · exfalso
          have hsix : statuses bt5 = [START_TRANSMIT, ADDR_W_ACK, DATA_TRANSMIT_ACK,
              START_TRANSMIT, ADDR_R_ACK, DATA_RECEIVE_NAK] := by
            by_contra hc
            have := hs5 hc
            rw [hv] at this
            exact absurd this (by decide)
          have hx : ∃ bt, Extends w5 (msa311_init H fuel ⟨s, b, t⟩).world bt := by
            unfold msa311_init
            simp only [platform, bind_ok, i2c_init_eq, h4, h5, hv, ne_eq, not_true_eq_false,
              if_false]
            apply ext_bind (ext_write_reg H _ _ _ _ w5 x5.1)
            intro _ w6 h6
            have x7 : Extends w6 ⟨w6.hw, w6.twi, w6.trace ++ [.timer_delay_us 1000]⟩ [] :=
              ⟨h6, [.timer_delay_us 1000], rfl, rfl⟩
            refine ext_pre x7 ?_
            apply ext_and_then (ext_set_range H _ _ _ _ x7.1)
            intro r w8 h8
            apply ext_and_then (ext_set_data_rate H _ _ _ w8 h8)
            intro _ w9 h9
            apply ext_and_then (ext_set_power_mode H _ _ _ w9 h9)
            intro _ w10 h10
            apply ext_and_then (ext_set_bandwidth H _ _ _ w10 h10)
            intro _ w11 h11
            apply ext_and_then (ext_set_resolution H _ _ _ w11 h11)
            intro _ w12 h12
            exact ext_ok _ w12 h12
          obtain ⟨bt6, x6⟩ := hx
          have x := ((x3.trans x4).trans x5).trans x6
          apply hst
          rw [x.statuses_eq, statuses_append, statuses_append, List.nil_append, hs4, hsix]
          exact drop_take_statuses _ _ _ _ rfl
        · have ho : msa311_init H fuel ⟨s, b, t⟩ = .ok (.returned none) w5 := by
            unfold msa311_init
            simp only [platform, bind_ok, i2c_init_eq, h4, h5, ne_eq, hv, not_false_eq_true,
              if_true]
          rw [ho]
          rfl
      | fatal e w5 =>
        exfalso
        apply hret
        unfold msa311_init
        simp only [platform, bind_ok, i2c_init_eq, h4, h5, bind_fatal]
        rfl
      | hang w5 =>
        exfalso
        apply hret
        unfold msa311_init
        simp only [platform, bind_ok, i2c_init_eq, h4, h5, bind_hang]
        rfl
      | null_deref w5 =>
        exfalso
        apply hret
        unfold msa311_init
        simp only [platform, bind_ok, i2c_init_eq, h4, h5, bind_null]
        rfl
  | fatal e w4 =>
    exfalso
    apply hret
    unfold msa311_init
    simp only [platform, bind_ok, i2c_init_eq, h4, bind_fatal]
    rfl
  | hang w4 =>
    exfalso
    apply hret
    unfold msa311_init
    simp only [platform, bind_ok, i2c_init_eq, h4, bind_hang]
    rfl
  | null_deref w4 =>
    exfalso
    apply hret
    unfold msa311_init
    simp only [platform, bind_ok, i2c_init_eq, h4, bind_null]
    rfl

/-- The routine `vl50l0x_init` fails an assertion, if it gets as far as
returning or asserting at all, unless the statuses of the model-ID read (those
after the two of the probe) are the six expected ones. -/
theorem vl50l0x_init_rejects (fuel : Nat) (w : World σ)
    (hret : (vl50l0x_init H fuel w).value ≠ none)
    (hst : ((statuses ((vl50l0x_init H fuel w).events w)).drop 2).take 6 ≠
      [START_TRANSMIT, ADDR_W_ACK, DATA_TRANSMIT_ACK, START_TRANSMIT, ADDR_R_ACK,
        DATA_RECEIVE_NAK]) :
    (vl50l0x_init H fuel w).value = some .assert_failed := by
  by_cases htwi : w.twi = true
  · cases h4 : i2c_new H VL53L0X_ADDR fuel w with
    | ok d w4 =>
      cases d with
      | none =>
        have ho : vl50l0x_init H fuel w = .ok .assert_failed w4 := by
          unfold vl50l0x_init
          simp only [bind_ok, h4]
        rw [ho]
        rfl
      | some dev =>
        obtain ⟨hdev, bt4, x4, hs4⟩ := i2c_new_some H _ fuel _ w4 dev htwi h4
        cases h5 : i2c_read_reg H dev REG_IDENTIFICATION_MODEL_ID fuel w4 with
        | ok v w5 =>
          obtain ⟨bt5, x5, hs5⟩ :=
            i2c_read_reg_ok H dev REG_IDENTIFICATION_MODEL_ID fuel v w4 w5 x4.1 h5
          by_cases hv : v = VL53L0X_EXPECTED_DEVICE_ID
          · exfalso
            have hsix : statuses bt5 = [START_TRANSMIT, ADDR_W_ACK, DATA_TRANSMIT_ACK,
                START_TRANSMIT, ADDR_R_ACK, DATA_RECEIVE_NAK] := by
              by_contra hc
              have := hs5 hc
              rw [hv] at this
              exact absurd this (by decide)
            have ho : vl50l0x_init H fuel w = .ok (.returned dev) w5 := by
              unfold vl50l0x_init
              simp only [bind_ok, h4, h5, hv, if_true]
            have x : Extends w (vl50l0x_init H fuel w).world (bt4 ++ bt5) := by
              rw [ho]
              exact x4.trans x5
            apply hst
            rw [x.statuses_eq, statuses_append, hs4, hsix]
            rfl
          · have ho : vl50l0x_init H fuel w = .ok .assert_failed w5 := by
              unfold vl50l0x_init
              simp only [bind_ok, h4, h5, hv, if_false]
            rw [ho]
            rfl
        | fatal e w5 =>
          exfalso
          apply hret
          unfold vl50l0x_init
          simp only [bind_ok, h4, h5, bind_fatal]
          rfl
        | hang w5 =>
          exfalso
          apply hret
          unfold vl50l0x_init
          simp only [bind_ok, h4, h5, bind_hang]
          rfl
        | null_deref w5 =>
          exfalso
          apply hret
          unfold vl50l0x_init
          simp only [bind_ok, h4, h5, bind_null]
          rfl
    | fatal e w4 =>
      exfalso
      apply hret
      unfold vl50l0x_init
      simp only [h4, bind_fatal]
      rfl
    | hang w4 =>
      exfalso
      apply hret
      unfold vl50l0x_init
      simp only [h4, bind_hang]
      rfl
    | null_deref w4 =>
      exfalso
      apply hret
      unfold vl50l0x_init
      simp only [h4, bind_null]
      rfl
  · exfalso
    apply hret
    have hf : w.twi = false := by simpa using htwi
    unfold vl50l0x_init
    simp only [i2c_new, i2c_block_write_unbound H _ _ _ _ w hf, bind_fatal]
    rfl

end identity_checks

/-- Claim C19. The sentinel `0x7E` differs from both expected identities, `0x13`
and `0xEE`.  Whenever `msa311_init` returns, it returns NULL unless the six
statuses of the part-ID read (the ones after the two statuses of the probe)
were the expected ones; whenever `vl50l0x_init` gets through the probe, its
identity assertion fails unless the six statuses of the model-ID read were the
expected ones.  A failed identity read is thus never accepted. -/
theorem C19_failed_identity_read_rejected {σ : Type} (H : Hardware σ) (fuel : Nat)
    (w : World σ) :
    SENTINEL ≠ EXPECTED_PART_ID ∧ SENTINEL ≠ VL53L0X_EXPECTED_DEVICE_ID ∧
    ((msa311_init H fuel w).value ≠ none →
      ((statuses ((msa311_init H fuel w).events w)).drop 2).take 6 ≠
        [START_TRANSMIT, ADDR_W_ACK, DATA_TRANSMIT_ACK, START_TRANSMIT, ADDR_R_ACK,
          DATA_RECEIVE_NAK] →
      (msa311_init H fuel w).value = some (.returned none)) ∧
    ((vl50l0x_init H fuel w).value ≠ none →
      ((statuses ((vl50l0x_init H fuel w).events w)).drop 2).take 6 ≠
        [START_TRANSMIT, ADDR_W_ACK, DATA_TRANSMIT_ACK, START_TRANSMIT, ADDR_R_ACK,
          DATA_RECEIVE_NAK] →
      (vl50l0x_init H fuel w).value = some .assert_failed) :=
  ⟨by decide, by decide, msa311_init_rejects H fuel w, vl50l0x_init_rejects H fuel w⟩

/-- Witness for C19: the probe is acknowledged and the selector write of the
identity read is not. -/
theorem C19_witness :
    (statuses ((msa311_init script 1 (World.unbound Script.id_read_nak)).events
        (World.unbound Script.id_read_nak)) =
      [START_TRANSMIT, ADDR_W_ACK, START_TRANSMIT, ADDR_W_ACK, DATA_TRANSMIT_NAK]) ∧
    (msa311_init script 1 (World.unbound Script.id_read_nak)).value =
      some (.returned none) ∧
    (vl50l0x_init script 1 (World.ready Script.id_read_nak)).value = some .assert_failed :=
  ⟨by decide,
   (C19_failed_identity_read_rejected script 1 (World.unbound Script.id_read_nak)).2.2.1
     (by decide) (by decide),
   (C19_failed_identity_read_rejected script 1 (World.ready Script.id_read_nak)).2.2.2
     (by decide) (by decide)⟩

/-- Counterexample to C20 as stated: invoked on an unbound module, `do_transmit`
raises no error; it reaches the assignment to the data register through the
NULL `module.twi`.  Neither do `do_receive` and `do_stop`. -/
theorem C20_counterexample :
    do_transmit unresponsive 0xC4 ADDR_W_ACK (World.unbound ()) =
      .null_deref (World.unbound ()) ∧
    (do_transmit unresponsive 0xC4 ADDR_W_ACK (World.unbound ())).error = none ∧
    (do_receive unresponsive true (World.unbound ())).error = none ∧
    (do_stop unresponsive 1 (World.unbound ())).error = none :=
  ⟨rfl, rfl, rfl, rfl⟩

/-- Claim C20, amended. Of the four primitives only `do_start` checks
`module.twi`: invoked on an unbound module it raises the fatal error before any
register access.  `do_transmit`, `do_receive` and `do_stop` have no check:
invoked on an unbound module their first action is a register access through
the NULL pointer, and no error is raised.  The block transfers, which are
their only callers, call `do_start` first, so on an unbound module they end in
the fatal error before any of the three is reached. -/
theorem C20_only_do_start_checks {σ : Type} (H : Hardware σ) (w : World σ)
    (dev : i2c_device) (bytes : List Nat) (byte e n fuel : Nat) (is_last : Bool)
    (h : w.twi = false) :
    do_start H e w = .fatal .not_init w ∧
    do_transmit H byte e w = .null_deref w ∧
    do_receive H is_last w = .null_deref w ∧
    do_stop H fuel w = .null_deref w ∧
    i2c_block_write H dev bytes n fuel w = .fatal .not_init w ∧
    i2c_block_read H dev bytes n fuel w = .fatal .not_init w := by
  refine ⟨do_start_unbound H e w h, ?_, ?_, ?_,
    i2c_block_write_unbound H dev bytes n fuel w h,
    i2c_block_read_unbound H dev bytes n fuel w h⟩
  · simp [do_transmit, wr_field_unbound H _ _ w h]
  · simp [do_receive, wr_field_unbound H _ _ w h]
  · simp [do_stop, wr_field_unbound H _ _ w h]

/-- Witness for C20 (amended): the primitives on a module that was never
initialised. -/
theorem C20_witness :
    (World.unbound ()).twi = false ∧
    do_start unresponsive START_TRANSMIT (World.unbound ()) =
      .fatal .not_init (World.unbound ()) ∧
    do_stop unresponsive 1 (World.unbound ()) = .null_deref (World.unbound ()) :=
  ⟨rfl,
   (C20_only_do_start_checks unresponsive (World.unbound ()) ⟨0x62⟩ [] 0xC4 START_TRANSMIT 0 1
      true rfl).1,
   (C20_only_do_start_checks unresponsive (World.unbound ()) ⟨0x62⟩ [] 0xC4 START_TRANSMIT 0 1
      true rfl).2.2.2.1⟩

/-! ## The polls of a completion wait -/

section polls

variable {σ : Type} (H : Hardware σ)

theorem rd_flag (w : World σ) (h : w.twi = true) :
    ∃ v w1, rd_field H .int_flag w = .ok v w1 ∧ (v = 0 ∨ v = 1) ∧ w1.twi = true ∧
      w1.trace = w.trace ++ [.rd .int_flag v] := by
  refine ⟨(H.read w.hw .int_flag).1 % 2,
    ⟨(H.read w.hw .int_flag).2, true,
      w.trace ++ [.rd .int_flag ((H.read w.hw .int_flag).1 % 2)]⟩, ?_,
    Nat.mod_two_eq_zero_or_one _, rfl, rfl⟩
  simp [rd_field, h, Field.width]

/-- The polling loop of `wait_completion` from the count `c`: either all `c`
polls read 0 and the count ends at 0, or the polls read 0 some `j < c` times
and then 1, and the count ends at `c - j`, which is not 0. -/
theorem wait_poll_trace (c : Nat) (w : World σ) (h : w.twi = true) :
    (∃ w', wait_poll H c w = .ok 0 w' ∧ w'.twi = true ∧
      w'.trace = w.trace ++ List.replicate c (.rd .int_flag 0)) ∨
    (∃ j w', j < c ∧ wait_poll H c w = .ok (c - j) w' ∧ w'.twi = true ∧
      w'.trace = w.trace ++ (List.replicate j (.rd .int_flag 0) ++ [.rd .int_flag 1])) := by
  induction c generalizing w with
  | zero => exact Or.inl ⟨w, by simp [wait_poll], h, by simp⟩
  | succ c ih =>
    obtain ⟨v, w1, e1, hv, t1, r1⟩ := rd_flag H w h
    rw [wait_poll, e1]
    simp only [bind_ok]
    rcases hv with rfl | rfl
    · simp only [if_true]
      by_cases hc : c = 0
      · subst hc
        simp only [if_true]
        exact Or.inl ⟨w1, rfl, t1, by rw [r1]; rfl⟩
      · simp only [hc, if_false]
        rcases ih w1 t1 with ⟨w', e, t, r⟩ | ⟨j, w', hj, e, t, r⟩
        · exact Or.inl ⟨w', e, t, by rw [r, r1, List.append_assoc]; rfl⟩
        · refine Or.inr ⟨j + 1, w', by omega, ?_, t, ?_⟩
          · rw [e]
            congr 1
            omega
          · rw [r, r1, List.append_assoc]
            rfl
    · simp only [Nat.one_ne_zero, if_false]
      exact Or.inr ⟨0, w1, by omega, rfl, t1, by rw [r1]; rfl⟩

/-- A completion wait: either every one of the 1,000,000 polls read 0 and the
timeout is raised, or the `k`-th poll, `1 ≤ k ≤ 1,000,000`, was the first to
read 1, no poll follows it, and the status read after it is returned. -/
theorem wait_completion_trace (w : World σ) (h : w.twi = true) :
    (∃ w', wait_completion H w = .fatal .timeout w' ∧ w'.twi = true ∧
      w'.trace = w.trace ++
        (.wr .int_flag 1 :: List.replicate 1000000 (.rd .int_flag 0))) ∨
    (∃ k st w', 1 ≤ k ∧ k ≤ 1000000 ∧ wait_completion H w = .ok st w' ∧ w'.twi = true ∧
      w'.trace = w.trace ++
        (.wr .int_flag 1 :: (List.replicate (k - 1) (.rd .int_flag 0) ++
          [.rd .int_flag 1, .rd .stat st]))) := by
  obtain ⟨w0, e0, t0, r0⟩ := wr_field_spec H .int_flag 1 w h
  have r0' : w0.trace = w.trace ++ [.wr .int_flag 1] := r0
  rw [wait_completion, e0]
  simp only [bind_ok]
  rcases wait_poll_trace H (1000 * 1000) w0 t0 with ⟨w1, e1, t1, r1⟩ | ⟨j, w1, hj, e1, t1, r1⟩
  · left
    rw [e1]
    simp only [bind_ok, if_true]
    exact ⟨w1, rfl, t1, by rw [r1, r0', List.append_assoc]; rfl⟩
  · right
    rw [e1]
    simp only [bind_ok]
    have hne : 1000 * 1000 - j ≠ 0 := by omega
    simp only [hne, if_false]
    obtain ⟨st, w2, e2, t2, r2⟩ := rd_field_spec H .stat w1 t1
    refine ⟨j + 1, st, w2, by omega, by omega, e2, t2, ?_⟩
    rw [r2, r1, r0']
    simp

/-- The completion flag of `slow_flag` reads 0 as often as its state says. -/
theorem slow_flag_poll (c s : Nat) (t : List Event) (hs : s < c) :
    wait_poll slow_flag c ⟨s, true, t⟩ =
      .ok (c - s) ⟨0, true, t ++ (List.replicate s (.rd .int_flag 0) ++ [.rd .int_flag 1])⟩ := by
  induction c generalizing s t with
  | zero => omega
  | succ c ih =>
    rw [wait_poll, rd_field_eq]
    cases s with
    | zero =>
      simp [slow_flag, Field.width]
    | succ s =>
      have hr : slow_flag.read (s + 1) .int_flag = (0, s) := by simp [slow_flag]
      have hc : c ≠ 0 := by omega
      rw [hr]
      simp only [Field.width, pow_one, Nat.zero_mod, bind_ok, if_true, hc, if_false]
      rw [ih s _ (by omega)]
      congr 1
      · omega
      · simp [List.replicate_succ]

theorem slow_flag_wait (s : Nat) (hs : s < 1000000) :
    wait_completion slow_flag (World.ready s) =
      .ok START_TRANSMIT ⟨0, true, .wr .int_flag 1 ::
        (List.replicate s (.rd .int_flag 0) ++
          [.rd .int_flag 1, .rd .stat START_TRANSMIT])⟩ := by
  rw [wait_completion, World.ready, wr_field_eq]
  simp only [bind_ok]
  have hw : slow_flag.write s .int_flag (1 % 2 ^ Field.int_flag.width) = s := rfl
  rw [hw, slow_flag_poll (1000 * 1000) s _ (by omega)]
  simp only [bind_ok]
  have hne : 1000 * 1000 - s ≠ 0 := by omega
  simp only [hne, if_false]
  rw [rd_field_eq]
  simp [slow_flag, Field.width]
  decide

end polls

/-- Claim C23. On a bound module, `wait_completion` raises the timeout error
exactly when its accesses are the clearing of the flag followed by 1,000,000
polls that all read 0.  Otherwise the `k`-th poll, for some
`1 ≤ k ≤ 1,000,000`, is the first to read 1: no timeout is raised, no poll
follows it, the next access is the read of the status register, and its value
is what is returned.  The last poll counts: on the peripheral whose flag reads
0 exactly `s` times, the wait returns for every `s < 1,000,000`, so also when
the 1 shows at poll 1,000,000. -/
theorem C23_timeout_iff_million_zero_polls {σ : Type} (H : Hardware σ) (w : World σ)
    (htwi : w.twi = true) :
    ((wait_completion H w).error = some .timeout ↔
      (wait_completion H w).events w =
        .wr .int_flag 1 :: List.replicate 1000000 (.rd .int_flag 0)) ∧
    ((wait_completion H w).error = some .timeout ∨
      ∃ k st, 1 ≤ k ∧ k ≤ 1000000 ∧
        (wait_completion H w).events w =
          .wr .int_flag 1 :: (List.replicate (k - 1) (.rd .int_flag 0) ++
            [.rd .int_flag 1, .rd .stat st]) ∧
        (wait_completion H w).value = some st ∧ (wait_completion H w).error = none) ∧
    (∀ s, s < 1000000 →
      (wait_completion slow_flag (World.ready s)).value = some START_TRANSMIT ∧
      (wait_completion slow_flag (World.ready s)).events (World.ready s) =
        .wr .int_flag 1 :: (List.replicate s (.rd .int_flag 0) ++
          [.rd .int_flag 1, .rd .stat START_TRANSMIT])) := by
  refine ⟨?_, ?_, ?_⟩
  · rcases wait_completion_trace H w htwi with ⟨w', e, _, r⟩ | ⟨k, st, w', _, _, e, _, r⟩
    · rw [e]
      simp only [Outcome.error, Outcome.events, Outcome.world, r, List.drop_left, true_iff]
    · rw [e]
      simp only [Outcome.error, Outcome.events, Outcome.world, r, List.drop_left]
      constructor
      · intro hc
        exact absurd hc (by simp)
      · intro hc
        exfalso
        have hm : Event.rd .stat st ∈
            Event.wr .int_flag 1 :: List.replicate 1000000 (Event.rd .int_flag 0) := by
          rw [← hc]
          simp
        rcases List.mem_cons.1 hm with h1 | h1
        · cases h1
        · cases List.eq_of_mem_replicate h1
  · rcases wait_completion_trace H w htwi with ⟨w', e, _, r⟩ | ⟨k, st, w', h1, h2, e, _, r⟩
    · left
      rw [e]
      rfl
    · right
      refine ⟨k, st, h1, h2, ?_, by rw [e]; rfl, by rw [e]; rfl⟩
      rw [e]
      simp only [Outcome.events, Outcome.world, r, List.drop_left]
  · intro s hs
    rw [slow_flag_wait s hs]
    exact ⟨rfl, rfl⟩

/-- Witness for C23: the flag reads 0 twice and 1 at the third poll. -/
theorem C23_witness :
    (World.ready 2).twi = true ∧
    (wait_completion slow_flag (World.ready 2)).events (World.ready 2) =
      [.wr .int_flag 1, .rd .int_flag 0, .rd .int_flag 0, .rd .int_flag 1,
        .rd .stat START_TRANSMIT] ∧
    (wait_completion slow_flag (World.ready 2)).value = some START_TRANSMIT :=
  ⟨rfl,
   ((C23_timeout_iff_million_zero_polls slow_flag (World.ready 2) rfl).2.2 2
      (by decide)).2,
   ((C23_timeout_iff_million_zero_polls slow_flag (World.ready 2) rfl).2.2 2
      (by decide)).1⟩

/-! ## Trigger writes and status reads in step -/

section in_step_lemmas

variable {σ : Type} (H : Hardware σ)

theorem in_step_append (s : Bool) (a b : List Event) :
    in_step s (a ++ b) = (in_step s a).bind fun s' => in_step s' b := by
  induction a generalizing s with
  | nil => rfl
  | cons e a ih =>
    cases e with
    | rd f v => cases f <;> cases s <;> simp [in_step, ih]
    | wr f v => cases f <;> cases s <;> simp [in_step, ih]
    | timer_delay_us n => simp [in_step, ih]
    | ccu_ungate_bus_clock => simp [in_step, ih]
    | gpio_set_function p => simp [in_step, ih]

theorem in_step_bus (s : Bool) (t : List Event) : in_step s (bus_trace t) = in_step s t := by
  induction t generalizing s with
  | nil => rfl
  | cons e t ih =>
    rw [bus_trace_cons]
    cases e with
    | rd f v => cases f <;> cases s <;> simp [Event.is_bus, in_step, ih]
    | wr f v => cases f <;> cases s <;> simp [Event.is_bus, in_step, ih]
    | timer_delay_us n => simp [Event.is_bus, in_step, ih]
    | ccu_ungate_bus_clock => simp [Event.is_bus, in_step, ih]
    | gpio_set_function p => simp [Event.is_bus, in_step, ih]

theorem Extends.in_step_eq {α : Type} {o : Outcome σ α} {w : World σ} {bt : List Event}
    (h : Extends w o.world bt) (s : Bool) : in_step s (o.events w) = in_step s bt := by
  rw [← in_step_bus, h.events]

theorem kept_step_ok {α : Type} (a : α) (w : World σ) (h : w.twi = true) :
    (Outcome.ok a w).kept_step w :=
  ⟨[], Extends.refl w h, rfl⟩

theorem kept_step_bind {α β : Type} {o : Outcome σ α} {k : α → World σ → Outcome σ β}
    {w : World σ} (h1 : o.kept_step w)
    (h2 : ∀ a w1, w1.twi = true → (k a w1).kept_step w1) : (o.bind k).kept_step w := by
  obtain ⟨bt, x, hs⟩ := h1
  cases o with
  | ok a w1 =>
    obtain ⟨bt2, x2, hs2⟩ := h2 a w1 x.1
    refine ⟨bt ++ bt2, x.trans x2, ?_⟩
    rw [in_step_append, hs]
    exact hs2
  | fatal e w1 => exact ⟨bt, x, hs⟩
  | hang w1 => exact ⟨bt, x, hs⟩
  | null_deref w1 => exact ⟨bt, x, hs⟩

theorem do_start_kept (e : Nat) (w : World σ) (h : w.twi = true) :
    (do_start H e w).kept_step w := by
  rcases do_start_spec H e w h with ⟨st, w', e1, x⟩ | ⟨w', e1, x⟩
  · rw [e1]
    exact ⟨_, x, rfl⟩
  · rw [e1]
    exact ⟨_, x, rfl⟩

theorem do_transmit_kept (b e : Nat) (w : World σ) (h : w.twi = true) :
    (do_transmit H b e w).kept_step w := by
  rcases do_transmit_spec H b e w h with ⟨st, w', e1, x⟩ | ⟨w', e1, x⟩
  · rw [e1]
    exact ⟨_, x, rfl⟩
  · rw [e1]
    exact ⟨_, x, rfl⟩

theorem do_receive_kept (is_last : Bool) (w : World σ) (h : w.twi = true) :
    (do_receive H is_last w).kept_step w := by
  rcases do_receive_spec H is_last w h with ⟨st, d, w', e1, x⟩ | ⟨w', e1, x⟩
  · rw [e1]
    exact ⟨_, x, rfl⟩
  · rw [e1]
    exact ⟨_, x, rfl⟩

theorem do_stop_kept (fuel : Nat) (w : World σ) (h : w.twi = true) :
    (do_stop H fuel w).kept_step w := by
  rcases do_stop_spec H fuel w h with ⟨w', e1, x⟩ | ⟨w', e1, x⟩
  · rw [e1]
    exact ⟨_, x, rfl⟩
  · rw [e1]
    exact ⟨_, x, rfl⟩

theorem write_loop_kept (bytes : List Nat) (rem i : Nat) (success : Bool) (w : World σ)
    (h : w.twi = true) : (write_loop H bytes rem i success w).kept_step w := by
  induction rem generalizing i success w with
  | zero => exact kept_step_ok _ w h
  | succ rem ih =>
    rw [write_loop]
    split
    · exact kept_step_bind (do_transmit_kept H _ _ w h) fun s w1 h1 => ih _ s w1 h1
    · exact kept_step_ok _ w h

theorem read_loop_kept (n rem i : Nat) (success : Bool) (bytes : List Nat) (w : World σ)
    (h : w.twi = true) : (read_loop H n rem i success bytes w).kept_step w := by
  induction rem generalizing i success bytes w with
  | zero => exact kept_step_ok _ w h
  | succ rem ih =>
    rw [read_loop]
    split
    · exact kept_step_bind (do_receive_kept H _ w h) fun r w1 h1 => ih _ r.2 _ w1 h1
    · exact kept_step_ok _ w h

theorem i2c_block_write_kept (dev : i2c_device) (bytes : List Nat) (n fuel : Nat)
    (w : World σ) (h : w.twi = true) : (i2c_block_write H dev bytes n fuel w).kept_step w := by
  unfold i2c_block_write
  apply kept_step_bind (do_start_kept H _ w h)
  intro success w1 h1
  refine kept_step_bind (k := fun success w2 => _) ?_ ?_
  · split
    · exact do_transmit_kept H _ _ w1 h1
    · exact kept_step_ok _ w1 h1
  · intro success w2 h2
    apply kept_step_bind (write_loop_kept H bytes n 0 success w2 h2)
    intro success w3 h3
    exact kept_step_bind (do_stop_kept H fuel w3 h3) fun _ w4 h4 => kept_step_ok _ w4 h4

theorem i2c_block_read_kept (dev : i2c_device) (bytes : List Nat) (n fuel : Nat)
    (w : World σ) (h : w.twi = true) : (i2c_block_read H dev bytes n fuel w).kept_step w := by
  unfold i2c_block_read
  apply kept_step_bind (do_start_kept H _ w h)
  intro success w1 h1
  refine kept_step_bind (k := fun success w2 => _) ?_ ?_
  · split
    · exact do_transmit_kept H _ _ w1 h1
    · exact kept_step_ok _ w1 h1
  · intro success w2 h2
    apply kept_step_bind (read_loop_kept H n n 0 success _ w2 h2)
    intro r w3 h3
    exact kept_step_bind (do_stop_kept H fuel w3 h3) fun _ w4 h4 => kept_step_ok _ w4 h4

theorem i2c_new_kept (addr fuel : Nat) (w : World σ) (h : w.twi = true) :
    (i2c_new H addr fuel w).kept_step w := by
  unfold i2c_new
  apply kept_step_bind (i2c_block_write_kept H _ _ _ fuel w h)
  intro s w1 h1
  split
  · exact kept_step_ok _ w1 h1
  · exact kept_step_ok _ w1 h1

theorem i2c_read_reg_kept (dev : i2c_device) (reg fuel : Nat) (w : World σ)
    (h : w.twi = true) : (i2c_read_reg H dev reg fuel w).kept_step w := by
  unfold i2c_read_reg
  apply kept_step_bind (i2c_block_write_kept H _ _ _ fuel w h)
  intro s w1 h1
  split
  · exact kept_step_ok _ w1 h1
  · apply kept_step_bind (i2c_block_read_kept H _ _ _ fuel w1 h1)
    intro r w2 h2
    split
    · exact kept_step_ok _ w2 h2
    · exact kept_step_ok _ w2 h2

theorem i2c_read_reg_n_kept (dev : i2c_device) (reg : Nat) (bytes : List Nat) (n fuel : Nat)
    (w : World σ) (h : w.twi = true) : (i2c_read_reg_n H dev reg bytes n fuel w).kept_step w := by
  unfold i2c_read_reg_n
  apply kept_step_bind (i2c_block_write_kept H _ _ _ fuel w h)
  intro s w1 h1
  split
  · exact kept_step_ok _ w1 h1
  · exact i2c_block_read_kept H _ _ _ fuel w1 h1

theorem kept_step_events {α : Type} {o : Outcome σ α} {w : World σ} (h : o.kept_step w) :
    in_step false (o.events w) = some (decide (o.error = some .timeout)) := by
  obtain ⟨bt, x, hs⟩ := h
  rw [x.in_step_eq, hs]

end in_step_lemmas

section primitive_steps

variable {σ : Type} (H : Hardware σ)

theorem bind_assoc {α β γ : Type} (o : Outcome σ α) (f : α → World σ → Outcome σ β)
    (g : β → World σ → Outcome σ γ) :
    (o.bind f).bind g = o.bind fun a w => (f a w).bind g := by
  cases o <;> rfl

/-- The accesses of a primitive that returns, after its trigger write `trig`
and before anything it reads besides the status: the flag is cleared, polled
until it reads 1, and the status register is read once. -/
theorem wait_after_trigger (f : Field) (v : Nat) (w : World σ) (h : w.twi = true) :
    (∃ k st w', 1 ≤ k ∧ k ≤ 1000000 ∧
      ((wr_field H f v w).bind fun _ w1 => wait_completion H w1) = .ok st w' ∧
      w'.twi = true ∧
      w'.trace = w.trace ++ (.wr f (v % 2 ^ f.width) :: .wr .int_flag 1 ::
        (List.replicate (k - 1) (.rd .int_flag 0) ++ [.rd .int_flag 1, .rd .stat st]))) ∨
    (∃ w', ((wr_field H f v w).bind fun _ w1 => wait_completion H w1) =
      .fatal .timeout w') := by
  obtain ⟨w1, e1, t1, r1⟩ := wr_field_spec H f v w h
  rw [e1]
  simp only [bind_ok]
  rcases wait_completion_trace H w1 t1 with ⟨w', e, _, _⟩ | ⟨k, st, w', hk1, hk2, e, t, r⟩
  · exact Or.inr ⟨w', e⟩
  · refine Or.inl ⟨k, st, w', hk1, hk2, e, t, ?_⟩
    rw [r, r1]
    simp

theorem do_start_steps (e : Nat) (w : World σ) (h : w.twi = true) (b : Bool)
    (hret : (do_start H e w).value = some b) :
    ∃ k st, 1 ≤ k ∧ k ≤ 1000000 ∧ b = (st == e) ∧
      (do_start H e w).events w = .wr .m_sta 1 :: .wr .int_flag 1 ::
        (List.replicate (k - 1) (.rd .int_flag 0) ++ [.rd .int_flag 1, .rd .stat st]) := by
  have hd : do_start H e w =
      ((wr_field H .m_sta 1 w).bind fun _ w1 => wait_completion H w1).bind
        fun status w2 => .ok (status == e) w2 := by
    rw [do_start, bind_assoc]
    simp only [h, Bool.true_eq_false, if_false]
  rw [hd] at hret ⊢
  rcases wait_after_trigger H .m_sta 1 w h with ⟨k, st, w', hk1, hk2, e1, _, r⟩ | ⟨w', e1⟩
  · rw [e1] at hret ⊢
    simp only [bind_ok, Outcome.value] at hret
    injection hret with hret
    refine ⟨k, st, hk1, hk2, hret.symm, ?_⟩
    simp only [bind_ok, Outcome.events, Outcome.world, r, List.drop_left]
    rfl
  · rw [e1] at hret
    exact absurd hret (by simp [Outcome.value])

theorem do_transmit_steps (byte e : Nat) (w : World σ) (h : w.twi = true) (b : Bool)
    (hret : (do_transmit H byte e w).value = some b) :
    ∃ k st, 1 ≤ k ∧ k ≤ 1000000 ∧ b = (st == e) ∧
      (do_transmit H byte e w).events w = .wr .data (byte % 256) :: .wr .int_flag 1 ::
        (List.replicate (k - 1) (.rd .int_flag 0) ++ [.rd .int_flag 1, .rd .stat st]) := by
  have hd : do_transmit H byte e w =
      ((wr_field H .data (byte % 256) w).bind fun _ w1 => wait_completion H w1).bind
        fun status w2 => .ok (status == e) w2 := by
    rw [do_transmit, bind_assoc]
  rw [hd] at hret ⊢
  rcases wait_after_trigger H .data (byte % 256) w h with
    ⟨k, st, w', hk1, hk2, e1, _, r⟩ | ⟨w', e1⟩
  · rw [e1] at hret ⊢
    simp only [bind_ok, Outcome.value] at hret
    injection hret with hret
    refine ⟨k, st, hk1, hk2, hret.symm, ?_⟩
    simp only [bind_ok, Outcome.events, Outcome.world, r, List.drop_left]
    have hm : byte % 256 % 2 ^ Field.data.width = byte % 256 :=
      Nat.mod_eq_of_lt (lt_of_lt_of_le (Nat.mod_lt _ (by decide)) (by decide))
    rw [hm]
  · rw [e1] at hret
    exact absurd hret (by simp [Outcome.value])

theorem do_receive_steps (is_last : Bool) (w : World σ) (h : w.twi = true) (b : Nat × Bool)
    (hret : (do_receive H is_last w).value = some b) :
    ∃ k st d, 1 ≤ k ∧ k ≤ 1000000 ∧ b = (d % 256, st == recv_expected is_last) ∧
      (do_receive H is_last w).events w = .wr .ack (ack_response is_last) :: .wr .int_flag 1 ::
        (List.replicate (k - 1) (.rd .int_flag 0) ++
          [.rd .int_flag 1, .rd .stat st, .rd .data d]) := by
  have hd : do_receive H is_last w =
      ((wr_field H .ack (ack_response is_last) w).bind fun _ w1 => wait_completion H w1).bind
        fun status w2 => (rd_field H .data w2).bind fun d w3 =>
          .ok (d % 256, status == recv_expected is_last) w3 := by
    rw [do_receive, bind_assoc]
    cases is_last <;> rfl
  rw [hd] at hret ⊢
  rcases wait_after_trigger H .ack (ack_response is_last) w h with
    ⟨k, st, w', hk1, hk2, e1, t, r⟩ | ⟨w', e1⟩
  · obtain ⟨d, w3, e3, t3, r3⟩ := rd_field_spec H .data w' t
    rw [e1] at hret ⊢
    simp only [bind_ok, e3, Outcome.value] at hret
    injection hret with hret
    refine ⟨k, st, d, hk1, hk2, hret.symm, ?_⟩
    simp only [bind_ok, e3, Outcome.events, Outcome.world, r3, r, List.append_assoc,
      List.drop_left]
    have hm : ack_response is_last % 2 ^ Field.ack.width = ack_response is_last := by
      cases is_last <;> rfl
    rw [hm]
    simp
  · rw [e1] at hret
    exact absurd hret (by simp [Outcome.value])

end primitive_steps

/-- Claim C21. On a bound module: (1) each of `do_start`, `do_transmit` and
`do_receive` that returns has made exactly these accesses, in order: its
trigger write, the clearing of the completion flag, the polls of the flag up to
the first that reads 1, and one read of the status register (followed, in
`do_receive`, by the read of the data register); the success it returns is the
comparison of that very status with the expected one.  (2) In every public
operation the trigger writes and the status reads are in step: every start,
data-register and acknowledge-bit write is followed by exactly one status read
before the next trigger write (the stop bit included), and there is no other
status read; the only write left without its status read is the one of a
primitive whose completion wait timed out, after which nothing follows. -/
theorem C21_status_read_after_each_trigger {σ : Type} (H : Hardware σ) (w : World σ)
    (dev : i2c_device) (addr reg val n fuel byte e : Nat) (bytes : List Nat)
    (is_last : Bool) (htwi : w.twi = true) :
    (∀ b, (do_start H e w).value = some b →
      ∃ k st, 1 ≤ k ∧ k ≤ 1000000 ∧ b = (st == e) ∧
        (do_start H e w).events w = .wr .m_sta 1 :: .wr .int_flag 1 ::
          (List.replicate (k - 1) (.rd .int_flag 0) ++ [.rd .int_flag 1, .rd .stat st])) ∧
    (∀ b, (do_transmit H byte e w).value = some b →
      ∃ k st, 1 ≤ k ∧ k ≤ 1000000 ∧ b = (st == e) ∧
        (do_transmit H byte e w).events w = .wr .data (byte % 256) :: .wr .int_flag 1 ::
          (List.replicate (k - 1) (.rd .int_flag 0) ++ [.rd .int_flag 1, .rd .stat st])) ∧
    (∀ b, (do_receive H is_last w).value = some b →
      ∃ k st d, 1 ≤ k ∧ k ≤ 1000000 ∧
        b = (d % 256, st == if is_last then DATA_RECEIVE_NAK else DATA_RECEIVE_ACK) ∧
        (do_receive H is_last w).events w =
          .wr .ack (if is_last then 0 else 1) :: .wr .int_flag 1 ::
            (List.replicate (k - 1) (.rd .int_flag 0) ++
              [.rd .int_flag 1, .rd .stat st, .rd .data d])) ∧
    in_step false ((i2c_new H addr fuel w).events w) =
      some (decide ((i2c_new H addr fuel w).error = some .timeout)) ∧
    in_step false ((i2c_write_reg H dev reg val fuel w).events w) =
      some (decide ((i2c_write_reg H dev reg val fuel w).error = some .timeout)) ∧
    in_step false ((i2c_write_reg_n H dev reg bytes n fuel w).events w) =
      some (decide ((i2c_write_reg_n H dev reg bytes n fuel w).error = some .timeout)) ∧
    in_step false ((i2c_read_reg H dev reg fuel w).events w) =
      some (decide ((i2c_read_reg H dev reg fuel w).error = some .timeout)) ∧
    in_step false ((i2c_read_reg_n H dev reg bytes n fuel w).events w) =
      some (decide ((i2c_read_reg_n H dev reg bytes n fuel w).error = some .timeout)) ∧
    in_step false ((i2c_block_read H dev bytes n fuel w).events w) =
      some (decide ((i2c_block_read H dev bytes n fuel w).error = some .timeout)) ∧
    in_step false ((i2c_block_write H dev bytes n fuel w).events w) =
      some (decide ((i2c_block_write H dev bytes n fuel w).error = some .timeout)) :=
  ⟨do_start_steps H e w htwi, do_transmit_steps H byte e w htwi,
    do_receive_steps H is_last w htwi,
    kept_step_events (i2c_new_kept H addr fuel w htwi),
    kept_step_events (i2c_block_write_kept H dev [reg, val] 2 fuel w htwi),
    kept_step_events (i2c_block_write_kept H dev (reg :: bytes.take n) (n + 1) fuel w htwi),
    kept_step_events (i2c_read_reg_kept H dev reg fuel w htwi),
    kept_step_events (i2c_read_reg_n_kept H dev reg bytes n fuel w htwi),
    kept_step_events (i2c_block_read_kept H dev bytes n fuel w htwi),
    kept_step_events (i2c_block_write_kept H dev bytes n fuel w htwi)⟩

/-- Witness for C21: a one-byte register read on which every step reports its
expected status; its trigger writes and status reads alternate. -/
theorem C21_witness :
    (World.ready Script.read_ok).twi = true ∧
    (i2c_read_reg script ⟨0x62⟩ 0x01 1 (World.ready Script.read_ok)).error = none ∧
    in_step false ((i2c_read_reg script ⟨0x62⟩ 0x01 1 (World.ready Script.read_ok)).events
      (World.ready Script.read_ok)) =
      some (decide ((i2c_read_reg script ⟨0x62⟩ 0x01 1 (World.ready Script.read_ok)).error =
        some .timeout)) :=
  ⟨rfl, by decide,
   (C21_status_read_after_each_trigger script (World.ready Script.read_ok) ⟨0x62⟩ 0x62 0x01
      0 1 1 0 START_TRANSMIT [0] true rfl).2.2.2.2.2.2.1⟩

section block_read_facts

variable {σ : Type} (H : Hardware σ)

/-- A block read that returned after the receive of byte index `k` reported the
first unexpected status: the result is false, `k + 1` receives were made, and
the destination holds their data-register reads in the slots `0..k`, the
sentinel in the slots `k+1..n-1`, and is untouched beyond `n`. -/
theorem i2c_block_read_failed_receive (dev : i2c_device) (bytes : List Nat) (n k s fuel : Nat)
    (w : World σ) (b : Bool) (out : List Nat) (hk : k < n) (hlen : n ≤ bytes.length)
    (htwi : w.twi = true)
    (hst : statuses ((i2c_block_read H dev bytes n fuel w).events w) =
      [START_TRANSMIT, ADDR_R_ACK] ++ List.replicate k DATA_RECEIVE_ACK ++ [s])
    (hs : s ≠ if k = n - 1 then DATA_RECEIVE_NAK else DATA_RECEIVE_ACK)
    (hret : (i2c_block_read H dev bytes n fuel w).value = some (b, out)) :
    b = false ∧
    (data_reads ((i2c_block_read H dev bytes n fuel w).events w)).length = k + 1 ∧
    out = (data_reads ((i2c_block_read H dev bytes n fuel w).events w)).map (fun d => d % 256)
        ++ List.replicate (n - (k + 1)) SENTINEL ++ bytes.drop n ∧
    out.length = bytes.length := by
  rcases i2c_block_read_run H dev bytes n fuel w htwi _ rfl with
    ⟨_, _, _, _, hl, hv⟩ | ⟨herr, _⟩
  · rcases hv with hv | hh
    · rw [hret] at hv
      injection hv with hv
      injection hv with hb hout
      have hdl : (data_reads ((i2c_block_read H dev bytes n fuel w).events w)).length =
          k + 1 := by
        rw [hl, hst]
        simp
      have hne : statuses ((i2c_block_read H dev bytes n fuel w).events w) ≠
          read_expected n := by
        intro heq
        apply hs
        have hget := recv_expected_from_get n n 0 k hk
        have h2 : (read_expected n)[k + 2]? = some s := by
          rw [← heq, hst]
          simp [List.getElem?_append_right]
        rw [read_expected, List.getElem?_cons_succ, List.getElem?_cons_succ, hget] at h2
        injection h2 with h2
        rw [← h2]
        by_cases hkn : k = n - 1 <;> simp [recv_expected, hkn]
      have ho : out = (data_reads ((i2c_block_read H dev bytes n fuel w).events w)).map
          (fun d => d % 256) ++ List.replicate (n - (k + 1)) SENTINEL ++ bytes.drop n := by
        rw [hout, read_result, hdl]
      refine ⟨by rw [hb]; simpa using hne, hdl, ho, ?_⟩
      rw [ho]
      simp only [List.length_append, List.length_map, List.length_replicate,
        List.length_drop, hdl]
      omega
    · rw [hung_value_none hh] at hret
      exact absurd hret (by simp)
  · rw [error_value_none herr] at hret
    exact absurd hret (by simp)

/-- Every run of a zero-length block read on a bound module, by its bus
actions. -/
theorem i2c_block_read_zero (dev : i2c_device) (bytes : List Nat) (fuel : Nat)
    (w : World σ) (h : w.twi = true) :
    (∃ st w', (i2c_block_read H dev bytes 0 fuel w = .ok (st == ADDR_R_ACK, bytes) w' ∨
          i2c_block_read H dev bytes 0 fuel w = .hang w') ∧
        Extends w w' [.wr .m_sta 1, .rd .stat START_TRANSMIT,
          .wr .data (((dev.addr <<< 1) ||| READ_BIT) % 256), .rd .stat st, .wr .m_stp 1]) ∨
    (∃ st w', st ≠ START_TRANSMIT ∧
        (i2c_block_read H dev bytes 0 fuel w = .ok (false, bytes) w' ∨
          i2c_block_read H dev bytes 0 fuel w = .hang w') ∧
        Extends w w' [.wr .m_sta 1, .rd .stat st, .wr .m_stp 1]) ∨
    (∃ w', i2c_block_read H dev bytes 0 fuel w = .fatal .timeout w' ∧
        (Extends w w' [.wr .m_sta 1] ∨
          Extends w w' [.wr .m_sta 1, .rd .stat START_TRANSMIT,
            .wr .data (((dev.addr <<< 1) ||| READ_BIT) % 256)])) := by
  have hm : memset bytes SENTINEL 0 = bytes := by simp [memset]
  have hd : i2c_block_read H dev bytes 0 fuel w =
      ((do_start H START_TRANSMIT w).bind fun success w1 =>
        if success then do_transmit H ((dev.addr <<< 1) ||| READ_BIT) ADDR_R_ACK w1
        else .ok false w1).bind fun success w2 =>
      (do_stop H fuel w2).bind fun _ w4 => .ok (success, bytes) w4 := by
    rw [i2c_block_read, hm]
    cases do_start H START_TRANSMIT w with
    | ok s w1 =>
      simp only [bind_ok]
      cases (if s = true then do_transmit H ((dev.addr <<< 1) ||| READ_BIT) ADDR_R_ACK w1
        else Outcome.ok false w1) <;> simp [read_loop]
    | _ => rfl
  rw [hd]
  rcases open_spec H ((dev.addr <<< 1) ||| READ_BIT) ADDR_R_ACK w h with
    ⟨st, w2, e, x⟩ | ⟨st, w2, hst, e, x⟩ | ⟨w2, e, x⟩ | ⟨w2, e, x⟩
  · left
    rw [e]
    simp only [bind_ok]
    rcases do_stop_spec H fuel w2 x.1 with ⟨w4, e4, x4⟩ | ⟨w4, e4, x4⟩
    · exact ⟨st, w4, Or.inl (by rw [e4]; rfl), x.trans x4⟩
    · exact ⟨st, w4, Or.inr (by rw [e4]; rfl), x.trans x4⟩
  · right; left
    rw [e]
    simp only [bind_ok]
    rcases do_stop_spec H fuel w2 x.1 with ⟨w4, e4, x4⟩ | ⟨w4, e4, x4⟩
    · exact ⟨st, w4, hst, Or.inl (by rw [e4]; rfl), x.trans x4⟩
    · exact ⟨st, w4, hst, Or.inr (by rw [e4]; rfl), x.trans x4⟩
  · right; right
    rw [e]
    exact ⟨w2, rfl, Or.inl x⟩
  · right; right
    rw [e]
    exact ⟨w2, rfl, Or.inr x⟩

theorem Extends.ack_writes_eq {α : Type} {o : Outcome σ α} {w : World σ} {bt : List Event}
    (h : Extends w o.world bt) : ack_writes (o.events w) = ack_writes bt := by
  rw [← ack_writes_bus, h.events]

/-- What the trace of a zero-length block read shows, whatever its outcome. -/
theorem i2c_block_read_zero_views (dev : i2c_device) (bytes : List Nat) (fuel : Nat)
    (w : World σ) (h : w.twi = true) :
    data_reads ((i2c_block_read H dev bytes 0 fuel w).events w) = [] ∧
    ack_writes ((i2c_block_read H dev bytes 0 fuel w).events w) = [] ∧
    starts ((i2c_block_read H dev bytes 0 fuel w).events w) = 1 ∧
    ((i2c_block_read H dev bytes 0 fuel w).error ≠ some .timeout →
      stops ((i2c_block_read H dev bytes 0 fuel w).events w) = 1) ∧
    (∀ b out, (i2c_block_read H dev bytes 0 fuel w).value = some (b, out) →
      out = bytes ∧
      (b = true ↔ statuses ((i2c_block_read H dev bytes 0 fuel w).events w) =
        [START_TRANSMIT, ADDR_R_ACK])) := by
  rcases i2c_block_read_zero H dev bytes fuel w h with
    ⟨st, w', ho, x⟩ | ⟨st, w', hst, ho, x⟩ | ⟨w', ho, x⟩
  · have hw : (i2c_block_read H dev bytes 0 fuel w).world = w' := by
      rcases ho with e | e <;> rw [e] <;> rfl
    rw [← hw] at x
    rw [x.data_reads_eq, x.ack_writes_eq, x.starts_eq, x.stops_eq, x.statuses_eq]
    refine ⟨rfl, rfl, rfl, fun _ => rfl, ?_⟩
    intro b out hret
    rcases ho with e | e
    · rw [e] at hret
      injection hret with hret
      injection hret with hb hout
      refine ⟨hout.symm, ?_⟩
      rw [← hb]
      simp [statuses, Event.status]
    · rw [e] at hret
      exact absurd hret (by simp [Outcome.value])
  · have hw : (i2c_block_read H dev bytes 0 fuel w).world = w' := by
      rcases ho with e | e <;> rw [e] <;> rfl
    rw [← hw] at x
    rw [x.data_reads_eq, x.ack_writes_eq, x.starts_eq, x.stops_eq, x.statuses_eq]
    refine ⟨rfl, rfl, rfl, fun _ => rfl, ?_⟩
    intro b out hret
    rcases ho with e | e
    · rw [e] at hret
      injection hret with hret
      injection hret with hb hout
      refine ⟨hout.symm, ?_⟩
      rw [← hb]
      simp [statuses, Event.status]
    · rw [e] at hret
      exact absurd hret (by simp [Outcome.value])
  · have hw : (i2c_block_read H dev bytes 0 fuel w).world = w' := by rw [ho]; rfl
    have he : (i2c_block_read H dev bytes 0 fuel w).error = some .timeout := by rw [ho]; rfl
    have hv : ∀ b out, (i2c_block_read H dev bytes 0 fuel w).value = some (b, out) →
        out = bytes ∧
        (b = true ↔ statuses ((i2c_block_read H dev bytes 0 fuel w).events w) =
          [START_TRANSMIT, ADDR_R_ACK]) := by
      intro b out hret
      rw [ho] at hret
      exact absurd hret (by simp [Outcome.value])
    rw [← hw] at x
    rcases x with x | x
    · rw [x.data_reads_eq, x.ack_writes_eq, x.starts_eq]
      exact ⟨rfl, rfl, rfl, fun hne => absurd he hne, hv⟩
    · rw [x.data_reads_eq, x.ack_writes_eq, x.starts_eq]
      exact ⟨rfl, rfl, rfl, fun hne => absurd he hne, hv⟩

end block_read_facts

/-- Claim C22. On a bound module, `do_receive` hands back the byte it read from
the data register whatever status it observed, and `i2c_block_read` stores it:
if the first unexpected status of a block read of `n` bytes is the one of the
receive of byte index `k`, then on return the result is false, `k + 1` receives
were made, the slots `0..k` of the destination (slot `k` included) hold the
data-register reads of those receives, and the slots `k+1..n-1` hold `0x7E`.
Slot `k` need not hold the sentinel: in a 3-byte read whose receive of index 1
reports `0x58` with the data register reading `0xAB`, the destination is
`01 AB 7E`. -/
theorem C22_receive_stores_regardless {σ : Type} (H : Hardware σ) (dev : i2c_device)
    (bytes : List Nat) (n fuel : Nat) (is_last : Bool) (w : World σ) (htwi : w.twi = true) :
    (∀ r, (do_receive H is_last w).value = some r →
      ∃ d, (data_reads ((do_receive H is_last w).events w)) = [d] ∧ r.1 = d % 256) ∧
    (∀ k s b out, k < n → n ≤ bytes.length →
      statuses ((i2c_block_read H dev bytes n fuel w).events w) =
        [START_TRANSMIT, ADDR_R_ACK] ++ List.replicate k DATA_RECEIVE_ACK ++ [s] →
      (s ≠ if k = n - 1 then DATA_RECEIVE_NAK else DATA_RECEIVE_ACK) →
      (i2c_block_read H dev bytes n fuel w).value = some (b, out) →
      b = false ∧
      (data_reads ((i2c_block_read H dev bytes n fuel w).events w)).length = k + 1 ∧
      out = (data_reads ((i2c_block_read H dev bytes n fuel w).events w)).map
          (fun d => d % 256) ++ List.replicate (n - (k + 1)) SENTINEL ++ bytes.drop n ∧
      out.length = bytes.length) ∧
    (i2c_block_read script ⟨0x62⟩ [0, 0, 0] 3 1 (World.ready Script.block_read_nak1)).value =
      some (false, [0x01, 0xAB, 0x7E]) := by
  refine ⟨?_, ?_, by decide⟩
  · intro r hret
    rcases do_receive_spec H is_last w htwi with ⟨st, d, w', e, x⟩ | ⟨w', e, x⟩
    · have hw : (do_receive H is_last w).world = w' := by rw [e]; rfl
      rw [← hw] at x
      rw [e] at hret
      injection hret with hret
      refine ⟨d, ?_, by rw [← hret]⟩
      rw [x.data_reads_eq]
      rfl
    · rw [e] at hret
      exact absurd hret (by simp [Outcome.value])
  · intro k s b out hk hlen hst hs hret
    exact i2c_block_read_failed_receive H dev bytes n k s fuel w b out hk hlen htwi hst hs hret

/-- Witness for C22: the 3-byte read whose receive of index 1 is not
acknowledged. -/
theorem C22_witness :
    (World.ready Script.block_read_nak1).twi = true ∧
    (false = false ∧
      (data_reads ((i2c_block_read script ⟨0x62⟩ [0, 0, 0] 3 1
        (World.ready Script.block_read_nak1)).events
          (World.ready Script.block_read_nak1))).length = 1 + 1 ∧
      [0x01, 0xAB, 0x7E] =
        (data_reads ((i2c_block_read script ⟨0x62⟩ [0, 0, 0] 3 1
          (World.ready Script.block_read_nak1)).events
            (World.ready Script.block_read_nak1))).map (fun d => d % 256)
          ++ List.replicate (3 - (1 + 1)) SENTINEL ++ [0, 0, 0].drop 3 ∧
      [0x01, 0xAB, 0x7E].length = [0, 0, 0].length) :=
  ⟨rfl,
   (C22_receive_stores_regardless script ⟨0x62⟩ [0, 0, 0] 3 1 true
      (World.ready Script.block_read_nak1) rfl).2.1 1 0x58 false [0x01, 0xAB, 0x7E]
      (by decide) (by decide) (by decide) (by decide) (by decide)⟩

/-- Claim C24. The value `i2c_read_reg` returns does not tell whether the read
succeeded.  On one replay every step reports its expected status and the device
supplies the byte `0x7E`; on another the register selector is not acknowledged.
Both calls return `0x7E`. -/
theorem C24_sentinel_is_ambiguous :
    ((i2c_read_reg script ⟨0x62⟩ 0x01 1 (World.ready Script.read_data_7e)).value = some 0x7E ∧
      statuses ((i2c_read_reg script ⟨0x62⟩ 0x01 1 (World.ready Script.read_data_7e)).events
        (World.ready Script.read_data_7e)) =
        [START_TRANSMIT, ADDR_W_ACK, DATA_TRANSMIT_ACK, START_TRANSMIT, ADDR_R_ACK,
          DATA_RECEIVE_NAK] ∧
      data_reads ((i2c_read_reg script ⟨0x62⟩ 0x01 1 (World.ready Script.read_data_7e)).events
        (World.ready Script.read_data_7e)) = [0x7E]) ∧
    ((i2c_read_reg script ⟨0x62⟩ 0x01 1 (World.ready Script.selector_nak)).value = some 0x7E ∧
      statuses ((i2c_read_reg script ⟨0x62⟩ 0x01 1 (World.ready Script.selector_nak)).events
        (World.ready Script.selector_nak)) =
        [START_TRANSMIT, ADDR_W_ACK, DATA_TRANSMIT_NAK] ∧
      data_reads ((i2c_read_reg script ⟨0x62⟩ 0x01 1 (World.ready Script.selector_nak)).events
        (World.ready Script.selector_nak)) = []) ∧
    (∃ s1 s2 : Script,
      (i2c_read_reg script ⟨0x62⟩ 0x01 1 (World.ready s1)).value =
        (i2c_read_reg script ⟨0x62⟩ 0x01 1 (World.ready s2)).value ∧
      statuses ((i2c_read_reg script ⟨0x62⟩ 0x01 1 (World.ready s1)).events (World.ready s1)) =
        [START_TRANSMIT, ADDR_W_ACK, DATA_TRANSMIT_ACK, START_TRANSMIT, ADDR_R_ACK,
          DATA_RECEIVE_NAK] ∧
      statuses ((i2c_read_reg script ⟨0x62⟩ 0x01 1 (World.ready s2)).events (World.ready s2)) ≠
        [START_TRANSMIT, ADDR_W_ACK, DATA_TRANSMIT_ACK, START_TRANSMIT, ADDR_R_ACK,
          DATA_RECEIVE_NAK]) :=
  ⟨by decide, by decide, Script.read_data_7e, Script.selector_nak, by decide⟩

/-- Claim C25. On a bound module, every run of `i2c_block_read(dev, bytes, 0)`
reads the data register not once and never writes the acknowledge bit, and sets
the start bit exactly once; unless a completion wait times out it sets the stop
bit exactly once; and when it returns, the destination is the buffer it was
given and the result is true exactly when the statuses read are `0x08` for the
start and `0x40` for the address byte with the read bit. -/
theorem C25_zero_length_block_read {σ : Type} (H : Hardware σ) (dev : i2c_device)
    (bytes : List Nat) (fuel : Nat) (w : World σ) (htwi : w.twi = true) :
    data_reads ((i2c_block_read H dev bytes 0 fuel w).events w) = [] ∧
    ack_writes ((i2c_block_read H dev bytes 0 fuel w).events w) = [] ∧
    starts ((i2c_block_read H dev bytes 0 fuel w).events w) = 1 ∧
    ((i2c_block_read H dev bytes 0 fuel w).error ≠ some .timeout →
      stops ((i2c_block_read H dev bytes 0 fuel w).events w) = 1) ∧
    (∀ b out, (i2c_block_read H dev bytes 0 fuel w).value = some (b, out) →
      out = bytes ∧
      (b = true ↔ statuses ((i2c_block_read H dev bytes 0 fuel w).events w) =
        [START_TRANSMIT, ADDR_R_ACK])) :=
  i2c_block_read_zero_views H dev bytes fuel w htwi

/-- Witness for C25: an acknowledged zero-length read into a buffer of two
bytes. -/
theorem C25_witness :
    (World.ready Script.block_read_empty).twi = true ∧
    (i2c_block_read script ⟨0x62⟩ [5, 6] 0 1 (World.ready Script.block_read_empty)).value =
      some (true, [5, 6]) ∧
    stops ((i2c_block_read script ⟨0x62⟩ [5, 6] 0 1
      (World.ready Script.block_read_empty)).events (World.ready Script.block_read_empty)) = 1 ∧
    [5, 6] = [5, 6] :=
  ⟨rfl, by decide,
   (C25_zero_length_block_read script ⟨0x62⟩ [5, 6] 1 (World.ready Script.block_read_empty)
      rfl).2.2.2.1 (by decide),
   ((C25_zero_length_block_read script ⟨0x62⟩ [5, 6] 1 (World.ready Script.block_read_empty)
      rfl).2.2.2.2 true [5, 6] (by decide)).1⟩

/-! ## The raw axis values -/

theorem and_0x800 (u : Nat) (hu : u < 4096) : (u &&& 0x0800 ≠ 0) ↔ 2048 ≤ u := by
  have h0 : u &&& 0x0800 = (u.testBit 11).toNat * 2 ^ 11 := Nat.and_two_pow u 11
  rw [h0, Nat.testBit_to_div_mod]
  by_cases h : 2048 ≤ u
  · have h1 : u / 2 ^ 11 % 2 = 1 := by omega
    rw [h1]
    exact ⟨fun _ => h, fun _ => by decide⟩
  · have h1 : u / 2 ^ 11 % 2 = 0 := by omega
    rw [h1]
    exact ⟨fun hc => absurd rfl hc, fun hc => absurd hc h⟩

theorem or_0xF000 (u : Nat) (hu : u < 4096) : u ||| 0xF000 = u + 61440 := by
  have h := Nat.mul_add_lt_is_or (show u < 2 ^ 12 from hu) 15
  rw [Nat.lor_comm, show (0xF000 : Nat) = 2 ^ 12 * 15 from rfl, ← h]
  omega

theorem assemble_12 (lsb msb : Nat) :
    (((msb % 256) <<< 4) ||| ((lsb % 256) &&& 0x0F)) = 16 * (msb % 256) + lsb % 16 := by
  have h1 : (lsb % 256) &&& 0x0F = lsb % 16 := by
    rw [show (0x0F : Nat) = 2 ^ 4 - 1 from rfl, Nat.and_pow_two_sub_one_eq_mod]
    omega
  have h2 := Nat.mul_add_lt_is_or (show lsb % 16 < 2 ^ 4 by omega) (msb % 256)
  rw [h1, Nat.shiftLeft_eq, Nat.mul_comm, ← h2]

/-- The value of one axis, for any two data bytes. -/
theorem axis_raw_eq (lsb msb : Nat) :
    axis_raw lsb msb = twos_complement_12 (16 * (msb % 256) + lsb % 16) := by
  have hu : 16 * (msb % 256) + lsb % 16 < 4096 := by omega
  unfold axis_raw
  simp only [assemble_12]
  rw [Nat.mod_eq_of_lt (show 16 * (msb % 256) + lsb % 16 < 65536 by omega)]
  unfold twos_complement_12 to_int16
  rw [Nat.mod_eq_of_lt hu]
  by_cases h : 2048 ≤ 16 * (msb % 256) + lsb % 16
  · rw [if_pos ((and_0x800 _ hu).2 h), or_0xF000 _ hu]
    rw [if_neg (by omega), if_neg (by omega)]
    omega
  · rw [if_neg (fun hc => h ((and_0x800 _ hu).1 hc))]
    rw [if_pos (by omega), if_pos (by omega)]
    omega

theorem twos_complement_12_range (u : Nat) :
    -2048 ≤ twos_complement_12 u ∧ twos_complement_12 u ≤ 2047 := by
  unfold twos_complement_12
  split <;> omega

theorem axis_raw_range (lsb msb : Nat) : -2048 ≤ axis_raw lsb msb ∧ axis_raw lsb msb ≤ 2047 := by
  rw [axis_raw_eq]
  exact twos_complement_12_range _

/-- What `msa311_read_raw` stores when it returns true. -/
theorem msa311_read_raw_some {σ : Type} (H : Hardware σ) (msa : msa311_t) (fuel : Nat)
    (w : World σ) (x y z : Int)
    (h : (msa311_read_raw H msa fuel w).value = some (some (x, y, z))) :
    ∃ data, (i2c_read_reg_n H msa.i2c_dev REG_ACC_X_LSB [0, 0, 0, 0, 0, 0] 6 fuel w).value =
        some (true, data) ∧
      x = axis_raw (data.getD 0 0) (data.getD 1 0) ∧
      y = axis_raw (data.getD 2 0) (data.getD 3 0) ∧
      z = axis_raw (data.getD 4 0) (data.getD 5 0) := by
  unfold msa311_read_raw at h
  cases hr : i2c_read_reg_n H msa.i2c_dev REG_ACC_X_LSB [0, 0, 0, 0, 0, 0] 6 fuel w with
  | ok r w1 =>
    rw [hr] at h
    obtain ⟨b, data⟩ := r
    cases b with
    | false => simp [Outcome.bind, Outcome.value] at h
    | true =>
      simp only [Outcome.bind, Bool.not_true, Bool.false_eq_true, if_false, Outcome.value,
        Option.some.injEq, Prod.mk.injEq] at h
      exact ⟨data, rfl, h.1.symm, h.2.1.symm, h.2.2.symm⟩
  | fatal e w1 => rw [hr] at h; simp [Outcome.bind, Outcome.value] at h
  | hang w1 => rw [hr] at h; simp [Outcome.bind, Outcome.value] at h
  | null_deref w1 => rw [hr] at h; simp [Outcome.bind, Outcome.value] at h

/-- The outcome of `msa311_read_raw` by the outcome of its `i2c_read_reg_n`:
it makes no access of its own, returns false when the read does, and stores
the three axis values of the six bytes when the read returns true. -/
theorem msa311_read_raw_cases {σ : Type} (H : Hardware σ) (msa : msa311_t) (fuel : Nat)
    (w : World σ) :
    (msa311_read_raw H msa fuel w).world =
      (i2c_read_reg_n H msa.i2c_dev REG_ACC_X_LSB [0, 0, 0, 0, 0, 0] 6 fuel w).world ∧
    (∀ data, (i2c_read_reg_n H msa.i2c_dev REG_ACC_X_LSB [0, 0, 0, 0, 0, 0] 6 fuel w).value =
        some (true, data) →
      (msa311_read_raw H msa fuel w).value =
        some (some (axis_raw (data.getD 0 0) (data.getD 1 0),
          axis_raw (data.getD 2 0) (data.getD 3 0),
          axis_raw (data.getD 4 0) (data.getD 5 0)))) ∧
    (∀ data, (i2c_read_reg_n H msa.i2c_dev REG_ACC_X_LSB [0, 0, 0, 0, 0, 0] 6 fuel w).value =
        some (false, data) →
      (msa311_read_raw H msa fuel w).value = some none) ∧
    ((i2c_read_reg_n H msa.i2c_dev REG_ACC_X_LSB [0, 0, 0, 0, 0, 0] 6 fuel w).value = none →
      (msa311_read_raw H msa fuel w).value = none) := by
  unfold msa311_read_raw
  cases hr : i2c_read_reg_n H msa.i2c_dev REG_ACC_X_LSB [0, 0, 0, 0, 0, 0] 6 fuel w with
  | ok r w1 =>
    obtain ⟨b, data⟩ := r
    cases b with
    | false =>
      refine ⟨rfl, ?_, fun _ _ => rfl, ?_⟩
      · intro d h
        simp [Outcome.value] at h
      · intro h
        simp [Outcome.value] at h
    | true =>
      refine ⟨rfl, ?_, ?_, ?_⟩
      · intro d h
        simp only [Outcome.value, Option.some.injEq, Prod.mk.injEq, true_and] at h
        rw [← h]
        rfl
      · intro d h
        simp [Outcome.value] at h
      · intro h
        simp [Outcome.value] at h
  | fatal e w1 =>
    exact ⟨rfl, fun _ h => by simp [Outcome.value] at h, fun _ h => by simp [Outcome.value] at h,
      fun _ => rfl⟩
  | hang w1 =>
    exact ⟨rfl, fun _ h => by simp [Outcome.value] at h, fun _ h => by simp [Outcome.value] at h,
      fun _ => rfl⟩
  | null_deref w1 =>
    exact ⟨rfl, fun _ h => by simp [Outcome.value] at h, fun _ h => by simp [Outcome.value] at h,
      fun _ => rfl⟩

/-- A read of `n` registers that returned was made on a bound module. -/
theorem i2c_read_reg_n_bound {σ : Type} (H : Hardware σ) (dev : i2c_device) (reg : Nat)
    (bytes : List Nat) (n fuel : Nat) (w : World σ) (r : Bool × List Nat)
    (h : (i2c_read_reg_n H dev reg bytes n fuel w).value = some r) : w.twi = true := by
  cases ht : w.twi with
  | true => rfl
  | false =>
    rw [i2c_read_reg_n, i2c_block_write_unbound H dev [reg] 1 fuel w ht] at h
    simp [Outcome.bind, Outcome.value] at h

/-- The values `msa311_read_raw` stores, by the six reads of the data register
its block read made. -/
theorem msa311_read_raw_true {σ : Type} (H : Hardware σ) (msa : msa311_t) (fuel : Nat)
    (w : World σ) (data : List Nat)
    (h : (i2c_read_reg_n H msa.i2c_dev REG_ACC_X_LSB [0, 0, 0, 0, 0, 0] 6 fuel w).value =
      some (true, data)) :
    ∃ d0 d1 d2 d3 d4 d5,
      data_reads ((msa311_read_raw H msa fuel w).events w) = [d0, d1, d2, d3, d4, d5] ∧
      (msa311_read_raw H msa fuel w).value =
        some (some (twos_complement_12 (16 * (d1 % 256) + d0 % 16),
          twos_complement_12 (16 * (d3 % 256) + d2 % 16),
          twos_complement_12 (16 * (d5 % 256) + d4 % 16))) := by
  have htwi := i2c_read_reg_n_bound H _ _ _ _ _ w _ h
  obtain ⟨hout, _, _, hlen⟩ :=
    i2c_read_reg_n_returns H msa.i2c_dev REG_ACC_X_LSB [0, 0, 0, 0, 0, 0] 6 fuel w true data
      (by decide) htwi h
  have hl := hlen rfl
  obtain ⟨hw, hv, _, _⟩ := msa311_read_raw_cases H msa fuel w
  have hev : (msa311_read_raw H msa fuel w).events w =
      (i2c_read_reg_n H msa.i2c_dev REG_ACC_X_LSB [0, 0, 0, 0, 0, 0] 6 fuel w).events w := by
    simp only [Outcome.events, hw]
  rw [hl] at hout
  rw [hev, hv data h]
  match hds : data_reads
      ((i2c_read_reg_n H msa.i2c_dev REG_ACC_X_LSB [0, 0, 0, 0, 0, 0] 6 fuel w).events w), hl with
  | [d0, d1, d2, d3, d4, d5], _ =>
    refine ⟨d0, d1, d2, d3, d4, d5, rfl, ?_⟩
    rw [hds] at hout
    rw [hout]
    simp only [List.map, Nat.sub_self, List.replicate, List.drop, List.append_nil,
      List.getD_cons_zero, List.getD_cons_succ, axis_raw_eq, Nat.mod_mod]
    have e : ∀ d : Nat, d % 256 % 16 = d % 16 := fun d => by omega
    rw [e, e, e]

/-- Claim C27. For data bytes `lsb` and `msb`, the value `msa311_read_raw`
stores for an axis is the two's-complement reading of the 12-bit quantity
`u = (16 * msb + lsb mod 16) mod 4096`: it is `u` if `u < 2048` and `u - 4096`
if not, so it lies between -2048 and 2047.  The routine does compute it:
whenever its block read of the six registers returns true, `msa311_read_raw`
returns true and stores these values of the byte pairs (0,1), (2,3) and (4,5),
the bytes being the six reads of the data register the block read made; when
the block read returns false it returns false; and it returns true in no other
case.  On the replay that supplies `F5 80 0C 7F 00 FF` it stores -2043, 2044
and -16. -/
theorem C27_axis_is_signed_12_bit {σ : Type} (H : Hardware σ) (msa : msa311_t) (fuel : Nat)
    (w : World σ) (lsb msb : Nat) (hm : msb < 256) :
    axis_raw lsb msb = twos_complement_12 (16 * msb + lsb % 16) ∧
    axis_raw lsb msb =
      (if (16 * msb + lsb % 16) % 4096 < 2048 then (((16 * msb + lsb % 16) % 4096 : Nat) : Int)
        else (((16 * msb + lsb % 16) % 4096 : Nat) : Int) - 4096) ∧
    -2048 ≤ axis_raw lsb msb ∧ axis_raw lsb msb ≤ 2047 ∧
    (∀ x y z, (msa311_read_raw H msa fuel w).value = some (some (x, y, z)) →
      ∃ data, (i2c_read_reg_n H msa.i2c_dev REG_ACC_X_LSB [0, 0, 0, 0, 0, 0] 6 fuel w).value =
          some (true, data) ∧
        x = axis_raw (data.getD 0 0) (data.getD 1 0) ∧
        y = axis_raw (data.getD 2 0) (data.getD 3 0) ∧
        z = axis_raw (data.getD 4 0) (data.getD 5 0) ∧
        (-2048 ≤ x ∧ x ≤ 2047) ∧ (-2048 ≤ y ∧ y ≤ 2047) ∧ (-2048 ≤ z ∧ z ≤ 2047)) ∧
    (∀ data, (i2c_read_reg_n H msa.i2c_dev REG_ACC_X_LSB [0, 0, 0, 0, 0, 0] 6 fuel w).value =
        some (true, data) →
      (msa311_read_raw H msa fuel w).value =
        some (some (axis_raw (data.getD 0 0) (data.getD 1 0),
          axis_raw (data.getD 2 0) (data.getD 3 0),
          axis_raw (data.getD 4 0) (data.getD 5 0))) ∧
      ∃ d0 d1 d2 d3 d4 d5,
        data_reads ((msa311_read_raw H msa fuel w).events w) = [d0, d1, d2, d3, d4, d5] ∧
        (msa311_read_raw H msa fuel w).value =
          some (some (twos_complement_12 (16 * (d1 % 256) + d0 % 16),
            twos_complement_12 (16 * (d3 % 256) + d2 % 16),
            twos_complement_12 (16 * (d5 % 256) + d4 % 16)))) ∧
    (∀ data, (i2c_read_reg_n H msa.i2c_dev REG_ACC_X_LSB [0, 0, 0, 0, 0, 0] 6 fuel w).value =
        some (false, data) →
      (msa311_read_raw H msa fuel w).value = some none) ∧
    (msa311_read_raw script ⟨⟨0x62⟩, 0⟩ 1 (World.ready Script.accel_tilt)).value =
      some (some (-2043, 2044, -16)) := by
  have he : axis_raw lsb msb = twos_complement_12 (16 * msb + lsb % 16) := by
    rw [axis_raw_eq, Nat.mod_eq_of_lt hm]
  obtain ⟨_, hv, hf, _⟩ := msa311_read_raw_cases H msa fuel w
  refine ⟨he, by rw [he]; rfl, (axis_raw_range lsb msb).1, (axis_raw_range lsb msb).2, ?_,
    fun data h => ⟨hv data h, msa311_read_raw_true H msa fuel w data h⟩, hf, by decide⟩
  intro x y z h
  obtain ⟨data, hd, hx, hy, hz⟩ := msa311_read_raw_some H msa fuel w x y z h
  exact ⟨data, hd, hx, hy, hz, by rw [hx]; exact axis_raw_range _ _,
    by rw [hy]; exact axis_raw_range _ _, by rw [hz]; exact axis_raw_range _ _⟩

/-- Witness for C27: the bytes `F5 80` give `u = 0x805`, the value -2043, and
on the replay that supplies `F5 80 0C 7F 00 FF` the routine returns true with
the values of the three byte pairs. -/
theorem C27_witness :
    0x80 < 256 ∧ axis_raw 0xF5 0x80 = -2043 ∧
    (msa311_read_raw script ⟨⟨0x62⟩, 0⟩ 1 (World.ready Script.accel_tilt)).value =
      some (some (axis_raw 0xF5 0x80, axis_raw 0x0C 0x7F, axis_raw 0x00 0xFF)) :=
  ⟨by decide,
   (C27_axis_is_signed_12_bit script ⟨⟨0x62⟩, 0⟩ 1 (World.ready Script.accel_tilt) 0xF5 0x80
      (by decide)).2.1.trans (by decide),
   ((C27_axis_is_signed_12_bit script ⟨⟨0x62⟩, 0⟩ 1 (World.ready Script.accel_tilt) 0xF5 0x80
      (by decide)).2.2.2.2.2.1 [0xF5, 0x80, 0x0C, 0x7F, 0x00, 0xFF] (by decide)).1⟩

/-! ## The speed computation -/

theorem ulong_of_lt {x : Nat} (h : x < 2 ^ 64) : ulong x = x := Nat.mod_eq_of_lt h

theorem kph_num_eq : kph_num = 2059200000 := by decide

theorem kph_denom_eq (ms : Nat) (h : ms < 2 ^ 32) : kph_denom ms = 275604 * ms := by
  unfold kph_denom
  rw [ulong_of_lt (show 7 * ms < 2 ^ 64 by omega),
    ulong_of_lt (show 7 * ms * IN_PER_FT < 2 ^ 64 by simp only [IN_PER_FT]; omega),
    ulong_of_lt (show 7 * ms * IN_PER_FT * FT_PER_KM < 2 ^ 64 by
      simp only [IN_PER_FT, FT_PER_KM]; omega)]
  simp only [IN_PER_FT, FT_PER_KM]
  omega

theorem mph_denom_eq (ms : Nat) (h : ms < 2 ^ 32) : mph_denom ms = 443520 * ms := by
  unfold mph_denom
  rw [ulong_of_lt (show 7 * ms < 2 ^ 64 by omega),
    ulong_of_lt (show 7 * ms * 12 < 2 ^ 64 by omega),
    ulong_of_lt (show 7 * ms * 12 * 5280 < 2 ^ 64 by omega)]
  omega

theorem kph_eq (ms : Nat) (h1 : 1 ≤ ms) (h : ms < 2 ^ 32) :
    kph ms = some (2059200000 / (275604 * ms)) := by
  rw [kph, kph_num_eq, kph_denom_eq ms h, udiv, if_neg (by omega)]

theorem kph_ge_iff (ms c : Nat) (h1 : 1 ≤ ms) :
    c ≤ 2059200000 / (275604 * ms) ↔ c * (275604 * ms) ≤ 2059200000 :=
  Nat.le_div_iff_mul_le (by omega)

theorem kph_red_iff (ms : Nat) (h1 : 1 ≤ ms) :
    13 ≤ 2059200000 / (275604 * ms) ↔ ms ≤ 574 := by
  rw [kph_ge_iff ms 13 h1]
  omega

theorem kph_yellow_iff (ms : Nat) (h1 : 1 ≤ ms) :
    9 ≤ 2059200000 / (275604 * ms) ↔ ms ≤ 830 := by
  rw [kph_ge_iff ms 9 h1]
  omega

theorem display_red_iff (k : Nat) : display k = some .red ↔ 13 ≤ k := by
  unfold display
  split_ifs <;> simp <;> omega

theorem display_yellow_iff (k : Nat) : display k = some .yellow ↔ 9 ≤ k ∧ k ≤ 12 := by
  unfold display
  split_ifs <;> simp <;> omega

theorem display_green_iff (k : Nat) : display k = some .green ↔ k ≤ 8 := by
  unfold display
  split_ifs <;> simp <;> omega

theorem display_ne_none (k : Nat) : display k ≠ none := by
  unfold display
  split_ifs <;> simp
  omega

/-- Claim C28. For `1 ≤ ms_elapsed < 2^32` the speed computed in the loop of
`main` is `kph = floor(2059200000 / (275604 * ms_elapsed))`, no step of the
64-bit arithmetic wrapping, and exactly one branch of the display runs: the red
one (`kph ≥ 13`) exactly when `ms_elapsed ≤ 574`, the yellow one
(`9 ≤ kph ≤ 12`) exactly when `575 ≤ ms_elapsed ≤ 830`, and the green one
(`kph ≤ 8`) exactly when `ms_elapsed ≥ 831`. -/
theorem C28_speed_thresholds (ms : Nat) (h1 : 1 ≤ ms) (h32 : ms < 2 ^ 32) :
    kph ms = some (2059200000 / (275604 * ms)) ∧
    kph_denom ms = 275604 * ms ∧ kph_num = 2059200000 ∧
    (13 ≤ 2059200000 / (275604 * ms) ↔ ms ≤ 574) ∧
    (9 ≤ 2059200000 / (275604 * ms) ∧ 2059200000 / (275604 * ms) ≤ 12 ↔
      575 ≤ ms ∧ ms ≤ 830) ∧
    (2059200000 / (275604 * ms) ≤ 8 ↔ 831 ≤ ms) ∧
    (display (2059200000 / (275604 * ms)) = some .red ↔ ms ≤ 574) ∧
    (display (2059200000 / (275604 * ms)) = some .yellow ↔ 575 ≤ ms ∧ ms ≤ 830) ∧
    (display (2059200000 / (275604 * ms)) = some .green ↔ 831 ≤ ms) ∧
    display (2059200000 / (275604 * ms)) ≠ none := by
  have hr := kph_red_iff ms h1
  have hy := kph_yellow_iff ms h1
  refine ⟨kph_eq ms h1 h32, kph_denom_eq ms h32, kph_num_eq, hr, by omega, by omega, ?_, ?_,
    ?_, ?_⟩
  · rw [display_red_iff]; exact hr
  · rw [display_yellow_iff]; omega
  · rw [display_green_iff]; omega
  · exact display_ne_none _

/-- Witness for C28: 575 ms between two pulses is the first yellow interval. -/
theorem C28_witness :
    (1 ≤ 575 ∧ 575 < 2 ^ 32) ∧ kph 575 = some (2059200000 / (275604 * 575)) ∧
    display 12 = some .yellow :=
  ⟨by decide, (C28_speed_thresholds 575 (by decide) (by decide)).1, by decide⟩

theorem ms_elapsed_same (initial_usecs current_usecs : Nat)
    (h : current_usecs / 1000 = initial_usecs / 1000) :
    ms_elapsed initial_usecs current_usecs = 0 := by
  unfold ms_elapsed ulong
  rw [h]
  omega

/-- Claim C30. For `ms_elapsed < 2^32` in 64-bit unsigned arithmetic the divisor
`7 * ms_elapsed * 12 * 3281` of the speed computation, and the divisor
`7 * ms_elapsed * 12 * 5280` of `get_speed`, is zero exactly when
`ms_elapsed = 0`.  The quotient is taken with no test of the divisor before
it: for `ms_elapsed = 0` the division is by zero and has no value, which is
what two timestamps within the same millisecond give; and for
`ms_elapsed ≥ 1` both quotients have a value. -/
theorem C30_divisor_zero_iff (ms : Nat) (h32 : ms < 2 ^ 32) :
    (kph_denom ms = 0 ↔ ms = 0) ∧ (mph_denom ms = 0 ↔ ms = 0) ∧
    (kph ms = none ↔ ms = 0) ∧ (mph_x1000 ms = none ↔ ms = 0) ∧
    (1 ≤ ms → (kph ms).isSome = true ∧ (mph_x1000 ms).isSome = true) ∧
    (∀ initial_usecs current_usecs, current_usecs / 1000 = initial_usecs / 1000 →
      ms_elapsed initial_usecs current_usecs = 0 ∧
      kph (ms_elapsed initial_usecs current_usecs) = none ∧
      mph_x1000 (ms_elapsed initial_usecs current_usecs) = none) := by
  have hk : kph_denom ms = 0 ↔ ms = 0 := by rw [kph_denom_eq ms h32]; omega
  have hm : mph_denom ms = 0 ↔ ms = 0 := by rw [mph_denom_eq ms h32]; omega
  have hkn : kph ms = none ↔ ms = 0 := by
    rw [← hk]
    unfold kph udiv
    split_ifs with h <;> simp [h]
  have hmn : mph_x1000 ms = none ↔ ms = 0 := by
    rw [← hm]
    unfold mph_x1000 udiv
    split_ifs with h <;> simp [h]
  refine ⟨hk, hm, hkn, hmn, ?_, ?_⟩
  · intro h1
    constructor
    · cases hq : kph ms with
      | none => exact absurd (hkn.1 hq) (by omega)
      | some v => rfl
    · cases hq : mph_x1000 ms with
      | none => exact absurd (hmn.1 hq) (by omega)
      | some v => rfl
  · intro i c hic
    rw [ms_elapsed_same i c hic]
    exact ⟨rfl, by decide, by decide⟩

/-- Witness for C30: two timestamps within the millisecond 5, and an interval
of one millisecond. -/
theorem C30_witness :
    1 < 2 ^ 32 ∧ (kph_denom 1 = 0 ↔ 1 = 0) ∧ kph (ms_elapsed 5200 5900) = none :=
  ⟨by decide, (C30_divisor_zero_iff 1 (by decide)).1,
   ((C30_divisor_zero_iff 1 (by decide)).2.2.2.2.2 5200 5900 (by decide)).2.1⟩

section polling

variable {σ : Type} (H : Hardware σ)

/-- A first read of `REG_SYSRANGE_START` that returns a value with bit 0 clear
ends the loop: the loop is that one read. -/
theorem sysrange_start_loop_first (dev : i2c_device) (fuel polls v : Nat) (w : World σ)
    (hret : (i2c_read_reg H dev REG_SYSRANGE_START fuel w).value = some v)
    (hv : v &&& 0x01 = 0) :
    sysrange_start_loop H dev fuel (polls + 1) w =
      i2c_read_reg H dev REG_SYSRANGE_START fuel w := by
  rw [sysrange_start_loop]
  cases hr : i2c_read_reg H dev REG_SYSRANGE_START fuel w with
  | ok v1 w1 =>
    rw [hr] at hret
    injection hret with hret
    rw [hret]
    simp only [Outcome.bind, hv, ne_eq, not_true_eq_false, if_false]
  | fatal e w1 => rfl
  | hang w1 => rfl
  | null_deref w1 => rfl

/-- A first read of `REG_RESULT_INTERRUPT_STATUS` that returns a value with one
of the bits 0..2 set ends the loop: the loop is that one read. -/
theorem interrupt_status_loop_first (dev : i2c_device) (fuel polls v : Nat) (w : World σ)
    (hret : (i2c_read_reg H dev REG_RESULT_INTERRUPT_STATUS fuel w).value = some v)
    (hv : v &&& 0x07 ≠ 0) :
    interrupt_status_loop H dev fuel (polls + 1) w =
      i2c_read_reg H dev REG_RESULT_INTERRUPT_STATUS fuel w := by
  rw [interrupt_status_loop]
  cases hr : i2c_read_reg H dev REG_RESULT_INTERRUPT_STATUS fuel w with
  | ok v1 w1 =>
    rw [hr] at hret
    injection hret with hret
    rw [hret]
    simp only [Outcome.bind, hv, if_false]
  | fatal e w1 => rfl
  | hang w1 => rfl
  | null_deref w1 => rfl

end polling

set_option maxRecDepth 100000

/-- The run of `vl53l0x_read_range_single` on the replay `Script.range_reads_fail`
with `*range = 0x7E7E`: eleven transactions, none of which reads the data
register, and the result true. -/
theorem range_reads_fail_run :
    (vl53l0x_read_range_single script ⟨0x29⟩ 0x7E7E 1 5
        (World.ready Script.range_reads_fail)).value = some true ∧
      starts ((vl53l0x_read_range_single script ⟨0x29⟩ 0x7E7E 1 5
        (World.ready Script.range_reads_fail)).events
          (World.ready Script.range_reads_fail)) = 11 ∧
      data_reads ((vl53l0x_read_range_single script ⟨0x29⟩ 0x7E7E 1 5
        (World.ready Script.range_reads_fail)).events
          (World.ready Script.range_reads_fail)) = [] := by
  decide

/-- The run of `perform_single_ref_calibration` on the replay
`Script.calibration_read_fails`: five transactions, none of which reads the data
register, and the result true. -/
theorem calibration_read_fails_run :
    (perform_single_ref_calibration script ⟨0x29⟩ .CALIBRATION_TYPE_VHV 1 5
        (World.ready Script.calibration_read_fails)).value = some true ∧
      starts ((perform_single_ref_calibration script ⟨0x29⟩ .CALIBRATION_TYPE_VHV 1 5
        (World.ready Script.calibration_read_fails)).events
          (World.ready Script.calibration_read_fails)) = 5 ∧
      data_reads ((perform_single_ref_calibration script ⟨0x29⟩ .CALIBRATION_TYPE_VHV 1 5
        (World.ready Script.calibration_read_fails)).events
          (World.ready Script.calibration_read_fails)) = [] := by
  decide

/-- Claim C29. The sentinel `0x7E` has bit 0 clear and `0x7E & 0x07 = 6`, so a
failed `i2c_read_reg` ends both kinds of polling loop of the time-of-flight
driver.  On a bound module, from any state and with any number of iterations
still allowed: if the read of `REG_SYSRANGE_START` returns after a step
reported an unexpected status, the wait for the start bit is that one read and
yields `0x7E`; if the read of `REG_RESULT_INTERRUPT_STATUS` does, the wait for
the interrupt status is that one read and yields `0x7E`.  In
`vl53l0x_read_range_single` with every read failing, each of the two loops makes
one read and the routine goes on to compare `*range` with `0x7E7E`; in
`perform_single_ref_calibration` the loop makes one read and the routine goes
on to its last two writes. -/
theorem C29_failed_read_ends_polling {σ : Type} (H : Hardware σ) (dev : i2c_device)
    (fuel polls : Nat) (w : World σ) (htwi : w.twi = true) :
    (SENTINEL &&& 0x01 = 0 ∧ SENTINEL &&& 0x07 = 6) ∧
    (∀ v, (i2c_read_reg H dev REG_SYSRANGE_START fuel w).value = some v →
      statuses ((i2c_read_reg H dev REG_SYSRANGE_START fuel w).events w) ≠
        [START_TRANSMIT, ADDR_W_ACK, DATA_TRANSMIT_ACK, START_TRANSMIT, ADDR_R_ACK,
          DATA_RECEIVE_NAK] →
      v = 0x7E ∧
      sysrange_start_loop H dev fuel (polls + 1) w =
        i2c_read_reg H dev REG_SYSRANGE_START fuel w ∧
      (sysrange_start_loop H dev fuel (polls + 1) w).value = some 0x7E) ∧
    (∀ v, (i2c_read_reg H dev REG_RESULT_INTERRUPT_STATUS fuel w).value = some v →
      statuses ((i2c_read_reg H dev REG_RESULT_INTERRUPT_STATUS fuel w).events w) ≠
        [START_TRANSMIT, ADDR_W_ACK, DATA_TRANSMIT_ACK, START_TRANSMIT, ADDR_R_ACK,
          DATA_RECEIVE_NAK] →
      v = 0x7E ∧
      interrupt_status_loop H dev fuel (polls + 1) w =
        i2c_read_reg H dev REG_RESULT_INTERRUPT_STATUS fuel w ∧
      (interrupt_status_loop H dev fuel (polls + 1) w).value = some 0x7E) ∧
    ((vl53l0x_read_range_single script ⟨0x29⟩ 0x7E7E 1 5
        (World.ready Script.range_reads_fail)).value = some true ∧
      starts ((vl53l0x_read_range_single script ⟨0x29⟩ 0x7E7E 1 5
        (World.ready Script.range_reads_fail)).events
          (World.ready Script.range_reads_fail)) = 11 ∧
      data_reads ((vl53l0x_read_range_single script ⟨0x29⟩ 0x7E7E 1 5
        (World.ready Script.range_reads_fail)).events
          (World.ready Script.range_reads_fail)) = []) ∧
    ((perform_single_ref_calibration script ⟨0x29⟩ .CALIBRATION_TYPE_VHV 1 5
        (World.ready Script.calibration_read_fails)).value = some true ∧
      starts ((perform_single_ref_calibration script ⟨0x29⟩ .CALIBRATION_TYPE_VHV 1 5
        (World.ready Script.calibration_read_fails)).events
          (World.ready Script.calibration_read_fails)) = 5 ∧
      data_reads ((perform_single_ref_calibration script ⟨0x29⟩ .CALIBRATION_TYPE_VHV 1 5
        (World.ready Script.calibration_read_fails)).events
          (World.ready Script.calibration_read_fails)) = []) := by
  refine ⟨by decide, ?_, ?_, range_reads_fail_run, calibration_read_fails_run⟩
  · intro v hret hst
    have hv := (i2c_read_reg_returns H dev REG_SYSRANGE_START fuel w v htwi hret).2 hst
    have hl := sysrange_start_loop_first H dev fuel polls v w hret (by rw [hv]; decide)
    exact ⟨hv, hl, by rw [hl, hret, hv]⟩
  · intro v hret hst
    have hv := (i2c_read_reg_returns H dev REG_RESULT_INTERRUPT_STATUS fuel w v htwi hret).2 hst
    have hl := interrupt_status_loop_first H dev fuel polls v w hret (by rw [hv]; decide)
    exact ⟨hv, hl, by rw [hl, hret, hv]⟩

/-- Witness for C29: a read of the interrupt status whose register selector is
not acknowledged ends the wait at its first iteration. -/
theorem C29_witness :
    (World.ready Script.selector_nak).twi = true ∧
    (interrupt_status_loop script ⟨0x29⟩ 1 (4 + 1) (World.ready Script.selector_nak)).value =
      some 0x7E :=
  ⟨rfl,
   ((C29_failed_read_ends_polling script ⟨0x29⟩ 1 4 (World.ready Script.selector_nak)
      rfl).2.2.1 0x7E (by decide) (by decide)).2.2⟩

/-! ## The sliding window -/

theorem sum_set_int (l : List Int) (i : Nat) (v : Int) (h : i < l.length) :
    (l.set i v).sum = l.sum - l.getD i 0 + v := by
  induction l generalizing i with
  | nil => simp at h
  | cons a t ih =>
    cases i with
    | zero =>
      simp only [List.set, List.sum_cons, List.getD_cons_zero]
      omega
    | succ i =>
      have h1 : i < t.length := by simpa using h
      simp only [List.set, List.sum_cons, ih i h1, List.getD_cons_succ]
      omega

theorem count_take_succ (l : List Bool) (n : Nat) :
    (l.take (n + 1)).count true = (l.take n).count true + if l.getD n false then 1 else 0 := by
  induction l generalizing n with
  | nil => simp
  | cons a t ih =>
    cases n with
    | zero => cases a <;> simp
    | succ n =>
      simp only [List.take_succ_cons, List.count_cons, List.getD_cons_succ, ih n]
      omega

theorem getD_set_self (l : List Int) (i : Nat) (v : Int) (h : i < l.length) :
    (l.set i v).getD i 0 = v := by
  rw [List.getD_eq_getElem?_getD, List.getElem?_set_self h]
  rfl

theorem getD_set_ne (l : List Int) (i j : Nat) (v : Int) (h : i ≠ j) :
    (l.set i v).getD j 0 = l.getD j 0 := by
  rw [List.getD_eq_getElem?_getD, List.getElem?_set_ne h, List.getD_eq_getElem?_getD]

/-- The locals after a pass with a successful reading, spelled out. -/
theorem monitor_step_some (s : Window) (b : Bool) :
    (monitor_step s (some b)).1 =
      { theta_window := s.theta_window.set s.window_start (if b then 1 else 0),
        window_start := (s.window_start + 1) % 15,
        positive_theta_count :=
          s.positive_theta_count + (if b then 1 else 0) -
            s.theta_window.getD s.window_start 0 } ∧
    (monitor_step s (some b)).2 =
      decide (10 ≤ s.positive_theta_count + (if b then 1 else 0) -
        s.theta_window.getD s.window_start 0) := by
  cases b
  · simp only [monitor_step, Bool.false_eq_true, if_false, ge_iff_le]
    have e : s.positive_theta_count + 0 - s.theta_window.getD s.window_start 0 =
        s.positive_theta_count - s.theta_window.getD s.window_start 0 := by omega
    rw [e]
    split <;> simp_all
  · simp only [monitor_step, if_true, ge_iff_le]
    have e : s.positive_theta_count + 1 - s.theta_window.getD s.window_start 0 =
        s.positive_theta_count + (1 - s.theta_window.getD s.window_start 0) := by omega
    rw [e]
    split <;> simp_all

/-- A pass with a successful reading keeps the window in step with the
history, and ends in `break` exactly when at least 10 of the last 15 successful
readings had `theta > 30`. -/
theorem monitor_step_tracks (s : Window) (hist : List Bool) (b : Bool)
    (h : s.tracks hist) :
    (monitor_step s (some b)).1.tracks (b :: hist) ∧
    (monitor_step s (some b)).2 = decide (10 ≤ ((b :: hist).take 15).count true) := by
  obtain ⟨hlen, hws, hpos, hcnt⟩ := h
  obtain ⟨e1, e2⟩ := monitor_step_some s b
  have hws15 : s.window_start < 15 := by rw [hws]; exact Nat.mod_lt _ (by decide)
  have hold : s.theta_window.getD s.window_start 0 = if hist.getD 14 false then 1 else 0 := by
    have := hpos 14 (by decide)
    rw [show (s.window_start + 14 - 14) % 15 = s.window_start by omega] at this
    exact this
  have hc15 : (hist.take 15).count true =
      (hist.take 14).count true + if hist.getD 14 false then 1 else 0 :=
    count_take_succ hist 14
  have hnew : s.positive_theta_count + (if b then 1 else 0) -
      s.theta_window.getD s.window_start 0 = (((b :: hist).take 15).count true : Nat) := by
    rw [hold, hcnt, hc15]
    have : ((b :: hist).take 15).count true =
        (hist.take 14).count true + if b then 1 else 0 := by
      cases b <;> simp [List.take_succ_cons, List.count_cons]
    rw [this]
    cases b <;> cases hist.getD 14 false <;> simp
  refine ⟨?_, ?_⟩
  · rw [e1]
    refine ⟨by simp [hlen], ?_, ?_, hnew⟩
    · show (s.window_start + 1) % 15 = (b :: hist).length % 15
      rw [hws, List.length_cons]
      omega
    · intro j hj
      show (s.theta_window.set s.window_start (if b then 1 else 0)).getD
        (((s.window_start + 1) % 15 + 14 - j) % 15) 0 = _
      cases j with
      | zero =>
        rw [show ((s.window_start + 1) % 15 + 14 - 0) % 15 = s.window_start by omega,
          getD_set_self _ _ _ (by rw [hlen]; exact hws15)]
        cases b <;> rfl
      | succ j =>
        have hidx : ((s.window_start + 1) % 15 + 14 - (j + 1)) % 15 =
            (s.window_start + 14 - j) % 15 := by omega
        have hne : s.window_start ≠ (s.window_start + 14 - j) % 15 := by omega
        rw [hidx, getD_set_ne _ _ _ _ hne, hpos j (by omega)]
        rfl
  · rw [e2, hnew]
    simp

theorem Window.init_tracks : Window.init.tracks [] := by
  refine ⟨by simp [Window.init], rfl, ?_, rfl⟩
  intro j hj
  simp only [Window.init, List.getD_nil, Bool.false_eq_true, if_false]
  rw [List.getD_eq_getElem?_getD, List.getElem?_replicate]
  split <;> rfl

theorem Window.after_append (rs : List (Option Bool)) (r : Option Bool) :
    Window.after (rs ++ [r]) = (monitor_step (Window.after rs) r).1 := by
  simp [Window.after, List.foldl_append]

theorem recent_append_some (rs : List (Option Bool)) (b : Bool) :
    recent (rs ++ [some b]) = b :: recent rs := by
  simp [recent, List.filterMap_append]

theorem recent_append_none (rs : List (Option Bool)) :
    recent (rs ++ [none]) = recent rs := by
  simp [recent, List.filterMap_append]

/-- After any passes the window is in step with the successful readings. -/
theorem Window.after_tracks (rs : List (Option Bool)) : (Window.after rs).tracks (recent rs) := by
  induction rs using List.reverseRecOn with
  | nil => exact Window.init_tracks
  | append_singleton rs r ih =>
    rw [Window.after_append]
    cases r with
    | none => rw [recent_append_none]; exact ih
    | some b => rw [recent_append_some]; exact (monitor_step_tracks _ _ b ih).1

/-- Whether the pass after the passes on `rs` ends in `break`. -/
theorem monitor_step_stops (rs : List (Option Bool)) (r : Option Bool) :
    (monitor_step (Window.after rs) r).2 =
      (r.isSome && decide (10 ≤ recent_positive (rs ++ [r]))) := by
  cases r with
  | none => rfl
  | some b =>
    rw [(monitor_step_tracks _ _ b (Window.after_tracks rs)).2, recent_positive,
      recent_append_some]
    rfl

theorem Window.entries_of_tracks (s : Window) (hist : List Bool) (h : s.tracks hist)
    (i : Nat) (hi : i < 15) : s.theta_window.getD i 0 = 0 ∨ s.theta_window.getD i 0 = 1 := by
  obtain ⟨_, hws, hpos, _⟩ := h
  have hws15 : s.window_start < 15 := by rw [hws]; exact Nat.mod_lt _ (by decide)
  have := hpos ((s.window_start + 14 - i) % 15) (Nat.mod_lt _ (by decide))
  rw [show (s.window_start + 14 - (s.window_start + 14 - i) % 15) % 15 = i by omega] at this
  rw [this]
  split
  · right; rfl
  · left; rfl

/-- After any passes the count is the sum of the entries of the window. -/
theorem Window.after_sum (rs : List (Option Bool)) :
    (Window.after rs).positive_theta_count = (Window.after rs).theta_window.sum := by
  induction rs using List.reverseRecOn with
  | nil => decide
  | append_singleton rs r ih =>
    rw [Window.after_append]
    cases r with
    | none => exact ih
    | some b =>
      have ht := Window.after_tracks rs
      have hws15 : (Window.after rs).window_start < 15 := by
        rw [ht.2.1]; exact Nat.mod_lt _ (by decide)
      rw [(monitor_step_some _ b).1]
      show (Window.after rs).positive_theta_count + (if b then 1 else 0) -
          (Window.after rs).theta_window.getD (Window.after rs).window_start 0 =
        ((Window.after rs).theta_window.set (Window.after rs).window_start
          (if b then 1 else 0)).sum
      rw [sum_set_int _ _ _ (by rw [ht.1]; exact hws15), ← ih]
      omega

/-- The loop from the locals reached on `pre`, none of whose prefixes made it
stop: where it stops on `rs`. -/
theorem monitor_loop_spec (rs pre : List (Option Bool))
    (hpre : recent_positive pre < 10) :
    (monitor_loop (Window.after pre) rs).1 =
      Window.after (pre ++ rs.take (monitor_loop (Window.after pre) rs).2.2) ∧
    (monitor_loop (Window.after pre) rs).2.2 ≤ rs.length ∧
    ((monitor_loop (Window.after pre) rs).2.1 = true →
      1 ≤ (monitor_loop (Window.after pre) rs).2.2 ∧
      (∃ b, rs[(monitor_loop (Window.after pre) rs).2.2 - 1]? = some (some b)) ∧
      10 ≤ recent_positive (pre ++ rs.take (monitor_loop (Window.after pre) rs).2.2) ∧
      ∀ j, j < (monitor_loop (Window.after pre) rs).2.2 →
        recent_positive (pre ++ rs.take j) < 10) ∧
    ((monitor_loop (Window.after pre) rs).2.1 = false →
      (monitor_loop (Window.after pre) rs).2.2 = rs.length ∧
      ∀ j, j ≤ rs.length → recent_positive (pre ++ rs.take j) < 10) := by
  induction rs generalizing pre with
  | nil =>
    refine ⟨by simp [monitor_loop], by simp [monitor_loop], by simp [monitor_loop], ?_⟩
    intro _
    refine ⟨rfl, ?_⟩
    intro j _
    simpa using hpre
  | cons r rs ih =>
    have hstop := monitor_step_stops pre r
    cases hb : (monitor_step (Window.after pre) r).2 with
    | true =>
      have hl : monitor_loop (Window.after pre) (r :: rs) =
          ((monitor_step (Window.after pre) r).1, true, 1) := by
        rw [monitor_loop, if_pos hb]
      rw [hl]
      rw [hb] at hstop
      have hs2 : r.isSome = true ∧ 10 ≤ recent_positive (pre ++ [r]) := by
        simpa using hstop.symm
      refine ⟨by simp [Window.after_append], by simp, ?_, by simp⟩
      intro _
      refine ⟨le_refl _, ?_, by simpa using hs2.2, ?_⟩
      · cases r with
        | none => simp at hs2
        | some b => exact ⟨b, by simp⟩
      · intro j hj
        have : j = 0 := by
          have : j < 1 := hj
          omega
        rw [this]
        simpa using hpre
    | false =>
      have hl : monitor_loop (Window.after pre) (r :: rs) =
          ((monitor_loop (Window.after (pre ++ [r])) rs).1,
           (monitor_loop (Window.after (pre ++ [r])) rs).2.1,
           (monitor_loop (Window.after (pre ++ [r])) rs).2.2 + 1) := by
        rw [monitor_loop, if_neg (by rw [hb]; simp), Window.after_append]
      rw [hb] at hstop
      have hpre2 : recent_positive (pre ++ [r]) < 10 := by
        cases r with
        | none =>
          rw [recent_positive, recent_append_none]
          exact hpre
        | some b =>
          have : decide (10 ≤ recent_positive (pre ++ [some b])) = false := by
            simpa using hstop.symm
          simpa using this
      obtain ⟨i1, i2, i3, i4⟩ := ih (pre ++ [r]) hpre2
      rw [hl]
      have happ : ∀ j, pre ++ (r :: rs).take (j + 1) = pre ++ [r] ++ rs.take j := by
        intro j
        simp
      refine ⟨?_, ?_, ?_, ?_⟩
      · show _ = Window.after (pre ++ (r :: rs).take (_ + 1))
        rw [happ]
        exact i1
      · show _ + 1 ≤ (r :: rs).length
        rw [List.length_cons]
        omega
      · intro hst
        obtain ⟨j1, j2, j3, j4⟩ := i3 hst
        refine ⟨by show 1 ≤ _ + 1; omega, ?_, ?_, ?_⟩
        · obtain ⟨b, hb2⟩ := j2
          refine ⟨b, ?_⟩
          show (r :: rs)[(monitor_loop (Window.after (pre ++ [r])) rs).2.2 + 1 - 1]? = _
          rw [← hb2]
          have : (monitor_loop (Window.after (pre ++ [r])) rs).2.2 + 1 - 1 =
              ((monitor_loop (Window.after (pre ++ [r])) rs).2.2 - 1) + 1 := by omega
          rw [this, List.getElem?_cons_succ]
        · show 10 ≤ recent_positive (pre ++ (r :: rs).take (_ + 1))
          rw [happ]
          exact j3
        · intro j hj
          cases j with
          | zero => simpa using hpre
          | succ j =>
            rw [happ]
            exact j4 j (by
              have : j + 1 < (monitor_loop (Window.after (pre ++ [r])) rs).2.2 + 1 := hj
              omega)
      · intro hst
        obtain ⟨j1, j2⟩ := i4 hst
        refine ⟨by show _ + 1 = (r :: rs).length; rw [List.length_cons, j1], ?_⟩
        intro j hj
        cases j with
        | zero => simpa using hpre
        | succ j =>
          rw [happ]
          exact j2 j (by rw [List.length_cons] at hj; omega)

/-- Claim C26. The window of `monitor_accelerometer`, taking as inputs of the
iterations the result of the reading and of the comparison `theta > 30`.  After
any passes through the loop body: `theta_window` has its 15 entries, each 0 or
1; `0 ≤ window_start < 15`; `positive_theta_count` is the sum of the entries;
the slot written `j` successful readings ago holds the indicator of
`theta > 30` of that reading and a slot never written holds 0, so the entries
are the indicators of the last `min(k, 15)` successful readings; and the count
is the number of those with `theta > 30`.  A pass with a failed reading leaves
the locals as they were and does not stop.  The loop stops by `break` at the
first iteration after which at least 10 of the last 15 successful readings had
`theta > 30`, that iteration having a successful reading; and it does not stop
as long as no such iteration has come. -/
theorem C26_sliding_window (readings : List (Option Bool)) :
    ((Window.after readings).tracks (recent readings) ∧
      (Window.after readings).theta_window.length = 15 ∧
      (∀ i, i < 15 → (Window.after readings).theta_window.getD i 0 = 0 ∨
        (Window.after readings).theta_window.getD i 0 = 1) ∧
      (Window.after readings).window_start < 15 ∧
      (Window.after readings).positive_theta_count =
        (Window.after readings).theta_window.sum ∧
      (Window.after readings).positive_theta_count = (recent_positive readings : Nat)) ∧
    ((∀ s, monitor_step s none = (s, false)) ∧
      Window.after (readings ++ [none]) = Window.after readings) ∧
    ((monitor_accelerometer readings).1 =
        Window.after (readings.take (monitor_accelerometer readings).2.2) ∧
      (monitor_accelerometer readings).2.2 ≤ readings.length) ∧
    ((monitor_accelerometer readings).2.1 = true →
      1 ≤ (monitor_accelerometer readings).2.2 ∧
      (∃ b, readings[(monitor_accelerometer readings).2.2 - 1]? = some (some b)) ∧
      10 ≤ recent_positive (readings.take (monitor_accelerometer readings).2.2) ∧
      ∀ j, j < (monitor_accelerometer readings).2.2 →
        recent_positive (readings.take j) < 10) ∧
    ((monitor_accelerometer readings).2.1 = false →
      (monitor_accelerometer readings).2.2 = readings.length ∧
      ∀ j, j ≤ readings.length → recent_positive (readings.take j) < 10) := by
  have ht := Window.after_tracks readings
  have hws15 : (Window.after readings).window_start < 15 := by
    rw [ht.2.1]; exact Nat.mod_lt _ (by decide)
  have hl := monitor_loop_spec readings [] (by decide)
  simp only [List.nil_append] at hl
  have hinit : Window.after [] = Window.init := rfl
  rw [hinit] at hl
  refine ⟨⟨ht, ht.1, Window.entries_of_tracks _ _ ht, hws15, Window.after_sum readings,
    ht.2.2.2⟩, ⟨fun _ => rfl, Window.after_append readings none⟩, ⟨hl.1, hl.2.1⟩,
    hl.2.2.1, hl.2.2.2⟩

/-- Witness for C26: four readings without tilt, one failed reading, then ten
tilted readings: the loop stops at the fifteenth iteration. -/
theorem C26_witness :
    monitor_accelerometer
      ([some false, some false, some false, some false, none] ++ List.replicate 12 (some true)) =
      (Window.after
        ([some false, some false, some false, some false, none] ++
          List.replicate 10 (some true)), true, 15) ∧
    10 ≤ recent_positive
      (([some false, some false, some false, some false, none] ++
        List.replicate 12 (some true)).take 15) :=
  ⟨by decide,
   by
    have h := (C26_sliding_window
      ([some false, some false, some false, some false, none] ++
        List.replicate 12 (some true))).2.2.2.1 (by decide)
    exact h.2.2.1⟩

end I2C
